import Mathlib

/-! Message compression engine (`src/core/lib/compression/message_compress.cc`)

A shallow embedding of the streaming compression / decompression engine.

* A slice is the list of its bytes; a slice buffer is the list of its first `count` slices
  together with the cached byte length the C code maintains next to them.
* The zlib and Zstandard libraries are parameters: a record of functions over an arbitrary
  state type, so every theorem quantifies over every behaviour of the codec.  A step call
  receives the bytes still unread (`next_in` .. `next_in + avail_in`) and the free room of the
  current output block; what it answers is cut to those two bounds, since a codec can neither
  read past `avail_in` nor write past `avail_out`.
* Every library call is appended to a log (ghost state), so that statements about which calls
  were made, with which directive and which status, can be written down.
* The drain loops (`do ... while`) have no bound in the source; they take a fuel argument and
  the run ends as `Exit.unfinished` when it is used up.  `GPR_ASSERT` failures end the run as
  `Exit.aborted`.
* Lengths are natural numbers: a buffer that fits in memory cannot overflow `size_t`.
* Statements that relate compression to decompression need the codec to be lossless; that is
  the contract `ZlibConforming` / `ZstdConforming`, a property of the library record alone,
  asked only of the calls the engine makes.
-/

namespace MessageCompress

/-! ## Slices and slice buffers -/

/-- One byte of a message. -/
abbrev Byte := Nat

/-- The bytes of a `grpc_slice` (reference counting is not modelled). -/
abbrev grpc_slice := List Byte

/-- The `grpc_slice_buffer`: `slices` holds the entries `0 .. count - 1` of the slice array,
`length` is the cached total byte length. -/
structure grpc_slice_buffer where
  slices : List grpc_slice
  length : Nat
deriving DecidableEq, Repr

/-- The field `count` of a slice buffer. -/
def grpc_slice_buffer.count (sb : grpc_slice_buffer) : Nat := sb.slices.length

/-- The logical byte string a slice buffer stands for: its slices concatenated in order. -/
def grpc_slice_buffer.bytes (sb : grpc_slice_buffer) : List Byte := sb.slices.flatten

/-- The sum of the lengths of the slices of a buffer. -/
def grpc_slice_buffer.byteLength (sb : grpc_slice_buffer) : Nat :=
  (sb.slices.map List.length).sum

/-- The cached length agrees with the slices. -/
def grpc_slice_buffer.wf (sb : grpc_slice_buffer) : Prop := sb.length = sb.byteLength

/-- The macro `OUTPUT_BLOCK_SIZE`. -/
def OUTPUT_BLOCK_SIZE : Nat := 1024

/-- The local `uint_max = ~static_cast<uInt>(0)`, with a 32-bit `uInt`. -/
def uint_max : Nat := 2 ^ 32 - 1

/-- Modelled from the spec: `grpc_slice_buffer_add_indexed` lives in the slice library, which is
not part of the sources at hand.  It appends the slice as a new last chunk and adds its length
to the cached byte length. -/
def grpc_slice_buffer_add_indexed (sb : grpc_slice_buffer) (s : grpc_slice) :
    grpc_slice_buffer :=
  { slices := sb.slices ++ [s], length := sb.length + s.length }

/-- Modelled from the spec: `grpc_slice_buffer_add` lives in the slice library, which is not part
of the sources at hand.  The identity copy "appends a reference-sharing duplicate of every chunk,
in order, with no byte transformation". -/
def grpc_slice_buffer_add (sb : grpc_slice_buffer) (s : grpc_slice) : grpc_slice_buffer :=
  { slices := sb.slices ++ [s], length := sb.length + s.length }

/-- The rollback `output->count = count_before; output->length = length_before`. -/
def rollback (sb : grpc_slice_buffer) (count_before length_before : Nat) : grpc_slice_buffer :=
  { slices := sb.slices.take count_before, length := length_before }

/-! ## Constants of the codec libraries -/

def Z_OK : Int := 0
def Z_STREAM_END : Int := 1
def Z_STREAM_ERROR : Int := -2
def Z_DATA_ERROR : Int := -3
def Z_MEM_ERROR : Int := -4
def Z_BUF_ERROR : Int := -5
def Z_NO_FLUSH : Int := 0
def Z_FINISH : Int := 4
def Z_DEFAULT_COMPRESSION : Int := -1
def Z_DEFLATED : Int := 8
def Z_DEFAULT_STRATEGY : Int := 0
def ZSTD_e_continue : Nat := 0
def ZSTD_e_flush : Nat := 1
def ZSTD_e_end : Nat := 2

/-- Modelled from the spec: the enumeration `grpc_message_compression_algorithm` is declared in a
header that is not part of the sources at hand.  The identifiers are "None, Deflate, Gzip,
Zstandard, plus a sentinel out-of-range value", numbered in that order; a C enumeration object
can hold any integer, so an identifier is an `Int`. -/
def GRPC_MESSAGE_COMPRESS_NONE : Int := 0
def GRPC_MESSAGE_COMPRESS_DEFLATE : Int := 1
def GRPC_MESSAGE_COMPRESS_GZIP : Int := 2
def GRPC_MESSAGE_COMPRESS_ZSTD : Int := 3
def GRPC_MESSAGE_COMPRESS_ALGORITHMS_COUNT : Int := 4

/-! ## The codec libraries as parameters -/

/-- What one call of `deflate` / `inflate` does to the `z_stream`: the status it returns, the new
internal state, how many bytes it read at `next_in` and which bytes it wrote at `next_out`. -/
structure FlateReply (σ : Type) where
  r : Int
  state : σ
  consumed : Nat
  produced : List Byte

/-- The type of `deflate` and `inflate`: internal state, flush directive, the unread input
bytes, the free room of the output block. -/
abbrev FlateFn (σ : Type) := σ → Int → List Byte → Nat → FlateReply σ

/-- The zlib entry points the engine calls. -/
structure Zlib (σ : Type) where
  deflateInit2 : (level method windowBits memLevel strategy : Int) → Int × σ
  deflate : FlateFn σ
  deflateEnd : σ → Int
  inflateInit2 : (windowBits : Int) → Int × σ
  inflate : FlateFn σ
  inflateEnd : σ → Int

/-- What one call of `ZSTD_compressStream2` / `ZSTD_decompressStream` does: the `size_t` it
returns, the new stream state, the advance of `inBuffer.pos` and the bytes written at
`outBuffer.dst + outBuffer.pos`. -/
structure StreamReply (τ : Type) where
  err : Nat
  state : τ
  consumed : Nat
  produced : List Byte

/-- The Zstandard entry points the engine calls. -/
structure Zstd (τ : Type) where
  ZSTD_isError : Nat → Nat
  ZSTD_createCStream : τ
  ZSTD_initCStream : τ → Int → Nat × τ
  ZSTD_compressStream2 : τ → Nat → List Byte → Nat → StreamReply τ
  ZSTD_freeCStream : τ → Nat × τ
  ZSTD_createDStream : τ
  ZSTD_initDStream : τ → Nat × τ
  ZSTD_decompressStream : τ → List Byte → Nat → StreamReply τ
  ZSTD_freeDStream : τ → Nat × τ

/-- Which of the two zlib step functions a `zlib_body` run was given. -/
inductive Flate where
  | deflate
  | inflate
deriving DecidableEq, Repr

/-- One library call as it is logged: its arguments and what it answered (`consumed` and
`produced` already cut to `avail_in` and `avail_out`). -/
inductive Call where
  | deflateInit2 (windowBits : Int) (r : Int)
  | inflateInit2 (windowBits : Int) (r : Int)
  | flate (fn : Flate) (flush : Int) (next_in : List Byte) (avail_out : Nat) (r : Int)
      (consumed : Nat) (produced : List Byte)
  | deflateEnd
  | inflateEnd
  | ZSTD_createCStream
  | ZSTD_initCStream (level : Int) (err : Nat)
  | ZSTD_compressStream2 (directive : Nat) (src : List Byte) (room : Nat) (err : Nat)
      (consumed : Nat) (produced : List Byte)
  | ZSTD_freeCStream (err : Nat)
  | ZSTD_createDStream
  | ZSTD_initDStream (err : Nat)
  | ZSTD_decompressStream (src : List Byte) (room : Nat) (err : Nat)
      (consumed : Nat) (produced : List Byte)
  | ZSTD_freeDStream (err : Nat)
deriving DecidableEq, Repr

/-- How a run ends. -/
inductive Exit where
  /-- The function returned this `int`. -/
  | returned (r : Int)
  /-- A `GPR_ASSERT` failed. -/
  | aborted
  /-- A drain loop was still running when the fuel was used up. -/
  | unfinished
deriving DecidableEq, Repr

/-- The observable result of a run: how it ended, the output message, the library calls made. -/
structure Run where
  exit : Exit
  output : grpc_slice_buffer
  log : List Call
deriving DecidableEq, Repr

/-! ## `zlib_body` -/

/-- The variables of `zlib_body`: the stream state, the unread part of the current input slice
(`avail_in` is its length), the bytes written so far into the current output block `outbuf`
(`avail_out` is what is left of `OUTPUT_BLOCK_SIZE`), the output buffer and the call log. -/
structure ZBody (σ : Type) where
  zs : σ
  next_in : List Byte
  outbuf : List Byte
  output : grpc_slice_buffer
  log : List Call

/-- The field `zs->avail_out`. -/
def ZBody.avail_out {σ : Type} (s : ZBody σ) : Nat := OUTPUT_BLOCK_SIZE - s.outbuf.length

/-- How a loop ends: it falls through to the statement after it, jumps to an error label, stops
at a failed `GPR_ASSERT`, or is cut by the fuel. -/
inductive Flow where
  | done
  | error
  | aborted
  | unfinished
deriving DecidableEq, Repr

/-- The statement `r = flate(zs, flush)` together with the log entry. -/
def zlib_call {σ : Type} (flate : FlateFn σ) (fn : Flate) (flush : Int) (s : ZBody σ) :
    Int × ZBody σ :=
  let rep := flate s.zs flush s.next_in s.avail_out
  let consumed := min rep.consumed s.next_in.length
  let produced := rep.produced.take s.avail_out
  (rep.r,
    { s with
      zs := rep.state
      next_in := s.next_in.drop consumed
      outbuf := s.outbuf ++ produced
      log := s.log ++ [Call.flate fn flush s.next_in s.avail_out rep.r consumed produced] })

/-- The block `if (zs->avail_out == 0) { grpc_slice_buffer_add_indexed(output, outbuf); ... }`. -/
def zlib_grow {σ : Type} (s : ZBody σ) : ZBody σ :=
  if s.avail_out = 0 then
    { s with output := grpc_slice_buffer_add_indexed s.output s.outbuf, outbuf := [] }
  else s

/-- The loop `do { ... } while (zs->avail_out == 0)` of `zlib_body`. -/
def zlib_drain {σ : Type} (flate : FlateFn σ) (fn : Flate) (flush : Int) :
    Nat → ZBody σ → Flow × ZBody σ
  | 0, s => (Flow.unfinished, s)
  | fuel + 1, s =>
    let (r, s1) := zlib_call flate fn flush (zlib_grow s)
    if r < 0 ∧ r ≠ Z_BUF_ERROR then (Flow.error, s1)
    else if s1.avail_out = 0 then zlib_drain flate fn flush fuel s1
    else (Flow.done, s1)

/-- The loop `for (i = 0; i < input->count; i++)` of `zlib_body`, over the slices from index `i`
on; `flush` is the local variable, set to `Z_FINISH` at the last index. -/
def zlib_loop {σ : Type} (flate : FlateFn σ) (fn : Flate) (fuel : Nat) :
    List grpc_slice → Int → ZBody σ → Flow × ZBody σ
  | [], _, s => (Flow.done, s)
  | slice :: rest, flush, s =>
    let flush := if rest = [] then Z_FINISH else flush
    if uint_max < slice.length then (Flow.aborted, s)
    else
      match zlib_drain flate fn flush fuel { s with next_in := slice } with
      | (Flow.done, s1) =>
        if s1.next_in.length ≠ 0 then (Flow.error, s1)
        else zlib_loop flate fn fuel rest flush s1
      | other => other

/-- The function `zlib_body`: on the normal exit the last block, cut to the bytes written into
it, is appended and 1 is returned; at the label `error` it is only released and 0 is
returned. -/
def zlib_body {σ : Type} (flate : FlateFn σ) (fn : Flate) (fuel : Nat) (zs : σ)
    (input output : grpc_slice_buffer) (log : List Call) : Exit × ZBody σ :=
  match zlib_loop flate fn fuel input.slices Z_NO_FLUSH
      { zs := zs, next_in := [], outbuf := [], output := output, log := log } with
  | (Flow.done, s) =>
    (Exit.returned 1, { s with output := grpc_slice_buffer_add_indexed s.output s.outbuf })
  | (Flow.error, s) => (Exit.returned 0, s)
  | (Flow.aborted, s) => (Exit.aborted, s)
  | (Flow.unfinished, s) => (Exit.unfinished, s)

/-- The window-bits argument `15 | (gzip ? 16 : 0)`. -/
def windowBits (gzip : Int) : Int := if gzip ≠ 0 then 31 else 15

/-- The function `zlib_compress`. -/
def zlib_compress {σ : Type} (zlib : Zlib σ) (fuel : Nat) (input output : grpc_slice_buffer)
    (gzip : Int) : Run :=
  let count_before := output.count
  let length_before := output.length
  let (r, zs) := zlib.deflateInit2 Z_DEFAULT_COMPRESSION Z_DEFLATED (windowBits gzip) 8
    Z_DEFAULT_STRATEGY
  let log := [Call.deflateInit2 (windowBits gzip) r]
  if r ≠ Z_OK then { exit := Exit.aborted, output := output, log := log }
  else
    match zlib_body zlib.deflate Flate.deflate fuel zs input output log with
    | (Exit.returned b, s) =>
      if b ≠ 0 ∧ s.output.length < input.length then
        { exit := Exit.returned 1, output := s.output, log := s.log ++ [Call.deflateEnd] }
      else
        { exit := Exit.returned 0, output := rollback s.output count_before length_before,
          log := s.log ++ [Call.deflateEnd] }
    | (e, s) => { exit := e, output := s.output, log := s.log }

/-- The function `zlib_decompress`. -/
def zlib_decompress {σ : Type} (zlib : Zlib σ) (fuel : Nat) (input output : grpc_slice_buffer)
    (gzip : Int) : Run :=
  let count_before := output.count
  let length_before := output.length
  let (r, zs) := zlib.inflateInit2 (windowBits gzip)
  let log := [Call.inflateInit2 (windowBits gzip) r]
  if r ≠ Z_OK then { exit := Exit.aborted, output := output, log := log }
  else
    match zlib_body zlib.inflate Flate.inflate fuel zs input output log with
    | (Exit.returned b, s) =>
      if b ≠ 0 then
        { exit := Exit.returned b, output := s.output, log := s.log ++ [Call.inflateEnd] }
      else
        { exit := Exit.returned 0, output := rollback s.output count_before length_before,
          log := s.log ++ [Call.inflateEnd] }
    | (e, s) => { exit := e, output := s.output, log := s.log }

/-! ## The Zstandard drivers -/

/-- The variables shared by `zstd_compress` and `zstd_decompress`: the stream, the unread part
of `inBuffer` (`src + pos` .. `src + size`), the bytes written into the current block
(`outBuffer.pos` is their number, `outBuffer.size` is `OUTPUT_BLOCK_SIZE`), the output buffer
and the call log. -/
structure ZstdVars (τ : Type) where
  pStream : τ
  src : List Byte
  outbuf : List Byte
  output : grpc_slice_buffer
  log : List Call

/-- The free room `outBuffer.size - outBuffer.pos` a step call may write to. -/
def ZstdVars.room {τ : Type} (s : ZstdVars τ) : Nat := OUTPUT_BLOCK_SIZE - s.outbuf.length

/-- The block `if (outBuffer.pos == outBuffer.size) { grpc_slice_buffer_add_indexed(...); ... }`. -/
def zstd_grow {τ : Type} (s : ZstdVars τ) : ZstdVars τ :=
  if s.outbuf.length = OUTPUT_BLOCK_SIZE then
    { s with output := grpc_slice_buffer_add_indexed s.output s.outbuf, outbuf := [] }
  else s

/-- The statement `err = ZSTD_compressStream2(pStream, &outBuffer, &inBuffer, directive)`. -/
def zstd_compress_call {τ : Type} (zstd : Zstd τ) (directive : Nat) (s : ZstdVars τ) :
    Nat × ZstdVars τ :=
  let rep := zstd.ZSTD_compressStream2 s.pStream directive s.src s.room
  let consumed := min rep.consumed s.src.length
  let produced := rep.produced.take s.room
  (rep.err,
    { s with
      pStream := rep.state
      src := s.src.drop consumed
      outbuf := s.outbuf ++ produced
      log := s.log ++ [Call.ZSTD_compressStream2 directive s.src s.room rep.err consumed
        produced] })

/-- The statement `err = ZSTD_decompressStream(pStream, &outBuffer, &inBuffer)`. -/
def zstd_decompress_call {τ : Type} (zstd : Zstd τ) (s : ZstdVars τ) : Nat × ZstdVars τ :=
  let rep := zstd.ZSTD_decompressStream s.pStream s.src s.room
  let consumed := min rep.consumed s.src.length
  let produced := rep.produced.take s.room
  (rep.err,
    { s with
      pStream := rep.state
      src := s.src.drop consumed
      outbuf := s.outbuf ++ produced
      log := s.log ++ [Call.ZSTD_decompressStream s.src s.room rep.err consumed produced] })

/-- The flush loop `do { ... } while (true)` of `zstd_compress`. -/
def zstd_flush {τ : Type} (zstd : Zstd τ) : Nat → ZstdVars τ → Flow × ZstdVars τ
  | 0, s => (Flow.unfinished, s)
  | fuel + 1, s =>
    let (err, s1) := zstd_compress_call zstd ZSTD_e_flush (zstd_grow s)
    if zstd.ZSTD_isError err > 0 then (Flow.error, s1)
    else if s1.outbuf.length < OUTPUT_BLOCK_SIZE then (Flow.done, s1)
    else zstd_flush zstd fuel s1

/-- The loop `for (size_t i = 0; i < input->count; i++)` of `zstd_compress`, over the slices
from index `i` on; `Flow.error` is the jump to `error1`. -/
def zstd_compress_loop {τ : Type} (zstd : Zstd τ) (fuel : Nat) :
    List grpc_slice → ZstdVars τ → Flow × ZstdVars τ
  | [], s => (Flow.done, s)
  | slice :: rest, s =>
    if uint_max < slice.length then (Flow.aborted, s)
    else
      let (err, s1) := zstd_compress_call zstd ZSTD_e_continue { s with src := slice }
      if zstd.ZSTD_isError err > 0 then (Flow.error, s1)
      else
        match zstd_flush zstd fuel s1 with
        | (Flow.done, s2) =>
          if s2.src.length ≠ 0 then (Flow.error, s2)
          else zstd_compress_loop zstd fuel rest s2
        | other => other

/-- The decompress loop `do { ... } while (true)` of `zstd_decompress`. -/
def zstd_drain {τ : Type} (zstd : Zstd τ) : Nat → ZstdVars τ → Flow × ZstdVars τ
  | 0, s => (Flow.unfinished, s)
  | fuel + 1, s =>
    let (err, s1) := zstd_decompress_call zstd (zstd_grow s)
    if zstd.ZSTD_isError err > 0 then (Flow.error, s1)
    else if s1.outbuf.length < OUTPUT_BLOCK_SIZE then (Flow.done, s1)
    else zstd_drain zstd fuel s1

/-- The loop `for (size_t i = 0; i < input->count; i++)` of `zstd_decompress`. -/
def zstd_decompress_loop {τ : Type} (zstd : Zstd τ) (fuel : Nat) :
    List grpc_slice → ZstdVars τ → Flow × ZstdVars τ
  | [], s => (Flow.done, s)
  | slice :: rest, s =>
    if uint_max < slice.length then (Flow.aborted, s)
    else
      match zstd_drain zstd fuel { s with src := slice } with
      | (Flow.done, s1) =>
        if s1.src.length ≠ 0 then (Flow.error, s1)
        else zstd_decompress_loop zstd fuel rest s1
      | other => other

/-- The label `error2` of `zstd_compress` (`error1` only releases `outbuf` before it): the
stream is freed, the output is rolled back, 0 is returned. -/
def zstd_compress_error2 {τ : Type} (zstd : Zstd τ) (s : ZstdVars τ)
    (count_before length_before : Nat) : Run :=
  let (err, _) := zstd.ZSTD_freeCStream s.pStream
  { exit := Exit.returned 0, output := rollback s.output count_before length_before,
    log := s.log ++ [Call.ZSTD_freeCStream err] }

/-- The function `zstd::zstd_compress`. -/
def zstd_compress {τ : Type} (zstd : Zstd τ) (fuel : Nat) (input output : grpc_slice_buffer) :
    Run :=
  let count_before := output.count
  let length_before := output.length
  let (err, pStream) := zstd.ZSTD_initCStream zstd.ZSTD_createCStream 5
  let s0 : ZstdVars τ :=
    { pStream := pStream, src := [], outbuf := [], output := output,
      log := [Call.ZSTD_createCStream, Call.ZSTD_initCStream 5 err] }
  if zstd.ZSTD_isError err > 0 then zstd_compress_error2 zstd s0 count_before length_before
  else
    match zstd_compress_loop zstd fuel input.slices s0 with
    | (Flow.done, s) =>
      let (err, pStream) := zstd.ZSTD_freeCStream s.pStream
      let s1 := { s with pStream := pStream, log := s.log ++ [Call.ZSTD_freeCStream err] }
      if zstd.ZSTD_isError err > 0 then
        zstd_compress_error2 zstd s1 count_before length_before
      else
        let s2 := { s1 with output := grpc_slice_buffer_add_indexed s1.output s1.outbuf }
        if s2.output.length > input.length then
          zstd_compress_error2 zstd s2 count_before length_before
        else { exit := Exit.returned 1, output := s2.output, log := s2.log }
    | (Flow.error, s) => zstd_compress_error2 zstd s count_before length_before
    | (Flow.aborted, s) => { exit := Exit.aborted, output := s.output, log := s.log }
    | (Flow.unfinished, s) => { exit := Exit.unfinished, output := s.output, log := s.log }

/-- The label `error2` of `zstd_decompress`. -/
def zstd_decompress_error2 {τ : Type} (zstd : Zstd τ) (s : ZstdVars τ)
    (count_before length_before : Nat) : Run :=
  let (err, _) := zstd.ZSTD_freeDStream s.pStream
  { exit := Exit.returned 0, output := rollback s.output count_before length_before,
    log := s.log ++ [Call.ZSTD_freeDStream err] }

/-- The function `zstd::zstd_decompress`. -/
def zstd_decompress {τ : Type} (zstd : Zstd τ) (fuel : Nat) (input output : grpc_slice_buffer) :
    Run :=
  let count_before := output.count
  let length_before := output.length
  let (err, pStream) := zstd.ZSTD_initDStream zstd.ZSTD_createDStream
  let s0 : ZstdVars τ :=
    { pStream := pStream, src := [], outbuf := [], output := output,
      log := [Call.ZSTD_createDStream, Call.ZSTD_initDStream err] }
  if zstd.ZSTD_isError err > 0 then zstd_decompress_error2 zstd s0 count_before length_before
  else
    match zstd_decompress_loop zstd fuel input.slices s0 with
    | (Flow.done, s) =>
      let s1 := { s with output := grpc_slice_buffer_add_indexed s.output s.outbuf }
      let (err, pStream) := zstd.ZSTD_freeDStream s1.pStream
      let s2 := { s1 with pStream := pStream, log := s1.log ++ [Call.ZSTD_freeDStream err] }
      if zstd.ZSTD_isError err > 0 then
        zstd_decompress_error2 zstd s2 count_before length_before
      else { exit := Exit.returned 1, output := s2.output, log := s2.log }
    | (Flow.error, s) => zstd_decompress_error2 zstd s count_before length_before
    | (Flow.aborted, s) => { exit := Exit.aborted, output := s.output, log := s.log }
    | (Flow.unfinished, s) => { exit := Exit.unfinished, output := s.output, log := s.log }

/-! ## Identity copy and dispatch -/

/-- The function `copy`: every slice of the input is added to the output, in index order. -/
def copy (input output : grpc_slice_buffer) : Int × grpc_slice_buffer :=
  (1, input.slices.foldl grpc_slice_buffer_add output)

/-- The function `compress_inner`; a `switch` without `default` falls to the statements after
it for every value that is no case label. -/
def compress_inner {σ τ : Type} (zlib : Zlib σ) (zstd : Zstd τ) (fuel : Nat) (algorithm : Int)
    (input output : grpc_slice_buffer) : Run :=
  if algorithm = GRPC_MESSAGE_COMPRESS_NONE then
    { exit := Exit.returned 0, output := output, log := [] }
  else if algorithm = GRPC_MESSAGE_COMPRESS_DEFLATE then zlib_compress zlib fuel input output 0
  else if algorithm = GRPC_MESSAGE_COMPRESS_GZIP then zlib_compress zlib fuel input output 1
  else if algorithm = GRPC_MESSAGE_COMPRESS_ZSTD then zstd_compress zstd fuel input output
  else { exit := Exit.returned 0, output := output, log := [] }

/-- The function `grpc_msg_compress`. -/
def grpc_msg_compress {σ τ : Type} (zlib : Zlib σ) (zstd : Zstd τ) (fuel : Nat)
    (algorithm : Int) (input output : grpc_slice_buffer) : Run :=
  let run := compress_inner zlib zstd fuel algorithm input output
  match run.exit with
  | Exit.returned r =>
    if r = 0 then { run with exit := Exit.returned 0, output := (copy input run.output).2 }
    else { run with exit := Exit.returned 1 }
  | _ => run

/-- The function `grpc_msg_decompress`. -/
def grpc_msg_decompress {σ τ : Type} (zlib : Zlib σ) (zstd : Zstd τ) (fuel : Nat)
    (algorithm : Int) (input output : grpc_slice_buffer) : Run :=
  if algorithm = GRPC_MESSAGE_COMPRESS_NONE then
    let (r, out) := copy input output
    { exit := Exit.returned r, output := out, log := [] }
  else if algorithm = GRPC_MESSAGE_COMPRESS_DEFLATE then zlib_decompress zlib fuel input output 0
  else if algorithm = GRPC_MESSAGE_COMPRESS_GZIP then zlib_decompress zlib fuel input output 1
  else if algorithm = GRPC_MESSAGE_COMPRESS_ZSTD then zstd_decompress zstd fuel input output
  else { exit := Exit.returned 0, output := output, log := [] }

/-! ## Reading the call log -/

/-- The call is a step call (`deflate`, `inflate`, `ZSTD_compressStream2`,
`ZSTD_decompressStream`). -/
def Call.isStep : Call → Bool
  | Call.flate _ _ _ _ _ _ _ => true
  | Call.ZSTD_compressStream2 _ _ _ _ _ _ => true
  | Call.ZSTD_decompressStream _ _ _ _ _ => true
  | _ => false

/-- The call is a step call whose status the loops treat as non-recoverable: for zlib a negative
status other than `Z_BUF_ERROR`, for Zstandard a value for which `ZSTD_isError` holds. -/
def Call.fatal (isError : Nat → Nat) : Call → Bool
  | Call.flate _ _ _ _ r _ _ => decide (r < 0 ∧ r ≠ Z_BUF_ERROR)
  | Call.ZSTD_compressStream2 _ _ _ err _ _ => decide (isError err > 0)
  | Call.ZSTD_decompressStream _ _ err _ _ => decide (isError err > 0)
  | _ => false

/-- The input bytes a step call took. -/
def Call.read : Call → List Byte
  | Call.flate _ _ next_in _ _ consumed _ => next_in.take consumed
  | Call.ZSTD_compressStream2 _ src _ _ consumed _ => src.take consumed
  | Call.ZSTD_decompressStream src _ _ consumed _ => src.take consumed
  | _ => []

/-- The output bytes a step call wrote. -/
def Call.wrote : Call → List Byte
  | Call.flate _ _ _ _ _ _ produced => produced
  | Call.ZSTD_compressStream2 _ _ _ _ _ produced => produced
  | Call.ZSTD_decompressStream _ _ _ _ produced => produced
  | _ => []

/-- The step call reported the end of the compressed stream: `inflate` returned `Z_STREAM_END`,
`ZSTD_decompressStream` returned 0 (frame completely decoded). -/
def Call.streamEnd : Call → Bool
  | Call.flate Flate.inflate _ _ _ r _ _ => decide (r = Z_STREAM_END)
  | Call.ZSTD_decompressStream _ _ err _ _ => decide (err = 0)
  | _ => false

/-- All input bytes taken by the calls of a log, in call order. -/
def readOf (log : List Call) : List Byte := (log.map Call.read).flatten

/-- All output bytes written by the calls of a log, in call order. -/
def wroteOf (log : List Call) : List Byte := (log.map Call.wrote).flatten

/-- The last step call of a log. -/
def lastStep (log : List Call) : Option Call := (log.filter Call.isStep).getLast?

/-- No step call of the log reported a non-recoverable status. -/
def NoFatal (isError : Nat → Nat) (log : List Call) : Prop :=
  ∀ c ∈ log, c.fatal isError = false

/-- The input bytes a step call was offered. -/
def Call.offered : Call → List Byte
  | Call.flate _ _ next_in _ _ _ _ => next_in
  | Call.ZSTD_compressStream2 _ src _ _ _ _ => src
  | Call.ZSTD_decompressStream src _ _ _ _ => src
  | _ => []

/-- The output room a step call was given. -/
def Call.room : Call → Nat
  | Call.flate _ _ _ avail_out _ _ _ => avail_out
  | Call.ZSTD_compressStream2 _ _ room _ _ _ => room
  | Call.ZSTD_decompressStream _ room _ _ _ => room
  | _ => 0

/-- The step call stopped although the output block still had room. -/
def Call.leftRoom (c : Call) : Prop := c.wrote.length < c.room

/-- The step call took all the input bytes it was offered. -/
def Call.tookAll (c : Call) : Prop := c.read = c.offered

/-- The compression step call carries the directive with which the engine ends its work on a
message: `Z_FINISH` for `deflate`, `ZSTD_e_flush` for `ZSTD_compressStream2`. -/
def Call.closing : Call → Prop
  | Call.flate Flate.deflate flush _ _ _ _ _ => flush = Z_FINISH
  | Call.ZSTD_compressStream2 directive _ _ _ _ _ => directive = ZSTD_e_flush
  | _ => False

/-- The call releases a codec stream context (`deflateEnd`, `inflateEnd`, `ZSTD_freeCStream`,
`ZSTD_freeDStream`). -/
def Call.isRelease : Call → Bool
  | Call.deflateEnd => true
  | Call.inflateEnd => true
  | Call.ZSTD_freeCStream _ => true
  | Call.ZSTD_freeDStream _ => true
  | _ => false

/-- How many release calls a log holds. -/
def releases (log : List Call) : Nat := log.countP Call.isRelease

/-- The call is made inside a drain loop, the loop that ends when a call leaves room in the
output block: every `deflate` and `inflate` call of `zlib_body`, the `ZSTD_e_flush` calls of
`zstd_compress`, every `ZSTD_decompressStream` call. -/
def Call.drains : Call → Bool
  | Call.flate _ _ _ _ _ _ _ => true
  | Call.ZSTD_compressStream2 directive _ _ _ _ _ => decide (directive = ZSTD_e_flush)
  | Call.ZSTD_decompressStream _ _ _ _ _ => true
  | _ => false

/-- The call ended the drain loop of its chunk with bytes of the chunk unconsumed: it is a call
of a drain loop, it left room in the output block, and it did not take all the bytes it was
offered. -/
def Call.starved (c : Call) : Bool :=
  c.drains && decide (c.wrote.length < c.room) && decide (c.read ≠ c.offered)

/-- The library call reported an error on the stream: a step call with a non-recoverable status,
or a Zstandard init or free call whose result `ZSTD_isError` flags. -/
def Call.failed (isError : Nat → Nat) : Call → Bool
  | Call.ZSTD_initCStream _ err => decide (isError err > 0)
  | Call.ZSTD_initDStream err => decide (isError err > 0)
  | Call.ZSTD_freeCStream err => decide (isError err > 0)
  | Call.ZSTD_freeDStream err => decide (isError err > 0)
  | c => c.fatal isError

/-- No step call of the log reported a non-recoverable status and none left a chunk
unconsumed. -/
def Clean (isError : Nat → Nat) (log : List Call) : Prop :=
  ∀ c ∈ log, c.fatal isError = false ∧ c.starved = false

/-- Some step call of the log reported a non-recoverable status or left a chunk unconsumed. -/
def Dirty (isError : Nat → Nat) (log : List Call) : Prop :=
  ∃ c ∈ log, c.fatal isError = true ∨ c.starved = true

/-- A drain loop that ended with flow `f` and `left` unread bytes of its chunk sends the
enclosing loop to its error label: it jumped there itself, or it fell through with input
left. -/
def Stuck (f : Flow) (left : Nat) : Prop := f = Flow.error ∨ (f = Flow.done ∧ left ≠ 0)

/-- The status a `deflate` or `inflate` call returned. -/
def Call.flateStatus : Call → Option Int
  | Call.flate _ _ _ _ r _ _ => some r
  | _ => none

/-- The flush argument of a `deflate` or `inflate` call. -/
def Call.flushArg : Call → Option Int
  | Call.flate _ flush _ _ _ _ _ => some flush
  | _ => none

/-- The end directive of a `ZSTD_compressStream2` call. -/
def Call.directive : Call → Option Nat
  | Call.ZSTD_compressStream2 directive _ _ _ _ _ => some directive
  | _ => none

/-- The calls are successive step calls on one chunk: the first is offered the chunk, each
later one what the calls before it left of the chunk; `P true` holds of the first call when
`first` is set, `P false` of every other call. -/
def ChunkCalls (P : Bool → Call → Prop) : Bool → grpc_slice → List Call → Prop
  | _, _, [] => True
  | first, chunk, c :: rest =>
    P first c ∧ c.offered = chunk ∧ ChunkCalls P false (chunk.drop c.read.length) rest

/-- The calls are, chunk after chunk, the step calls made on the chunks `slices`: the calls on
a chunk satisfy `P last` where `last` tells whether the chunk is the final one, and calls on a
later chunk are made only after at least `least` calls on the chunk and once its bytes have all
been read. -/
def LoopCalls (least : Nat) (P : Bool → Bool → Call → Prop) :
    List grpc_slice → List Call → Prop
  | [], calls => calls = []
  | slice :: rest, calls =>
    ∃ a b, calls = a ++ b ∧ ChunkCalls (P (decide (rest = []))) true slice a ∧
      (b ≠ [] → least ≤ a.length ∧ readOf a = slice) ∧ LoopCalls least P rest b

/-- The calls are, chunk after chunk in index order, step calls on the chunks `slices`: the
first call on a chunk is offered the whole chunk, every other call what the calls before it left
of it, and a chunk gets calls only after every chunk before it got at least one call and was
read to its end.  When `complete` is set the same holds of the last chunk: every chunk of
`slices` got at least one call and was read to its end. -/
def Presented (complete : Bool) : List grpc_slice → List Call → Prop
  | [], calls => calls = []
  | slice :: rest, calls =>
    ∃ a b, calls = a ++ b ∧ ChunkCalls (fun _ c => c.isStep = true) true slice a ∧
      ((complete = true ∨ b ≠ []) → a ≠ [] ∧ readOf a = slice) ∧ Presented complete rest b

/-- The directive `zlib_body` gives a flate call: `Z_FINISH` on the final chunk, `Z_NO_FLUSH`
before. -/
def zlibDirective (last _first : Bool) (c : Call) : Prop :=
  c.flushArg = some (if last then Z_FINISH else Z_NO_FLUSH)

/-- The directive `zstd_compress` gives a `ZSTD_compressStream2` call: `ZSTD_e_continue` on the
first call of a chunk, `ZSTD_e_flush` on the others, on every chunk alike. -/
def zstdDirective (_last first : Bool) (c : Call) : Prop :=
  c.directive = some (if first then ZSTD_e_continue else ZSTD_e_flush)

/-! ## Conforming codecs

The zlib and Zstandard libraries are not part of the sources.  What the round trip needs from
them is stated here as a contract on the library record alone, over the sequences of step calls
a caller makes on one stream when it drives the library the way the engine does: with the
directives the engine uses (`Z_NO_FLUSH` and `Z_FINISH` for zlib, `ZSTD_e_continue` and
`ZSTD_e_flush` for Zstandard) and, when decoding, with output room on every call and a new call
only when there is input to offer or the call before it had filled its room (one closing call
apart).  Nothing is asked of a library used in another way: with `Z_BLOCK` or `ZSTD_e_end`, which
the engine never passes, or with decoding calls that have no room or that repeat without input,
which the engine does not make when it decodes a message it has encoded.  A library that stops
early on `Z_BLOCK`, ends a frame on `ZSTD_e_end` or reports an error after repeated calls without
progress can therefore meet the contract. -/

/-- One request of a caller to a step function: directive, bytes offered, output room. -/
structure Req (D : Type) where
  directive : D
  next_in : List Byte
  avail_out : Nat

/-- A sequence of step calls on one stream, each answering from the state the previous one
left: the calls as they are logged, and the last state. -/
def runSteps {σ D : Type} (step : σ → Req D → Call × σ) : σ → List (Req D) → List Call × σ
  | z, [] => ([], z)
  | z, req :: rest => ((step z req).1 :: (runSteps step (step z req).2 rest).1,
      (runSteps step (step z req).2 rest).2)

/-- One `deflate` or `inflate` call as a caller sees it. -/
def flate_step {σ : Type} (flate : FlateFn σ) (fn : Flate) (z : σ) (req : Req Int) : Call × σ :=
  (Call.flate fn req.directive req.next_in req.avail_out
      (flate z req.directive req.next_in req.avail_out).r
      (min (flate z req.directive req.next_in req.avail_out).consumed req.next_in.length)
      ((flate z req.directive req.next_in req.avail_out).produced.take req.avail_out),
    (flate z req.directive req.next_in req.avail_out).state)

/-- One `ZSTD_compressStream2` call as a caller sees it. -/
def zstd_compress_step {τ : Type} (zstd : Zstd τ) (z : τ) (req : Req Nat) : Call × τ :=
  (Call.ZSTD_compressStream2 req.directive req.next_in req.avail_out
      (zstd.ZSTD_compressStream2 z req.directive req.next_in req.avail_out).err
      (min (zstd.ZSTD_compressStream2 z req.directive req.next_in req.avail_out).consumed
        req.next_in.length)
      ((zstd.ZSTD_compressStream2 z req.directive req.next_in req.avail_out).produced.take
        req.avail_out),
    (zstd.ZSTD_compressStream2 z req.directive req.next_in req.avail_out).state)

/-- One `ZSTD_decompressStream` call as a caller sees it. -/
def zstd_decompress_step {τ : Type} (zstd : Zstd τ) (z : τ) (req : Req Unit) : Call × τ :=
  (Call.ZSTD_decompressStream req.next_in req.avail_out
      (zstd.ZSTD_decompressStream z req.next_in req.avail_out).err
      (min (zstd.ZSTD_decompressStream z req.next_in req.avail_out).consumed req.next_in.length)
      ((zstd.ZSTD_decompressStream z req.next_in req.avail_out).produced.take req.avail_out),
    (zstd.ZSTD_decompressStream z req.next_in req.avail_out).state)

/-- The calls of a log were fed from the byte string `stream`: each call was offered bytes that
continue, inside `stream`, what the calls before it had read (`read` is what was read before the
first call of the log). -/
def fedFrom (stream : List Byte) : List Byte → List Call → Prop
  | _, [] => True
  | read, c :: rest => (read ++ c.offered) <+: stream ∧ fedFrom stream (read ++ c.read) rest

/-- The step call carries one of the two flush values `zlib_body` passes to `deflate` and
`inflate`: `Z_NO_FLUSH` or `Z_FINISH`. -/
def Call.zlibDirected (c : Call) : Prop :=
  c.flushArg = some Z_NO_FLUSH ∨ c.flushArg = some Z_FINISH

/-- The step call carries one of the two end directives `zstd_compress` passes to
`ZSTD_compressStream2`: `ZSTD_e_continue` or `ZSTD_e_flush`. -/
def Call.zstdDirected (c : Call) : Prop :=
  c.directive = some ZSTD_e_continue ∨ c.directive = some ZSTD_e_flush

/-- The call `next` is made after the call `c` for one of the two reasons a decompression loop
has for a further call: there is input to offer, or `c` had filled its output room. -/
def Call.paces (c next : Call) : Prop := next.offered ≠ [] ∨ ¬c.leftRoom

/-- Every call of the sequence carries an engine directive and is given output room, and every
call after the first is made for one of the two reasons of `Call.paces`. -/
def Steady (directed : Call → Prop) (calls : List Call) : Prop :=
  (∀ c ∈ calls, directed c ∧ c.room ≠ 0) ∧ List.Chain' Call.paces calls

/-- The calls are made the way the decompression loops of the engine make them on the chunks of
a compressed message: every call carries an engine directive and is given output room, and every
call but the last is the first call or is made for one of the two reasons of `Call.paces`.  (The
last call is free: when the final chunk of a compressed message is empty, the loops still make
one call for it.) -/
def Paced (directed : Call → Prop) (calls : List Call) : Prop :=
  (∀ c ∈ calls, directed c ∧ c.room ≠ 0) ∧ List.Chain' Call.paces calls.dropLast

/-- Modelled from the spec: the compressing half of a conforming codec ("any conforming
implementation of these primitives is substitutable", the primitives being "step-with-flush/
finish").  Whenever a sequence of step calls that all carry an engine directive (`directed`), none
with a non-recoverable status, ends with a call that carries the closing directive, took all its
input and left output room, the bytes written so far are an encoding of the bytes read so
far. -/
def EncoderSound {σ D : Type} (step : σ → Req D → Call × σ) (z0 : σ) (isError : Nat → Nat)
    (directed : Call → Prop) (valid : List Byte → List Byte → Prop) : Prop :=
  ∀ (reqs : List (Req D)) (l : List Call) (c : Call),
    (runSteps step z0 reqs).1 = l ++ [c] → (∀ d ∈ l ++ [c], directed d) →
    NoFatal isError (l ++ [c]) →
    c.closing → c.tookAll → c.leftRoom → valid (readOf (l ++ [c])) (wroteOf (l ++ [c]))

/-- Modelled from the spec: the decompressing half of a conforming codec.  On every sequence of
step calls made the way the engine makes them (`Paced`) and fed from an encoding `stream` of a
message, no call reports a non-recoverable status, what has been written is a beginning of the
message, and a last call that leaves output room has taken all the input it was offered and,
when the whole stream has been read, has written the whole message. -/
def DecoderSound {σ D : Type} (step : σ → Req D → Call × σ) (z0 : σ) (isError : Nat → Nat)
    (directed : Call → Prop) (valid : List Byte → List Byte → Prop) : Prop :=
  ∀ (message stream : List Byte), valid message stream → ∀ (reqs : List (Req D)),
    Paced directed (runSteps step z0 reqs).1 →
    fedFrom stream [] (runSteps step z0 reqs).1 →
      NoFatal isError (runSteps step z0 reqs).1 ∧
      wroteOf (runSteps step z0 reqs).1 <+: message ∧
      ∀ (l : List Call) (c : Call), (runSteps step z0 reqs).1 = l ++ [c] → c.leftRoom →
        c.tookAll ∧ (readOf (l ++ [c]) = stream → wroteOf (l ++ [c]) = message)

/-- Modelled from the spec: a conforming zlib, for one window-bits value: `inflateInit2`
succeeds, and `deflate` and `inflate`, started from the states the init calls leave and driven
with `Z_NO_FLUSH` and `Z_FINISH`, are the two halves of one lossless codec. -/
def ZlibConforming {σ : Type} (zlib : Zlib σ) (wbits : Int) : Prop :=
  (zlib.inflateInit2 wbits).1 = Z_OK ∧
  ∃ valid : List Byte → List Byte → Prop,
    EncoderSound (flate_step zlib.deflate Flate.deflate)
      (zlib.deflateInit2 Z_DEFAULT_COMPRESSION Z_DEFLATED wbits 8 Z_DEFAULT_STRATEGY).2
      (fun _ => 0) Call.zlibDirected valid ∧
    DecoderSound (flate_step zlib.inflate Flate.inflate) (zlib.inflateInit2 wbits).2
      (fun _ => 0) Call.zlibDirected valid

/-- Modelled from the spec: a conforming Zstandard: `ZSTD_initDStream` and `ZSTD_freeDStream`
report no error, `ZSTD_compressStream2`, driven with `ZSTD_e_continue` and `ZSTD_e_flush`, and
`ZSTD_decompressStream`, started from the states the init calls leave, are the two halves of one
lossless codec, and the empty stream stands for the empty message. -/
def ZstdConforming {τ : Type} (zstd : Zstd τ) : Prop :=
  zstd.ZSTD_isError (zstd.ZSTD_initDStream zstd.ZSTD_createDStream).1 = 0 ∧
  (∀ z, zstd.ZSTD_isError (zstd.ZSTD_freeDStream z).1 = 0) ∧
  ∃ valid : List Byte → List Byte → Prop,
    valid [] [] ∧
    EncoderSound (zstd_compress_step zstd)
      (zstd.ZSTD_initCStream zstd.ZSTD_createCStream 5).2 zstd.ZSTD_isError Call.zstdDirected
      valid ∧
    DecoderSound (zstd_decompress_step zstd)
      (zstd.ZSTD_initDStream zstd.ZSTD_createDStream).2 zstd.ZSTD_isError (fun _ => True) valid

/-- Modelled from the spec: the library functions `grpc_msg_decompress` selects for `algorithm`
are the decompressing half of a conforming codec whose encodings are given by `valid`: the init
call succeeds (for Zstandard the free call too) and the step function meets `DecoderSound`. -/
def DecoderFor {σ τ : Type} (zlib : Zlib σ) (zstd : Zstd τ) (algorithm : Int)
    (valid : List Byte → List Byte → Prop) : Prop :=
  (algorithm = GRPC_MESSAGE_COMPRESS_DEFLATE ∧ (zlib.inflateInit2 (windowBits 0)).1 = Z_OK ∧
    DecoderSound (flate_step zlib.inflate Flate.inflate) (zlib.inflateInit2 (windowBits 0)).2
      (fun _ => 0) Call.zlibDirected valid) ∨
  (algorithm = GRPC_MESSAGE_COMPRESS_GZIP ∧ (zlib.inflateInit2 (windowBits 1)).1 = Z_OK ∧
    DecoderSound (flate_step zlib.inflate Flate.inflate) (zlib.inflateInit2 (windowBits 1)).2
      (fun _ => 0) Call.zlibDirected valid) ∨
  (algorithm = GRPC_MESSAGE_COMPRESS_ZSTD ∧
    zstd.ZSTD_isError (zstd.ZSTD_initDStream zstd.ZSTD_createDStream).1 = 0 ∧
    (∀ z, zstd.ZSTD_isError (zstd.ZSTD_freeDStream z).1 = 0) ∧
    DecoderSound (zstd_decompress_step zstd) (zstd.ZSTD_initDStream zstd.ZSTD_createDStream).2
      zstd.ZSTD_isError (fun _ => True) valid)

/-! ## Predicates on the loop variables -/

/-- The step calls logged since `log0` are a sequence of calls on the stream started in state
`z0`, and the stream is now in the state that sequence leaves. -/
def TraceInv {σ D : Type} (step : σ → Req D → Call × σ) (z0 : σ) (log0 : List Call) (log : List Call)
    (z : σ) : Prop :=
  ∃ reqs : List (Req D), log = log0 ++ (runSteps step z0 reqs).1 ∧ z = (runSteps step z0 reqs).2

/-- The bytes of the output followed by those of the current block are `base` followed by what
the logged calls wrote. -/
def WroteInv (base : List Byte) (output : grpc_slice_buffer) (outbuf : List Byte)
    (log : List Call) : Prop :=
  output.bytes ++ outbuf = base ++ wroteOf log

/-- No block is longer than `OUTPUT_BLOCK_SIZE`. -/
def BlockInv (output : grpc_slice_buffer) (outbuf : List Byte) : Prop :=
  outbuf.length ≤ OUTPUT_BLOCK_SIZE ∧ ∀ sl ∈ output.slices, sl.length ≤ OUTPUT_BLOCK_SIZE

/-- The calls `steps` are a sequence of step calls on the stream started in `z0`, fed from
`stream`, and have left the stream in state `z`. -/
def Decoding {σ D : Type} (step : σ → Req D → Call × σ) (z0 : σ) (stream : List Byte) (steps : List Call)
    (z : σ) : Prop :=
  ∃ reqs : List (Req D), runSteps step z0 reqs = (steps, z) ∧ fedFrom stream [] steps

/-- The loop variables of a decoding `zlib_body` run, seen from the decoder: the log is the
initial log followed by the step calls `steps`, those are a fed sequence of calls, and what they
read followed by the unread rest of the current slice lies inside the stream. -/
def ZlibDecoding {σ : Type} (flate : FlateFn σ) (fn : Flate) (z0 : σ) (stream : List Byte)
    (log0 steps : List Call) (t : ZBody σ) : Prop :=
  t.log = log0 ++ steps ∧ Decoding (flate_step flate fn) z0 stream steps t.zs ∧
    readOf steps ++ t.next_in <+: stream

/-- The loop variables of a `zstd_decompress` run, seen from the decoder. -/
def ZstdDecoding {τ : Type} (zstd : Zstd τ) (z0 : τ) (stream : List Byte) (log0 steps : List Call)
    (t : ZstdVars τ) : Prop :=
  t.log = log0 ++ steps ∧ Decoding (zstd_decompress_step zstd) z0 stream steps t.pStream ∧
    readOf steps ++ t.src <+: stream ∧ t.outbuf.length ≤ OUTPUT_BLOCK_SIZE

/-- The chunks of the output are the chunks `before` followed by blocks of exactly
`OUTPUT_BLOCK_SIZE` bytes, and the current block holds at most that many. -/
def FullBlocks (before : List grpc_slice) (output : grpc_slice_buffer) (outbuf : List Byte) :
    Prop :=
  outbuf.length ≤ OUTPUT_BLOCK_SIZE ∧
    ∃ blocks : List grpc_slice, output.slices = before ++ blocks ∧
      ∀ b ∈ blocks, b.length = OUTPUT_BLOCK_SIZE

/-- The chunks `added` are blocks of exactly `OUTPUT_BLOCK_SIZE` bytes followed by one last block
of at most that many, and together they hold the bytes `produced`, in order. -/
def BlockStructure (added : List grpc_slice) (produced : List Byte) : Prop :=
  ∃ (blocks : List grpc_slice) (last : grpc_slice), added = blocks ++ [last] ∧
    (∀ b ∈ blocks, b.length = OUTPUT_BLOCK_SIZE) ∧ last.length ≤ OUTPUT_BLOCK_SIZE ∧
    added.flatten = produced

/-! ## Sample codec behaviours

Small codec records used to run the engine on concrete inputs. -/

/-- A zlib whose init calls answer `init` and whose step calls read all the input offered,
write nothing and answer `status`. -/
def constZlib (init status : Int) : Zlib Unit where
  deflateInit2 := fun _ _ _ _ _ => (init, ())
  deflate := fun _ _ next_in _ => ⟨status, (), next_in.length, []⟩
  deflateEnd := fun _ => Z_OK
  inflateInit2 := fun _ => (init, ())
  inflate := fun _ _ next_in _ => ⟨status, (), next_in.length, []⟩
  inflateEnd := fun _ => Z_OK

/-- A zlib that stores: each step call copies as many input bytes as the output block has room
for, and answers `Z_STREAM_END` once a `Z_FINISH` call has copied everything. -/
def storeZlib : Zlib Unit where
  deflateInit2 := fun _ _ _ _ _ => (Z_OK, ())
  deflate := fun _ flush next_in avail_out =>
    ⟨if flush = Z_FINISH ∧ next_in.length ≤ avail_out then Z_STREAM_END else Z_OK, (),
      min next_in.length avail_out, next_in.take avail_out⟩
  deflateEnd := fun _ => Z_OK
  inflateInit2 := fun _ => (Z_OK, ())
  inflate := fun _ flush next_in avail_out =>
    ⟨if flush = Z_FINISH ∧ next_in.length ≤ avail_out then Z_STREAM_END else Z_OK, (),
      min next_in.length avail_out, next_in.take avail_out⟩
  inflateEnd := fun _ => Z_OK

/-- A zlib that fails late: its first step call takes the input offered and fills the output
block, its second takes the input and writes nothing, every later one answers
`Z_DATA_ERROR`.  The state counts the calls. -/
def lateFailZlib : Zlib Nat where
  deflateInit2 := fun _ _ _ _ _ => (Z_OK, 0)
  deflate := fun n _ next_in avail_out =>
    if n = 0 then ⟨Z_OK, 1, next_in.length, List.replicate avail_out 7⟩
    else if n = 1 then ⟨Z_OK, 2, next_in.length, []⟩
    else ⟨Z_DATA_ERROR, n, 0, []⟩
  deflateEnd := fun _ => Z_OK
  inflateInit2 := fun _ => (Z_OK, 0)
  inflate := fun n _ next_in avail_out =>
    if n = 0 then ⟨Z_OK, 1, next_in.length, List.replicate avail_out 7⟩
    else if n = 1 then ⟨Z_OK, 2, next_in.length, []⟩
    else ⟨Z_DATA_ERROR, n, 0, []⟩
  inflateEnd := fun _ => Z_OK

/-- The error test of the Zstandard library: the error codes are the top values of `size_t`,
above `(size_t)-ZSTD_error_maxCode` with `ZSTD_error_maxCode = 120`. -/
def sampleIsError (code : Nat) : Nat := if 2 ^ 64 - 120 < code then 1 else 0

/-- A Zstandard whose init calls answer `init`, whose step calls read all the input offered,
write nothing and answer `status`, and whose free calls answer `free`. -/
def constZstd (init status free : Nat) : Zstd Unit where
  ZSTD_isError := sampleIsError
  ZSTD_createCStream := ()
  ZSTD_initCStream := fun _ _ => (init, ())
  ZSTD_compressStream2 := fun _ _ src _ => ⟨status, (), src.length, []⟩
  ZSTD_freeCStream := fun _ => (free, ())
  ZSTD_createDStream := ()
  ZSTD_initDStream := fun _ => (init, ())
  ZSTD_decompressStream := fun _ src _ => ⟨status, (), src.length, []⟩
  ZSTD_freeDStream := fun _ => (free, ())

/-- A Zstandard that stores: each step call copies as many input bytes as the output block has
room for and answers 0. -/
def storeZstd : Zstd Unit where
  ZSTD_isError := sampleIsError
  ZSTD_createCStream := ()
  ZSTD_initCStream := fun _ _ => (0, ())
  ZSTD_compressStream2 := fun _ _ src room => ⟨0, (), min src.length room, src.take room⟩
  ZSTD_freeCStream := fun _ => (0, ())
  ZSTD_createDStream := ()
  ZSTD_initDStream := fun _ => (0, ())
  ZSTD_decompressStream := fun _ src room => ⟨0, (), min src.length room, src.take room⟩
  ZSTD_freeDStream := fun _ => (0, ())

/-- A Zstandard that expands: a compressing step call writes every byte it takes twice, as far
as the output block has room. -/
def expandZstd : Zstd Unit where
  ZSTD_isError := sampleIsError
  ZSTD_createCStream := ()
  ZSTD_initCStream := fun _ _ => (0, ())
  ZSTD_compressStream2 := fun _ _ src room =>
    ⟨0, (), min src.length (room / 2),
      (src.take (room / 2)).flatMap (fun b => [b, b])⟩
  ZSTD_freeCStream := fun _ => (0, ())
  ZSTD_createDStream := ()
  ZSTD_initDStream := fun _ => (0, ())
  ZSTD_decompressStream := fun _ src room => ⟨0, (), min src.length room, src.take room⟩
  ZSTD_freeDStream := fun _ => (0, ())

/-- Run-length code of a byte string: every run as its length followed by its byte. -/
def rle : List Byte → List Byte
  | [] => []
  | b :: rest =>
    match rle rest with
    | n :: c :: tail => if c = b then (n + 1) :: c :: tail else 1 :: b :: n :: c :: tail
    | _ => [1, b]

/-- A Zstandard that compresses block by block: a call with `ZSTD_e_continue` takes the bytes
offered into the current block and writes nothing; a call with `ZSTD_e_flush` ends the block and
writes its run-length code, when the output block has room for it.  The state is the current
block. -/
def rleZstd : Zstd (List Byte) where
  ZSTD_isError := sampleIsError
  ZSTD_createCStream := []
  ZSTD_initCStream := fun _ _ => (0, [])
  ZSTD_compressStream2 := fun z directive src room =>
    if directive = ZSTD_e_flush then
      if (rle (z ++ src)).length ≤ room then ⟨0, [], src.length, rle (z ++ src)⟩
      else ⟨0, z, 0, []⟩
    else ⟨0, z ++ src, src.length, []⟩
  ZSTD_freeCStream := fun _ => (0, [])
  ZSTD_createDStream := []
  ZSTD_initDStream := fun _ => (0, [])
  ZSTD_decompressStream := fun _ src room => ⟨0, [], min src.length room, src.take room⟩
  ZSTD_freeDStream := fun _ => (0, [])

/-- Each byte twice. -/
def dbl : List Byte → List Byte
  | [] => []
  | b :: rest => b :: b :: dbl rest

/-- What a step of the pair codec answers: whether it refuses its input, the new state, the
input bytes taken, the output bytes written. -/
structure PairReply where
  bad : Bool
  state : Option Byte
  consumed : Nat
  produced : List Byte

/-- The compressing step of the pair codec, which writes one byte for every two equal bytes it
reads and refuses everything else.  The state is the first byte of a pair whose second byte has
not come yet; a call takes at most one byte; a closing call refuses to end inside a pair. -/
def pairEnc (closing : Bool) (p : Option Byte) (next_in : List Byte) (room : Nat) : PairReply :=
  match next_in, p with
  | [], none => ⟨false, none, 0, []⟩
  | [], some a => ⟨closing, some a, 0, []⟩
  | b :: rest, none =>
    if closing && rest.isEmpty then ⟨true, none, 0, []⟩ else ⟨false, some b, 1, []⟩
  | b :: _, some a =>
    if a ≠ b then ⟨true, some a, 0, []⟩
    else if room = 0 then ⟨false, some a, 0, []⟩
    else ⟨false, none, 1, [a]⟩

/-- The pair decoder on a fresh pair boundary: every input byte is written twice as long as
there is room; a byte whose second copy does not fit is remembered in the state. -/
def dblOut : Nat → List Byte → PairReply
  | _, [] => ⟨false, none, 0, []⟩
  | 0, _ :: _ => ⟨false, none, 0, []⟩
  | 1, b :: _ => ⟨false, some b, 1, [b]⟩
  | room + 2, b :: rest =>
    ⟨false, (dblOut room rest).state, (dblOut room rest).consumed + 1,
      b :: b :: (dblOut room rest).produced⟩

/-- The decompressing step of the pair codec: first the remembered second copy, then the
input. -/
def pairDec (p : Option Byte) (next_in : List Byte) (room : Nat) : PairReply :=
  match p, room with
  | none, _ => dblOut room next_in
  | some a, 0 => ⟨false, some a, 0, []⟩
  | some a, room + 1 =>
    ⟨false, (dblOut room next_in).state, (dblOut room next_in).consumed,
      a :: (dblOut room next_in).produced⟩

/-- A zlib made of the pair codec. -/
def pairZlib : Zlib (Option Byte) where
  deflateInit2 := fun _ _ _ _ _ => (Z_OK, none)
  deflate := fun z flush next_in avail_out =>
    ⟨if (pairEnc (decide (flush = Z_FINISH)) z next_in avail_out).bad then Z_DATA_ERROR else Z_OK,
      (pairEnc (decide (flush = Z_FINISH)) z next_in avail_out).state,
      (pairEnc (decide (flush = Z_FINISH)) z next_in avail_out).consumed,
      (pairEnc (decide (flush = Z_FINISH)) z next_in avail_out).produced⟩
  deflateEnd := fun _ => Z_OK
  inflateInit2 := fun _ => (Z_OK, none)
  inflate := fun z _ next_in avail_out =>
    ⟨Z_OK, (pairDec z next_in avail_out).state, (pairDec z next_in avail_out).consumed,
      (pairDec z next_in avail_out).produced⟩
  inflateEnd := fun _ => Z_OK

/-- The flush value `Z_BLOCK` of `zlib.h`, which the engine never passes. -/
def Z_BLOCK : Int := 5

/-- The zlib of the pair codec with an `inflate` that honours `Z_BLOCK`: given that flush value
it returns at once, before it has read or written anything. -/
def blockZlib : Zlib (Option Byte) where
  deflateInit2 := pairZlib.deflateInit2
  deflate := pairZlib.deflate
  deflateEnd := pairZlib.deflateEnd
  inflateInit2 := pairZlib.inflateInit2
  inflate := fun z flush next_in avail_out =>
    if flush = Z_BLOCK then ⟨Z_OK, z, 0, []⟩ else pairZlib.inflate z flush next_in avail_out
  inflateEnd := pairZlib.inflateEnd

/-- A Zstandard made of the pair codec. -/
def pairZstd : Zstd (Option Byte) where
  ZSTD_isError := sampleIsError
  ZSTD_createCStream := none
  ZSTD_initCStream := fun _ _ => (0, none)
  ZSTD_compressStream2 := fun z directive src room =>
    ⟨if (pairEnc (decide (directive = ZSTD_e_flush)) z src room).bad then 2 ^ 64 - 1 else 0,
      (pairEnc (decide (directive = ZSTD_e_flush)) z src room).state,
      (pairEnc (decide (directive = ZSTD_e_flush)) z src room).consumed,
      (pairEnc (decide (directive = ZSTD_e_flush)) z src room).produced⟩
  ZSTD_freeCStream := fun _ => (0, none)
  ZSTD_createDStream := none
  ZSTD_initDStream := fun _ => (0, none)
  ZSTD_decompressStream := fun z src room =>
    ⟨0, (pairDec z src room).state, (pairDec z src room).consumed,
      (pairDec z src room).produced⟩
  ZSTD_freeDStream := fun _ => (0, none)

/-- A Zstandard that stores, and whose decoder gives up when it is called for the third time in
a row without being able to read or write anything (libzstd likewise answers with a "no forward
progress" error once such calls repeat).  The state of the decoder counts the calls without
progress. -/
def stallZstd : Zstd Nat where
  ZSTD_isError := sampleIsError
  ZSTD_createCStream := 0
  ZSTD_initCStream := fun _ _ => (0, 0)
  ZSTD_compressStream2 := fun _ _ src room => ⟨0, 0, min src.length room, src.take room⟩
  ZSTD_freeCStream := fun _ => (0, 0)
  ZSTD_createDStream := 0
  ZSTD_initDStream := fun _ => (0, 0)
  ZSTD_decompressStream := fun n src room =>
    if min src.length room = 0 then
      if 2 ≤ n then ⟨2 ^ 64 - 1, n + 1, 0, []⟩ else ⟨0, n + 1, 0, []⟩
    else ⟨0, 0, min src.length room, src.take room⟩
  ZSTD_freeDStream := fun _ => (0, 0)

/-- A zlib that stores, and whose `inflate` gives up when it is called for the third time in a row
without being able to read or write anything: the first two such calls answer `Z_BUF_ERROR`, the
third and every later one `Z_DATA_ERROR`.  The state of the decoder counts the calls without
progress. -/
def stallZlib : Zlib Nat where
  deflateInit2 := fun _ _ _ _ _ => (Z_OK, 0)
  deflate := fun _ flush next_in avail_out =>
    ⟨if flush = Z_FINISH ∧ next_in.length ≤ avail_out then Z_STREAM_END else Z_OK, 0,
      min next_in.length avail_out, next_in.take avail_out⟩
  deflateEnd := fun _ => Z_OK
  inflateInit2 := fun _ => (Z_OK, 0)
  inflate := fun n _ next_in avail_out =>
    if min next_in.length avail_out = 0 then
      if 2 ≤ n then ⟨Z_DATA_ERROR, n + 1, 0, []⟩ else ⟨Z_BUF_ERROR, n + 1, 0, []⟩
    else ⟨Z_OK, 0, min next_in.length avail_out, next_in.take avail_out⟩
  inflateEnd := fun _ => Z_OK

/-- The bytes of an ASCII string. -/
def ascii (text : String) : List Byte := text.toList.map Char.toNat

/-- The empty slice buffer. -/
def emptyBuffer : grpc_slice_buffer := { slices := [], length := 0 }

/-- A well-formed slice buffer with the given slices. -/
def bufferOf (slices : List grpc_slice) : grpc_slice_buffer :=
  { slices := slices, length := (slices.map List.length).sum }

end MessageCompress

namespace StaticMetadataCtx

/-! ## Static metadata tables (`src/core/lib/transport/static_metadata.cc`)

The generated tables of static strings and static metadata elements, and the perfect-hash lookup
over them.  A table is the list of its initialisers; a read at an index is `xs[i]?`, so a read
outside a table shows as `none`.  Pointers into `g_bytes` are offsets, pointers to
`refcounts[i].base` are the index `i`, and `uint32_t` arithmetic is taken modulo `2 ^ 32`. -/

/-- The byte pool `g_bytes`, which holds the contents of all static strings one after the
other. -/
def g_bytes : List Nat := [
  58, 112, 97, 116, 104, 58, 109, 101, 116, 104, 111, 100, 58, 115, 116, 97, 116, 117, 115, 58,
  97, 117, 116, 104, 111, 114, 105, 116, 121, 58, 115, 99, 104, 101, 109, 101, 116, 101, 103,
  114, 112, 99, 45, 109, 101, 115, 115, 97, 103, 101, 103, 114, 112, 99, 45, 115, 116, 97, 116,
  117, 115, 103, 114, 112, 99, 45, 112, 97, 121, 108, 111, 97, 100, 45, 98, 105, 110, 103, 114,
  112, 99, 45, 101, 110, 99, 111, 100, 105, 110, 103, 103, 114, 112, 99, 45, 97, 99, 99, 101,
  112, 116, 45, 101, 110, 99, 111, 100, 105, 110, 103, 103, 114, 112, 99, 45, 115, 101, 114, 118,
  101, 114, 45, 115, 116, 97, 116, 115, 45, 98, 105, 110, 103, 114, 112, 99, 45, 116, 97, 103,
  115, 45, 98, 105, 110, 103, 114, 112, 99, 45, 116, 114, 97, 99, 101, 45, 98, 105, 110, 99, 111,
  110, 116, 101, 110, 116, 45, 116, 121, 112, 101, 99, 111, 110, 116, 101, 110, 116, 45, 101,
  110, 99, 111, 100, 105, 110, 103, 97, 99, 99, 101, 112, 116, 45, 101, 110, 99, 111, 100, 105,
  110, 103, 103, 114, 112, 99, 45, 105, 110, 116, 101, 114, 110, 97, 108, 45, 101, 110, 99, 111,
  100, 105, 110, 103, 45, 114, 101, 113, 117, 101, 115, 116, 103, 114, 112, 99, 45, 105, 110,
  116, 101, 114, 110, 97, 108, 45, 115, 116, 114, 101, 97, 109, 45, 101, 110, 99, 111, 100, 105,
  110, 103, 45, 114, 101, 113, 117, 101, 115, 116, 117, 115, 101, 114, 45, 97, 103, 101, 110,
  116, 104, 111, 115, 116, 103, 114, 112, 99, 45, 112, 114, 101, 118, 105, 111, 117, 115, 45,
  114, 112, 99, 45, 97, 116, 116, 101, 109, 112, 116, 115, 103, 114, 112, 99, 45, 114, 101, 116,
  114, 121, 45, 112, 117, 115, 104, 98, 97, 99, 107, 45, 109, 115, 120, 45, 101, 110, 100, 112,
  111, 105, 110, 116, 45, 108, 111, 97, 100, 45, 109, 101, 116, 114, 105, 99, 115, 45, 98, 105,
  110, 103, 114, 112, 99, 45, 116, 105, 109, 101, 111, 117, 116, 49, 50, 51, 52, 103, 114, 112,
  99, 46, 119, 97, 105, 116, 95, 102, 111, 114, 95, 114, 101, 97, 100, 121, 103, 114, 112, 99,
  46, 116, 105, 109, 101, 111, 117, 116, 103, 114, 112, 99, 46, 109, 97, 120, 95, 114, 101, 113,
  117, 101, 115, 116, 95, 109, 101, 115, 115, 97, 103, 101, 95, 98, 121, 116, 101, 115, 103, 114,
  112, 99, 46, 109, 97, 120, 95, 114, 101, 115, 112, 111, 110, 115, 101, 95, 109, 101, 115, 115,
  97, 103, 101, 95, 98, 121, 116, 101, 115, 47, 103, 114, 112, 99, 46, 108, 98, 46, 118, 49, 46,
  76, 111, 97, 100, 66, 97, 108, 97, 110, 99, 101, 114, 47, 66, 97, 108, 97, 110, 99, 101, 76,
  111, 97, 100, 47, 101, 110, 118, 111, 121, 46, 115, 101, 114, 118, 105, 99, 101, 46, 108, 111,
  97, 100, 95, 115, 116, 97, 116, 115, 46, 118, 50, 46, 76, 111, 97, 100, 82, 101, 112, 111, 114,
  116, 105, 110, 103, 83, 101, 114, 118, 105, 99, 101, 47, 83, 116, 114, 101, 97, 109, 76, 111,
  97, 100, 83, 116, 97, 116, 115, 47, 103, 114, 112, 99, 46, 104, 101, 97, 108, 116, 104, 46,
  118, 49, 46, 72, 101, 97, 108, 116, 104, 47, 87, 97, 116, 99, 104, 47, 101, 110, 118, 111, 121,
  46, 115, 101, 114, 118, 105, 99, 101, 46, 100, 105, 115, 99, 111, 118, 101, 114, 121, 46, 118,
  50, 46, 65, 103, 103, 114, 101, 103, 97, 116, 101, 100, 68, 105, 115, 99, 111, 118, 101, 114,
  121, 83, 101, 114, 118, 105, 99, 101, 47, 83, 116, 114, 101, 97, 109, 65, 103, 103, 114, 101,
  103, 97, 116, 101, 100, 82, 101, 115, 111, 117, 114, 99, 101, 115, 100, 101, 102, 108, 97, 116,
  101, 103, 122, 105, 112, 122, 115, 116, 100, 115, 116, 114, 101, 97, 109, 47, 103, 122, 105,
  112, 115, 116, 114, 101, 97, 109, 47, 122, 115, 116, 100, 71, 69, 84, 80, 79, 83, 84, 47, 47,
  105, 110, 100, 101, 120, 46, 104, 116, 109, 108, 104, 116, 116, 112, 104, 116, 116, 112, 115,
  50, 48, 48, 50, 48, 52, 50, 48, 54, 51, 48, 52, 52, 48, 48, 52, 48, 52, 53, 48, 48, 97, 99, 99,
  101, 112, 116, 45, 99, 104, 97, 114, 115, 101, 116, 103, 122, 105, 112, 44, 100, 101, 102, 108,
  97, 116, 101, 97, 99, 99, 101, 112, 116, 45, 108, 97, 110, 103, 117, 97, 103, 101, 97, 99, 99,
  101, 112, 116, 45, 114, 97, 110, 103, 101, 115, 97, 99, 99, 101, 112, 116, 97, 99, 99, 101,
  115, 115, 45, 99, 111, 110, 116, 114, 111, 108, 45, 97, 108, 108, 111, 119, 45, 111, 114, 105,
  103, 105, 110, 97, 103, 101, 97, 108, 108, 111, 119, 97, 117, 116, 104, 111, 114, 105, 122, 97,
  116, 105, 111, 110, 99, 97, 99, 104, 101, 45, 99, 111, 110, 116, 114, 111, 108, 99, 111, 110,
  116, 101, 110, 116, 45, 100, 105, 115, 112, 111, 115, 105, 116, 105, 111, 110, 99, 111, 110,
  116, 101, 110, 116, 45, 108, 97, 110, 103, 117, 97, 103, 101, 99, 111, 110, 116, 101, 110, 116,
  45, 108, 101, 110, 103, 116, 104, 99, 111, 110, 116, 101, 110, 116, 45, 108, 111, 99, 97, 116,
  105, 111, 110, 99, 111, 110, 116, 101, 110, 116, 45, 114, 97, 110, 103, 101, 99, 111, 111, 107,
  105, 101, 100, 97, 116, 101, 101, 116, 97, 103, 101, 120, 112, 101, 99, 116, 101, 120, 112,
  105, 114, 101, 115, 102, 114, 111, 109, 105, 102, 45, 109, 97, 116, 99, 104, 105, 102, 45, 109,
  111, 100, 105, 102, 105, 101, 100, 45, 115, 105, 110, 99, 101, 105, 102, 45, 110, 111, 110,
  101, 45, 109, 97, 116, 99, 104, 105, 102, 45, 114, 97, 110, 103, 101, 105, 102, 45, 117, 110,
  109, 111, 100, 105, 102, 105, 101, 100, 45, 115, 105, 110, 99, 101, 108, 97, 115, 116, 45, 109,
  111, 100, 105, 102, 105, 101, 100, 108, 105, 110, 107, 108, 111, 99, 97, 116, 105, 111, 110,
  109, 97, 120, 45, 102, 111, 114, 119, 97, 114, 100, 115, 112, 114, 111, 120, 121, 45, 97, 117,
  116, 104, 101, 110, 116, 105, 99, 97, 116, 101, 112, 114, 111, 120, 121, 45, 97, 117, 116, 104,
  111, 114, 105, 122, 97, 116, 105, 111, 110, 114, 97, 110, 103, 101, 114, 101, 102, 101, 114,
  101, 114, 114, 101, 102, 114, 101, 115, 104, 114, 101, 116, 114, 121, 45, 97, 102, 116, 101,
  114, 115, 101, 114, 118, 101, 114, 115, 101, 116, 45, 99, 111, 111, 107, 105, 101, 115, 116,
  114, 105, 99, 116, 45, 116, 114, 97, 110, 115, 112, 111, 114, 116, 45, 115, 101, 99, 117, 114,
  105, 116, 121, 116, 114, 97, 110, 115, 102, 101, 114, 45, 101, 110, 99, 111, 100, 105, 110,
  103, 118, 97, 114, 121, 118, 105, 97, 119, 119, 119, 45, 97, 117, 116, 104, 101, 110, 116, 105,
  99, 97, 116, 101, 48, 105, 100, 101, 110, 116, 105, 116, 121, 116, 114, 97, 105, 108, 101, 114,
  115, 97, 112, 112, 108, 105, 99, 97, 116, 105, 111, 110, 47, 103, 114, 112, 99, 103, 114, 112,
  99, 80, 85, 84, 108, 98, 45, 99, 111, 115, 116, 45, 98, 105, 110, 105, 100, 101, 110, 116, 105,
  116, 121, 44, 100, 101, 102, 108, 97, 116, 101, 105, 100, 101, 110, 116, 105, 116, 121, 44,
  103, 122, 105, 112, 100, 101, 102, 108, 97, 116, 101, 44, 103, 122, 105, 112, 105, 100, 101,
  110, 116, 105, 116, 121, 44, 100, 101, 102, 108, 97, 116, 101, 44, 103, 122, 105, 112, 105,
  100, 101, 110, 116, 105, 116, 121, 44, 122, 115, 116, 100, 100, 101, 102, 108, 97, 116, 101,
  44, 122, 115, 116, 100, 105, 100, 101, 110, 116, 105, 116, 121, 44, 100, 101, 102, 108, 97,
  116, 101, 44, 122, 115, 116, 100, 103, 122, 105, 112, 44, 122, 115, 116, 100, 105, 100, 101,
  110, 116, 105, 116, 121, 44, 103, 122, 105, 112, 44, 122, 115, 116, 100, 100, 101, 102, 108,
  97, 116, 101, 44, 103, 122, 105, 112, 44, 122, 115, 116, 100, 105, 100, 101, 110, 116, 105,
  116, 121, 44, 100, 101, 102, 108, 97, 116, 101, 44, 103, 122, 105, 112, 44, 122, 115, 116, 100]

/-- A slice over the byte pool, `StaticMetadataSlice(&refcounts[refcount].base, length,
g_bytes + offset)`. -/
structure StaticMetadataSlice where
  refcount : Nat
  length : Nat
  offset : Nat
deriving DecidableEq, Repr

/-- The bytes a static slice stands for: `length` bytes of `g_bytes` from `offset` on. -/
def StaticMetadataSlice.bytes (s : StaticMetadataSlice) : List Nat :=
  (g_bytes.drop s.offset).take s.length

/-- The table `StaticMetadataCtx::slices`, indexed by static string index. -/
def slices : List StaticMetadataSlice := [
  StaticMetadataSlice.mk 0 5 0, StaticMetadataSlice.mk 1 7 5, StaticMetadataSlice.mk 2 7 12,
  StaticMetadataSlice.mk 3 10 19, StaticMetadataSlice.mk 4 7 29, StaticMetadataSlice.mk 5 2 36,
  StaticMetadataSlice.mk 6 12 38, StaticMetadataSlice.mk 7 11 50, StaticMetadataSlice.mk 8 16 61,
  StaticMetadataSlice.mk 9 13 77, StaticMetadataSlice.mk 10 20 90,
  StaticMetadataSlice.mk 11 21 110, StaticMetadataSlice.mk 12 13 131,
  StaticMetadataSlice.mk 13 14 144, StaticMetadataSlice.mk 14 12 158,
  StaticMetadataSlice.mk 15 16 170, StaticMetadataSlice.mk 16 15 186,
  StaticMetadataSlice.mk 17 30 201, StaticMetadataSlice.mk 18 37 231,
  StaticMetadataSlice.mk 19 10 268, StaticMetadataSlice.mk 20 4 278,
  StaticMetadataSlice.mk 21 26 282, StaticMetadataSlice.mk 22 22 308,
  StaticMetadataSlice.mk 23 27 330, StaticMetadataSlice.mk 24 12 357,
  StaticMetadataSlice.mk 25 1 369, StaticMetadataSlice.mk 26 1 370,
  StaticMetadataSlice.mk 27 1 371, StaticMetadataSlice.mk 28 1 372,
  StaticMetadataSlice.mk 29 0 373, StaticMetadataSlice.mk 30 19 373,
  StaticMetadataSlice.mk 31 12 392, StaticMetadataSlice.mk 32 30 404,
  StaticMetadataSlice.mk 33 31 434, StaticMetadataSlice.mk 34 36 465,
  StaticMetadataSlice.mk 35 65 501, StaticMetadataSlice.mk 36 28 566,
  StaticMetadataSlice.mk 37 80 594, StaticMetadataSlice.mk 38 7 674,
  StaticMetadataSlice.mk 39 4 681, StaticMetadataSlice.mk 40 4 685,
  StaticMetadataSlice.mk 41 11 689, StaticMetadataSlice.mk 42 11 700,
  StaticMetadataSlice.mk 43 3 711, StaticMetadataSlice.mk 44 4 714,
  StaticMetadataSlice.mk 45 1 718, StaticMetadataSlice.mk 46 11 719,
  StaticMetadataSlice.mk 47 4 730, StaticMetadataSlice.mk 48 5 734,
  StaticMetadataSlice.mk 49 3 739, StaticMetadataSlice.mk 50 3 742,
  StaticMetadataSlice.mk 51 3 745, StaticMetadataSlice.mk 52 3 748,
  StaticMetadataSlice.mk 53 3 751, StaticMetadataSlice.mk 54 3 754,
  StaticMetadataSlice.mk 55 3 757, StaticMetadataSlice.mk 56 14 760,
  StaticMetadataSlice.mk 57 12 774, StaticMetadataSlice.mk 58 15 786,
  StaticMetadataSlice.mk 59 13 801, StaticMetadataSlice.mk 60 6 814,
  StaticMetadataSlice.mk 61 27 820, StaticMetadataSlice.mk 62 3 847,
  StaticMetadataSlice.mk 63 5 850, StaticMetadataSlice.mk 64 13 855,
  StaticMetadataSlice.mk 65 13 868, StaticMetadataSlice.mk 66 19 881,
  StaticMetadataSlice.mk 67 16 900, StaticMetadataSlice.mk 68 14 916,
  StaticMetadataSlice.mk 69 16 930, StaticMetadataSlice.mk 70 13 946,
  StaticMetadataSlice.mk 71 6 959, StaticMetadataSlice.mk 72 4 965,
  StaticMetadataSlice.mk 73 4 969, StaticMetadataSlice.mk 74 6 973,
  StaticMetadataSlice.mk 75 7 979, StaticMetadataSlice.mk 76 4 986,
  StaticMetadataSlice.mk 77 8 990, StaticMetadataSlice.mk 78 17 998,
  StaticMetadataSlice.mk 79 13 1015, StaticMetadataSlice.mk 80 8 1028,
  StaticMetadataSlice.mk 81 19 1036, StaticMetadataSlice.mk 82 13 1055,
  StaticMetadataSlice.mk 83 4 1068, StaticMetadataSlice.mk 84 8 1072,
  StaticMetadataSlice.mk 85 12 1080, StaticMetadataSlice.mk 86 18 1092,
  StaticMetadataSlice.mk 87 19 1110, StaticMetadataSlice.mk 88 5 1129,
  StaticMetadataSlice.mk 89 7 1134, StaticMetadataSlice.mk 90 7 1141,
  StaticMetadataSlice.mk 91 11 1148, StaticMetadataSlice.mk 92 6 1159,
  StaticMetadataSlice.mk 93 10 1165, StaticMetadataSlice.mk 94 25 1175,
  StaticMetadataSlice.mk 95 17 1200, StaticMetadataSlice.mk 96 4 1217,
  StaticMetadataSlice.mk 97 3 1221, StaticMetadataSlice.mk 98 16 1224,
  StaticMetadataSlice.mk 99 1 1240, StaticMetadataSlice.mk 100 8 1241,
  StaticMetadataSlice.mk 101 8 1249, StaticMetadataSlice.mk 102 16 1257,
  StaticMetadataSlice.mk 103 4 1273, StaticMetadataSlice.mk 104 3 1277,
  StaticMetadataSlice.mk 105 11 1280, StaticMetadataSlice.mk 106 16 1291,
  StaticMetadataSlice.mk 107 13 1307, StaticMetadataSlice.mk 108 12 1320,
  StaticMetadataSlice.mk 109 21 1332, StaticMetadataSlice.mk 110 13 1353,
  StaticMetadataSlice.mk 111 12 1366, StaticMetadataSlice.mk 112 21 1378,
  StaticMetadataSlice.mk 113 9 1399, StaticMetadataSlice.mk 114 18 1408,
  StaticMetadataSlice.mk 115 17 1426, StaticMetadataSlice.mk 116 26 1443]

/-- One entry `StaticMetadata(key, value, idx)` of the static element table. -/
structure StaticMetadata where
  key : StaticMetadataSlice
  value : StaticMetadataSlice
  idx : Nat
deriving DecidableEq, Repr

/-- The table `StaticMetadataCtx::static_mdelem_table`. -/
def static_mdelem_table : List StaticMetadata := [
  StaticMetadata.mk (StaticMetadataSlice.mk 3 10 19) (StaticMetadataSlice.mk 29 0 373) 0,
  StaticMetadata.mk (StaticMetadataSlice.mk 1 7 5) (StaticMetadataSlice.mk 43 3 711) 1,
  StaticMetadata.mk (StaticMetadataSlice.mk 1 7 5) (StaticMetadataSlice.mk 44 4 714) 2,
  StaticMetadata.mk (StaticMetadataSlice.mk 0 5 0) (StaticMetadataSlice.mk 45 1 718) 3,
  StaticMetadata.mk (StaticMetadataSlice.mk 0 5 0) (StaticMetadataSlice.mk 46 11 719) 4,
  StaticMetadata.mk (StaticMetadataSlice.mk 4 7 29) (StaticMetadataSlice.mk 47 4 730) 5,
  StaticMetadata.mk (StaticMetadataSlice.mk 4 7 29) (StaticMetadataSlice.mk 48 5 734) 6,
  StaticMetadata.mk (StaticMetadataSlice.mk 2 7 12) (StaticMetadataSlice.mk 49 3 739) 7,
  StaticMetadata.mk (StaticMetadataSlice.mk 2 7 12) (StaticMetadataSlice.mk 50 3 742) 8,
  StaticMetadata.mk (StaticMetadataSlice.mk 2 7 12) (StaticMetadataSlice.mk 51 3 745) 9,
  StaticMetadata.mk (StaticMetadataSlice.mk 2 7 12) (StaticMetadataSlice.mk 52 3 748) 10,
  StaticMetadata.mk (StaticMetadataSlice.mk 2 7 12) (StaticMetadataSlice.mk 53 3 751) 11,
  StaticMetadata.mk (StaticMetadataSlice.mk 2 7 12) (StaticMetadataSlice.mk 54 3 754) 12,
  StaticMetadata.mk (StaticMetadataSlice.mk 2 7 12) (StaticMetadataSlice.mk 55 3 757) 13,
  StaticMetadata.mk (StaticMetadataSlice.mk 56 14 760) (StaticMetadataSlice.mk 29 0 373) 14,
  StaticMetadata.mk (StaticMetadataSlice.mk 16 15 186) (StaticMetadataSlice.mk 57 12 774) 15,
  StaticMetadata.mk (StaticMetadataSlice.mk 16 15 186) (StaticMetadataSlice.mk 40 4 685) 16,
  StaticMetadata.mk (StaticMetadataSlice.mk 58 15 786) (StaticMetadataSlice.mk 29 0 373) 17,
  StaticMetadata.mk (StaticMetadataSlice.mk 59 13 801) (StaticMetadataSlice.mk 29 0 373) 18,
  StaticMetadata.mk (StaticMetadataSlice.mk 60 6 814) (StaticMetadataSlice.mk 29 0 373) 19,
  StaticMetadata.mk (StaticMetadataSlice.mk 61 27 820) (StaticMetadataSlice.mk 29 0 373) 20,
  StaticMetadata.mk (StaticMetadataSlice.mk 62 3 847) (StaticMetadataSlice.mk 29 0 373) 21,
  StaticMetadata.mk (StaticMetadataSlice.mk 63 5 850) (StaticMetadataSlice.mk 29 0 373) 22,
  StaticMetadata.mk (StaticMetadataSlice.mk 64 13 855) (StaticMetadataSlice.mk 29 0 373) 23,
  StaticMetadata.mk (StaticMetadataSlice.mk 65 13 868) (StaticMetadataSlice.mk 29 0 373) 24,
  StaticMetadata.mk (StaticMetadataSlice.mk 66 19 881) (StaticMetadataSlice.mk 29 0 373) 25,
  StaticMetadata.mk (StaticMetadataSlice.mk 15 16 170) (StaticMetadataSlice.mk 29 0 373) 26,
  StaticMetadata.mk (StaticMetadataSlice.mk 67 16 900) (StaticMetadataSlice.mk 29 0 373) 27,
  StaticMetadata.mk (StaticMetadataSlice.mk 68 14 916) (StaticMetadataSlice.mk 29 0 373) 28,
  StaticMetadata.mk (StaticMetadataSlice.mk 69 16 930) (StaticMetadataSlice.mk 29 0 373) 29,
  StaticMetadata.mk (StaticMetadataSlice.mk 70 13 946) (StaticMetadataSlice.mk 29 0 373) 30,
  StaticMetadata.mk (StaticMetadataSlice.mk 14 12 158) (StaticMetadataSlice.mk 29 0 373) 31,
  StaticMetadata.mk (StaticMetadataSlice.mk 71 6 959) (StaticMetadataSlice.mk 29 0 373) 32,
  StaticMetadata.mk (StaticMetadataSlice.mk 72 4 965) (StaticMetadataSlice.mk 29 0 373) 33,
  StaticMetadata.mk (StaticMetadataSlice.mk 73 4 969) (StaticMetadataSlice.mk 29 0 373) 34,
  StaticMetadata.mk (StaticMetadataSlice.mk 74 6 973) (StaticMetadataSlice.mk 29 0 373) 35,
  StaticMetadata.mk (StaticMetadataSlice.mk 75 7 979) (StaticMetadataSlice.mk 29 0 373) 36,
  StaticMetadata.mk (StaticMetadataSlice.mk 76 4 986) (StaticMetadataSlice.mk 29 0 373) 37,
  StaticMetadata.mk (StaticMetadataSlice.mk 20 4 278) (StaticMetadataSlice.mk 29 0 373) 38,
  StaticMetadata.mk (StaticMetadataSlice.mk 77 8 990) (StaticMetadataSlice.mk 29 0 373) 39,
  StaticMetadata.mk (StaticMetadataSlice.mk 78 17 998) (StaticMetadataSlice.mk 29 0 373) 40,
  StaticMetadata.mk (StaticMetadataSlice.mk 79 13 1015) (StaticMetadataSlice.mk 29 0 373) 41,
  StaticMetadata.mk (StaticMetadataSlice.mk 80 8 1028) (StaticMetadataSlice.mk 29 0 373) 42,
  StaticMetadata.mk (StaticMetadataSlice.mk 81 19 1036) (StaticMetadataSlice.mk 29 0 373) 43,
  StaticMetadata.mk (StaticMetadataSlice.mk 82 13 1055) (StaticMetadataSlice.mk 29 0 373) 44,
  StaticMetadata.mk (StaticMetadataSlice.mk 83 4 1068) (StaticMetadataSlice.mk 29 0 373) 45,
  StaticMetadata.mk (StaticMetadataSlice.mk 84 8 1072) (StaticMetadataSlice.mk 29 0 373) 46,
  StaticMetadata.mk (StaticMetadataSlice.mk 85 12 1080) (StaticMetadataSlice.mk 29 0 373) 47,
  StaticMetadata.mk (StaticMetadataSlice.mk 86 18 1092) (StaticMetadataSlice.mk 29 0 373) 48,
  StaticMetadata.mk (StaticMetadataSlice.mk 87 19 1110) (StaticMetadataSlice.mk 29 0 373) 49,
  StaticMetadata.mk (StaticMetadataSlice.mk 88 5 1129) (StaticMetadataSlice.mk 29 0 373) 50,
  StaticMetadata.mk (StaticMetadataSlice.mk 89 7 1134) (StaticMetadataSlice.mk 29 0 373) 51,
  StaticMetadata.mk (StaticMetadataSlice.mk 90 7 1141) (StaticMetadataSlice.mk 29 0 373) 52,
  StaticMetadata.mk (StaticMetadataSlice.mk 91 11 1148) (StaticMetadataSlice.mk 29 0 373) 53,
  StaticMetadata.mk (StaticMetadataSlice.mk 92 6 1159) (StaticMetadataSlice.mk 29 0 373) 54,
  StaticMetadata.mk (StaticMetadataSlice.mk 93 10 1165) (StaticMetadataSlice.mk 29 0 373) 55,
  StaticMetadata.mk (StaticMetadataSlice.mk 94 25 1175) (StaticMetadataSlice.mk 29 0 373) 56,
  StaticMetadata.mk (StaticMetadataSlice.mk 95 17 1200) (StaticMetadataSlice.mk 29 0 373) 57,
  StaticMetadata.mk (StaticMetadataSlice.mk 19 10 268) (StaticMetadataSlice.mk 29 0 373) 58,
  StaticMetadata.mk (StaticMetadataSlice.mk 96 4 1217) (StaticMetadataSlice.mk 29 0 373) 59,
  StaticMetadata.mk (StaticMetadataSlice.mk 97 3 1221) (StaticMetadataSlice.mk 29 0 373) 60,
  StaticMetadata.mk (StaticMetadataSlice.mk 98 16 1224) (StaticMetadataSlice.mk 29 0 373) 61,
  StaticMetadata.mk (StaticMetadataSlice.mk 7 11 50) (StaticMetadataSlice.mk 99 1 1240) 62,
  StaticMetadata.mk (StaticMetadataSlice.mk 7 11 50) (StaticMetadataSlice.mk 25 1 369) 63,
  StaticMetadata.mk (StaticMetadataSlice.mk 7 11 50) (StaticMetadataSlice.mk 26 1 370) 64,
  StaticMetadata.mk (StaticMetadataSlice.mk 9 13 77) (StaticMetadataSlice.mk 100 8 1241) 65,
  StaticMetadata.mk (StaticMetadataSlice.mk 9 13 77) (StaticMetadataSlice.mk 39 4 681) 66,
  StaticMetadata.mk (StaticMetadataSlice.mk 9 13 77) (StaticMetadataSlice.mk 38 7 674) 67,
  StaticMetadata.mk (StaticMetadataSlice.mk 9 13 77) (StaticMetadataSlice.mk 40 4 685) 68,
  StaticMetadata.mk (StaticMetadataSlice.mk 5 2 36) (StaticMetadataSlice.mk 101 8 1249) 69,
  StaticMetadata.mk (StaticMetadataSlice.mk 14 12 158) (StaticMetadataSlice.mk 102 16 1257) 70,
  StaticMetadata.mk (StaticMetadataSlice.mk 4 7 29) (StaticMetadataSlice.mk 103 4 1273) 71,
  StaticMetadata.mk (StaticMetadataSlice.mk 1 7 5) (StaticMetadataSlice.mk 104 3 1277) 72,
  StaticMetadata.mk (StaticMetadataSlice.mk 16 15 186) (StaticMetadataSlice.mk 29 0 373) 73,
  StaticMetadata.mk (StaticMetadataSlice.mk 15 16 170) (StaticMetadataSlice.mk 100 8 1241) 74,
  StaticMetadata.mk (StaticMetadataSlice.mk 15 16 170) (StaticMetadataSlice.mk 39 4 681) 75,
  StaticMetadata.mk (StaticMetadataSlice.mk 15 16 170) (StaticMetadataSlice.mk 40 4 685) 76,
  StaticMetadata.mk (StaticMetadataSlice.mk 105 11 1280) (StaticMetadataSlice.mk 29 0 373) 77,
  StaticMetadata.mk (StaticMetadataSlice.mk 10 20 90) (StaticMetadataSlice.mk 100 8 1241) 78,
  StaticMetadata.mk (StaticMetadataSlice.mk 10 20 90) (StaticMetadataSlice.mk 38 7 674) 79,
  StaticMetadata.mk (StaticMetadataSlice.mk 10 20 90) (StaticMetadataSlice.mk 106 16 1291) 80,
  StaticMetadata.mk (StaticMetadataSlice.mk 10 20 90) (StaticMetadataSlice.mk 39 4 681) 81,
  StaticMetadata.mk (StaticMetadataSlice.mk 10 20 90) (StaticMetadataSlice.mk 107 13 1307) 82,
  StaticMetadata.mk (StaticMetadataSlice.mk 10 20 90) (StaticMetadataSlice.mk 108 12 1320) 83,
  StaticMetadata.mk (StaticMetadataSlice.mk 10 20 90) (StaticMetadataSlice.mk 109 21 1332) 84,
  StaticMetadata.mk (StaticMetadataSlice.mk 10 20 90) (StaticMetadataSlice.mk 40 4 685) 85,
  StaticMetadata.mk (StaticMetadataSlice.mk 10 20 90) (StaticMetadataSlice.mk 110 13 1353) 86,
  StaticMetadata.mk (StaticMetadataSlice.mk 10 20 90) (StaticMetadataSlice.mk 111 12 1366) 87,
  StaticMetadata.mk (StaticMetadataSlice.mk 10 20 90) (StaticMetadataSlice.mk 112 21 1378) 88,
  StaticMetadata.mk (StaticMetadataSlice.mk 10 20 90) (StaticMetadataSlice.mk 113 9 1399) 89,
  StaticMetadata.mk (StaticMetadataSlice.mk 10 20 90) (StaticMetadataSlice.mk 114 18 1408) 90,
  StaticMetadata.mk (StaticMetadataSlice.mk 10 20 90) (StaticMetadataSlice.mk 115 17 1426) 91,
  StaticMetadata.mk (StaticMetadataSlice.mk 10 20 90) (StaticMetadataSlice.mk 116 26 1443) 92,
  StaticMetadata.mk (StaticMetadataSlice.mk 16 15 186) (StaticMetadataSlice.mk 100 8 1241) 93,
  StaticMetadata.mk (StaticMetadataSlice.mk 16 15 186) (StaticMetadataSlice.mk 39 4 681) 94,
  StaticMetadata.mk (StaticMetadataSlice.mk 16 15 186) (StaticMetadataSlice.mk 107 13 1307) 95,
  StaticMetadata.mk (StaticMetadataSlice.mk 16 15 186) (StaticMetadataSlice.mk 110 13 1353) 96,
  StaticMetadata.mk (StaticMetadataSlice.mk 16 15 186) (StaticMetadataSlice.mk 113 9 1399) 97,
  StaticMetadata.mk (StaticMetadataSlice.mk 16 15 186) (StaticMetadataSlice.mk 114 18 1408) 98]

/-- The table `StaticMetadataCtx::static_mdelem_manifested`: entry `i` is
`GRPC_MAKE_MDELEM(&static_mdelem_table[n].data(), GRPC_MDELEM_STORAGE_STATIC)` and is kept here
as the table index `n`. -/
def static_mdelem_manifested : List Nat := [
  0, 1, 2, 3, 4, 5, 6, 7, 8, 9, 10, 11, 12, 13, 14, 15, 16, 17, 18, 19, 20, 21, 22, 23, 24, 25,
  26, 27, 28, 29, 30, 31, 32, 33, 34, 35, 36, 37, 38, 39, 40, 41, 42, 43, 44, 45, 46, 47, 48, 49,
  50, 51, 52, 53, 54, 55, 56, 57, 58, 59, 60, 61, 62, 63, 64, 65, 66, 67, 68, 69, 70, 71, 72, 73,
  74, 75, 76, 77, 78, 79, 80, 81, 82, 83, 84, 85, 86, 87, 88, 89, 90, 91, 92, 93, 94, 95, 96, 97,
  98]

/-- The table `grpc_static_mdelem_user_data`. -/
def grpc_static_mdelem_user_data : List Nat := [
  0, 0, 0, 0, 0, 0, 0, 0, 0, 0, 0, 0, 0, 0, 0, 0, 6, 0, 0, 0, 0, 0, 0, 0, 0, 0, 0, 0, 0, 0, 0, 0,
  0, 0, 0, 0, 0, 0, 0, 0, 0, 0, 0, 0, 0, 0, 0, 0, 0, 0, 0, 0, 0, 0, 0, 0, 0, 0, 0, 0, 0, 0, 0, 0,
  0, 0, 0, 0, 0, 0, 0, 0, 0, 0, 0, 0, 0, 0, 2, 4, 4, 6, 6, 8, 8, 10, 10, 12, 12, 14, 14, 16, 16,
  2, 4, 4, 6, 8, 8]

/-- The displacement table `elems_r` (`int8_t`). -/
def elems_r : List Int := [
  32, 21, 1, 33, 1, -50, 0, 7, 0, -45, -14, -4, 0, 0, -26, -25, -33, -16, 0, -55, -60, 0, 0, 0,
  0, 0, 0, 0, 0, 0, 0, 0, 0, 0, 0, 0, 0, 0, 0, 0, 0, 0, 0, 0, 0, 0, 0, 0, 0, 0, 0, 0, 0, 0, 0, 0,
  0, 0, -53, 0, -64, 0, 64, 37, 33, 28, 60, 17, 31, 6, 1, -4, -9, -10, -15, -20, -24, -29, -34,
  -39, 0, 68, 63, 59, 54, 50, 45, 40, 35, 30, 25, 20, 16, 11, 7, 2, -2, -7, -12, -17, 0, 89, 84,
  79, 0, 0, 0, 0, 0, 0, 38]

/-- The function `elems_phash` on `uint32_t`; `none` stands for a read outside `elems_r`. -/
def elems_phash (i : Nat) : Option Nat :=
  let i := (i + 2 ^ 32 - 45) % 2 ^ 32
  let x := i % 111
  let y := i / 111
  if y < elems_r.length then
    match elems_r[y]? with
    | some delta => some ((x + (delta % 2 ^ 32).toNat) % 2 ^ 32)
    | none => none
  else some x

/-- The table `elem_keys` (`uint16_t`). -/
def elem_keys : List Nat := [
  1270, 1855, 1091, 1092, 1093, 1740, 1276, 1277, 1278, 1279, 1280, 1281, 1282, 1283, 1284, 1285,
  1286, 283, 284, 285, 286, 287, 288, 289, 1972, 160, 161, 515, 516, 844, 845, 1979, 45, 46,
  1982, 380, 686, 1985, 1986, 1208, 1209, 1210, 1667, 2252, 2369, 6581, 6815, 1901, 7049, 1784,
  7166, 7283, 7517, 7751, 7868, 7985, 8102, 1911, 1912, 1794, 1795, 8219, 8336, 8453, 1153, 8570,
  8687, 8804, 8921, 6932, 9038, 9155, 7634, 9272, 9389, 1929, 9506, 9623, 9740, 9857, 9974,
  10091, 10208, 571, 10325, 10442, 221, 10559, 10676, 7400, 10793, 10910, 11027, 11144, 11261,
  11378, 11495, 12314, 0, 0, 0, 0, 0, 918]

/-- The table `elem_idxs` (`uint8_t`). -/
def elem_idxs : List Nat := [
  78, 74, 67, 66, 68, 70, 80, 82, 83, 84, 86, 87, 88, 89, 90, 91, 92, 7, 8, 9, 10, 11, 12, 13,
  93, 1, 2, 5, 6, 63, 64, 95, 3, 4, 96, 0, 69, 97, 98, 79, 81, 85, 31, 58, 38, 14, 17, 73, 19,
  26, 20, 21, 23, 25, 27, 28, 29, 94, 16, 75, 76, 30, 32, 33, 65, 34, 35, 36, 37, 18, 39, 40, 24,
  41, 42, 15, 43, 44, 45, 46, 47, 48, 49, 71, 50, 51, 72, 52, 53, 22, 54, 55, 56, 57, 59, 60, 61,
  77, 255, 255, 255, 255, 255, 62]

/-- A `grpc_mdelem` as far as the static lookup goes: `GRPC_MDNULL`, or the static element at
an index of the static element table. -/
inductive grpc_mdelem where
  | GRPC_MDNULL
  | static (i : Nat)
deriving DecidableEq, Repr

/-- The function `grpc_static_mdelem_for_static_strings`; `k` is `a * 117 + b` cut to
`uint32_t`, the three tests of the conditional are taken from left to right, and `none` stands
for a read outside a table. -/
def grpc_static_mdelem_for_static_strings (a b : Int) : Option grpc_mdelem :=
  if a = -1 ∨ b = -1 then some grpc_mdelem.GRPC_MDNULL
  else
    let k := ((a * 117 + b) % 2 ^ 32).toNat
    match elems_phash k with
    | none => none
    | some h =>
      if h < elem_keys.length then
        match elem_keys[h]? with
        | none => none
        | some key =>
          if key = k then
            match elem_idxs[h]? with
            | none => none
            | some idx =>
              if idx ≠ 255 then
                if idx < static_mdelem_table.length then some (grpc_mdelem.static idx) else none
              else some grpc_mdelem.GRPC_MDNULL
          else some grpc_mdelem.GRPC_MDNULL
      else some grpc_mdelem.GRPC_MDNULL

/-- The table `grpc_static_accept_encoding_metadata`. -/
def grpc_static_accept_encoding_metadata : List Nat := [
  0, 78, 79, 80, 81, 82, 83, 84, 85, 86, 87, 88, 89, 90, 91, 92]

/-- The table `grpc_static_accept_stream_encoding_metadata`. -/
def grpc_static_accept_stream_encoding_metadata : List Nat := [
  0, 93, 94, 95, 16, 96, 97, 98]

/-! ## What the static tables are compared with -/

/-- The header name and header value of an entry of the static element table, as bytes. -/
def StaticMetadata.pair (e : StaticMetadata) : List Nat × List Nat := (e.key.bytes, e.value.bytes)

/-- The static table of HPACK (RFC 7541, Appendix A), entries 1 to 61 in order, as pairs of
header name and header value. -/
def hpack_static_table : List (String × String) := [
  (":authority", ""), (":method", "GET"), (":method", "POST"), (":path", "/"),
  (":path", "/index.html"), (":scheme", "http"), (":scheme", "https"), (":status", "200"),
  (":status", "204"), (":status", "206"), (":status", "304"), (":status", "400"),
  (":status", "404"), (":status", "500"), ("accept-charset", ""),
  ("accept-encoding", "gzip, deflate"), ("accept-language", ""), ("accept-ranges", ""),
  ("accept", ""), ("access-control-allow-origin", ""), ("age", ""), ("allow", ""),
  ("authorization", ""), ("cache-control", ""), ("content-disposition", ""),
  ("content-encoding", ""), ("content-language", ""), ("content-length", ""),
  ("content-location", ""), ("content-range", ""), ("content-type", ""), ("cookie", ""),
  ("date", ""), ("etag", ""), ("expect", ""), ("expires", ""), ("from", ""), ("host", ""),
  ("if-match", ""), ("if-modified-since", ""), ("if-none-match", ""), ("if-range", ""),
  ("if-unmodified-since", ""), ("last-modified", ""), ("link", ""), ("location", ""),
  ("max-forwards", ""), ("proxy-authenticate", ""), ("proxy-authorization", ""), ("range", ""),
  ("referer", ""), ("refresh", ""), ("retry-after", ""), ("server", ""), ("set-cookie", ""),
  ("strict-transport-security", ""), ("transfer-encoding", ""), ("user-agent", ""),
  ("vary", ""), ("via", ""), ("www-authenticate", "")]

/-- The bytes of a pair of ASCII strings. -/
def asciiPair (p : String × String) : List Nat × List Nat := (MessageCompress.ascii p.1, MessageCompress.ascii p.2)

/-- Byte strings joined by commas (byte 44), without spaces. -/
def joinNames : List (List Nat) → List Nat
  | [] => []
  | [n] => n
  | n :: m :: rest => n ++ 44 :: joinNames (m :: rest)

/-- The comma-separated list of the names whose bit is set in the mask `m`, bit `i` standing
for the `i`-th name, in bit order. -/
def namesOfMask (names : List String) (m : Nat) : List Nat :=
  joinNames ((names.enum.filter fun p => m.testBit p.1).map fun p => MessageCompress.ascii p.2)

end StaticMetadataCtx

namespace MessageCompress

/-! ## State invariants of the loops -/

section Invariants

variable {σ τ : Type}

theorem zlib_drain_inv (flate : FlateFn σ) (fn : Flate) (flush : Int) (P : ZBody σ → Prop)
    (hgrow : ∀ s, P s → P (zlib_grow s))
    (hcall : ∀ s, P s → P (zlib_call flate fn flush s).2) :
    ∀ (fuel : Nat) (s : ZBody σ), P s → P (zlib_drain flate fn flush fuel s).2 := by
  intro fuel
  induction fuel with
  | zero => intro s hs; simpa [zlib_drain] using hs
  | succ n ih =>
    intro s hs
    have h1 := hcall _ (hgrow s hs)
    simp only [zlib_drain]
    split_ifs
    · exact h1
    · exact ih _ h1
    · exact h1

theorem zlib_loop_inv (flate : FlateFn σ) (fn : Flate) (fuel : Nat) (P : ZBody σ → Prop)
    (hgrow : ∀ s, P s → P (zlib_grow s))
    (hcall : ∀ flush s, P s → P (zlib_call flate fn flush s).2)
    (hnext : ∀ s slice, P s → P { s with next_in := slice }) :
    ∀ (slices : List grpc_slice) (flush : Int) (s : ZBody σ), P s →
      P (zlib_loop flate fn fuel slices flush s).2 := by
  intro slices
  induction slices with
  | nil => intro flush s hs; simpa [zlib_loop] using hs
  | cons slice rest ih =>
    intro flush s hs
    simp only [zlib_loop]
    generalize (if rest = [] then Z_FINISH else flush) = fl
    by_cases hlen : uint_max < slice.length
    · simpa [hlen] using hs
    · have hd := zlib_drain_inv flate fn fl P hgrow (hcall fl) fuel _ (hnext s slice hs)
      simp only [hlen, if_false]
      rcases hdr : zlib_drain flate fn fl fuel { s with next_in := slice } with ⟨f, s1⟩
      rw [hdr] at hd
      cases f
      · by_cases hin : s1.next_in.length ≠ 0
        · simpa [hin] using hd
        · simpa [hin] using ih fl s1 hd
      all_goals exact hd

theorem zstd_flush_inv (zstd : Zstd τ) (P : ZstdVars τ → Prop)
    (hgrow : ∀ s, P s → P (zstd_grow s))
    (hcall : ∀ s, P s → P (zstd_compress_call zstd ZSTD_e_flush s).2) :
    ∀ (fuel : Nat) (s : ZstdVars τ), P s → P (zstd_flush zstd fuel s).2 := by
  intro fuel
  induction fuel with
  | zero => intro s hs; simpa [zstd_flush] using hs
  | succ n ih =>
    intro s hs
    have h1 := hcall _ (hgrow s hs)
    simp only [zstd_flush]
    split_ifs
    · exact h1
    · exact h1
    · exact ih _ h1

theorem zstd_compress_loop_inv (zstd : Zstd τ) (fuel : Nat) (P : ZstdVars τ → Prop)
    (hgrow : ∀ s, P s → P (zstd_grow s))
    (hcall : ∀ d s, P s → P (zstd_compress_call zstd d s).2)
    (hnext : ∀ s slice, P s → P { s with src := slice }) :
    ∀ (slices : List grpc_slice) (s : ZstdVars τ), P s →
      P (zstd_compress_loop zstd fuel slices s).2 := by
  intro slices
  induction slices with
  | nil => intro s hs; simpa [zstd_compress_loop] using hs
  | cons slice rest ih =>
    intro s hs
    simp only [zstd_compress_loop]
    by_cases hlen : uint_max < slice.length
    · simpa [hlen] using hs
    · have hc := hcall ZSTD_e_continue _ (hnext s slice hs)
      simp only [hlen, if_false]
      by_cases herr :
          zstd.ZSTD_isError (zstd_compress_call zstd ZSTD_e_continue { s with src := slice }).1 > 0
      · simpa [herr] using hc
      · have hd := zstd_flush_inv zstd P hgrow (hcall ZSTD_e_flush) fuel _ hc
        simp only [herr, if_false]
        rcases hdr : zstd_flush zstd fuel
          (zstd_compress_call zstd ZSTD_e_continue { s with src := slice }).2 with ⟨f, s2⟩
        rw [hdr] at hd
        cases f
        · by_cases hin : s2.src.length ≠ 0
          · simpa [hin] using hd
          · simpa [hin] using ih s2 hd
        all_goals exact hd

theorem zstd_drain_inv (zstd : Zstd τ) (P : ZstdVars τ → Prop)
    (hgrow : ∀ s, P s → P (zstd_grow s))
    (hcall : ∀ s, P s → P (zstd_decompress_call zstd s).2) :
    ∀ (fuel : Nat) (s : ZstdVars τ), P s → P (zstd_drain zstd fuel s).2 := by
  intro fuel
  induction fuel with
  | zero => intro s hs; simpa [zstd_drain] using hs
  | succ n ih =>
    intro s hs
    have h1 := hcall _ (hgrow s hs)
    simp only [zstd_drain]
    split_ifs
    · exact h1
    · exact h1
    · exact ih _ h1

theorem zstd_decompress_loop_inv (zstd : Zstd τ) (fuel : Nat) (P : ZstdVars τ → Prop)
    (hgrow : ∀ s, P s → P (zstd_grow s))
    (hcall : ∀ s, P s → P (zstd_decompress_call zstd s).2)
    (hnext : ∀ s slice, P s → P { s with src := slice }) :
    ∀ (slices : List grpc_slice) (s : ZstdVars τ), P s →
      P (zstd_decompress_loop zstd fuel slices s).2 := by
  intro slices
  induction slices with
  | nil => intro s hs; simpa [zstd_decompress_loop] using hs
  | cons slice rest ih =>
    intro s hs
    simp only [zstd_decompress_loop]
    by_cases hlen : uint_max < slice.length
    · simpa [hlen] using hs
    · have hd := zstd_drain_inv zstd P hgrow hcall fuel _ (hnext s slice hs)
      simp only [hlen, if_false]
      rcases hdr : zstd_drain zstd fuel { s with src := slice } with ⟨f, s1⟩
      rw [hdr] at hd
      cases f
      · by_cases hin : s1.src.length ≠ 0
        · simpa [hin] using hd
        · simpa [hin] using ih s1 hd
      all_goals exact hd

end Invariants

/-! ## The loops only append to the output -/

section Append

variable {σ τ : Type}

theorem rollback_of_extends {a b : grpc_slice_buffer} (h : a.slices <+: b.slices) :
    rollback b a.count a.length = a := by
  obtain ⟨t, ht⟩ := h
  cases a
  simp [rollback, grpc_slice_buffer.count, ← ht]

theorem add_indexed_extends (a : grpc_slice_buffer) (s : grpc_slice) :
    a.slices <+: (grpc_slice_buffer_add_indexed a s).slices :=
  List.prefix_append _ _

theorem zlib_grow_extends (s : ZBody σ) : s.output.slices <+: (zlib_grow s).output.slices := by
  unfold zlib_grow
  split_ifs
  · exact add_indexed_extends _ _
  · exact List.prefix_refl _

theorem zstd_grow_extends (s : ZstdVars τ) : s.output.slices <+: (zstd_grow s).output.slices := by
  unfold zstd_grow
  split_ifs
  · exact add_indexed_extends _ _
  · exact List.prefix_refl _

theorem zlib_loop_extends (flate : FlateFn σ) (fn : Flate) (fuel : Nat)
    (slices : List grpc_slice) (flush : Int) (s : ZBody σ) :
    s.output.slices <+: (zlib_loop flate fn fuel slices flush s).2.output.slices :=
  zlib_loop_inv flate fn fuel (fun t => s.output.slices <+: t.output.slices)
    (fun t ht => ht.trans (zlib_grow_extends t)) (fun _ _ ht => ht) (fun _ _ ht => ht)
    slices flush s (List.prefix_refl _)

theorem zlib_body_extends (flate : FlateFn σ) (fn : Flate) (fuel : Nat) (zs : σ)
    (input output : grpc_slice_buffer) (log : List Call) :
    output.slices <+: (zlib_body flate fn fuel zs input output log).2.output.slices := by
  have h := zlib_loop_extends flate fn fuel input.slices Z_NO_FLUSH
    { zs := zs, next_in := [], outbuf := [], output := output, log := log }
  unfold zlib_body
  rcases hl : zlib_loop flate fn fuel input.slices Z_NO_FLUSH
    { zs := zs, next_in := [], outbuf := [], output := output, log := log } with ⟨f, s1⟩
  rw [hl] at h
  cases f
  · exact h.trans (add_indexed_extends _ _)
  all_goals exact h

theorem zstd_compress_loop_extends (zstd : Zstd τ) (fuel : Nat) (slices : List grpc_slice)
    (s : ZstdVars τ) :
    s.output.slices <+: (zstd_compress_loop zstd fuel slices s).2.output.slices :=
  zstd_compress_loop_inv zstd fuel (fun t => s.output.slices <+: t.output.slices)
    (fun t ht => ht.trans (zstd_grow_extends t)) (fun _ _ ht => ht) (fun _ _ ht => ht)
    slices s (List.prefix_refl _)

theorem zstd_decompress_loop_extends (zstd : Zstd τ) (fuel : Nat) (slices : List grpc_slice)
    (s : ZstdVars τ) :
    s.output.slices <+: (zstd_decompress_loop zstd fuel slices s).2.output.slices :=
  zstd_decompress_loop_inv zstd fuel (fun t => s.output.slices <+: t.output.slices)
    (fun t ht => ht.trans (zstd_grow_extends t)) (fun _ ht => ht) (fun _ _ ht => ht)
    slices s (List.prefix_refl _)

end Append

/-! ## A run that returns 0 leaves the output as it was -/

section Rollback

variable {σ τ : Type}

theorem zlib_compress_zero (zlib : Zlib σ) (fuel : Nat) (input output : grpc_slice_buffer)
    (gzip : Int) (h : (zlib_compress zlib fuel input output gzip).exit = Exit.returned 0) :
    (zlib_compress zlib fuel input output gzip).output = output := by
  unfold zlib_compress at h ⊢
  rcases hinit : zlib.deflateInit2 Z_DEFAULT_COMPRESSION Z_DEFLATED (windowBits gzip) 8
    Z_DEFAULT_STRATEGY with ⟨r, zs⟩
  simp only [hinit] at h ⊢
  by_cases hr : r ≠ Z_OK
  · simp [hr] at h
  · simp only [hr, if_false] at h ⊢
    have hp := zlib_body_extends zlib.deflate Flate.deflate fuel zs input output
      [Call.deflateInit2 (windowBits gzip) r]
    rcases hb : zlib_body zlib.deflate Flate.deflate fuel zs input output
      [Call.deflateInit2 (windowBits gzip) r] with ⟨e, s⟩
    rw [hb] at hp
    simp only [hb] at h ⊢
    cases e with
    | returned b =>
      by_cases hc : b ≠ 0 ∧ s.output.length < input.length
      · simp [hc] at h
      · simp only [hc, if_false]
        exact rollback_of_extends hp
    | aborted => simp at h
    | unfinished => simp at h

theorem zlib_decompress_zero (zlib : Zlib σ) (fuel : Nat) (input output : grpc_slice_buffer)
    (gzip : Int) (h : (zlib_decompress zlib fuel input output gzip).exit = Exit.returned 0) :
    (zlib_decompress zlib fuel input output gzip).output = output := by
  unfold zlib_decompress at h ⊢
  rcases hinit : zlib.inflateInit2 (windowBits gzip) with ⟨r, zs⟩
  simp only [hinit] at h ⊢
  by_cases hr : r ≠ Z_OK
  · simp [hr] at h
  · simp only [hr, if_false] at h ⊢
    have hp := zlib_body_extends zlib.inflate Flate.inflate fuel zs input output
      [Call.inflateInit2 (windowBits gzip) r]
    rcases hb : zlib_body zlib.inflate Flate.inflate fuel zs input output
      [Call.inflateInit2 (windowBits gzip) r] with ⟨e, s⟩
    rw [hb] at hp
    simp only [hb] at h ⊢
    cases e with
    | returned b =>
      by_cases hc : b ≠ 0
      · simp [hc] at h
      · simp only [hc, if_false]
        exact rollback_of_extends hp
    | aborted => simp at h
    | unfinished => simp at h

theorem zstd_compress_error2_output (zstd : Zstd τ) (s : ZstdVars τ) (output : grpc_slice_buffer)
    (hp : output.slices <+: s.output.slices) :
    (zstd_compress_error2 zstd s output.count output.length).output = output := by
  unfold zstd_compress_error2
  exact rollback_of_extends hp

theorem zstd_decompress_error2_output (zstd : Zstd τ) (s : ZstdVars τ)
    (output : grpc_slice_buffer) (hp : output.slices <+: s.output.slices) :
    (zstd_decompress_error2 zstd s output.count output.length).output = output := by
  unfold zstd_decompress_error2
  exact rollback_of_extends hp

theorem zstd_compress_zero (zstd : Zstd τ) (fuel : Nat) (input output : grpc_slice_buffer)
    (h : (zstd_compress zstd fuel input output).exit = Exit.returned 0) :
    (zstd_compress zstd fuel input output).output = output := by
  unfold zstd_compress at h ⊢
  rcases hinit : zstd.ZSTD_initCStream zstd.ZSTD_createCStream 5 with ⟨err, p⟩
  simp only [hinit] at h ⊢
  by_cases he : zstd.ZSTD_isError err > 0
  · simp only [he, if_true]
    exact zstd_compress_error2_output zstd _ output (List.prefix_refl _)
  · simp only [he, if_false] at h ⊢
    have hp := zstd_compress_loop_extends zstd fuel input.slices
      { pStream := p, src := [], outbuf := [], output := output,
        log := [Call.ZSTD_createCStream, Call.ZSTD_initCStream 5 err] }
    rcases hl : zstd_compress_loop zstd fuel input.slices
      { pStream := p, src := [], outbuf := [], output := output,
        log := [Call.ZSTD_createCStream, Call.ZSTD_initCStream 5 err] } with ⟨f, s⟩
    rw [hl] at hp
    simp only [hl] at h ⊢
    cases f with
    | done =>
      simp only at h ⊢
      split_ifs at h ⊢
      · exact zstd_compress_error2_output zstd _ output hp
      · exact zstd_compress_error2_output zstd _ output (hp.trans (add_indexed_extends _ _))
      · simp at h
    | error => exact zstd_compress_error2_output zstd _ output hp
    | aborted => simp at h
    | unfinished => simp at h

theorem zstd_decompress_zero (zstd : Zstd τ) (fuel : Nat) (input output : grpc_slice_buffer)
    (h : (zstd_decompress zstd fuel input output).exit = Exit.returned 0) :
    (zstd_decompress zstd fuel input output).output = output := by
  unfold zstd_decompress at h ⊢
  rcases hinit : zstd.ZSTD_initDStream zstd.ZSTD_createDStream with ⟨err, p⟩
  simp only [hinit] at h ⊢
  by_cases he : zstd.ZSTD_isError err > 0
  · simp only [he, if_true]
    exact zstd_decompress_error2_output zstd _ output (List.prefix_refl _)
  · simp only [he, if_false] at h ⊢
    have hp := zstd_decompress_loop_extends zstd fuel input.slices
      { pStream := p, src := [], outbuf := [], output := output,
        log := [Call.ZSTD_createDStream, Call.ZSTD_initDStream err] }
    rcases hl : zstd_decompress_loop zstd fuel input.slices
      { pStream := p, src := [], outbuf := [], output := output,
        log := [Call.ZSTD_createDStream, Call.ZSTD_initDStream err] } with ⟨f, s⟩
    rw [hl] at hp
    simp only [hl] at h ⊢
    cases f with
    | done =>
      simp only at h ⊢
      split_ifs at h ⊢
      · exact zstd_decompress_error2_output zstd _ output (hp.trans (add_indexed_extends _ _))
      · simp at h
    | error => exact zstd_decompress_error2_output zstd _ output hp
    | aborted => simp at h
    | unfinished => simp at h

theorem copy_foldl (slices : List grpc_slice) (output : grpc_slice_buffer) :
    slices.foldl grpc_slice_buffer_add output =
      { slices := output.slices ++ slices,
        length := output.length + (slices.map List.length).sum } := by
  induction slices generalizing output with
  | nil => simp
  | cons a rest ih =>
    simp only [List.foldl_cons, ih, grpc_slice_buffer_add, List.map_cons, List.sum_cons]
    simp [Nat.add_assoc]

theorem copy_output (input output : grpc_slice_buffer) :
    (copy input output).2 =
      { slices := output.slices ++ input.slices, length := output.length + input.byteLength } :=
  copy_foldl input.slices output

theorem copy_bytes (input output : grpc_slice_buffer) :
    (copy input output).2.bytes = output.bytes ++ input.bytes := by
  simp [copy_output, grpc_slice_buffer.bytes]

end Rollback



/-! ## A non-recoverable status ends the run with 0 -/

section Fatal

variable {σ τ : Type}

theorem noFatal_append {isError : Nat → Nat} {l : List Call} (c : Call) (hl : NoFatal isError l)
    (hc : c.fatal isError = false) : NoFatal isError (l ++ [c]) := by
  intro d hd
  rcases List.mem_append.1 hd with h | h
  · exact hl d h
  · rw [List.mem_singleton.1 h]; exact hc

theorem zlib_grow_log (s : ZBody σ) : (zlib_grow s).log = s.log := by
  unfold zlib_grow
  split_ifs <;> rfl

theorem zstd_grow_log (s : ZstdVars τ) : (zstd_grow s).log = s.log := by
  unfold zstd_grow
  split_ifs <;> rfl

theorem zlib_call_noFatal (isError : Nat → Nat) (flate : FlateFn σ) (fn : Flate) (flush : Int)
    (s : ZBody σ) (hs : NoFatal isError s.log)
    (hr : ¬((zlib_call flate fn flush s).1 < 0 ∧ (zlib_call flate fn flush s).1 ≠ Z_BUF_ERROR)) :
    NoFatal isError (zlib_call flate fn flush s).2.log := by
  refine noFatal_append _ hs ?_
  simpa [Call.fatal, zlib_call] using hr

theorem zlib_drain_noFatal (isError : Nat → Nat) (flate : FlateFn σ) (fn : Flate)
    (flush : Int) : ∀ (fuel : Nat) (s : ZBody σ), NoFatal isError s.log →
      (zlib_drain flate fn flush fuel s).1 ≠ Flow.error →
      NoFatal isError (zlib_drain flate fn flush fuel s).2.log := by
  intro fuel
  induction fuel with
  | zero => intro s hs _; simpa [zlib_drain] using hs
  | succ n ih =>
    intro s hs hne
    have hg : NoFatal isError (zlib_grow s).log := by rw [zlib_grow_log]; exact hs
    simp only [zlib_drain] at hne ⊢
    by_cases hr : (zlib_call flate fn flush (zlib_grow s)).1 < 0 ∧
        (zlib_call flate fn flush (zlib_grow s)).1 ≠ Z_BUF_ERROR
    · simp [hr] at hne
    · have h1 := zlib_call_noFatal isError flate fn flush _ hg hr
      simp only [hr, if_false] at hne ⊢
      split_ifs at hne ⊢
      · exact ih _ h1 hne
      · exact h1

theorem zlib_loop_noFatal (isError : Nat → Nat) (flate : FlateFn σ) (fn : Flate) (fuel : Nat) :
    ∀ (slices : List grpc_slice) (flush : Int) (s : ZBody σ), NoFatal isError s.log →
      (zlib_loop flate fn fuel slices flush s).1 ≠ Flow.error →
      NoFatal isError (zlib_loop flate fn fuel slices flush s).2.log := by
  intro slices
  induction slices with
  | nil => intro flush s hs _; simpa [zlib_loop] using hs
  | cons slice rest ih =>
    intro flush s hs hne
    simp only [zlib_loop] at hne ⊢
    generalize (if rest = [] then Z_FINISH else flush) = fl at hne ⊢
    by_cases hlen : uint_max < slice.length
    · simpa [hlen] using hs
    · have hd := zlib_drain_noFatal isError flate fn fl fuel { s with next_in := slice } hs
      simp only [hlen, if_false] at hne ⊢
      rcases hdr : zlib_drain flate fn fl fuel { s with next_in := slice } with ⟨f, s1⟩
      rw [hdr] at hd hne
      cases f
      · by_cases hin : s1.next_in.length ≠ 0
        · simp [hin] at hne
        · simp only [hin, if_false] at hne ⊢
          exact ih fl s1 (hd (by simp)) hne
      · simp at hne
      · exact hd (by simp)
      · exact hd (by simp)

theorem zlib_body_noFatal (isError : Nat → Nat) (flate : FlateFn σ) (fn : Flate) (fuel : Nat)
    (zs : σ) (input output : grpc_slice_buffer) (log : List Call) (hlog : NoFatal isError log)
    (hne : (zlib_body flate fn fuel zs input output log).1 ≠ Exit.returned 0) :
    NoFatal isError (zlib_body flate fn fuel zs input output log).2.log := by
  have h := zlib_loop_noFatal isError flate fn fuel input.slices Z_NO_FLUSH
    { zs := zs, next_in := [], outbuf := [], output := output, log := log } hlog
  unfold zlib_body at hne ⊢
  rcases hl : zlib_loop flate fn fuel input.slices Z_NO_FLUSH
    { zs := zs, next_in := [], outbuf := [], output := output, log := log } with ⟨f, s1⟩
  rw [hl] at h hne
  cases f
  · exact h (by simp)
  · simp at hne
  · exact h (by simp)
  · exact h (by simp)

theorem zlib_decompress_noFatal (isError : Nat → Nat) (zlib : Zlib σ) (fuel : Nat)
    (input output : grpc_slice_buffer) (gzip : Int)
    (hne : (zlib_decompress zlib fuel input output gzip).exit ≠ Exit.returned 0) :
    NoFatal isError (zlib_decompress zlib fuel input output gzip).log := by
  unfold zlib_decompress at hne ⊢
  rcases hinit : zlib.inflateInit2 (windowBits gzip) with ⟨r, zs⟩
  simp only [hinit] at hne ⊢
  have h0 : NoFatal isError [Call.inflateInit2 (windowBits gzip) r] := by
    intro c hc
    rw [List.mem_singleton.1 hc]
    rfl
  by_cases hr : r ≠ Z_OK
  · simpa [hr] using h0
  · simp only [hr, if_false] at hne ⊢
    have hb := zlib_body_noFatal isError zlib.inflate Flate.inflate fuel zs input output _ h0
    rcases hbr : zlib_body zlib.inflate Flate.inflate fuel zs input output
      [Call.inflateInit2 (windowBits gzip) r] with ⟨e, s⟩
    rw [hbr] at hb
    simp only [hbr] at hne ⊢
    cases e with
    | returned b =>
      by_cases hc : b ≠ 0
      · dsimp only
        rw [if_pos hc]
        refine noFatal_append Call.inflateEnd (hb ?_) rfl
        simpa using hc
      · simp [hc] at hne
    | aborted => exact hb (by simp)
    | unfinished => exact hb (by simp)

theorem zstd_decompress_call_noFatal (zstd : Zstd τ) (s : ZstdVars τ)
    (hs : NoFatal zstd.ZSTD_isError s.log)
    (hr : ¬(zstd.ZSTD_isError (zstd_decompress_call zstd s).1 > 0)) :
    NoFatal zstd.ZSTD_isError (zstd_decompress_call zstd s).2.log := by
  refine noFatal_append _ hs ?_
  simpa [Call.fatal, zstd_decompress_call] using hr

theorem zstd_drain_noFatal (zstd : Zstd τ) : ∀ (fuel : Nat) (s : ZstdVars τ),
    NoFatal zstd.ZSTD_isError s.log → (zstd_drain zstd fuel s).1 ≠ Flow.error →
      NoFatal zstd.ZSTD_isError (zstd_drain zstd fuel s).2.log := by
  intro fuel
  induction fuel with
  | zero => intro s hs _; simpa [zstd_drain] using hs
  | succ n ih =>
    intro s hs hne
    have hg : NoFatal zstd.ZSTD_isError (zstd_grow s).log := by rw [zstd_grow_log]; exact hs
    simp only [zstd_drain] at hne ⊢
    by_cases hr : zstd.ZSTD_isError (zstd_decompress_call zstd (zstd_grow s)).1 > 0
    · simp [hr] at hne
    · have h1 := zstd_decompress_call_noFatal zstd _ hg hr
      simp only [hr, if_false] at hne ⊢
      split_ifs at hne ⊢
      · exact h1
      · exact ih _ h1 hne

theorem zstd_decompress_loop_noFatal (zstd : Zstd τ) (fuel : Nat) :
    ∀ (slices : List grpc_slice) (s : ZstdVars τ), NoFatal zstd.ZSTD_isError s.log →
      (zstd_decompress_loop zstd fuel slices s).1 ≠ Flow.error →
      NoFatal zstd.ZSTD_isError (zstd_decompress_loop zstd fuel slices s).2.log := by
  intro slices
  induction slices with
  | nil => intro s hs _; simpa [zstd_decompress_loop] using hs
  | cons slice rest ih =>
    intro s hs hne
    simp only [zstd_decompress_loop] at hne ⊢
    by_cases hlen : uint_max < slice.length
    · simpa [hlen] using hs
    · have hd := zstd_drain_noFatal zstd fuel { s with src := slice } hs
      simp only [hlen, if_false] at hne ⊢
      rcases hdr : zstd_drain zstd fuel { s with src := slice } with ⟨f, s1⟩
      rw [hdr] at hd hne
      cases f
      · by_cases hin : s1.src.length ≠ 0
        · simp [hin] at hne
        · simp only [hin, if_false] at hne ⊢
          exact ih s1 (hd (by simp)) hne
      · simp at hne
      · exact hd (by simp)
      · exact hd (by simp)

theorem zstd_decompress_error2_exit (zstd : Zstd τ) (s : ZstdVars τ) (n m : Nat) :
    (zstd_decompress_error2 zstd s n m).exit = Exit.returned 0 := rfl

theorem zstd_compress_error2_exit (zstd : Zstd τ) (s : ZstdVars τ) (n m : Nat) :
    (zstd_compress_error2 zstd s n m).exit = Exit.returned 0 := rfl

theorem zstd_decompress_noFatal (zstd : Zstd τ) (fuel : Nat)
    (input output : grpc_slice_buffer)
    (hne : (zstd_decompress zstd fuel input output).exit ≠ Exit.returned 0) :
    NoFatal zstd.ZSTD_isError (zstd_decompress zstd fuel input output).log := by
  unfold zstd_decompress at hne ⊢
  rcases hinit : zstd.ZSTD_initDStream zstd.ZSTD_createDStream with ⟨err, p⟩
  simp only [hinit] at hne ⊢
  have h0 : NoFatal zstd.ZSTD_isError [Call.ZSTD_createDStream, Call.ZSTD_initDStream err] := by
    intro c hc
    simp only [List.mem_cons, List.mem_singleton, List.not_mem_nil, or_false] at hc
    rcases hc with rfl | rfl <;> rfl
  by_cases he : zstd.ZSTD_isError err > 0
  · simp [he, zstd_decompress_error2_exit] at hne
  · simp only [he, if_false] at hne ⊢
    have hl := zstd_decompress_loop_noFatal zstd fuel input.slices
      { pStream := p, src := [], outbuf := [], output := output,
        log := [Call.ZSTD_createDStream, Call.ZSTD_initDStream err] } h0
    rcases hlr : zstd_decompress_loop zstd fuel input.slices
      { pStream := p, src := [], outbuf := [], output := output,
        log := [Call.ZSTD_createDStream, Call.ZSTD_initDStream err] } with ⟨f, s⟩
    rw [hlr] at hl
    simp only [hlr] at hne ⊢
    cases f with
    | done =>
      simp only at hne ⊢
      split_ifs at hne ⊢
      · simp [zstd_decompress_error2_exit] at hne
      · exact noFatal_append (Call.ZSTD_freeDStream _) (hl (by simp)) rfl
    | error => simp [zstd_decompress_error2_exit] at hne
    | aborted => exact hl (by simp)
    | unfinished => exact hl (by simp)

end Fatal

/-! ## A run that succeeds has consumed the whole input -/

section Read

variable {σ τ : Type}

theorem readOf_append (l : List Call) (c : Call) : readOf (l ++ [c]) = readOf l ++ c.read := by
  simp [readOf]

theorem zlib_grow_next_in (s : ZBody σ) : (zlib_grow s).next_in = s.next_in := by
  unfold zlib_grow
  split_ifs <;> rfl

theorem zstd_grow_src (s : ZstdVars τ) : (zstd_grow s).src = s.src := by
  unfold zstd_grow
  split_ifs <;> rfl

theorem zlib_call_read (flate : FlateFn σ) (fn : Flate) (flush : Int) (s : ZBody σ) :
    readOf (zlib_call flate fn flush s).2.log ++ (zlib_call flate fn flush s).2.next_in =
      readOf s.log ++ s.next_in := by
  simp only [zlib_call, readOf_append, Call.read, List.append_assoc, List.take_append_drop]

theorem zstd_decompress_call_read (zstd : Zstd τ) (s : ZstdVars τ) :
    readOf (zstd_decompress_call zstd s).2.log ++ (zstd_decompress_call zstd s).2.src =
      readOf s.log ++ s.src := by
  simp only [zstd_decompress_call, readOf_append, Call.read, List.append_assoc,
    List.take_append_drop]

theorem zstd_compress_call_read (zstd : Zstd τ) (d : Nat) (s : ZstdVars τ) :
    readOf (zstd_compress_call zstd d s).2.log ++ (zstd_compress_call zstd d s).2.src =
      readOf s.log ++ s.src := by
  simp only [zstd_compress_call, readOf_append, Call.read, List.append_assoc,
    List.take_append_drop]

theorem zlib_drain_read (flate : FlateFn σ) (fn : Flate) (flush : Int) (fuel : Nat)
    (s : ZBody σ) :
    readOf (zlib_drain flate fn flush fuel s).2.log ++ (zlib_drain flate fn flush fuel s).2.next_in =
      readOf s.log ++ s.next_in :=
  zlib_drain_inv flate fn flush
    (fun t => readOf t.log ++ t.next_in = readOf s.log ++ s.next_in)
    (fun t ht => by dsimp only at ht ⊢; rw [zlib_grow_log, zlib_grow_next_in]; exact ht)
    (fun t ht => by dsimp only at ht ⊢; rw [zlib_call_read]; exact ht) fuel s rfl

theorem zstd_drain_read (zstd : Zstd τ) (fuel : Nat) (s : ZstdVars τ) :
    readOf (zstd_drain zstd fuel s).2.log ++ (zstd_drain zstd fuel s).2.src =
      readOf s.log ++ s.src :=
  zstd_drain_inv zstd (fun t => readOf t.log ++ t.src = readOf s.log ++ s.src)
    (fun t ht => by dsimp only at ht ⊢; rw [zstd_grow_log, zstd_grow_src]; exact ht)
    (fun t ht => by dsimp only at ht ⊢; rw [zstd_decompress_call_read]; exact ht) fuel s rfl

theorem zlib_loop_read (flate : FlateFn σ) (fn : Flate) (fuel : Nat) :
    ∀ (slices : List grpc_slice) (flush : Int) (s : ZBody σ), s.next_in = [] →
      (zlib_loop flate fn fuel slices flush s).1 = Flow.done →
      readOf (zlib_loop flate fn fuel slices flush s).2.log = readOf s.log ++ slices.flatten := by
  intro slices
  induction slices with
  | nil => intro flush s _ _; simp [zlib_loop]
  | cons slice rest ih =>
    intro flush s hs hdone
    simp only [zlib_loop] at hdone ⊢
    generalize (if rest = [] then Z_FINISH else flush) = fl at hdone ⊢
    by_cases hlen : uint_max < slice.length
    · simp [hlen] at hdone
    · have hd := zlib_drain_read flate fn fl fuel { s with next_in := slice }
      simp only [hlen, if_false] at hdone ⊢
      rcases hdr : zlib_drain flate fn fl fuel { s with next_in := slice } with ⟨f, s1⟩
      rw [hdr] at hd hdone
      cases f
      · by_cases hin : s1.next_in.length ≠ 0
        · simp [hin] at hdone
        · simp only [hin, if_false] at hdone ⊢
          have hnil : s1.next_in = [] := List.length_eq_zero.1 (not_not.1 hin)
          simp only [hnil, List.append_nil] at hd
          rw [ih fl s1 hnil hdone, hd, List.flatten_cons, List.append_assoc]
      all_goals simp at hdone

theorem zlib_body_read (flate : FlateFn σ) (fn : Flate) (fuel : Nat) (zs : σ)
    (input output : grpc_slice_buffer) (log : List Call)
    (h : (zlib_body flate fn fuel zs input output log).1 = Exit.returned 1) :
    readOf (zlib_body flate fn fuel zs input output log).2.log = readOf log ++ input.bytes := by
  have hl := zlib_loop_read flate fn fuel input.slices Z_NO_FLUSH
    { zs := zs, next_in := [], outbuf := [], output := output, log := log } rfl
  unfold zlib_body at h ⊢
  rcases hlr : zlib_loop flate fn fuel input.slices Z_NO_FLUSH
    { zs := zs, next_in := [], outbuf := [], output := output, log := log } with ⟨f, s1⟩
  rw [hlr] at hl h
  cases f
  · exact hl rfl
  all_goals simp at h

theorem zlib_decompress_read (zlib : Zlib σ) (fuel : Nat) (input output : grpc_slice_buffer)
    (gzip : Int) (h : (zlib_decompress zlib fuel input output gzip).exit = Exit.returned 1) :
    readOf (zlib_decompress zlib fuel input output gzip).log = input.bytes := by
  unfold zlib_decompress at h ⊢
  rcases hinit : zlib.inflateInit2 (windowBits gzip) with ⟨r, zs⟩
  simp only [hinit] at h ⊢
  by_cases hr : r ≠ Z_OK
  · simp [hr] at h
  · simp only [hr, if_false] at h ⊢
    have hb := zlib_body_read zlib.inflate Flate.inflate fuel zs input output
      [Call.inflateInit2 (windowBits gzip) r]
    rcases hbr : zlib_body zlib.inflate Flate.inflate fuel zs input output
      [Call.inflateInit2 (windowBits gzip) r] with ⟨e, s⟩
    rw [hbr] at hb
    simp only [hbr] at h ⊢
    cases e with
    | returned b =>
      by_cases hc : b ≠ 0
      · dsimp only at h ⊢
        rw [if_pos hc] at h ⊢
        simp only [Exit.returned.injEq] at h
        subst h
        simp only [readOf_append, hb rfl]
        simp [readOf, Call.read]
      · simp [hc] at h
    | aborted => simp at h
    | unfinished => simp at h

theorem zstd_decompress_loop_read (zstd : Zstd τ) (fuel : Nat) :
    ∀ (slices : List grpc_slice) (s : ZstdVars τ), s.src = [] →
      (zstd_decompress_loop zstd fuel slices s).1 = Flow.done →
      readOf (zstd_decompress_loop zstd fuel slices s).2.log = readOf s.log ++ slices.flatten := by
  intro slices
  induction slices with
  | nil => intro s _ _; simp [zstd_decompress_loop]
  | cons slice rest ih =>
    intro s hs hdone
    simp only [zstd_decompress_loop] at hdone ⊢
    by_cases hlen : uint_max < slice.length
    · simp [hlen] at hdone
    · have hd := zstd_drain_read zstd fuel { s with src := slice }
      simp only [hlen, if_false] at hdone ⊢
      rcases hdr : zstd_drain zstd fuel { s with src := slice } with ⟨f, s1⟩
      rw [hdr] at hd hdone
      cases f
      · by_cases hin : s1.src.length ≠ 0
        · simp [hin] at hdone
        · simp only [hin, if_false] at hdone ⊢
          have hnil : s1.src = [] := List.length_eq_zero.1 (not_not.1 hin)
          simp only [hnil, List.append_nil] at hd
          rw [ih s1 hnil hdone, hd, List.flatten_cons, List.append_assoc]
      all_goals simp at hdone

theorem zstd_decompress_read (zstd : Zstd τ) (fuel : Nat) (input output : grpc_slice_buffer)
    (h : (zstd_decompress zstd fuel input output).exit = Exit.returned 1) :
    readOf (zstd_decompress zstd fuel input output).log = input.bytes := by
  unfold zstd_decompress at h ⊢
  rcases hinit : zstd.ZSTD_initDStream zstd.ZSTD_createDStream with ⟨err, p⟩
  simp only [hinit] at h ⊢
  by_cases he : zstd.ZSTD_isError err > 0
  · simp [he, zstd_decompress_error2_exit] at h
  · simp only [he, if_false] at h ⊢
    have hl := zstd_decompress_loop_read zstd fuel input.slices
      { pStream := p, src := [], outbuf := [], output := output,
        log := [Call.ZSTD_createDStream, Call.ZSTD_initDStream err] } rfl
    rcases hlr : zstd_decompress_loop zstd fuel input.slices
      { pStream := p, src := [], outbuf := [], output := output,
        log := [Call.ZSTD_createDStream, Call.ZSTD_initDStream err] } with ⟨f, s⟩
    rw [hlr] at hl
    simp only [hlr] at h ⊢
    cases f with
    | done =>
      simp only at h ⊢
      split_ifs at h ⊢
      · simp [zstd_decompress_error2_exit] at h
      · simp only [readOf_append, hl rfl]
        simp [readOf, Call.read, grpc_slice_buffer.bytes]
    | error => simp [zstd_decompress_error2_exit] at h
    | aborted => simp at h
    | unfinished => simp at h

end Read

/-! ## The step calls of a run form a sequence of calls on one stream -/

section Trace

variable {σ τ D : Type}

theorem runSteps_concat (step : σ → Req D → Call × σ) (reqs : List (Req D)) (req : Req D) :
    ∀ z : σ, runSteps step z (reqs ++ [req]) =
      ((runSteps step z reqs).1 ++ [(step (runSteps step z reqs).2 req).1],
        (step (runSteps step z reqs).2 req).2) := by
  induction reqs with
  | nil => intro z; simp [runSteps]
  | cons a rest ih => intro z; simp [runSteps, ih]

theorem wroteOf_append (l : List Call) (c : Call) : wroteOf (l ++ [c]) = wroteOf l ++ c.wrote := by
  simp [wroteOf]

theorem readOf_append_list (l k : List Call) : readOf (l ++ k) = readOf l ++ readOf k := by
  simp [readOf]

theorem wroteOf_append_list (l k : List Call) : wroteOf (l ++ k) = wroteOf l ++ wroteOf k := by
  simp [wroteOf]

theorem fedFrom_concat (stream : List Byte) (l : List Call) (c : Call) :
    ∀ read : List Byte, fedFrom stream read (l ++ [c]) ↔
      fedFrom stream read l ∧ (read ++ readOf l ++ c.offered) <+: stream := by
  induction l with
  | nil => intro read; simp [fedFrom, readOf]
  | cons a rest ih =>
    intro read
    have hread : read ++ readOf (a :: rest) ++ c.offered =
        read ++ a.read ++ readOf rest ++ c.offered := by
      simp [readOf]
    show (read ++ a.offered <+: stream ∧ fedFrom stream (read ++ a.read) (rest ++ [c])) ↔
      (read ++ a.offered <+: stream ∧ fedFrom stream (read ++ a.read) rest) ∧
        read ++ readOf (a :: rest) ++ c.offered <+: stream
    rw [ih (read ++ a.read), hread]
    tauto

theorem traceInv_concat (step : σ → Req D → Call × σ) (z0 : σ) (log0 log : List Call) (z : σ)
    (req : Req D) (h : TraceInv step z0 log0 log z) :
    TraceInv step z0 log0 (log ++ [(step z req).1]) (step z req).2 := by
  obtain ⟨reqs, hl, hz⟩ := h
  refine ⟨reqs ++ [req], ?_, ?_⟩
  · rw [runSteps_concat, hl, hz, List.append_assoc]
  · rw [runSteps_concat, hz]

theorem zlib_call_trace (flate : FlateFn σ) (fn : Flate) (flush : Int) (s : ZBody σ) :
    (zlib_call flate fn flush s).2.log =
        s.log ++ [(flate_step flate fn s.zs ⟨flush, s.next_in, s.avail_out⟩).1] ∧
      (zlib_call flate fn flush s).2.zs =
        (flate_step flate fn s.zs ⟨flush, s.next_in, s.avail_out⟩).2 :=
  ⟨rfl, rfl⟩

theorem zstd_compress_call_trace (zstd : Zstd τ) (d : Nat) (s : ZstdVars τ) :
    (zstd_compress_call zstd d s).2.log =
        s.log ++ [(zstd_compress_step zstd s.pStream ⟨d, s.src, s.room⟩).1] ∧
      (zstd_compress_call zstd d s).2.pStream =
        (zstd_compress_step zstd s.pStream ⟨d, s.src, s.room⟩).2 :=
  ⟨rfl, rfl⟩

theorem zstd_decompress_call_trace (zstd : Zstd τ) (s : ZstdVars τ) :
    (zstd_decompress_call zstd s).2.log =
        s.log ++ [(zstd_decompress_step zstd s.pStream ⟨(), s.src, s.room⟩).1] ∧
      (zstd_decompress_call zstd s).2.pStream =
        (zstd_decompress_step zstd s.pStream ⟨(), s.src, s.room⟩).2 :=
  ⟨rfl, rfl⟩

theorem zlib_grow_zs (s : ZBody σ) : (zlib_grow s).zs = s.zs := by
  unfold zlib_grow
  split_ifs <;> rfl

theorem zstd_grow_pStream (s : ZstdVars τ) : (zstd_grow s).pStream = s.pStream := by
  unfold zstd_grow
  split_ifs <;> rfl

theorem zlib_loop_trace (flate : FlateFn σ) (fn : Flate) (fuel : Nat) (z0 : σ)
    (log0 : List Call) (slices : List grpc_slice) (flush : Int) (s : ZBody σ)
    (h : TraceInv (flate_step flate fn) z0 log0 s.log s.zs) :
    TraceInv (flate_step flate fn) z0 log0 (zlib_loop flate fn fuel slices flush s).2.log
      (zlib_loop flate fn fuel slices flush s).2.zs :=
  zlib_loop_inv flate fn fuel (fun t => TraceInv (flate_step flate fn) z0 log0 t.log t.zs)
    (fun t ht => by dsimp only at ht ⊢; rw [zlib_grow_log, zlib_grow_zs]; exact ht)
    (fun fl t ht => by
      dsimp only at ht ⊢
      rw [(zlib_call_trace flate fn fl t).1, (zlib_call_trace flate fn fl t).2]
      exact traceInv_concat _ z0 log0 t.log t.zs _ ht)
    (fun _ _ ht => ht) slices flush s h

theorem zstd_compress_loop_trace (zstd : Zstd τ) (fuel : Nat) (z0 : τ) (log0 : List Call)
    (slices : List grpc_slice) (s : ZstdVars τ)
    (h : TraceInv (zstd_compress_step zstd) z0 log0 s.log s.pStream) :
    TraceInv (zstd_compress_step zstd) z0 log0 (zstd_compress_loop zstd fuel slices s).2.log
      (zstd_compress_loop zstd fuel slices s).2.pStream :=
  zstd_compress_loop_inv zstd fuel
    (fun t => TraceInv (zstd_compress_step zstd) z0 log0 t.log t.pStream)
    (fun t ht => by dsimp only at ht ⊢; rw [zstd_grow_log, zstd_grow_pStream]; exact ht)
    (fun d t ht => by
      dsimp only at ht ⊢
      rw [(zstd_compress_call_trace zstd d t).1, (zstd_compress_call_trace zstd d t).2]
      exact traceInv_concat _ z0 log0 t.log t.pStream _ ht)
    (fun _ _ ht => ht) slices s h

end Trace

/-! ## The output holds what the step calls wrote, in blocks -/

section Written

variable {σ τ : Type}

theorem add_indexed_bytes (sb : grpc_slice_buffer) (sl : grpc_slice) :
    (grpc_slice_buffer_add_indexed sb sl).bytes = sb.bytes ++ sl := by
  simp [grpc_slice_buffer_add_indexed, grpc_slice_buffer.bytes]

theorem zlib_grow_wrote (base : List Byte) (s : ZBody σ)
    (h : WroteInv base s.output s.outbuf s.log) :
    WroteInv base (zlib_grow s).output (zlib_grow s).outbuf (zlib_grow s).log := by
  unfold zlib_grow
  split_ifs
  · simpa [WroteInv, add_indexed_bytes] using h
  · exact h

theorem zstd_grow_wrote (base : List Byte) (s : ZstdVars τ)
    (h : WroteInv base s.output s.outbuf s.log) :
    WroteInv base (zstd_grow s).output (zstd_grow s).outbuf (zstd_grow s).log := by
  unfold zstd_grow
  split_ifs
  · simpa [WroteInv, add_indexed_bytes] using h
  · exact h

theorem zlib_call_wrote (base : List Byte) (flate : FlateFn σ) (fn : Flate) (flush : Int)
    (s : ZBody σ) (h : WroteInv base s.output s.outbuf s.log) :
    WroteInv base (zlib_call flate fn flush s).2.output (zlib_call flate fn flush s).2.outbuf
      (zlib_call flate fn flush s).2.log := by
  unfold WroteInv at h ⊢
  simp only [zlib_call, wroteOf_append, Call.wrote, ← List.append_assoc, h]

theorem zstd_compress_call_wrote (base : List Byte) (zstd : Zstd τ) (d : Nat) (s : ZstdVars τ)
    (h : WroteInv base s.output s.outbuf s.log) :
    WroteInv base (zstd_compress_call zstd d s).2.output (zstd_compress_call zstd d s).2.outbuf
      (zstd_compress_call zstd d s).2.log := by
  unfold WroteInv at h ⊢
  simp only [zstd_compress_call, wroteOf_append, Call.wrote, ← List.append_assoc, h]

theorem zstd_decompress_call_wrote (base : List Byte) (zstd : Zstd τ) (s : ZstdVars τ)
    (h : WroteInv base s.output s.outbuf s.log) :
    WroteInv base (zstd_decompress_call zstd s).2.output (zstd_decompress_call zstd s).2.outbuf
      (zstd_decompress_call zstd s).2.log := by
  unfold WroteInv at h ⊢
  simp only [zstd_decompress_call, wroteOf_append, Call.wrote, ← List.append_assoc, h]

theorem zlib_loop_wrote (base : List Byte) (flate : FlateFn σ) (fn : Flate) (fuel : Nat)
    (slices : List grpc_slice) (flush : Int) (s : ZBody σ)
    (h : WroteInv base s.output s.outbuf s.log) :
    WroteInv base (zlib_loop flate fn fuel slices flush s).2.output
      (zlib_loop flate fn fuel slices flush s).2.outbuf
      (zlib_loop flate fn fuel slices flush s).2.log :=
  zlib_loop_inv flate fn fuel (fun t => WroteInv base t.output t.outbuf t.log)
    (fun t ht => zlib_grow_wrote base t ht)
    (fun fl t ht => zlib_call_wrote base flate fn fl t ht)
    (fun _ _ ht => ht) slices flush s h

theorem zstd_compress_loop_wrote (base : List Byte) (zstd : Zstd τ) (fuel : Nat)
    (slices : List grpc_slice) (s : ZstdVars τ) (h : WroteInv base s.output s.outbuf s.log) :
    WroteInv base (zstd_compress_loop zstd fuel slices s).2.output
      (zstd_compress_loop zstd fuel slices s).2.outbuf
      (zstd_compress_loop zstd fuel slices s).2.log :=
  zstd_compress_loop_inv zstd fuel (fun t => WroteInv base t.output t.outbuf t.log)
    (fun t ht => zstd_grow_wrote base t ht)
    (fun d t ht => zstd_compress_call_wrote base zstd d t ht)
    (fun _ _ ht => ht) slices s h

theorem zstd_decompress_loop_wrote (base : List Byte) (zstd : Zstd τ) (fuel : Nat)
    (slices : List grpc_slice) (s : ZstdVars τ) (h : WroteInv base s.output s.outbuf s.log) :
    WroteInv base (zstd_decompress_loop zstd fuel slices s).2.output
      (zstd_decompress_loop zstd fuel slices s).2.outbuf
      (zstd_decompress_loop zstd fuel slices s).2.log :=
  zstd_decompress_loop_inv zstd fuel (fun t => WroteInv base t.output t.outbuf t.log)
    (fun t ht => zstd_grow_wrote base t ht)
    (fun t ht => zstd_decompress_call_wrote base zstd t ht)
    (fun _ _ ht => ht) slices s h

theorem blockInv_add (output : grpc_slice_buffer) (outbuf : List Byte)
    (h : BlockInv output outbuf) :
    BlockInv (grpc_slice_buffer_add_indexed output outbuf) [] := by
  refine ⟨Nat.zero_le _, ?_⟩
  intro sl hsl
  simp only [grpc_slice_buffer_add_indexed, List.mem_append, List.mem_singleton] at hsl
  rcases hsl with hsl | rfl
  · exact h.2 sl hsl
  · exact h.1

theorem blockInv_write (output : grpc_slice_buffer) (outbuf produced : List Byte)
    (h : BlockInv output outbuf) :
    BlockInv output (outbuf ++ produced.take (OUTPUT_BLOCK_SIZE - outbuf.length)) := by
  refine ⟨?_, h.2⟩
  have h1 := h.1
  have h2 : (produced.take (OUTPUT_BLOCK_SIZE - outbuf.length)).length ≤
      OUTPUT_BLOCK_SIZE - outbuf.length := by
    rw [List.length_take]
    exact Nat.min_le_left _ _
  rw [List.length_append]
  omega

theorem zlib_grow_block (s : ZBody σ) (h : BlockInv s.output s.outbuf) :
    BlockInv (zlib_grow s).output (zlib_grow s).outbuf := by
  unfold zlib_grow
  split_ifs
  · exact blockInv_add _ _ h
  · exact h

theorem zstd_grow_block (s : ZstdVars τ) (h : BlockInv s.output s.outbuf) :
    BlockInv (zstd_grow s).output (zstd_grow s).outbuf := by
  unfold zstd_grow
  split_ifs
  · exact blockInv_add _ _ h
  · exact h

theorem zlib_loop_block (flate : FlateFn σ) (fn : Flate) (fuel : Nat)
    (slices : List grpc_slice) (flush : Int) (s : ZBody σ) (h : BlockInv s.output s.outbuf) :
    BlockInv (zlib_loop flate fn fuel slices flush s).2.output
      (zlib_loop flate fn fuel slices flush s).2.outbuf :=
  zlib_loop_inv flate fn fuel (fun t => BlockInv t.output t.outbuf)
    (fun t ht => zlib_grow_block t ht)
    (fun _ t ht => blockInv_write t.output t.outbuf _ ht)
    (fun _ _ ht => ht) slices flush s h

theorem zstd_compress_loop_block (zstd : Zstd τ) (fuel : Nat) (slices : List grpc_slice)
    (s : ZstdVars τ) (h : BlockInv s.output s.outbuf) :
    BlockInv (zstd_compress_loop zstd fuel slices s).2.output
      (zstd_compress_loop zstd fuel slices s).2.outbuf :=
  zstd_compress_loop_inv zstd fuel (fun t => BlockInv t.output t.outbuf)
    (fun t ht => zstd_grow_block t ht)
    (fun _ t ht => blockInv_write t.output t.outbuf _ ht)
    (fun _ _ ht => ht) slices s h

theorem zstd_decompress_loop_block (zstd : Zstd τ) (fuel : Nat) (slices : List grpc_slice)
    (s : ZstdVars τ) (h : BlockInv s.output s.outbuf) :
    BlockInv (zstd_decompress_loop zstd fuel slices s).2.output
      (zstd_decompress_loop zstd fuel slices s).2.outbuf :=
  zstd_decompress_loop_inv zstd fuel (fun t => BlockInv t.output t.outbuf)
    (fun t ht => zstd_grow_block t ht)
    (fun t ht => blockInv_write t.output t.outbuf _ ht)
    (fun _ _ ht => ht) slices s h

end Written

/-! ## The last step call of a finished loop -/

section Last

variable {σ τ : Type}

theorem zlib_call_last (flate : FlateFn σ) (fn : Flate) (flush : Int) (s : ZBody σ) :
    ∃ c : Call, (zlib_call flate fn flush s).2.log = s.log ++ [c] ∧
      (∃ ni ao r k pr, c = Call.flate fn flush ni ao r k pr) ∧
      c.offered = c.read ++ (zlib_call flate fn flush s).2.next_in ∧
      ((zlib_call flate fn flush s).2.avail_out ≠ 0 → c.leftRoom) := by
  refine ⟨_, rfl, ⟨_, _, _, _, _, rfl⟩, ?_, ?_⟩
  · simp [Call.offered, Call.read, zlib_call]
  · intro h
    simp only [zlib_call, ZBody.avail_out, List.length_append, List.length_take] at h
    simp only [Call.leftRoom, Call.wrote, Call.room, ZBody.avail_out, List.length_take]
    omega

theorem zlib_drain_log (flate : FlateFn σ) (fn : Flate) (flush : Int) (fuel : Nat)
    (s : ZBody σ) : ∃ l, (zlib_drain flate fn flush fuel s).2.log = s.log ++ l :=
  zlib_drain_inv flate fn flush (fun t => ∃ l, t.log = s.log ++ l)
    (fun t ht => by dsimp only at ht ⊢; rw [zlib_grow_log]; exact ht)
    (fun t ht => by
      obtain ⟨l, hl⟩ := ht
      exact ⟨l ++ [_], by rw [(zlib_call_trace flate fn flush t).1, hl, List.append_assoc]⟩)
    fuel s ⟨[], (List.append_nil _).symm⟩

theorem zlib_drain_last (flate : FlateFn σ) (fn : Flate) (flush : Int) :
    ∀ (fuel : Nat) (s : ZBody σ), (zlib_drain flate fn flush fuel s).1 = Flow.done →
      ∃ l c, (zlib_drain flate fn flush fuel s).2.log = s.log ++ l ++ [c] ∧
        (∃ ni ao r k pr, c = Call.flate fn flush ni ao r k pr) ∧
        c.offered = c.read ++ (zlib_drain flate fn flush fuel s).2.next_in ∧ c.leftRoom := by
  intro fuel
  induction fuel with
  | zero => intro s h; simp [zlib_drain] at h
  | succ n ih =>
    intro s h
    simp only [zlib_drain] at h ⊢
    obtain ⟨c1, hc1, hfl1, hoff1, hroom1⟩ := zlib_call_last flate fn flush (zlib_grow s)
    rw [zlib_grow_log] at hc1
    by_cases hr : (zlib_call flate fn flush (zlib_grow s)).1 < 0 ∧
        (zlib_call flate fn flush (zlib_grow s)).1 ≠ Z_BUF_ERROR
    · simp [hr] at h
    · simp only [hr, if_false] at h ⊢
      by_cases ha : (zlib_call flate fn flush (zlib_grow s)).2.avail_out = 0
      · simp only [ha, if_true] at h ⊢
        obtain ⟨l, c, hl, hfl, hoff, hroom⟩ := ih _ h
        refine ⟨c1 :: l, c, ?_, hfl, hoff, hroom⟩
        rw [hl, hc1]
        simp
      · simp only [ha, if_false]
        exact ⟨[], c1, by rw [hc1, List.append_nil], hfl1, hoff1, hroom1 ha⟩

theorem zlib_loop_last (flate : FlateFn σ) (fn : Flate) (fuel : Nat) :
    ∀ (slices : List grpc_slice) (flush : Int) (s : ZBody σ), slices ≠ [] →
      (zlib_loop flate fn fuel slices flush s).1 = Flow.done →
      ∃ l c, (zlib_loop flate fn fuel slices flush s).2.log = s.log ++ l ++ [c] ∧
        (∃ ni ao r k pr, c = Call.flate fn Z_FINISH ni ao r k pr) ∧ c.tookAll ∧ c.leftRoom := by
  intro slices
  induction slices with
  | nil => intro flush s hne; exact absurd rfl hne
  | cons slice rest ih =>
    intro flush s _ hdone
    simp only [zlib_loop] at hdone ⊢
    by_cases hlen : uint_max < slice.length
    · simp [hlen] at hdone
    · simp only [hlen, if_false] at hdone ⊢
      by_cases hrest : rest = []
      · subst hrest
        simp only [if_true] at hdone ⊢
        have hd := zlib_drain_last flate fn Z_FINISH fuel { s with next_in := slice }
        rcases hdr : zlib_drain flate fn Z_FINISH fuel { s with next_in := slice } with ⟨f, s1⟩
        rw [hdr] at hd hdone
        cases f
        · by_cases hin : s1.next_in.length ≠ 0
          · simp [hin] at hdone
          · simp only [hin, if_false, zlib_loop]
            obtain ⟨l, c, hl, hfl, hoff, hroom⟩ := hd rfl
            have hnil : s1.next_in = [] := List.length_eq_zero.1 (not_not.1 hin)
            refine ⟨l, c, hl, hfl, ?_, hroom⟩
            simp only [hnil, List.append_nil] at hoff
            exact hoff.symm
        all_goals simp at hdone
      · simp only [hrest, if_false] at hdone ⊢
        obtain ⟨l1, hl1⟩ := zlib_drain_log flate fn flush fuel { s with next_in := slice }
        rcases hdr : zlib_drain flate fn flush fuel { s with next_in := slice } with ⟨f, s1⟩
        rw [hdr] at hdone hl1
        cases f
        · by_cases hin : s1.next_in.length ≠ 0
          · simp [hin] at hdone
          · simp only [hin, if_false] at hdone ⊢
            obtain ⟨l, c, hl, hrest'⟩ := ih flush s1 hrest hdone
            refine ⟨l1 ++ l, c, ?_, hrest'⟩
            rw [hl, hl1]
            simp
        all_goals simp at hdone

theorem zstd_compress_call_last (zstd : Zstd τ) (d : Nat) (s : ZstdVars τ) :
    ∃ c : Call, (zstd_compress_call zstd d s).2.log = s.log ++ [c] ∧
      (∃ ni ao r k pr, c = Call.ZSTD_compressStream2 d ni ao r k pr) ∧
      c.offered = c.read ++ (zstd_compress_call zstd d s).2.src ∧
      ((zstd_compress_call zstd d s).2.outbuf.length < OUTPUT_BLOCK_SIZE → c.leftRoom) := by
  refine ⟨_, rfl, ⟨_, _, _, _, _, rfl⟩, ?_, ?_⟩
  · simp [Call.offered, Call.read, zstd_compress_call]
  · intro h
    simp only [zstd_compress_call, ZstdVars.room, List.length_append, List.length_take] at h
    simp only [Call.leftRoom, Call.wrote, Call.room, ZstdVars.room, List.length_take]
    omega

theorem zstd_decompress_call_last (zstd : Zstd τ) (s : ZstdVars τ) :
    ∃ c : Call, (zstd_decompress_call zstd s).2.log = s.log ++ [c] ∧
      c.offered = c.read ++ (zstd_decompress_call zstd s).2.src ∧
      ((zstd_decompress_call zstd s).2.outbuf.length < OUTPUT_BLOCK_SIZE → c.leftRoom) := by
  refine ⟨_, rfl, ?_, ?_⟩
  · simp [Call.offered, Call.read, zstd_decompress_call]
  · intro h
    simp only [zstd_decompress_call, ZstdVars.room, List.length_append, List.length_take] at h
    simp only [Call.leftRoom, Call.wrote, Call.room, ZstdVars.room, List.length_take]
    omega

theorem zstd_flush_log (zstd : Zstd τ) (fuel : Nat) (s : ZstdVars τ) :
    ∃ l, (zstd_flush zstd fuel s).2.log = s.log ++ l :=
  zstd_flush_inv zstd (fun t => ∃ l, t.log = s.log ++ l)
    (fun t ht => by dsimp only at ht ⊢; rw [zstd_grow_log]; exact ht)
    (fun t ht => by
      obtain ⟨l, hl⟩ := ht
      exact ⟨l ++ [_], by
        rw [(zstd_compress_call_trace zstd ZSTD_e_flush t).1, hl, List.append_assoc]⟩)
    fuel s ⟨[], (List.append_nil _).symm⟩

theorem zstd_flush_last (zstd : Zstd τ) :
    ∀ (fuel : Nat) (s : ZstdVars τ), (zstd_flush zstd fuel s).1 = Flow.done →
      ∃ l c, (zstd_flush zstd fuel s).2.log = s.log ++ l ++ [c] ∧
        (∃ ni ao r k pr, c = Call.ZSTD_compressStream2 ZSTD_e_flush ni ao r k pr) ∧
        c.offered = c.read ++ (zstd_flush zstd fuel s).2.src ∧ c.leftRoom := by
  intro fuel
  induction fuel with
  | zero => intro s h; simp [zstd_flush] at h
  | succ n ih =>
    intro s h
    simp only [zstd_flush] at h ⊢
    obtain ⟨c1, hc1, hfl1, hoff1, hroom1⟩ :=
      zstd_compress_call_last zstd ZSTD_e_flush (zstd_grow s)
    rw [zstd_grow_log] at hc1
    by_cases hr : zstd.ZSTD_isError (zstd_compress_call zstd ZSTD_e_flush (zstd_grow s)).1 > 0
    · simp [hr] at h
    · simp only [hr, if_false] at h ⊢
      by_cases ha : (zstd_compress_call zstd ZSTD_e_flush (zstd_grow s)).2.outbuf.length <
          OUTPUT_BLOCK_SIZE
      · simp only [ha, if_true]
        exact ⟨[], c1, by rw [hc1, List.append_nil], hfl1, hoff1, hroom1 ha⟩
      · simp only [ha, if_false] at h ⊢
        obtain ⟨l, c, hl, hfl, hoff, hroom⟩ := ih _ h
        refine ⟨c1 :: l, c, ?_, hfl, hoff, hroom⟩
        rw [hl, hc1]
        simp

theorem zstd_compress_loop_last (zstd : Zstd τ) (fuel : Nat) :
    ∀ (slices : List grpc_slice) (s : ZstdVars τ), slices ≠ [] →
      (zstd_compress_loop zstd fuel slices s).1 = Flow.done →
      ∃ l c, (zstd_compress_loop zstd fuel slices s).2.log = s.log ++ l ++ [c] ∧
        (∃ ni ao r k pr, c = Call.ZSTD_compressStream2 ZSTD_e_flush ni ao r k pr) ∧
        c.tookAll ∧ c.leftRoom := by
  intro slices
  induction slices with
  | nil => intro s hne; exact absurd rfl hne
  | cons slice rest ih =>
    intro s _ hdone
    simp only [zstd_compress_loop] at hdone ⊢
    by_cases hlen : uint_max < slice.length
    · simp [hlen] at hdone
    · simp only [hlen, if_false] at hdone ⊢
      by_cases herr :
          zstd.ZSTD_isError (zstd_compress_call zstd ZSTD_e_continue { s with src := slice }).1 > 0
      · simp [herr] at hdone
      · simp only [herr, if_false] at hdone ⊢
        have hd := zstd_flush_last zstd fuel
          (zstd_compress_call zstd ZSTD_e_continue { s with src := slice }).2
        rcases hdr : zstd_flush zstd fuel
          (zstd_compress_call zstd ZSTD_e_continue { s with src := slice }).2 with ⟨f, s2⟩
        rw [hdr] at hd hdone
        cases f
        · by_cases hin : s2.src.length ≠ 0
          · simp [hin] at hdone
          · simp only [hin, if_false] at hdone ⊢
            obtain ⟨l, c, hl, hfl, hoff, hroom⟩ := hd rfl
            obtain ⟨l', hl'⟩ : ∃ l', s2.log = s.log ++ l' ++ [c] := by
              refine ⟨(zstd_compress_step zstd s.pStream
                ⟨ZSTD_e_continue, slice, s.room⟩).1 :: l, ?_⟩
              rw [hl, (zstd_compress_call_trace zstd ZSTD_e_continue _).1]
              simp [ZstdVars.room]
            by_cases hrest : rest = []
            · subst hrest
              simp only [zstd_compress_loop]
              have hnil : s2.src = [] := List.length_eq_zero.1 (not_not.1 hin)
              refine ⟨l', c, hl', hfl, ?_, hroom⟩
              simp only [hnil, List.append_nil] at hoff
              exact hoff.symm
            · obtain ⟨l2, c2, hl2, hrest2⟩ := ih s2 hrest hdone
              refine ⟨l' ++ [c] ++ l2, c2, ?_, hrest2⟩
              rw [hl2, hl']
              simp
        all_goals simp at hdone

end Last

/-! ## The Zstandard compression loop: status and input of a finished run -/

section ZstdCompress

variable {τ : Type}

theorem zstd_compress_call_noFatal (zstd : Zstd τ) (d : Nat) (s : ZstdVars τ)
    (hs : NoFatal zstd.ZSTD_isError s.log)
    (hr : ¬(zstd.ZSTD_isError (zstd_compress_call zstd d s).1 > 0)) :
    NoFatal zstd.ZSTD_isError (zstd_compress_call zstd d s).2.log := by
  refine noFatal_append _ hs ?_
  simpa [Call.fatal, zstd_compress_call] using hr

theorem zstd_flush_noFatal (zstd : Zstd τ) : ∀ (fuel : Nat) (s : ZstdVars τ),
    NoFatal zstd.ZSTD_isError s.log → (zstd_flush zstd fuel s).1 ≠ Flow.error →
      NoFatal zstd.ZSTD_isError (zstd_flush zstd fuel s).2.log := by
  intro fuel
  induction fuel with
  | zero => intro s hs _; simpa [zstd_flush] using hs
  | succ n ih =>
    intro s hs hne
    have hg : NoFatal zstd.ZSTD_isError (zstd_grow s).log := by rw [zstd_grow_log]; exact hs
    simp only [zstd_flush] at hne ⊢
    by_cases hr : zstd.ZSTD_isError (zstd_compress_call zstd ZSTD_e_flush (zstd_grow s)).1 > 0
    · simp [hr] at hne
    · have h1 := zstd_compress_call_noFatal zstd ZSTD_e_flush _ hg hr
      simp only [hr, if_false] at hne ⊢
      split_ifs at hne ⊢
      · exact h1
      · exact ih _ h1 hne

theorem zstd_compress_loop_noFatal (zstd : Zstd τ) (fuel : Nat) :
    ∀ (slices : List grpc_slice) (s : ZstdVars τ), NoFatal zstd.ZSTD_isError s.log →
      (zstd_compress_loop zstd fuel slices s).1 ≠ Flow.error →
      NoFatal zstd.ZSTD_isError (zstd_compress_loop zstd fuel slices s).2.log := by
  intro slices
  induction slices with
  | nil => intro s hs _; simpa [zstd_compress_loop] using hs
  | cons slice rest ih =>
    intro s hs hne
    simp only [zstd_compress_loop] at hne ⊢
    by_cases hlen : uint_max < slice.length
    · simpa [hlen] using hs
    · simp only [hlen, if_false] at hne ⊢
      by_cases herr :
          zstd.ZSTD_isError (zstd_compress_call zstd ZSTD_e_continue { s with src := slice }).1 > 0
      · simp [herr] at hne
      · simp only [herr, if_false] at hne ⊢
        have hc := zstd_compress_call_noFatal zstd ZSTD_e_continue { s with src := slice } hs herr
        have hd := zstd_flush_noFatal zstd fuel _ hc
        rcases hdr : zstd_flush zstd fuel
          (zstd_compress_call zstd ZSTD_e_continue { s with src := slice }).2 with ⟨f, s2⟩
        rw [hdr] at hd hne
        cases f
        · by_cases hin : s2.src.length ≠ 0
          · simp [hin] at hne
          · simp only [hin, if_false] at hne ⊢
            exact ih s2 (hd (by simp)) hne
        · simp at hne
        · exact hd (by simp)
        · exact hd (by simp)

theorem zstd_flush_read (zstd : Zstd τ) (fuel : Nat) (s : ZstdVars τ) :
    readOf (zstd_flush zstd fuel s).2.log ++ (zstd_flush zstd fuel s).2.src =
      readOf s.log ++ s.src :=
  zstd_flush_inv zstd (fun t => readOf t.log ++ t.src = readOf s.log ++ s.src)
    (fun t ht => by dsimp only at ht ⊢; rw [zstd_grow_log, zstd_grow_src]; exact ht)
    (fun t ht => by dsimp only at ht ⊢; rw [zstd_compress_call_read]; exact ht) fuel s rfl

theorem zstd_compress_loop_read (zstd : Zstd τ) (fuel : Nat) :
    ∀ (slices : List grpc_slice) (s : ZstdVars τ),
      (zstd_compress_loop zstd fuel slices s).1 = Flow.done →
      readOf (zstd_compress_loop zstd fuel slices s).2.log = readOf s.log ++ slices.flatten := by
  intro slices
  induction slices with
  | nil => intro s _; simp [zstd_compress_loop]
  | cons slice rest ih =>
    intro s hdone
    simp only [zstd_compress_loop] at hdone ⊢
    by_cases hlen : uint_max < slice.length
    · simp [hlen] at hdone
    · simp only [hlen, if_false] at hdone ⊢
      by_cases herr :
          zstd.ZSTD_isError (zstd_compress_call zstd ZSTD_e_continue { s with src := slice }).1 > 0
      · simp [herr] at hdone
      · simp only [herr, if_false] at hdone ⊢
        have hc := zstd_compress_call_read zstd ZSTD_e_continue { s with src := slice }
        have hd := zstd_flush_read zstd fuel
          (zstd_compress_call zstd ZSTD_e_continue { s with src := slice }).2
        rcases hdr : zstd_flush zstd fuel
          (zstd_compress_call zstd ZSTD_e_continue { s with src := slice }).2 with ⟨f, s2⟩
        rw [hdr] at hd hdone
        cases f
        · by_cases hin : s2.src.length ≠ 0
          · simp [hin] at hdone
          · simp only [hin, if_false] at hdone ⊢
            have hnil : s2.src = [] := List.length_eq_zero.1 (not_not.1 hin)
            simp only [hnil, List.append_nil] at hd
            rw [ih s2 hdone, hd, hc, List.flatten_cons, List.append_assoc]
        all_goals simp at hdone

end ZstdCompress

/-! ## What makes a loop fail -/

section Verdict

variable {σ τ : Type}

theorem clean_append {isError : Nat → Nat} {l : List Call} (c : Call) (hl : Clean isError l)
    (hf : c.fatal isError = false) (hs : c.starved = false) : Clean isError (l ++ [c]) := by
  intro d hd
  rcases List.mem_append.1 hd with h | h
  · exact hl d h
  · rw [List.mem_singleton.1 h]; exact ⟨hf, hs⟩

theorem dirty_append {isError : Nat → Nat} (l : List Call) (c : Call)
    (h : c.fatal isError = true ∨ c.starved = true) : Dirty isError (l ++ [c]) :=
  ⟨c, by simp, h⟩

theorem dirty_append_left {isError : Nat → Nat} {l : List Call} (l2 : List Call)
    (h : Dirty isError l) : Dirty isError (l ++ l2) := by
  obtain ⟨c, hc, hb⟩ := h
  exact ⟨c, List.mem_append_left _ hc, hb⟩

theorem clean_not_dirty {isError : Nat → Nat} {l : List Call} (h : Clean isError l) :
    ¬Dirty isError l := by
  rintro ⟨c, hc, hb⟩
  have := h c hc
  rcases hb with hb | hb
  · rw [this.1] at hb; exact Bool.noConfusion hb
  · rw [this.2] at hb; exact Bool.noConfusion hb

/-- The entry a `zlib_call` logs: it is fatal exactly when the loop takes the status for
non-recoverable, and starved exactly when the call left both room and input. -/
theorem zlib_call_entry (isError : Nat → Nat) (flate : FlateFn σ) (fn : Flate) (flush : Int)
    (s : ZBody σ) :
    ∃ c, (zlib_call flate fn flush s).2.log = s.log ++ [c] ∧
      (c.fatal isError = true ↔ ((zlib_call flate fn flush s).1 < 0 ∧
        (zlib_call flate fn flush s).1 ≠ Z_BUF_ERROR)) ∧
      (c.starved = true ↔ ((zlib_call flate fn flush s).2.avail_out ≠ 0 ∧
        (zlib_call flate fn flush s).2.next_in.length ≠ 0)) := by
  refine ⟨_, rfl, ?_, ?_⟩
  · simp [Call.fatal, zlib_call]
  · have hp : ((flate s.zs flush s.next_in s.avail_out).produced.take s.avail_out).length ≤
        s.avail_out := by
      rw [List.length_take]; exact Nat.min_le_left _ _
    simp only [Call.starved, Call.drains, Call.wrote, Call.room, Call.read, Call.offered,
      zlib_call, ZBody.avail_out, Bool.true_and, Bool.and_eq_true, decide_eq_true_eq,
      List.length_append, List.length_drop, ne_eq, List.take_eq_self_iff] at hp ⊢
    constructor
    · rintro ⟨h1, h2⟩
      constructor <;> omega
    · rintro ⟨h1, h2⟩
      constructor <;> omega

theorem bool_false_of_not_iff {b : Bool} {p : Prop} (h : b = true ↔ p) (hp : ¬p) :
    b = false := by
  cases b
  · rfl
  · exact absurd (h.1 rfl) hp

theorem zlib_drain_verdict (isError : Nat → Nat) (flate : FlateFn σ) (fn : Flate)
    (flush : Int) : ∀ (fuel : Nat) (s : ZBody σ), Clean isError s.log →
      (Stuck (zlib_drain flate fn flush fuel s).1 (zlib_drain flate fn flush fuel s).2.next_in.length →
        Dirty isError (zlib_drain flate fn flush fuel s).2.log) ∧
      (¬Stuck (zlib_drain flate fn flush fuel s).1
          (zlib_drain flate fn flush fuel s).2.next_in.length →
        Clean isError (zlib_drain flate fn flush fuel s).2.log) := by
  intro fuel
  induction fuel with
  | zero =>
    intro s hs
    simp only [zlib_drain, Stuck]
    exact ⟨fun h => by simp at h, fun _ => hs⟩
  | succ n ih =>
    intro s hs
    obtain ⟨c, hlog, hfat, hst⟩ := zlib_call_entry isError flate fn flush (zlib_grow s)
    rw [zlib_grow_log] at hlog
    simp only [zlib_drain]
    by_cases hr : (zlib_call flate fn flush (zlib_grow s)).1 < 0 ∧
        (zlib_call flate fn flush (zlib_grow s)).1 ≠ Z_BUF_ERROR
    · rw [if_pos hr]
      refine ⟨fun _ => ?_, fun h => absurd (Or.inl rfl) h⟩
      rw [hlog]
      exact dirty_append _ c (Or.inl (hfat.2 hr))
    · have hf := bool_false_of_not_iff hfat hr
      rw [if_neg hr]
      by_cases ha : (zlib_call flate fn flush (zlib_grow s)).2.avail_out = 0
      · rw [if_pos ha]
        refine ih _ ?_
        rw [hlog]
        exact clean_append c hs hf (bool_false_of_not_iff hst (fun h => h.1 ha))
      · rw [if_neg ha]
        constructor
        · intro hstuck
          rw [hlog]
          refine dirty_append _ c (Or.inr (hst.2 ⟨ha, ?_⟩))
          rcases hstuck with h | h
          · exact absurd h (by simp)
          · exact h.2
        · intro hstuck
          rw [hlog]
          refine clean_append c hs hf (bool_false_of_not_iff hst (fun h => hstuck ?_))
          exact Or.inr ⟨rfl, h.2⟩

/-- The loop of `zlib_body` jumps to its error label exactly when a call of its log is fatal
or starved. -/
theorem zlib_loop_verdict (isError : Nat → Nat) (flate : FlateFn σ) (fn : Flate) (fuel : Nat) :
    ∀ (slices : List grpc_slice) (flush : Int) (s : ZBody σ), Clean isError s.log →
      ((zlib_loop flate fn fuel slices flush s).1 = Flow.error →
        Dirty isError (zlib_loop flate fn fuel slices flush s).2.log) ∧
      ((zlib_loop flate fn fuel slices flush s).1 ≠ Flow.error →
        Clean isError (zlib_loop flate fn fuel slices flush s).2.log) := by
  intro slices
  induction slices with
  | nil =>
    intro flush s hs
    simp only [zlib_loop]
    exact ⟨fun h => by simp at h, fun _ => hs⟩
  | cons slice rest ih =>
    intro flush s hs
    simp only [zlib_loop]
    generalize (if rest = [] then Z_FINISH else flush) = fl
    by_cases hlen : uint_max < slice.length
    · simp only [hlen, if_true]
      exact ⟨fun h => by simp at h, fun _ => hs⟩
    · have hd := zlib_drain_verdict isError flate fn fl fuel { s with next_in := slice } hs
      simp only [hlen, if_false]
      rcases hdr : zlib_drain flate fn fl fuel { s with next_in := slice } with ⟨f, s1⟩
      rw [hdr] at hd
      cases f
      · by_cases hin : s1.next_in.length ≠ 0
        · dsimp only
          rw [if_pos hin]
          exact ⟨fun _ => hd.1 (Or.inr ⟨rfl, hin⟩), fun h => absurd rfl h⟩
        · dsimp only
          rw [if_neg hin]
          refine ih fl s1 (hd.2 ?_)
          rintro (h | h)
          · simp at h
          · exact hin h.2
      · exact ⟨fun _ => hd.1 (Or.inl rfl), fun h => absurd rfl h⟩
      · refine ⟨fun h => by simp at h, fun _ => hd.2 ?_⟩
        rintro (h | h) <;> simp at h
      · refine ⟨fun h => by simp at h, fun _ => hd.2 ?_⟩
        rintro (h | h) <;> simp at h

theorem zlib_body_verdict (isError : Nat → Nat) (flate : FlateFn σ) (fn : Flate) (fuel : Nat)
    (zs : σ) (input output : grpc_slice_buffer) (log : List Call) (hlog : Clean isError log) :
    ((zlib_body flate fn fuel zs input output log).1 = Exit.returned 0 →
      Dirty isError (zlib_body flate fn fuel zs input output log).2.log) ∧
    ((zlib_body flate fn fuel zs input output log).1 ≠ Exit.returned 0 →
      Clean isError (zlib_body flate fn fuel zs input output log).2.log) := by
  have h := zlib_loop_verdict isError flate fn fuel input.slices Z_NO_FLUSH
    { zs := zs, next_in := [], outbuf := [], output := output, log := log } hlog
  unfold zlib_body
  rcases hl : zlib_loop flate fn fuel input.slices Z_NO_FLUSH
    { zs := zs, next_in := [], outbuf := [], output := output, log := log } with ⟨f, s1⟩
  rw [hl] at h
  cases f
  · exact ⟨fun h0 => by simp at h0, fun _ => h.2 (by simp)⟩
  · exact ⟨fun _ => h.1 rfl, fun h0 => absurd rfl h0⟩
  · exact ⟨fun h0 => by simp at h0, fun _ => h.2 (by simp)⟩
  · exact ⟨fun h0 => by simp at h0, fun _ => h.2 (by simp)⟩

theorem zstd_compress_call_entry (zstd : Zstd τ) (d : Nat) (s : ZstdVars τ) :
    ∃ c, (zstd_compress_call zstd d s).2.log = s.log ++ [c] ∧
      (c.fatal zstd.ZSTD_isError = true ↔
        zstd.ZSTD_isError (zstd_compress_call zstd d s).1 > 0) ∧
      (c.starved = true ↔ (d = ZSTD_e_flush ∧
        (zstd_compress_call zstd d s).2.outbuf.length < OUTPUT_BLOCK_SIZE ∧
        (zstd_compress_call zstd d s).2.src.length ≠ 0)) := by
  refine ⟨_, rfl, ?_, ?_⟩
  · simp [Call.fatal, zstd_compress_call]
  · have hp : ((zstd.ZSTD_compressStream2 s.pStream d s.src s.room).produced.take s.room).length ≤
        s.room := by
      rw [List.length_take]; exact Nat.min_le_left _ _
    simp only [Call.starved, Call.drains, Call.wrote, Call.room, Call.read, Call.offered,
      zstd_compress_call, ZstdVars.room, Bool.and_eq_true, decide_eq_true_eq,
      List.length_append, List.length_drop, ne_eq, List.take_eq_self_iff] at hp ⊢
    constructor
    · rintro ⟨⟨h0, h1⟩, h2⟩
      refine ⟨h0, ?_, ?_⟩ <;> omega
    · rintro ⟨h0, h1, h2⟩
      refine ⟨⟨h0, ?_⟩, ?_⟩ <;> omega

theorem zstd_decompress_call_entry (zstd : Zstd τ) (s : ZstdVars τ) :
    ∃ c, (zstd_decompress_call zstd s).2.log = s.log ++ [c] ∧
      (c.fatal zstd.ZSTD_isError = true ↔
        zstd.ZSTD_isError (zstd_decompress_call zstd s).1 > 0) ∧
      (c.starved = true ↔ ((zstd_decompress_call zstd s).2.outbuf.length < OUTPUT_BLOCK_SIZE ∧
        (zstd_decompress_call zstd s).2.src.length ≠ 0)) := by
  refine ⟨_, rfl, ?_, ?_⟩
  · simp [Call.fatal, zstd_decompress_call]
  · have hp : ((zstd.ZSTD_decompressStream s.pStream s.src s.room).produced.take s.room).length ≤
        s.room := by
      rw [List.length_take]; exact Nat.min_le_left _ _
    simp only [Call.starved, Call.drains, Call.wrote, Call.room, Call.read, Call.offered,
      zstd_decompress_call, ZstdVars.room, Bool.true_and, Bool.and_eq_true, decide_eq_true_eq,
      List.length_append, List.length_drop, ne_eq, List.take_eq_self_iff] at hp ⊢
    constructor
    · rintro ⟨h1, h2⟩
      constructor <;> omega
    · rintro ⟨h1, h2⟩
      constructor <;> omega

theorem zstd_flush_verdict (zstd : Zstd τ) : ∀ (fuel : Nat) (s : ZstdVars τ),
    Clean zstd.ZSTD_isError s.log →
      (Stuck (zstd_flush zstd fuel s).1 (zstd_flush zstd fuel s).2.src.length →
        Dirty zstd.ZSTD_isError (zstd_flush zstd fuel s).2.log) ∧
      (¬Stuck (zstd_flush zstd fuel s).1 (zstd_flush zstd fuel s).2.src.length →
        Clean zstd.ZSTD_isError (zstd_flush zstd fuel s).2.log) := by
  intro fuel
  induction fuel with
  | zero =>
    intro s hs
    simp only [zstd_flush, Stuck]
    exact ⟨fun h => by simp at h, fun _ => hs⟩
  | succ n ih =>
    intro s hs
    obtain ⟨c, hlog, hfat, hst⟩ := zstd_compress_call_entry zstd ZSTD_e_flush (zstd_grow s)
    rw [zstd_grow_log] at hlog
    simp only [zstd_flush]
    by_cases hr : zstd.ZSTD_isError (zstd_compress_call zstd ZSTD_e_flush (zstd_grow s)).1 > 0
    · rw [if_pos hr]
      refine ⟨fun _ => ?_, fun h => absurd (Or.inl rfl) h⟩
      rw [hlog]
      exact dirty_append _ c (Or.inl (hfat.2 hr))
    · have hf := bool_false_of_not_iff hfat hr
      rw [if_neg hr]
      by_cases ha : (zstd_compress_call zstd ZSTD_e_flush (zstd_grow s)).2.outbuf.length <
          OUTPUT_BLOCK_SIZE
      · rw [if_pos ha]
        constructor
        · intro hstuck
          rw [hlog]
          refine dirty_append _ c (Or.inr (hst.2 ⟨rfl, ha, ?_⟩))
          rcases hstuck with h | h
          · exact absurd h (by simp)
          · exact h.2
        · intro hstuck
          rw [hlog]
          refine clean_append c hs hf (bool_false_of_not_iff hst (fun h => hstuck ?_))
          exact Or.inr ⟨rfl, h.2.2⟩
      · rw [if_neg ha]
        refine ih _ ?_
        rw [hlog]
        exact clean_append c hs hf (bool_false_of_not_iff hst (fun h => ha h.2.1))

theorem zstd_drain_verdict (zstd : Zstd τ) : ∀ (fuel : Nat) (s : ZstdVars τ),
    Clean zstd.ZSTD_isError s.log →
      (Stuck (zstd_drain zstd fuel s).1 (zstd_drain zstd fuel s).2.src.length →
        Dirty zstd.ZSTD_isError (zstd_drain zstd fuel s).2.log) ∧
      (¬Stuck (zstd_drain zstd fuel s).1 (zstd_drain zstd fuel s).2.src.length →
        Clean zstd.ZSTD_isError (zstd_drain zstd fuel s).2.log) := by
  intro fuel
  induction fuel with
  | zero =>
    intro s hs
    simp only [zstd_drain, Stuck]
    exact ⟨fun h => by simp at h, fun _ => hs⟩
  | succ n ih =>
    intro s hs
    obtain ⟨c, hlog, hfat, hst⟩ := zstd_decompress_call_entry zstd (zstd_grow s)
    rw [zstd_grow_log] at hlog
    simp only [zstd_drain]
    by_cases hr : zstd.ZSTD_isError (zstd_decompress_call zstd (zstd_grow s)).1 > 0
    · rw [if_pos hr]
      refine ⟨fun _ => ?_, fun h => absurd (Or.inl rfl) h⟩
      rw [hlog]
      exact dirty_append _ c (Or.inl (hfat.2 hr))
    · have hf := bool_false_of_not_iff hfat hr
      rw [if_neg hr]
      by_cases ha : (zstd_decompress_call zstd (zstd_grow s)).2.outbuf.length <
          OUTPUT_BLOCK_SIZE
      · rw [if_pos ha]
        constructor
        · intro hstuck
          rw [hlog]
          refine dirty_append _ c (Or.inr (hst.2 ⟨ha, ?_⟩))
          rcases hstuck with h | h
          · exact absurd h (by simp)
          · exact h.2
        · intro hstuck
          rw [hlog]
          refine clean_append c hs hf (bool_false_of_not_iff hst (fun h => hstuck ?_))
          exact Or.inr ⟨rfl, h.2⟩
      · rw [if_neg ha]
        refine ih _ ?_
        rw [hlog]
        exact clean_append c hs hf (bool_false_of_not_iff hst (fun h => ha h.1))

theorem zstd_compress_loop_verdict (zstd : Zstd τ) (fuel : Nat) :
    ∀ (slices : List grpc_slice) (s : ZstdVars τ), Clean zstd.ZSTD_isError s.log →
      ((zstd_compress_loop zstd fuel slices s).1 = Flow.error →
        Dirty zstd.ZSTD_isError (zstd_compress_loop zstd fuel slices s).2.log) ∧
      ((zstd_compress_loop zstd fuel slices s).1 ≠ Flow.error →
        Clean zstd.ZSTD_isError (zstd_compress_loop zstd fuel slices s).2.log) := by
  intro slices
  induction slices with
  | nil =>
    intro s hs
    simp only [zstd_compress_loop]
    exact ⟨fun h => by simp at h, fun _ => hs⟩
  | cons slice rest ih =>
    intro s hs
    simp only [zstd_compress_loop]
    by_cases hlen : uint_max < slice.length
    · rw [if_pos hlen]
      exact ⟨fun h => by simp at h, fun _ => hs⟩
    · rw [if_neg hlen]
      obtain ⟨c, hlog, hfat, hst⟩ :=
        zstd_compress_call_entry zstd ZSTD_e_continue { s with src := slice }
      by_cases hr : zstd.ZSTD_isError
          (zstd_compress_call zstd ZSTD_e_continue { s with src := slice }).1 > 0
      · rw [if_pos hr]
        refine ⟨fun _ => ?_, fun h => absurd rfl h⟩
        rw [hlog]
        exact dirty_append _ c (Or.inl (hfat.2 hr))
      · rw [if_neg hr]
        have hc : Clean zstd.ZSTD_isError
            (zstd_compress_call zstd ZSTD_e_continue { s with src := slice }).2.log := by
          rw [hlog]
          exact clean_append c hs (bool_false_of_not_iff hfat hr)
            (bool_false_of_not_iff hst (fun h => absurd h.1 (by decide)))
        have hd := zstd_flush_verdict zstd fuel
          (zstd_compress_call zstd ZSTD_e_continue { s with src := slice }).2 hc
        rcases hdr : zstd_flush zstd fuel
          (zstd_compress_call zstd ZSTD_e_continue { s with src := slice }).2 with ⟨f, s1⟩
        rw [hdr] at hd
        cases f
        · by_cases hin : s1.src.length ≠ 0
          · dsimp only
            rw [if_pos hin]
            exact ⟨fun _ => hd.1 (Or.inr ⟨rfl, hin⟩), fun h => absurd rfl h⟩
          · dsimp only
            rw [if_neg hin]
            refine ih s1 (hd.2 ?_)
            rintro (h | h)
            · simp at h
            · exact hin h.2
        · exact ⟨fun _ => hd.1 (Or.inl rfl), fun h => absurd rfl h⟩
        · refine ⟨fun h => by simp at h, fun _ => hd.2 ?_⟩
          rintro (h | h) <;> simp at h
        · refine ⟨fun h => by simp at h, fun _ => hd.2 ?_⟩
          rintro (h | h) <;> simp at h

theorem zstd_decompress_loop_verdict (zstd : Zstd τ) (fuel : Nat) :
    ∀ (slices : List grpc_slice) (s : ZstdVars τ), Clean zstd.ZSTD_isError s.log →
      ((zstd_decompress_loop zstd fuel slices s).1 = Flow.error →
        Dirty zstd.ZSTD_isError (zstd_decompress_loop zstd fuel slices s).2.log) ∧
      ((zstd_decompress_loop zstd fuel slices s).1 ≠ Flow.error →
        Clean zstd.ZSTD_isError (zstd_decompress_loop zstd fuel slices s).2.log) := by
  intro slices
  induction slices with
  | nil =>
    intro s hs
    simp only [zstd_decompress_loop]
    exact ⟨fun h => by simp at h, fun _ => hs⟩
  | cons slice rest ih =>
    intro s hs
    simp only [zstd_decompress_loop]
    by_cases hlen : uint_max < slice.length
    · rw [if_pos hlen]
      exact ⟨fun h => by simp at h, fun _ => hs⟩
    · rw [if_neg hlen]
      have hd := zstd_drain_verdict zstd fuel { s with src := slice } hs
      rcases hdr : zstd_drain zstd fuel { s with src := slice } with ⟨f, s1⟩
      rw [hdr] at hd
      cases f
      · by_cases hin : s1.src.length ≠ 0
        · dsimp only
          rw [if_pos hin]
          exact ⟨fun _ => hd.1 (Or.inr ⟨rfl, hin⟩), fun h => absurd rfl h⟩
        · dsimp only
          rw [if_neg hin]
          refine ih s1 (hd.2 ?_)
          rintro (h | h)
          · simp at h
          · exact hin h.2
      · exact ⟨fun _ => hd.1 (Or.inl rfl), fun h => absurd rfl h⟩
      · refine ⟨fun h => by simp at h, fun _ => hd.2 ?_⟩
        rintro (h | h) <;> simp at h
      · refine ⟨fun h => by simp at h, fun _ => hd.2 ?_⟩
        rintro (h | h) <;> simp at h

theorem zlib_body_flag (flate : FlateFn σ) (fn : Flate) (fuel : Nat) (zs : σ)
    (input output : grpc_slice_buffer) (log : List Call) (r : Int)
    (h : (zlib_body flate fn fuel zs input output log).1 = Exit.returned r) : r = 0 ∨ r = 1 := by
  unfold zlib_body at h
  rcases hl : zlib_loop flate fn fuel input.slices Z_NO_FLUSH
    { zs := zs, next_in := [], outbuf := [], output := output, log := log } with ⟨f, s1⟩
  rw [hl] at h
  cases f <;> simp at h
  · exact Or.inr h.symm
  · exact Or.inl h.symm

theorem zlib_compress_clean (isError : Nat → Nat) (zlib : Zlib σ) (fuel : Nat)
    (input output : grpc_slice_buffer) (gzip : Int)
    (hne : (zlib_compress zlib fuel input output gzip).exit ≠ Exit.returned 0) :
    Clean isError (zlib_compress zlib fuel input output gzip).log := by
  unfold zlib_compress at hne ⊢
  rcases hinit : zlib.deflateInit2 Z_DEFAULT_COMPRESSION Z_DEFLATED (windowBits gzip) 8
    Z_DEFAULT_STRATEGY with ⟨r, zs⟩
  simp only [hinit] at hne ⊢
  have h0 : Clean isError [Call.deflateInit2 (windowBits gzip) r] := by
    intro c hc
    rw [List.mem_singleton.1 hc]
    exact ⟨rfl, rfl⟩
  by_cases hr : r ≠ Z_OK
  · simpa [hr] using h0
  · simp only [hr, if_false] at hne ⊢
    have hb := zlib_body_verdict isError zlib.deflate Flate.deflate fuel zs input output _ h0
    rcases hbr : zlib_body zlib.deflate Flate.deflate fuel zs input output
      [Call.deflateInit2 (windowBits gzip) r] with ⟨e, s⟩
    rw [hbr] at hb
    simp only [hbr] at hne ⊢
    cases e with
    | returned b =>
      by_cases hc : b ≠ 0 ∧ s.output.length < input.length
      · dsimp only
        rw [if_pos hc]
        refine clean_append Call.deflateEnd (hb.2 ?_) rfl rfl
        simpa using hc.1
      · dsimp only at hne
        rw [if_neg hc] at hne
        exact absurd rfl hne
    | aborted => exact hb.2 (by simp)
    | unfinished => exact hb.2 (by simp)

theorem zlib_decompress_verdict (isError : Nat → Nat) (zlib : Zlib σ) (fuel : Nat)
    (input output : grpc_slice_buffer) (gzip : Int) :
    ((zlib_decompress zlib fuel input output gzip).exit = Exit.returned 0 →
      Dirty isError (zlib_decompress zlib fuel input output gzip).log) ∧
    ((zlib_decompress zlib fuel input output gzip).exit ≠ Exit.returned 0 →
      Clean isError (zlib_decompress zlib fuel input output gzip).log) := by
  unfold zlib_decompress
  rcases hinit : zlib.inflateInit2 (windowBits gzip) with ⟨r, zs⟩
  simp only [hinit]
  have h0 : Clean isError [Call.inflateInit2 (windowBits gzip) r] := by
    intro c hc
    rw [List.mem_singleton.1 hc]
    exact ⟨rfl, rfl⟩
  by_cases hr : r ≠ Z_OK
  · rw [if_pos hr]
    exact ⟨fun h => by simp at h, fun _ => h0⟩
  · rw [if_neg hr]
    have hb := zlib_body_verdict isError zlib.inflate Flate.inflate fuel zs input output _ h0
    rcases hbr : zlib_body zlib.inflate Flate.inflate fuel zs input output
      [Call.inflateInit2 (windowBits gzip) r] with ⟨e, s⟩
    rw [hbr] at hb
    cases e with
    | returned b =>
      by_cases hc : b ≠ 0
      · dsimp only
        rw [if_pos hc]
        refine ⟨fun h => ?_, fun _ => clean_append Call.inflateEnd (hb.2 ?_) rfl rfl⟩
        · simp only [Exit.returned.injEq] at h
          exact absurd h hc
        · simpa using hc
      · dsimp only
        rw [if_neg hc]
        refine ⟨fun _ => dirty_append_left _ (hb.1 ?_), fun h => absurd rfl h⟩
        simpa using hc
    | aborted => exact ⟨fun h => by simp at h, fun _ => hb.2 (by simp)⟩
    | unfinished => exact ⟨fun h => by simp at h, fun _ => hb.2 (by simp)⟩

theorem zstd_compress_clean (zstd : Zstd τ) (fuel : Nat) (input output : grpc_slice_buffer)
    (hne : (zstd_compress zstd fuel input output).exit ≠ Exit.returned 0) :
    Clean zstd.ZSTD_isError (zstd_compress zstd fuel input output).log := by
  unfold zstd_compress at hne ⊢
  rcases hinit : zstd.ZSTD_initCStream zstd.ZSTD_createCStream 5 with ⟨err, p⟩
  simp only [hinit] at hne ⊢
  have h0 : Clean zstd.ZSTD_isError [Call.ZSTD_createCStream, Call.ZSTD_initCStream 5 err] := by
    intro c hc
    simp only [List.mem_cons, List.mem_singleton, List.not_mem_nil, or_false] at hc
    rcases hc with rfl | rfl <;> exact ⟨rfl, rfl⟩
  by_cases he : zstd.ZSTD_isError err > 0
  · simp [he, zstd_compress_error2_exit] at hne
  · simp only [he, if_false] at hne ⊢
    have hl := zstd_compress_loop_verdict zstd fuel input.slices
      { pStream := p, src := [], outbuf := [], output := output,
        log := [Call.ZSTD_createCStream, Call.ZSTD_initCStream 5 err] } h0
    rcases hlr : zstd_compress_loop zstd fuel input.slices
      { pStream := p, src := [], outbuf := [], output := output,
        log := [Call.ZSTD_createCStream, Call.ZSTD_initCStream 5 err] } with ⟨f, s⟩
    rw [hlr] at hl
    simp only [hlr] at hne ⊢
    cases f with
    | done =>
      simp only at hne ⊢
      split_ifs at hne ⊢
      · simp [zstd_compress_error2_exit] at hne
      · simp [zstd_compress_error2_exit] at hne
      · exact clean_append (Call.ZSTD_freeCStream _) (hl.2 (by simp)) rfl rfl
    | error => simp [zstd_compress_error2_exit] at hne
    | aborted => exact hl.2 (by simp)
    | unfinished => exact hl.2 (by simp)

theorem zstd_decompress_clean (zstd : Zstd τ) (fuel : Nat) (input output : grpc_slice_buffer)
    (hne : (zstd_decompress zstd fuel input output).exit ≠ Exit.returned 0) :
    Clean zstd.ZSTD_isError (zstd_decompress zstd fuel input output).log := by
  unfold zstd_decompress at hne ⊢
  rcases hinit : zstd.ZSTD_initDStream zstd.ZSTD_createDStream with ⟨err, p⟩
  simp only [hinit] at hne ⊢
  have h0 : Clean zstd.ZSTD_isError [Call.ZSTD_createDStream, Call.ZSTD_initDStream err] := by
    intro c hc
    simp only [List.mem_cons, List.mem_singleton, List.not_mem_nil, or_false] at hc
    rcases hc with rfl | rfl <;> exact ⟨rfl, rfl⟩
  by_cases he : zstd.ZSTD_isError err > 0
  · simp [he, zstd_decompress_error2_exit] at hne
  · simp only [he, if_false] at hne ⊢
    have hl := zstd_decompress_loop_verdict zstd fuel input.slices
      { pStream := p, src := [], outbuf := [], output := output,
        log := [Call.ZSTD_createDStream, Call.ZSTD_initDStream err] } h0
    rcases hlr : zstd_decompress_loop zstd fuel input.slices
      { pStream := p, src := [], outbuf := [], output := output,
        log := [Call.ZSTD_createDStream, Call.ZSTD_initDStream err] } with ⟨f, s⟩
    rw [hlr] at hl
    simp only [hlr] at hne ⊢
    cases f with
    | done =>
      simp only at hne ⊢
      split_ifs at hne ⊢
      · simp [zstd_decompress_error2_exit] at hne
      · exact clean_append (Call.ZSTD_freeDStream _) (hl.2 (by simp)) rfl rfl
    | error => simp [zstd_decompress_error2_exit] at hne
    | aborted => exact hl.2 (by simp)
    | unfinished => exact hl.2 (by simp)

theorem failed_of_fatal (isError : Nat → Nat) (c : Call) (h : c.fatal isError = true) :
    c.failed isError = true := by
  cases c <;> first | exact h | exact absurd h (by simp [Call.fatal])

theorem fatal_of_not_failed (isError : Nat → Nat) (c : Call) (h : c.failed isError = false) :
    c.fatal isError = false := by
  cases hf : c.fatal isError
  · rfl
  · rw [failed_of_fatal isError c hf] at h
    exact Bool.noConfusion h

theorem fatal_iff_status (isError : Nat → Nat) (c : Call) (hz : ∀ n, isError n = 0) :
    c.fatal isError = true ↔ ∃ st, c.flateStatus = some st ∧ st < 0 ∧ st ≠ Z_BUF_ERROR := by
  cases c <;> simp [Call.fatal, Call.flateStatus, hz]

/-- A `zstd_decompress` that returns 0 has a library call that reported an error or a step
call that left its chunk unconsumed. -/
theorem zstd_decompress_zero_cause (zstd : Zstd τ) (fuel : Nat)
    (input output : grpc_slice_buffer)
    (h0 : (zstd_decompress zstd fuel input output).exit = Exit.returned 0) :
    ∃ c ∈ (zstd_decompress zstd fuel input output).log,
      c.failed zstd.ZSTD_isError = true ∨ c.starved = true := by
  have hdirty : ∀ l : List Call, Dirty zstd.ZSTD_isError l →
      ∃ c ∈ l, c.failed zstd.ZSTD_isError = true ∨ c.starved = true := by
    rintro l ⟨c, hc, hb⟩
    exact ⟨c, hc, hb.imp (failed_of_fatal _ c) id⟩
  unfold zstd_decompress at h0 ⊢
  rcases hinit : zstd.ZSTD_initDStream zstd.ZSTD_createDStream with ⟨err, p⟩
  simp only [hinit] at h0 ⊢
  have hc0 : Clean zstd.ZSTD_isError [Call.ZSTD_createDStream, Call.ZSTD_initDStream err] := by
    intro c hc
    simp only [List.mem_cons, List.mem_singleton, List.not_mem_nil, or_false] at hc
    rcases hc with rfl | rfl <;> exact ⟨rfl, rfl⟩
  by_cases he : zstd.ZSTD_isError err > 0
  · rw [if_pos he]
    refine ⟨Call.ZSTD_initDStream err, ?_, Or.inl ?_⟩
    · simp [zstd_decompress_error2]
    · simpa [Call.failed] using he
  · simp only [he, if_false] at h0 ⊢
    have hl := zstd_decompress_loop_verdict zstd fuel input.slices
      { pStream := p, src := [], outbuf := [], output := output,
        log := [Call.ZSTD_createDStream, Call.ZSTD_initDStream err] } hc0
    rcases hlr : zstd_decompress_loop zstd fuel input.slices
      { pStream := p, src := [], outbuf := [], output := output,
        log := [Call.ZSTD_createDStream, Call.ZSTD_initDStream err] } with ⟨f, s⟩
    rw [hlr] at hl
    simp only [hlr] at h0 ⊢
    cases f with
    | done =>
      simp only at h0 ⊢
      split_ifs at h0 ⊢ with hfree
      · refine ⟨Call.ZSTD_freeDStream (zstd.ZSTD_freeDStream s.pStream).1, ?_, Or.inl ?_⟩
        · simp [zstd_decompress_error2]
        · simpa [Call.failed] using hfree
      · simp at h0
    | error =>
      obtain ⟨c, hc, hb⟩ := hdirty _ (hl.1 rfl)
      exact ⟨c, by simp [zstd_decompress_error2, hc], hb⟩
    | aborted => simp at h0
    | unfinished => simp at h0

end Verdict

/-! ## The directive of each step call -/

section Directive

variable {σ τ : Type}

theorem loopCalls_nil (least : Nat) (P : Bool → Bool → Call → Prop)
    (slices : List grpc_slice) : LoopCalls least P slices [] := by
  induction slices with
  | nil => rfl
  | cons slice rest ih => exact ⟨[], [], rfl, trivial, fun h => absurd rfl h, ih⟩

theorem loopCalls_mem (least : Nat) (P : Bool → Bool → Call → Prop) :
    ∀ (slices : List grpc_slice) (calls : List Call), LoopCalls least P slices calls →
      ∀ c ∈ calls, ∃ last first, P last first c := by
  have hchunk : ∀ (Q : Bool → Call → Prop) (calls : List Call) (first : Bool)
      (chunk : grpc_slice), ChunkCalls Q first chunk calls → ∀ c ∈ calls, ∃ f, Q f c := by
    intro Q calls
    induction calls with
    | nil => intro _ _ _ c hc; exact absurd hc (List.not_mem_nil c)
    | cons d rest ih =>
      intro first chunk h c hc
      rcases List.mem_cons.1 hc with rfl | hc
      · exact ⟨first, h.1⟩
      · exact ih false _ h.2.2 c hc
  intro slices
  induction slices with
  | nil =>
    intro calls h c hc
    rw [show calls = [] from h] at hc
    exact absurd hc (List.not_mem_nil c)
  | cons slice rest ih =>
    rintro calls ⟨a, b, rfl, ha, _, hb⟩ c hc
    rcases List.mem_append.1 hc with hc | hc
    · obtain ⟨f, hf⟩ := hchunk _ a true slice ha c hc
      exact ⟨_, f, hf⟩
    · exact ih b hb c hc

theorem zlib_call_shape (flate : FlateFn σ) (fn : Flate) (flush : Int) (s : ZBody σ) :
    ∃ c : Call, (zlib_call flate fn flush s).2.log = s.log ++ [c] ∧
      c.flushArg = some flush ∧ c.offered = s.next_in ∧
      s.next_in = c.read ++ (zlib_call flate fn flush s).2.next_in :=
  ⟨_, rfl, rfl, rfl, by simp [Call.read, zlib_call]⟩

theorem zstd_compress_call_shape (zstd : Zstd τ) (d : Nat) (s : ZstdVars τ) :
    ∃ c : Call, (zstd_compress_call zstd d s).2.log = s.log ++ [c] ∧
      c.directive = some d ∧ c.offered = s.src ∧
      s.src = c.read ++ (zstd_compress_call zstd d s).2.src :=
  ⟨_, rfl, rfl, rfl, by simp [Call.read, zstd_compress_call]⟩

theorem chunkCalls_cons (P : Bool → Call → Prop) (first : Bool) (chunk left : grpc_slice)
    (c : Call) (calls : List Call) (hP : P first c) (ho : c.offered = chunk)
    (hr : chunk = c.read ++ left) (h : ChunkCalls P false left calls) :
    ChunkCalls P first chunk (c :: calls) := by
  refine ⟨hP, ho, ?_⟩
  have : chunk.drop c.read.length = left := by
    rw [hr]
    exact List.drop_left _ _
  rw [this]
  exact h

theorem zlib_drain_calls (flate : FlateFn σ) (fn : Flate) (flush : Int)
    (P : Bool → Call → Prop) (hP : ∀ (first : Bool) (c : Call), c.flushArg = some flush → P first c) :
    ∀ (fuel : Nat) (s : ZBody σ) (first : Bool),
      ∃ calls, (zlib_drain flate fn flush fuel s).2.log = s.log ++ calls ∧
        ChunkCalls P first s.next_in calls ∧
        ((zlib_drain flate fn flush fuel s).1 = Flow.done →
          calls ≠ [] ∧ s.next_in = readOf calls ++ (zlib_drain flate fn flush fuel s).2.next_in) := by
  intro fuel
  induction fuel with
  | zero =>
    intro s first
    exact ⟨[], by simp [zlib_drain], trivial, fun h => by simp [zlib_drain] at h⟩
  | succ n ih =>
    intro s first
    obtain ⟨c, hlog, hfl, hoff, hread⟩ := zlib_call_shape flate fn flush (zlib_grow s)
    rw [zlib_grow_log] at hlog
    rw [zlib_grow_next_in] at hoff hread
    have hone : ChunkCalls P first s.next_in [c] := ⟨hP first c hfl, hoff, trivial⟩
    simp only [zlib_drain]
    by_cases hr : (zlib_call flate fn flush (zlib_grow s)).1 < 0 ∧
        (zlib_call flate fn flush (zlib_grow s)).1 ≠ Z_BUF_ERROR
    · rw [if_pos hr]
      exact ⟨[c], hlog, hone, fun h => by simp at h⟩
    · rw [if_neg hr]
      by_cases ha : (zlib_call flate fn flush (zlib_grow s)).2.avail_out = 0
      · rw [if_pos ha]
        obtain ⟨calls, hl, hc, hd⟩ := ih (zlib_call flate fn flush (zlib_grow s)).2 false
        refine ⟨c :: calls, ?_, chunkCalls_cons P first _ _ c calls (hP first c hfl) hoff hread hc,
          fun h => ⟨List.cons_ne_nil _ _, ?_⟩⟩
        · rw [hl, hlog, List.append_assoc]; rfl
        · have := (hd h).2
          rw [hread]
          conv_lhs => rw [this]
          simp [readOf]
      · rw [if_neg ha]
        refine ⟨[c], hlog, hone, fun _ => ⟨List.cons_ne_nil _ _, ?_⟩⟩
        rw [hread]
        simp [readOf]

theorem zlib_loop_calls (flate : FlateFn σ) (fn : Flate) (fuel : Nat) :
    ∀ (slices : List grpc_slice) (s : ZBody σ),
      ∃ calls, (zlib_loop flate fn fuel slices Z_NO_FLUSH s).2.log = s.log ++ calls ∧
        LoopCalls 1 zlibDirective slices calls := by
  intro slices
  induction slices with
  | nil => intro s; exact ⟨[], by simp [zlib_loop], rfl⟩
  | cons slice rest ih =>
    intro s
    simp only [zlib_loop]
    by_cases hlen : uint_max < slice.length
    · rw [if_pos hlen]
      exact ⟨[], by simp, loopCalls_nil _ _ _⟩
    · rw [if_neg hlen]
      obtain ⟨a, hl, hc, hd⟩ := zlib_drain_calls flate fn
        (if rest = [] then Z_FINISH else Z_NO_FLUSH) (zlibDirective (decide (rest = [])))
        (fun _ c h => by
          unfold zlibDirective
          rw [h]
          by_cases hrest : rest = [] <;> simp [hrest])
        fuel { s with next_in := slice } true
      rcases hdr : zlib_drain flate fn (if rest = [] then Z_FINISH else Z_NO_FLUSH) fuel
        { s with next_in := slice } with ⟨f, s1⟩
      rw [hdr] at hl hd
      have hstop : ∃ calls, s1.log = s.log ++ calls ∧
          LoopCalls 1 zlibDirective (slice :: rest) calls :=
        ⟨a, hl, a, [], (List.append_nil a).symm, hc, fun h => absurd rfl h, loopCalls_nil _ _ _⟩
      cases f
      · dsimp only
        by_cases hin : s1.next_in.length ≠ 0
        · rw [if_pos hin]
          exact hstop
        · rw [if_neg hin]
          have hnil : s1.next_in = [] := List.length_eq_zero.1 (not_not.1 hin)
          by_cases hrest : rest = []
          · subst hrest
            simpa [zlib_loop] using hstop
          · rw [if_neg hrest]
            obtain ⟨b, hbl, hb⟩ := ih s1
            refine ⟨a ++ b, ?_, a, b, rfl, hc,
              fun _ => ⟨List.length_pos.2 (hd rfl).1, ?_⟩, hb⟩
            · rw [hbl, hl, List.append_assoc]
            · have := (hd rfl).2
              simp only [hnil, List.append_nil] at this
              exact this.symm
      · exact hstop
      · exact hstop
      · exact hstop

theorem zstd_flush_calls (zstd : Zstd τ) (P : Bool → Call → Prop)
    (hP : ∀ c : Call, c.directive = some ZSTD_e_flush → P false c) :
    ∀ (fuel : Nat) (s : ZstdVars τ),
      ∃ calls, (zstd_flush zstd fuel s).2.log = s.log ++ calls ∧
        ChunkCalls P false s.src calls ∧
        ((zstd_flush zstd fuel s).1 = Flow.done →
          calls ≠ [] ∧ s.src = readOf calls ++ (zstd_flush zstd fuel s).2.src) := by
  intro fuel
  induction fuel with
  | zero =>
    intro s
    exact ⟨[], by simp [zstd_flush], trivial, fun h => by simp [zstd_flush] at h⟩
  | succ n ih =>
    intro s
    obtain ⟨c, hlog, hfl, hoff, hread⟩ := zstd_compress_call_shape zstd ZSTD_e_flush (zstd_grow s)
    rw [zstd_grow_log] at hlog
    rw [zstd_grow_src] at hoff hread
    have hone : ChunkCalls P false s.src [c] := ⟨hP c hfl, hoff, trivial⟩
    simp only [zstd_flush]
    by_cases hr : zstd.ZSTD_isError (zstd_compress_call zstd ZSTD_e_flush (zstd_grow s)).1 > 0
    · rw [if_pos hr]
      exact ⟨[c], hlog, hone, fun h => by simp at h⟩
    · rw [if_neg hr]
      by_cases ha : (zstd_compress_call zstd ZSTD_e_flush (zstd_grow s)).2.outbuf.length <
          OUTPUT_BLOCK_SIZE
      · rw [if_pos ha]
        refine ⟨[c], hlog, hone, fun _ => ⟨List.cons_ne_nil _ _, ?_⟩⟩
        rw [hread]
        simp [readOf]
      · rw [if_neg ha]
        obtain ⟨calls, hl, hc, hd⟩ := ih (zstd_compress_call zstd ZSTD_e_flush (zstd_grow s)).2
        refine ⟨c :: calls, ?_, chunkCalls_cons P false _ _ c calls (hP c hfl) hoff hread hc,
          fun h => ⟨List.cons_ne_nil _ _, ?_⟩⟩
        · rw [hl, hlog, List.append_assoc]; rfl
        · have := (hd h).2
          rw [hread]
          conv_lhs => rw [this]
          simp [readOf]

theorem zstd_compress_loop_calls (zstd : Zstd τ) (fuel : Nat) :
    ∀ (slices : List grpc_slice) (s : ZstdVars τ),
      ∃ calls, (zstd_compress_loop zstd fuel slices s).2.log = s.log ++ calls ∧
        LoopCalls 2 zstdDirective slices calls := by
  intro slices
  induction slices with
  | nil => intro s; exact ⟨[], by simp [zstd_compress_loop], rfl⟩
  | cons slice rest ih =>
    intro s
    simp only [zstd_compress_loop]
    by_cases hlen : uint_max < slice.length
    · rw [if_pos hlen]
      exact ⟨[], by simp, loopCalls_nil _ _ _⟩
    · rw [if_neg hlen]
      obtain ⟨c, hlog, hdir, hoff, hread⟩ :=
        zstd_compress_call_shape zstd ZSTD_e_continue { s with src := slice }
      have hPc : zstdDirective (decide (rest = [])) true c := by
        unfold zstdDirective
        rw [hdir]
        rfl
      by_cases hr : zstd.ZSTD_isError
          (zstd_compress_call zstd ZSTD_e_continue { s with src := slice }).1 > 0
      · rw [if_pos hr]
        exact ⟨[c], hlog, [c], [], rfl, ⟨hPc, hoff, trivial⟩, fun h => absurd rfl h,
          loopCalls_nil _ _ _⟩
      · rw [if_neg hr]
        obtain ⟨fl, hl, hc, hd⟩ := zstd_flush_calls zstd (zstdDirective (decide (rest = [])))
          (fun c h => by unfold zstdDirective; rw [h]; rfl) fuel
          (zstd_compress_call zstd ZSTD_e_continue { s with src := slice }).2
        have hchunk : ChunkCalls (zstdDirective (decide (rest = []))) true slice (c :: fl) :=
          chunkCalls_cons _ true _ _ c fl hPc hoff hread hc
        rcases hdr : zstd_flush zstd fuel
          (zstd_compress_call zstd ZSTD_e_continue { s with src := slice }).2 with ⟨f, s1⟩
        rw [hdr] at hl hd
        have hlog1 : s1.log = s.log ++ (c :: fl) := by
          rw [hl, hlog, List.append_assoc]; rfl
        have hstop : ∃ calls, s1.log = s.log ++ calls ∧
            LoopCalls 2 zstdDirective (slice :: rest) calls :=
          ⟨c :: fl, hlog1, c :: fl, [], (List.append_nil _).symm, hchunk,
            fun h => absurd rfl h, loopCalls_nil _ _ _⟩
        cases f
        · dsimp only
          by_cases hin : s1.src.length ≠ 0
          · rw [if_pos hin]
            exact hstop
          · rw [if_neg hin]
            have hnil : s1.src = [] := List.length_eq_zero.1 (not_not.1 hin)
            obtain ⟨b, hbl, hb⟩ := ih s1
            have hfl : 2 ≤ (c :: fl).length := by
              have := List.length_pos.2 (hd rfl).1
              simp only [List.length_cons]
              omega
            refine ⟨(c :: fl) ++ b, ?_, c :: fl, b, rfl, hchunk, fun _ => ⟨hfl, ?_⟩, hb⟩
            · rw [hbl, hlog1, List.append_assoc]
            · have := (hd rfl).2
              simp only [hnil, List.append_nil] at this
              have hs : slice = c.read ++ readOf fl := by
                have h2 := hread
                rw [this] at h2
                exact h2
              rw [hs]
              simp [readOf]
        · exact hstop
        · exact hstop
        · exact hstop

theorem isStep_of_flushArg (c : Call) (d : Int) (h : c.flushArg = some d) : c.isStep = true := by
  cases c <;> first | rfl | simp [Call.flushArg] at h

theorem isStep_of_directive (c : Call) (d : Nat) (h : c.directive = some d) :
    c.isStep = true := by
  cases c <;> first | rfl | simp [Call.directive] at h

theorem filter_steps (head calls tail : List Call) (hh : ∀ c ∈ head, c.isStep = false)
    (hc : ∀ c ∈ calls, c.isStep = true) (ht : ∀ c ∈ tail, c.isStep = false) :
    (head ++ calls ++ tail).filter Call.isStep = calls := by
  rw [List.filter_append, List.filter_append, List.filter_eq_self.2 hc,
    List.filter_eq_nil_iff.2 (fun c hmem => by rw [hh c hmem]; simp),
    List.filter_eq_nil_iff.2 (fun c hmem => by rw [ht c hmem]; simp)]
  simp

theorem zlib_body_calls (flate : FlateFn σ) (fn : Flate) (fuel : Nat) (zs : σ)
    (input output : grpc_slice_buffer) (log : List Call) :
    ∃ calls, (zlib_body flate fn fuel zs input output log).2.log = log ++ calls ∧
      LoopCalls 1 zlibDirective input.slices calls := by
  obtain ⟨calls, hl, hc⟩ := zlib_loop_calls flate fn fuel input.slices
    { zs := zs, next_in := [], outbuf := [], output := output, log := log }
  refine ⟨calls, ?_, hc⟩
  unfold zlib_body
  rcases hlr : zlib_loop flate fn fuel input.slices Z_NO_FLUSH
    { zs := zs, next_in := [], outbuf := [], output := output, log := log } with ⟨f, s1⟩
  rw [hlr] at hl
  cases f <;> exact hl

theorem zlib_compress_calls (zlib : Zlib σ) (fuel : Nat) (input output : grpc_slice_buffer)
    (gzip : Int) :
    LoopCalls 1 zlibDirective input.slices
      ((zlib_compress zlib fuel input output gzip).log.filter Call.isStep) := by
  unfold zlib_compress
  rcases hinit : zlib.deflateInit2 Z_DEFAULT_COMPRESSION Z_DEFLATED (windowBits gzip) 8
    Z_DEFAULT_STRATEGY with ⟨r, zs⟩
  simp only [hinit]
  by_cases hr : r ≠ Z_OK
  · rw [if_pos hr]
    exact loopCalls_nil _ _ _
  · rw [if_neg hr]
    obtain ⟨calls, hl, hc⟩ := zlib_body_calls zlib.deflate Flate.deflate fuel zs input output
      [Call.deflateInit2 (windowBits gzip) r]
    have hsteps : ∀ c ∈ calls, c.isStep = true := by
      intro c hmem
      obtain ⟨l, f, hP⟩ := loopCalls_mem _ _ _ _ hc c hmem
      exact isStep_of_flushArg c _ hP
    have hhead : ∀ c ∈ [Call.deflateInit2 (windowBits gzip) r], c.isStep = false := by
      intro c hmem
      rw [List.mem_singleton.1 hmem]
      rfl
    have hend : ∀ c ∈ [Call.deflateEnd], c.isStep = false := by
      intro c hmem
      rw [List.mem_singleton.1 hmem]
      rfl
    have h1 := filter_steps _ calls [Call.deflateEnd] hhead hsteps hend
    have h2 := filter_steps _ calls [] hhead hsteps (fun c hmem => absurd hmem (List.not_mem_nil c))
    rw [List.append_nil] at h2
    rcases hbr : zlib_body zlib.deflate Flate.deflate fuel zs input output
      [Call.deflateInit2 (windowBits gzip) r] with ⟨e, s⟩
    rw [hbr] at hl
    dsimp only at hl
    cases e with
    | returned b =>
      dsimp only
      split_ifs
      · dsimp only; rw [hl, h1]; exact hc
      · dsimp only; rw [hl, h1]; exact hc
    | aborted => dsimp only; rw [hl, h2]; exact hc
    | unfinished => dsimp only; rw [hl, h2]; exact hc

theorem zstd_compress_calls (zstd : Zstd τ) (fuel : Nat) (input output : grpc_slice_buffer) :
    LoopCalls 2 zstdDirective input.slices
      ((zstd_compress zstd fuel input output).log.filter Call.isStep) := by
  have hshape : ∃ head calls tail, (zstd_compress zstd fuel input output).log =
      head ++ calls ++ tail ∧ (∀ c ∈ head, c.isStep = false) ∧
      (∀ c ∈ tail, c.isStep = false) ∧ LoopCalls 2 zstdDirective input.slices calls := by
    unfold zstd_compress
    rcases hinit : zstd.ZSTD_initCStream zstd.ZSTD_createCStream 5 with ⟨err, p⟩
    simp only [hinit]
    have hhead : ∀ c ∈ [Call.ZSTD_createCStream, Call.ZSTD_initCStream 5 err],
        c.isStep = false := by
      intro c hmem
      simp only [List.mem_cons, List.mem_singleton, List.not_mem_nil, or_false] at hmem
      rcases hmem with rfl | rfl <;> rfl
    by_cases he : zstd.ZSTD_isError err > 0
    · rw [if_pos he]
      refine ⟨_, [], [Call.ZSTD_freeCStream (zstd.ZSTD_freeCStream p).1], ?_, hhead, ?_,
        loopCalls_nil _ _ _⟩
      · simp [zstd_compress_error2]
      · intro c hmem
        rw [List.mem_singleton.1 hmem]
        rfl
    · rw [if_neg he]
      obtain ⟨calls, hl, hc⟩ := zstd_compress_loop_calls zstd fuel input.slices
        { pStream := p, src := [], outbuf := [], output := output,
          log := [Call.ZSTD_createCStream, Call.ZSTD_initCStream 5 err] }
      rcases hlr : zstd_compress_loop zstd fuel input.slices
        { pStream := p, src := [], outbuf := [], output := output,
          log := [Call.ZSTD_createCStream, Call.ZSTD_initCStream 5 err] } with ⟨f, s⟩
      rw [hlr] at hl
      dsimp only at hl
      cases f with
      | done =>
        dsimp only
        split_ifs
        · refine ⟨_, calls, [Call.ZSTD_freeCStream (zstd.ZSTD_freeCStream s.pStream).1,
            Call.ZSTD_freeCStream
              (zstd.ZSTD_freeCStream (zstd.ZSTD_freeCStream s.pStream).2).1], ?_, hhead, ?_, hc⟩
          · simp [zstd_compress_error2, hl]
          · intro c hmem
            simp only [List.mem_cons, List.mem_singleton, List.not_mem_nil, or_false] at hmem
            rcases hmem with rfl | rfl <;> rfl
        · refine ⟨_, calls, [Call.ZSTD_freeCStream (zstd.ZSTD_freeCStream s.pStream).1,
            Call.ZSTD_freeCStream
              (zstd.ZSTD_freeCStream (zstd.ZSTD_freeCStream s.pStream).2).1], ?_, hhead, ?_, hc⟩
          · simp [zstd_compress_error2, hl]
          · intro c hmem
            simp only [List.mem_cons, List.mem_singleton, List.not_mem_nil, or_false] at hmem
            rcases hmem with rfl | rfl <;> rfl
        · refine ⟨_, calls, [Call.ZSTD_freeCStream (zstd.ZSTD_freeCStream s.pStream).1], ?_,
            hhead, ?_, hc⟩
          · simp [hl]
          · intro c hmem
            rw [List.mem_singleton.1 hmem]
            rfl
      | error =>
        refine ⟨_, calls, [Call.ZSTD_freeCStream (zstd.ZSTD_freeCStream s.pStream).1], ?_,
          hhead, ?_, hc⟩
        · simp [zstd_compress_error2, hl]
        · intro c hmem
          rw [List.mem_singleton.1 hmem]
          rfl
      | aborted =>
        exact ⟨_, calls, [], by simp [hl], hhead,
          fun c hmem => absurd hmem (List.not_mem_nil c), hc⟩
      | unfinished =>
        exact ⟨_, calls, [], by simp [hl], hhead,
          fun c hmem => absurd hmem (List.not_mem_nil c), hc⟩
  obtain ⟨head, calls, tail, hlog, hh, ht, hc⟩ := hshape
  have hsteps : ∀ c ∈ calls, c.isStep = true := by
    intro c hmem
    obtain ⟨l, f, hP⟩ := loopCalls_mem _ _ _ _ hc c hmem
    exact isStep_of_directive c _ hP
  rw [hlog, filter_steps head calls tail hh hsteps ht]
  exact hc

end Directive

/-! ## The order in which the input is presented -/

section Order

variable {σ τ : Type}

theorem presented_nil (slices : List grpc_slice) : Presented false slices [] := by
  induction slices with
  | nil => rfl
  | cons slice rest ih =>
    refine ⟨[], [], rfl, trivial, fun h => ?_, ih⟩
    rcases h with h | h
    · exact Bool.noConfusion h
    · exact absurd rfl h

theorem presented_weaken (complete : Bool) :
    ∀ (slices : List grpc_slice) (calls : List Call), Presented complete slices calls →
      Presented false slices calls := by
  intro slices
  induction slices with
  | nil => intro calls h; exact h
  | cons slice rest ih =>
    rintro calls ⟨a, b, hab, hc, hr, hb⟩
    exact ⟨a, b, hab, hc, fun h => hr (Or.inr (h.resolve_left (fun h0 => Bool.noConfusion h0))),
      ih b hb⟩

theorem chunkCalls_steps : ∀ (calls : List Call) (first : Bool) (chunk : grpc_slice),
    ChunkCalls (fun _ c => c.isStep = true) first chunk calls → ∀ c ∈ calls, c.isStep = true := by
  intro calls
  induction calls with
  | nil => intro _ _ _ c hc; exact absurd hc (List.not_mem_nil c)
  | cons d rest ih =>
    intro first chunk h c hc
    rcases List.mem_cons.1 hc with rfl | hc
    · exact h.1
    · exact ih false _ h.2.2 c hc

theorem presented_steps (complete : Bool) :
    ∀ (slices : List grpc_slice) (calls : List Call), Presented complete slices calls →
      ∀ c ∈ calls, c.isStep = true := by
  intro slices
  induction slices with
  | nil =>
    intro calls h c hc
    rw [show calls = [] from h] at hc
    exact absurd hc (List.not_mem_nil c)
  | cons slice rest ih =>
    rintro calls ⟨a, b, rfl, ha, _, hb⟩ c hc
    rcases List.mem_append.1 hc with hc | hc
    · exact chunkCalls_steps a true slice ha c hc
    · exact ih b hb c hc

/-- When every chunk was presented, the bytes the calls read are the bytes of the chunks. -/
theorem presented_read : ∀ (slices : List grpc_slice) (calls : List Call),
    Presented true slices calls → readOf calls = slices.flatten := by
  intro slices
  induction slices with
  | nil =>
    intro calls h
    rw [show calls = [] from h]
    rfl
  | cons slice rest ih =>
    rintro calls ⟨a, b, rfl, _, hr, hb⟩
    rw [readOf_append_list, (hr (Or.inl rfl)).2, ih b hb, List.flatten_cons]

theorem zstd_decompress_call_shape (zstd : Zstd τ) (s : ZstdVars τ) :
    ∃ c : Call, (zstd_decompress_call zstd s).2.log = s.log ++ [c] ∧
      c.isStep = true ∧ c.offered = s.src ∧
      s.src = c.read ++ (zstd_decompress_call zstd s).2.src :=
  ⟨_, rfl, rfl, rfl, by simp [Call.read, zstd_decompress_call]⟩

theorem zstd_drain_calls (zstd : Zstd τ) :
    ∀ (fuel : Nat) (s : ZstdVars τ) (first : Bool),
      ∃ calls, (zstd_drain zstd fuel s).2.log = s.log ++ calls ∧
        ChunkCalls (fun _ c => c.isStep = true) first s.src calls ∧
        ((zstd_drain zstd fuel s).1 = Flow.done →
          calls ≠ [] ∧ s.src = readOf calls ++ (zstd_drain zstd fuel s).2.src) := by
  intro fuel
  induction fuel with
  | zero =>
    intro s first
    exact ⟨[], by simp [zstd_drain], trivial, fun h => by simp [zstd_drain] at h⟩
  | succ n ih =>
    intro s first
    obtain ⟨c, hlog, hst, hoff, hread⟩ := zstd_decompress_call_shape zstd (zstd_grow s)
    rw [zstd_grow_log] at hlog
    rw [zstd_grow_src] at hoff hread
    have hone : ChunkCalls (fun _ c => c.isStep = true) first s.src [c] := ⟨hst, hoff, trivial⟩
    simp only [zstd_drain]
    by_cases hr : zstd.ZSTD_isError (zstd_decompress_call zstd (zstd_grow s)).1 > 0
    · rw [if_pos hr]
      exact ⟨[c], hlog, hone, fun h => by simp at h⟩
    · rw [if_neg hr]
      by_cases ha : (zstd_decompress_call zstd (zstd_grow s)).2.outbuf.length <
          OUTPUT_BLOCK_SIZE
      · rw [if_pos ha]
        refine ⟨[c], hlog, hone, fun _ => ⟨List.cons_ne_nil _ _, ?_⟩⟩
        rw [hread]
        simp [readOf]
      · rw [if_neg ha]
        obtain ⟨calls, hl, hc, hd⟩ := ih (zstd_decompress_call zstd (zstd_grow s)).2 false
        refine ⟨c :: calls, ?_,
          chunkCalls_cons _ first _ _ c calls hst hoff hread hc,
          fun h => ⟨List.cons_ne_nil _ _, ?_⟩⟩
        · rw [hl, hlog, List.append_assoc]; rfl
        · have := (hd h).2
          rw [hread]
          conv_lhs => rw [this]
          simp [readOf]

theorem presented_stop (slice : grpc_slice) (rest : List grpc_slice) (a : List Call)
    (hc : ChunkCalls (fun _ c => c.isStep = true) true slice a) :
    Presented false (slice :: rest) a :=
  ⟨a, [], (List.append_nil a).symm, hc,
    fun h => absurd rfl (h.resolve_left (fun h0 => Bool.noConfusion h0)), presented_nil rest⟩

theorem presented_cons (complete : Bool) (slice : grpc_slice) (rest : List grpc_slice)
    (a b : List Call) (hc : ChunkCalls (fun _ c => c.isStep = true) true slice a)
    (hne : a ≠ []) (hr : readOf a = slice) (hb : Presented complete rest b) :
    Presented complete (slice :: rest) (a ++ b) :=
  ⟨a, b, rfl, hc, fun _ => ⟨hne, hr⟩, hb⟩

theorem zlib_loop_presented (flate : FlateFn σ) (fn : Flate) (fuel : Nat) :
    ∀ (slices : List grpc_slice) (flush : Int) (s : ZBody σ),
      ∃ calls, (zlib_loop flate fn fuel slices flush s).2.log = s.log ++ calls ∧
        Presented false slices calls ∧
        ((zlib_loop flate fn fuel slices flush s).1 = Flow.done → Presented true slices calls) := by
  intro slices
  induction slices with
  | nil => intro flush s; exact ⟨[], by simp [zlib_loop], rfl, fun _ => rfl⟩
  | cons slice rest ih =>
    intro flush s
    simp only [zlib_loop]
    generalize (if rest = [] then Z_FINISH else flush) = fl
    by_cases hlen : uint_max < slice.length
    · rw [if_pos hlen]
      exact ⟨[], by simp, presented_nil _, fun h => by simp at h⟩
    · rw [if_neg hlen]
      obtain ⟨a, hl, hc, hd⟩ := zlib_drain_calls flate fn fl (fun _ c => c.isStep = true)
        (fun _ c h => isStep_of_flushArg c _ h) fuel { s with next_in := slice } true
      rcases hdr : zlib_drain flate fn fl fuel { s with next_in := slice } with ⟨f, s1⟩
      rw [hdr] at hl hd
      have hstop := presented_stop slice rest a hc
      cases f
      · dsimp only
        by_cases hin : s1.next_in.length ≠ 0
        · rw [if_pos hin]
          exact ⟨a, hl, hstop, fun h => by simp at h⟩
        · rw [if_neg hin]
          have hnil : s1.next_in = [] := List.length_eq_zero.1 (not_not.1 hin)
          obtain ⟨b, hbl, hb, hbt⟩ := ih fl s1
          have hra : readOf a = slice := by
            have := (hd rfl).2
            simp only [hnil, List.append_nil] at this
            exact this.symm
          exact ⟨a ++ b, by rw [hbl, hl, List.append_assoc],
            presented_cons _ slice rest a b hc (hd rfl).1 hra hb,
            fun h => presented_cons _ slice rest a b hc (hd rfl).1 hra (hbt h)⟩
      · exact ⟨a, hl, hstop, fun h => by simp at h⟩
      · exact ⟨a, hl, hstop, fun h => by simp at h⟩
      · exact ⟨a, hl, hstop, fun h => by simp at h⟩

theorem zstd_compress_loop_presented (zstd : Zstd τ) (fuel : Nat) :
    ∀ (slices : List grpc_slice) (s : ZstdVars τ),
      ∃ calls, (zstd_compress_loop zstd fuel slices s).2.log = s.log ++ calls ∧
        Presented false slices calls ∧
        ((zstd_compress_loop zstd fuel slices s).1 = Flow.done → Presented true slices calls) := by
  intro slices
  induction slices with
  | nil => intro s; exact ⟨[], by simp [zstd_compress_loop], rfl, fun _ => rfl⟩
  | cons slice rest ih =>
    intro s
    simp only [zstd_compress_loop]
    by_cases hlen : uint_max < slice.length
    · rw [if_pos hlen]
      exact ⟨[], by simp, presented_nil _, fun h => by simp at h⟩
    · rw [if_neg hlen]
      obtain ⟨c, hlog, hdir, hoff, hread⟩ :=
        zstd_compress_call_shape zstd ZSTD_e_continue { s with src := slice }
      have hst : c.isStep = true := isStep_of_directive c _ hdir
      by_cases hr : zstd.ZSTD_isError
          (zstd_compress_call zstd ZSTD_e_continue { s with src := slice }).1 > 0
      · rw [if_pos hr]
        exact ⟨[c], hlog, presented_stop slice rest [c] ⟨hst, hoff, trivial⟩,
          fun h => by simp at h⟩
      · rw [if_neg hr]
        obtain ⟨fl, hl, hc, hd⟩ := zstd_flush_calls zstd (fun _ c => c.isStep = true)
          (fun c h => isStep_of_directive c _ h) fuel
          (zstd_compress_call zstd ZSTD_e_continue { s with src := slice }).2
        have hchunk : ChunkCalls (fun _ c => c.isStep = true) true slice (c :: fl) :=
          chunkCalls_cons _ true _ _ c fl hst hoff hread hc
        rcases hdr : zstd_flush zstd fuel
          (zstd_compress_call zstd ZSTD_e_continue { s with src := slice }).2 with ⟨f, s1⟩
        rw [hdr] at hl hd
        have hlog1 : s1.log = s.log ++ (c :: fl) := by
          rw [hl, hlog, List.append_assoc]; rfl
        have hstop := presented_stop slice rest (c :: fl) hchunk
        cases f
        · dsimp only
          by_cases hin : s1.src.length ≠ 0
          · rw [if_pos hin]
            exact ⟨c :: fl, hlog1, hstop, fun h => by simp at h⟩
          · rw [if_neg hin]
            have hnil : s1.src = [] := List.length_eq_zero.1 (not_not.1 hin)
            obtain ⟨b, hbl, hb, hbt⟩ := ih s1
            have hra : readOf (c :: fl) = slice := by
              have := (hd rfl).2
              simp only [hnil, List.append_nil] at this
              have hs : slice = c.read ++ readOf fl := by
                have h2 := hread
                rw [this] at h2
                exact h2
              conv_rhs => rw [hs]
              simp [readOf]
            exact ⟨(c :: fl) ++ b, by rw [hbl, hlog1, List.append_assoc],
              presented_cons _ slice rest (c :: fl) b hchunk (List.cons_ne_nil _ _) hra hb,
              fun h => presented_cons _ slice rest (c :: fl) b hchunk (List.cons_ne_nil _ _) hra
                (hbt h)⟩
        · exact ⟨c :: fl, hlog1, hstop, fun h => by simp at h⟩
        · exact ⟨c :: fl, hlog1, hstop, fun h => by simp at h⟩
        · exact ⟨c :: fl, hlog1, hstop, fun h => by simp at h⟩

theorem zstd_decompress_loop_presented (zstd : Zstd τ) (fuel : Nat) :
    ∀ (slices : List grpc_slice) (s : ZstdVars τ),
      ∃ calls, (zstd_decompress_loop zstd fuel slices s).2.log = s.log ++ calls ∧
        Presented false slices calls ∧
        ((zstd_decompress_loop zstd fuel slices s).1 = Flow.done → Presented true slices calls) := by
  intro slices
  induction slices with
  | nil => intro s; exact ⟨[], by simp [zstd_decompress_loop], rfl, fun _ => rfl⟩
  | cons slice rest ih =>
    intro s
    simp only [zstd_decompress_loop]
    by_cases hlen : uint_max < slice.length
    · rw [if_pos hlen]
      exact ⟨[], by simp, presented_nil _, fun h => by simp at h⟩
    · rw [if_neg hlen]
      obtain ⟨a, hl, hc, hd⟩ := zstd_drain_calls zstd fuel { s with src := slice } true
      rcases hdr : zstd_drain zstd fuel { s with src := slice } with ⟨f, s1⟩
      rw [hdr] at hl hd
      have hstop := presented_stop slice rest a hc
      cases f
      · dsimp only
        by_cases hin : s1.src.length ≠ 0
        · rw [if_pos hin]
          exact ⟨a, hl, hstop, fun h => by simp at h⟩
        · rw [if_neg hin]
          have hnil : s1.src = [] := List.length_eq_zero.1 (not_not.1 hin)
          obtain ⟨b, hbl, hb, hbt⟩ := ih s1
          have hra : readOf a = slice := by
            have := (hd rfl).2
            simp only [hnil, List.append_nil] at this
            exact this.symm
          exact ⟨a ++ b, by rw [hbl, hl, List.append_assoc],
            presented_cons _ slice rest a b hc (hd rfl).1 hra hb,
            fun h => presented_cons _ slice rest a b hc (hd rfl).1 hra (hbt h)⟩
      · exact ⟨a, hl, hstop, fun h => by simp at h⟩
      · exact ⟨a, hl, hstop, fun h => by simp at h⟩
      · exact ⟨a, hl, hstop, fun h => by simp at h⟩

/-- A drain loop of `zlib_body` that sends the chunk loop to its error label ends with a call
that reported a non-recoverable status or left input of the chunk unread. -/
theorem zlib_drain_end (isError : Nat → Nat) (flate : FlateFn σ) (fn : Flate) (flush : Int) :
    ∀ (fuel : Nat) (s : ZBody σ),
      Stuck (zlib_drain flate fn flush fuel s).1
          (zlib_drain flate fn flush fuel s).2.next_in.length →
        ∃ l c, (zlib_drain flate fn flush fuel s).2.log = s.log ++ l ++ [c] ∧
          (c.fatal isError = true ∨ c.starved = true) := by
  intro fuel
  induction fuel with
  | zero => intro s h; simp [zlib_drain, Stuck] at h
  | succ n ih =>
    intro s
    obtain ⟨c, hlog, hfat, hst⟩ := zlib_call_entry isError flate fn flush (zlib_grow s)
    rw [zlib_grow_log] at hlog
    simp only [zlib_drain]
    by_cases hr : (zlib_call flate fn flush (zlib_grow s)).1 < 0 ∧
        (zlib_call flate fn flush (zlib_grow s)).1 ≠ Z_BUF_ERROR
    · rw [if_pos hr]
      intro _
      exact ⟨[], c, by rw [hlog, List.append_nil], Or.inl (hfat.2 hr)⟩
    · rw [if_neg hr]
      by_cases ha : (zlib_call flate fn flush (zlib_grow s)).2.avail_out = 0
      · rw [if_pos ha]
        intro h
        obtain ⟨l, c2, hl, hc2⟩ := ih _ h
        exact ⟨c :: l, c2, by rw [hl, hlog]; simp, hc2⟩
      · rw [if_neg ha]
        intro h
        rcases h with h | h
        · exact absurd h (by simp)
        · exact ⟨[], c, by rw [hlog, List.append_nil], Or.inr (hst.2 ⟨ha, h.2⟩)⟩

theorem zlib_drain_flow (flate : FlateFn σ) (fn : Flate) (flush : Int) :
    ∀ (fuel : Nat) (s : ZBody σ), (zlib_drain flate fn flush fuel s).1 ≠ Flow.aborted := by
  intro fuel
  induction fuel with
  | zero => intro s; simp [zlib_drain]
  | succ n ih =>
    intro s
    simp only [zlib_drain]
    split_ifs
    · simp
    · exact ih _
    · simp

/-- The chunk loop of `zlib_body` jumps to its error label only right after a call that reported
a non-recoverable status or left input of its chunk unread. -/
theorem zlib_loop_end (isError : Nat → Nat) (flate : FlateFn σ) (fn : Flate) (fuel : Nat) :
    ∀ (slices : List grpc_slice) (flush : Int) (s : ZBody σ),
      (zlib_loop flate fn fuel slices flush s).1 = Flow.error →
        ∃ l c, (zlib_loop flate fn fuel slices flush s).2.log = s.log ++ l ++ [c] ∧
          (c.fatal isError = true ∨ c.starved = true) := by
  intro slices
  induction slices with
  | nil => intro flush s h; simp [zlib_loop] at h
  | cons slice rest ih =>
    intro flush s
    simp only [zlib_loop]
    generalize (if rest = [] then Z_FINISH else flush) = fl
    by_cases hlen : uint_max < slice.length
    · rw [if_pos hlen]
      intro h
      simp at h
    · rw [if_neg hlen]
      have hd := zlib_drain_end isError flate fn fl fuel { s with next_in := slice }
      obtain ⟨l1, hl1⟩ := zlib_drain_log flate fn fl fuel { s with next_in := slice }
      rcases hdr : zlib_drain flate fn fl fuel { s with next_in := slice } with ⟨f, s1⟩
      rw [hdr] at hd hl1
      dsimp only at hd hl1
      cases f
      · dsimp only
        by_cases hin : s1.next_in.length ≠ 0
        · rw [if_pos hin]
          intro _
          exact hd (Or.inr ⟨rfl, hin⟩)
        · rw [if_neg hin]
          intro h
          obtain ⟨l, c, hl, hc⟩ := ih fl s1 h
          exact ⟨l1 ++ l, c, by rw [hl, hl1]; simp, hc⟩
      · intro _
        exact hd (Or.inl rfl)
      · intro h
        simp at h
      · intro h
        simp at h

/-- The chunk loop of `zlib_body` stops at the `GPR_ASSERT` only on a chunk longer than
`uint_max`. -/
theorem zlib_loop_abort (flate : FlateFn σ) (fn : Flate) (fuel : Nat) :
    ∀ (slices : List grpc_slice) (flush : Int) (s : ZBody σ),
      (zlib_loop flate fn fuel slices flush s).1 = Flow.aborted →
        ∃ sl ∈ slices, uint_max < sl.length := by
  intro slices
  induction slices with
  | nil => intro flush s h; simp [zlib_loop] at h
  | cons slice rest ih =>
    intro flush s
    simp only [zlib_loop]
    generalize (if rest = [] then Z_FINISH else flush) = fl
    by_cases hlen : uint_max < slice.length
    · rw [if_pos hlen]
      intro _
      exact ⟨slice, List.mem_cons_self _ _, hlen⟩
    · rw [if_neg hlen]
      have hf := zlib_drain_flow flate fn fl fuel { s with next_in := slice }
      rcases hdr : zlib_drain flate fn fl fuel { s with next_in := slice } with ⟨f, s1⟩
      rw [hdr] at hf
      cases f
      · dsimp only
        by_cases hin : s1.next_in.length ≠ 0
        · rw [if_pos hin]
          intro h
          simp at h
        · rw [if_neg hin]
          intro h
          obtain ⟨sl, hsl, hl⟩ := ih fl s1 h
          exact ⟨sl, List.mem_cons_of_mem _ hsl, hl⟩
      · intro h
        simp at h
      · exact absurd rfl hf
      · intro h
        simp at h

theorem zstd_flush_end (zstd : Zstd τ) : ∀ (fuel : Nat) (s : ZstdVars τ),
    Stuck (zstd_flush zstd fuel s).1 (zstd_flush zstd fuel s).2.src.length →
      ∃ l c, (zstd_flush zstd fuel s).2.log = s.log ++ l ++ [c] ∧
        (c.fatal zstd.ZSTD_isError = true ∨ c.starved = true) := by
  intro fuel
  induction fuel with
  | zero => intro s h; simp [zstd_flush, Stuck] at h
  | succ n ih =>
    intro s
    obtain ⟨c, hlog, hfat, hst⟩ := zstd_compress_call_entry zstd ZSTD_e_flush (zstd_grow s)
    rw [zstd_grow_log] at hlog
    simp only [zstd_flush]
    by_cases hr : zstd.ZSTD_isError (zstd_compress_call zstd ZSTD_e_flush (zstd_grow s)).1 > 0
    · rw [if_pos hr]
      intro _
      exact ⟨[], c, by rw [hlog, List.append_nil], Or.inl (hfat.2 hr)⟩
    · rw [if_neg hr]
      by_cases ha : (zstd_compress_call zstd ZSTD_e_flush (zstd_grow s)).2.outbuf.length <
          OUTPUT_BLOCK_SIZE
      · rw [if_pos ha]
        intro h
        rcases h with h | h
        · exact absurd h (by simp)
        · exact ⟨[], c, by rw [hlog, List.append_nil], Or.inr (hst.2 ⟨rfl, ha, h.2⟩)⟩
      · rw [if_neg ha]
        intro h
        obtain ⟨l, c2, hl, hc2⟩ := ih _ h
        exact ⟨c :: l, c2, by rw [hl, hlog]; simp, hc2⟩

theorem zstd_flush_flow (zstd : Zstd τ) :
    ∀ (fuel : Nat) (s : ZstdVars τ), (zstd_flush zstd fuel s).1 ≠ Flow.aborted := by
  intro fuel
  induction fuel with
  | zero => intro s; simp [zstd_flush]
  | succ n ih =>
    intro s
    simp only [zstd_flush]
    split_ifs
    · simp
    · simp
    · exact ih _

theorem zstd_drain_end (zstd : Zstd τ) : ∀ (fuel : Nat) (s : ZstdVars τ),
    Stuck (zstd_drain zstd fuel s).1 (zstd_drain zstd fuel s).2.src.length →
      ∃ l c, (zstd_drain zstd fuel s).2.log = s.log ++ l ++ [c] ∧
        (c.fatal zstd.ZSTD_isError = true ∨ c.starved = true) := by
  intro fuel
  induction fuel with
  | zero => intro s h; simp [zstd_drain, Stuck] at h
  | succ n ih =>
    intro s
    obtain ⟨c, hlog, hfat, hst⟩ := zstd_decompress_call_entry zstd (zstd_grow s)
    rw [zstd_grow_log] at hlog
    simp only [zstd_drain]
    by_cases hr : zstd.ZSTD_isError (zstd_decompress_call zstd (zstd_grow s)).1 > 0
    · rw [if_pos hr]
      intro _
      exact ⟨[], c, by rw [hlog, List.append_nil], Or.inl (hfat.2 hr)⟩
    · rw [if_neg hr]
      by_cases ha : (zstd_decompress_call zstd (zstd_grow s)).2.outbuf.length <
          OUTPUT_BLOCK_SIZE
      · rw [if_pos ha]
        intro h
        rcases h with h | h
        · exact absurd h (by simp)
        · exact ⟨[], c, by rw [hlog, List.append_nil], Or.inr (hst.2 ⟨ha, h.2⟩)⟩
      · rw [if_neg ha]
        intro h
        obtain ⟨l, c2, hl, hc2⟩ := ih _ h
        exact ⟨c :: l, c2, by rw [hl, hlog]; simp, hc2⟩

theorem zstd_drain_flow (zstd : Zstd τ) :
    ∀ (fuel : Nat) (s : ZstdVars τ), (zstd_drain zstd fuel s).1 ≠ Flow.aborted := by
  intro fuel
  induction fuel with
  | zero => intro s; simp [zstd_drain]
  | succ n ih =>
    intro s
    simp only [zstd_drain]
    split_ifs
    · simp
    · simp
    · exact ih _

/-- The chunk loop of `zstd_compress` jumps to `error1` only right after a call that reported
an error or left input of its chunk unread. -/
theorem zstd_compress_loop_end (zstd : Zstd τ) (fuel : Nat) :
    ∀ (slices : List grpc_slice) (s : ZstdVars τ),
      (zstd_compress_loop zstd fuel slices s).1 = Flow.error →
        ∃ l c, (zstd_compress_loop zstd fuel slices s).2.log = s.log ++ l ++ [c] ∧
          (c.fatal zstd.ZSTD_isError = true ∨ c.starved = true) := by
  intro slices
  induction slices with
  | nil => intro s h; simp [zstd_compress_loop] at h
  | cons slice rest ih =>
    intro s
    simp only [zstd_compress_loop]
    by_cases hlen : uint_max < slice.length
    · rw [if_pos hlen]
      intro h
      simp at h
    · rw [if_neg hlen]
      obtain ⟨c0, hlog0, hfat0, -⟩ :=
        zstd_compress_call_entry zstd ZSTD_e_continue { s with src := slice }
      by_cases hr : zstd.ZSTD_isError
          (zstd_compress_call zstd ZSTD_e_continue { s with src := slice }).1 > 0
      · rw [if_pos hr]
        intro _
        exact ⟨[], c0, by rw [hlog0, List.append_nil], Or.inl (hfat0.2 hr)⟩
      · rw [if_neg hr]
        have hd := zstd_flush_end zstd fuel
          (zstd_compress_call zstd ZSTD_e_continue { s with src := slice }).2
        obtain ⟨l1, hl1⟩ := zstd_flush_log zstd fuel
          (zstd_compress_call zstd ZSTD_e_continue { s with src := slice }).2
        rcases hdr : zstd_flush zstd fuel
          (zstd_compress_call zstd ZSTD_e_continue { s with src := slice }).2 with ⟨f, s1⟩
        rw [hdr] at hd hl1
        dsimp only at hd hl1
        rw [hlog0] at hd hl1
        cases f
        · dsimp only
          by_cases hin : s1.src.length ≠ 0
          · rw [if_pos hin]
            intro _
            obtain ⟨l, c, hl, hc⟩ := hd (Or.inr ⟨rfl, hin⟩)
            exact ⟨c0 :: l, c, by rw [hl]; simp, hc⟩
          · rw [if_neg hin]
            intro h
            obtain ⟨l, c, hl, hc⟩ := ih s1 h
            exact ⟨c0 :: l1 ++ l, c, by rw [hl, hl1]; simp, hc⟩
        · intro _
          obtain ⟨l, c, hl, hc⟩ := hd (Or.inl rfl)
          exact ⟨c0 :: l, c, by rw [hl]; simp, hc⟩
        · intro h
          simp at h
        · intro h
          simp at h

theorem zstd_compress_loop_abort (zstd : Zstd τ) (fuel : Nat) :
    ∀ (slices : List grpc_slice) (s : ZstdVars τ),
      (zstd_compress_loop zstd fuel slices s).1 = Flow.aborted →
        ∃ sl ∈ slices, uint_max < sl.length := by
  intro slices
  induction slices with
  | nil => intro s h; simp [zstd_compress_loop] at h
  | cons slice rest ih =>
    intro s
    simp only [zstd_compress_loop]
    by_cases hlen : uint_max < slice.length
    · rw [if_pos hlen]
      intro _
      exact ⟨slice, List.mem_cons_self _ _, hlen⟩
    · rw [if_neg hlen]
      by_cases hr : zstd.ZSTD_isError
          (zstd_compress_call zstd ZSTD_e_continue { s with src := slice }).1 > 0
      · rw [if_pos hr]
        intro h
        simp at h
      · rw [if_neg hr]
        have hf := zstd_flush_flow zstd fuel
          (zstd_compress_call zstd ZSTD_e_continue { s with src := slice }).2
        rcases hdr : zstd_flush zstd fuel
          (zstd_compress_call zstd ZSTD_e_continue { s with src := slice }).2 with ⟨f, s1⟩
        rw [hdr] at hf
        cases f
        · dsimp only
          by_cases hin : s1.src.length ≠ 0
          · rw [if_pos hin]
            intro h
            simp at h
          · rw [if_neg hin]
            intro h
            obtain ⟨sl, hsl, hl⟩ := ih s1 h
            exact ⟨sl, List.mem_cons_of_mem _ hsl, hl⟩
        · intro h
          simp at h
        · exact absurd rfl hf
        · intro h
          simp at h

/-- The chunk loop of `zstd_decompress` jumps to `error1` only right after a call that reported
an error or left input of its chunk unread. -/
theorem zstd_decompress_loop_end (zstd : Zstd τ) (fuel : Nat) :
    ∀ (slices : List grpc_slice) (s : ZstdVars τ),
      (zstd_decompress_loop zstd fuel slices s).1 = Flow.error →
        ∃ l c, (zstd_decompress_loop zstd fuel slices s).2.log = s.log ++ l ++ [c] ∧
          (c.fatal zstd.ZSTD_isError = true ∨ c.starved = true) := by
  intro slices
  induction slices with
  | nil => intro s h; simp [zstd_decompress_loop] at h
  | cons slice rest ih =>
    intro s
    simp only [zstd_decompress_loop]
    by_cases hlen : uint_max < slice.length
    · rw [if_pos hlen]
      intro h
      simp at h
    · rw [if_neg hlen]
      have hd := zstd_drain_end zstd fuel { s with src := slice }
      obtain ⟨l1, hl1, -, -⟩ := zstd_drain_calls zstd fuel { s with src := slice } true
      rcases hdr : zstd_drain zstd fuel { s with src := slice } with ⟨f, s1⟩
      rw [hdr] at hd hl1
      dsimp only at hd hl1
      cases f
      · dsimp only
        by_cases hin : s1.src.length ≠ 0
        · rw [if_pos hin]
          intro _
          exact hd (Or.inr ⟨rfl, hin⟩)
        · rw [if_neg hin]
          intro h
          obtain ⟨l, c, hl, hc⟩ := ih s1 h
          exact ⟨l1 ++ l, c, by rw [hl, hl1]; simp, hc⟩
      · intro _
        exact hd (Or.inl rfl)
      · intro h
        simp at h
      · intro h
        simp at h

theorem zstd_decompress_loop_abort (zstd : Zstd τ) (fuel : Nat) :
    ∀ (slices : List grpc_slice) (s : ZstdVars τ),
      (zstd_decompress_loop zstd fuel slices s).1 = Flow.aborted →
        ∃ sl ∈ slices, uint_max < sl.length := by
  intro slices
  induction slices with
  | nil => intro s h; simp [zstd_decompress_loop] at h
  | cons slice rest ih =>
    intro s
    simp only [zstd_decompress_loop]
    by_cases hlen : uint_max < slice.length
    · rw [if_pos hlen]
      intro _
      exact ⟨slice, List.mem_cons_self _ _, hlen⟩
    · rw [if_neg hlen]
      have hf := zstd_drain_flow zstd fuel { s with src := slice }
      rcases hdr : zstd_drain zstd fuel { s with src := slice } with ⟨f, s1⟩
      rw [hdr] at hf
      cases f
      · dsimp only
        by_cases hin : s1.src.length ≠ 0
        · rw [if_pos hin]
          intro h
          simp at h
        · rw [if_neg hin]
          intro h
          obtain ⟨sl, hsl, hl⟩ := ih s1 h
          exact ⟨sl, List.mem_cons_of_mem _ hsl, hl⟩
      · intro h
        simp at h
      · exact absurd rfl hf
      · intro h
        simp at h

/-- The entry a `zlib_call` logs filled the room it was given when the call left no room in the
output block. -/
theorem zlib_call_filled (flate : FlateFn σ) (fn : Flate) (flush : Int) (s : ZBody σ) :
    ∃ c, (zlib_call flate fn flush s).2.log = s.log ++ [c] ∧
      ((zlib_call flate fn flush s).2.avail_out = 0 → ¬c.leftRoom) := by
  refine ⟨_, rfl, ?_⟩
  intro h
  simp only [zlib_call, ZBody.avail_out, List.length_append, List.length_take] at h
  simp only [Call.leftRoom, Call.wrote, Call.room, ZBody.avail_out, List.length_take]
  omega

theorem zstd_compress_call_filled (zstd : Zstd τ) (d : Nat) (s : ZstdVars τ) :
    ∃ c, (zstd_compress_call zstd d s).2.log = s.log ++ [c] ∧
      (¬(zstd_compress_call zstd d s).2.outbuf.length < OUTPUT_BLOCK_SIZE → ¬c.leftRoom) := by
  refine ⟨_, rfl, ?_⟩
  intro h
  simp only [zstd_compress_call, ZstdVars.room, List.length_append, List.length_take] at h
  simp only [Call.leftRoom, Call.wrote, Call.room, ZstdVars.room, List.length_take]
  omega

theorem zstd_decompress_call_filled (zstd : Zstd τ) (s : ZstdVars τ) :
    ∃ c, (zstd_decompress_call zstd s).2.log = s.log ++ [c] ∧
      (¬(zstd_decompress_call zstd s).2.outbuf.length < OUTPUT_BLOCK_SIZE → ¬c.leftRoom) := by
  refine ⟨_, rfl, ?_⟩
  intro h
  simp only [zstd_decompress_call, ZstdVars.room, List.length_append, List.length_take] at h
  simp only [Call.leftRoom, Call.wrote, Call.room, ZstdVars.room, List.length_take]
  omega

/-- A drain loop of `zlib_body` that is cut by the fuel has made one call for every round the fuel
allowed, and each of these calls filled the room it was given. -/
theorem zlib_drain_cut (flate : FlateFn σ) (fn : Flate) (flush : Int) :
    ∀ (fuel : Nat) (s : ZBody σ), (zlib_drain flate fn flush fuel s).1 = Flow.unfinished →
      ∃ t, (zlib_drain flate fn flush fuel s).2.log = s.log ++ t ∧ t.length = fuel ∧
        ∀ c ∈ t, ¬c.leftRoom := by
  intro fuel
  induction fuel with
  | zero =>
    intro s _
    exact ⟨[], by simp [zlib_drain], rfl, fun c hc => absurd hc (List.not_mem_nil c)⟩
  | succ n ih =>
    intro s
    obtain ⟨c, hlog, hfill⟩ := zlib_call_filled flate fn flush (zlib_grow s)
    rw [zlib_grow_log] at hlog
    simp only [zlib_drain]
    by_cases hr : (zlib_call flate fn flush (zlib_grow s)).1 < 0 ∧
        (zlib_call flate fn flush (zlib_grow s)).1 ≠ Z_BUF_ERROR
    · rw [if_pos hr]
      intro h
      simp at h
    · rw [if_neg hr]
      by_cases ha : (zlib_call flate fn flush (zlib_grow s)).2.avail_out = 0
      · rw [if_pos ha]
        intro h
        obtain ⟨t, hl, hlen, hall⟩ := ih _ h
        refine ⟨c :: t, by rw [hl, hlog]; simp, by rw [List.length_cons, hlen], ?_⟩
        intro d hd
        rcases List.mem_cons.1 hd with rfl | hd
        · exact hfill ha
        · exact hall d hd
      · rw [if_neg ha]
        intro h
        simp at h

theorem zstd_flush_cut (zstd : Zstd τ) :
    ∀ (fuel : Nat) (s : ZstdVars τ), (zstd_flush zstd fuel s).1 = Flow.unfinished →
      ∃ t, (zstd_flush zstd fuel s).2.log = s.log ++ t ∧ t.length = fuel ∧
        ∀ c ∈ t, ¬c.leftRoom := by
  intro fuel
  induction fuel with
  | zero =>
    intro s _
    exact ⟨[], by simp [zstd_flush], rfl, fun c hc => absurd hc (List.not_mem_nil c)⟩
  | succ n ih =>
    intro s
    obtain ⟨c, hlog, hfill⟩ := zstd_compress_call_filled zstd ZSTD_e_flush (zstd_grow s)
    rw [zstd_grow_log] at hlog
    simp only [zstd_flush]
    by_cases hr : zstd.ZSTD_isError (zstd_compress_call zstd ZSTD_e_flush (zstd_grow s)).1 > 0
    · rw [if_pos hr]
      intro h
      simp at h
    · rw [if_neg hr]
      by_cases ha : (zstd_compress_call zstd ZSTD_e_flush (zstd_grow s)).2.outbuf.length <
          OUTPUT_BLOCK_SIZE
      · rw [if_pos ha]
        intro h
        simp at h
      · rw [if_neg ha]
        intro h
        obtain ⟨t, hl, hlen, hall⟩ := ih _ h
        refine ⟨c :: t, by rw [hl, hlog]; simp, by rw [List.length_cons, hlen], ?_⟩
        intro d hd
        rcases List.mem_cons.1 hd with rfl | hd
        · exact hfill ha
        · exact hall d hd

theorem zstd_drain_cut (zstd : Zstd τ) :
    ∀ (fuel : Nat) (s : ZstdVars τ), (zstd_drain zstd fuel s).1 = Flow.unfinished →
      ∃ t, (zstd_drain zstd fuel s).2.log = s.log ++ t ∧ t.length = fuel ∧
        ∀ c ∈ t, ¬c.leftRoom := by
  intro fuel
  induction fuel with
  | zero =>
    intro s _
    exact ⟨[], by simp [zstd_drain], rfl, fun c hc => absurd hc (List.not_mem_nil c)⟩
  | succ n ih =>
    intro s
    obtain ⟨c, hlog, hfill⟩ := zstd_decompress_call_filled zstd (zstd_grow s)
    rw [zstd_grow_log] at hlog
    simp only [zstd_drain]
    by_cases hr : zstd.ZSTD_isError (zstd_decompress_call zstd (zstd_grow s)).1 > 0
    · rw [if_pos hr]
      intro h
      simp at h
    · rw [if_neg hr]
      by_cases ha : (zstd_decompress_call zstd (zstd_grow s)).2.outbuf.length <
          OUTPUT_BLOCK_SIZE
      · rw [if_pos ha]
        intro h
        simp at h
      · rw [if_neg ha]
        intro h
        obtain ⟨t, hl, hlen, hall⟩ := ih _ h
        refine ⟨c :: t, by rw [hl, hlog]; simp, by rw [List.length_cons, hlen], ?_⟩
        intro d hd
        rcases List.mem_cons.1 hd with rfl | hd
        · exact hfill ha
        · exact hall d hd

/-- The chunk loop of `zlib_body` is cut by the fuel only inside the drain loop of a chunk, whose
calls, one for every round the fuel allowed, each filled the room they were given. -/
theorem zlib_loop_cut (flate : FlateFn σ) (fn : Flate) (fuel : Nat) :
    ∀ (slices : List grpc_slice) (flush : Int) (s : ZBody σ),
      (zlib_loop flate fn fuel slices flush s).1 = Flow.unfinished →
        ∃ l t, (zlib_loop flate fn fuel slices flush s).2.log = s.log ++ l ++ t ∧
          t.length = fuel ∧ ∀ c ∈ t, ¬c.leftRoom := by
  intro slices
  induction slices with
  | nil => intro flush s h; simp [zlib_loop] at h
  | cons slice rest ih =>
    intro flush s
    simp only [zlib_loop]
    generalize (if rest = [] then Z_FINISH else flush) = fl
    by_cases hlen : uint_max < slice.length
    · rw [if_pos hlen]
      intro h
      simp at h
    · rw [if_neg hlen]
      have hd := zlib_drain_cut flate fn fl fuel { s with next_in := slice }
      obtain ⟨l1, hl1⟩ := zlib_drain_log flate fn fl fuel { s with next_in := slice }
      rcases hdr : zlib_drain flate fn fl fuel { s with next_in := slice } with ⟨f, s1⟩
      rw [hdr] at hd hl1
      dsimp only at hd hl1
      cases f
      · dsimp only
        by_cases hin : s1.next_in.length ≠ 0
        · rw [if_pos hin]
          intro h
          simp at h
        · rw [if_neg hin]
          intro h
          obtain ⟨l, t, hl, ht⟩ := ih fl s1 h
          exact ⟨l1 ++ l, t, by rw [hl, hl1]; simp, ht⟩
      · intro h
        simp at h
      · intro h
        simp at h
      · intro _
        obtain ⟨t, hl, ht⟩ := hd rfl
        exact ⟨[], t, by rw [hl]; simp, ht⟩

theorem zstd_compress_loop_cut (zstd : Zstd τ) (fuel : Nat) :
    ∀ (slices : List grpc_slice) (s : ZstdVars τ),
      (zstd_compress_loop zstd fuel slices s).1 = Flow.unfinished →
        ∃ l t, (zstd_compress_loop zstd fuel slices s).2.log = s.log ++ l ++ t ∧
          t.length = fuel ∧ ∀ c ∈ t, ¬c.leftRoom := by
  intro slices
  induction slices with
  | nil => intro s h; simp [zstd_compress_loop] at h
  | cons slice rest ih =>
    intro s
    simp only [zstd_compress_loop]
    by_cases hlen : uint_max < slice.length
    · rw [if_pos hlen]
      intro h
      simp at h
    · rw [if_neg hlen]
      obtain ⟨c0, hlog0, -⟩ :=
        zstd_compress_call_filled zstd ZSTD_e_continue { s with src := slice }
      by_cases hr : zstd.ZSTD_isError
          (zstd_compress_call zstd ZSTD_e_continue { s with src := slice }).1 > 0
      · rw [if_pos hr]
        intro h
        simp at h
      · rw [if_neg hr]
        have hd := zstd_flush_cut zstd fuel
          (zstd_compress_call zstd ZSTD_e_continue { s with src := slice }).2
        obtain ⟨l1, hl1⟩ := zstd_flush_log zstd fuel
          (zstd_compress_call zstd ZSTD_e_continue { s with src := slice }).2
        rcases hdr : zstd_flush zstd fuel
          (zstd_compress_call zstd ZSTD_e_continue { s with src := slice }).2 with ⟨f, s1⟩
        rw [hdr] at hd hl1
        dsimp only at hd hl1
        rw [hlog0] at hd hl1
        cases f
        · dsimp only
          by_cases hin : s1.src.length ≠ 0
          · rw [if_pos hin]
            intro h
            simp at h
          · rw [if_neg hin]
            intro h
            obtain ⟨l, t, hl, ht⟩ := ih s1 h
            exact ⟨c0 :: l1 ++ l, t, by rw [hl, hl1]; simp, ht⟩
        · intro h
          simp at h
        · intro h
          simp at h
        · intro _
          obtain ⟨t, hl, ht⟩ := hd rfl
          exact ⟨[c0], t, hl, ht⟩

theorem zstd_decompress_loop_cut (zstd : Zstd τ) (fuel : Nat) :
    ∀ (slices : List grpc_slice) (s : ZstdVars τ),
      (zstd_decompress_loop zstd fuel slices s).1 = Flow.unfinished →
        ∃ l t, (zstd_decompress_loop zstd fuel slices s).2.log = s.log ++ l ++ t ∧
          t.length = fuel ∧ ∀ c ∈ t, ¬c.leftRoom := by
  intro slices
  induction slices with
  | nil => intro s h; simp [zstd_decompress_loop] at h
  | cons slice rest ih =>
    intro s
    simp only [zstd_decompress_loop]
    by_cases hlen : uint_max < slice.length
    · rw [if_pos hlen]
      intro h
      simp at h
    · rw [if_neg hlen]
      have hd := zstd_drain_cut zstd fuel { s with src := slice }
      obtain ⟨l1, hl1, -, -⟩ := zstd_drain_calls zstd fuel { s with src := slice } true
      rcases hdr : zstd_drain zstd fuel { s with src := slice } with ⟨f, s1⟩
      rw [hdr] at hd hl1
      dsimp only at hd hl1
      cases f
      · dsimp only
        by_cases hin : s1.src.length ≠ 0
        · rw [if_pos hin]
          intro h
          simp at h
        · rw [if_neg hin]
          intro h
          obtain ⟨l, t, hl, ht⟩ := ih s1 h
          exact ⟨l1 ++ l, t, by rw [hl, hl1]; simp, ht⟩
      · intro h
        simp at h
      · intro h
        simp at h
      · intro _
        obtain ⟨t, hl, ht⟩ := hd rfl
        exact ⟨[], t, by rw [hl]; simp, ht⟩

/-- A run of `zlib_body` ends in one of four ways: it returns 1, it returns 0, it stops at the
`GPR_ASSERT`, or it is cut by the fuel. -/
theorem zlib_body_ways (flate : FlateFn σ) (fn : Flate) (fuel : Nat) (zs : σ)
    (input output : grpc_slice_buffer) (log : List Call) :
    (zlib_body flate fn fuel zs input output log).1 = Exit.returned 1 ∨
      (zlib_body flate fn fuel zs input output log).1 = Exit.returned 0 ∨
      (zlib_body flate fn fuel zs input output log).1 = Exit.aborted ∨
      (zlib_body flate fn fuel zs input output log).1 = Exit.unfinished := by
  unfold zlib_body
  rcases zlib_loop flate fn fuel input.slices Z_NO_FLUSH
    { zs := zs, next_in := [], outbuf := [], output := output, log := log } with ⟨f, s⟩
  cases f <;> simp

theorem zstd_compress_ways (zstd : Zstd τ) (fuel : Nat) (input output : grpc_slice_buffer) :
    (zstd_compress zstd fuel input output).exit = Exit.returned 1 ∨
      (zstd_compress zstd fuel input output).exit = Exit.returned 0 ∨
      (zstd_compress zstd fuel input output).exit = Exit.aborted ∨
      (zstd_compress zstd fuel input output).exit = Exit.unfinished := by
  unfold zstd_compress
  rcases zstd.ZSTD_initCStream zstd.ZSTD_createCStream 5 with ⟨err, p⟩
  dsimp only
  by_cases he : zstd.ZSTD_isError err > 0
  · rw [if_pos he]
    simp [zstd_compress_error2]
  · rw [if_neg he]
    rcases zstd_compress_loop zstd fuel input.slices
      { pStream := p, src := [], outbuf := [], output := output,
        log := [Call.ZSTD_createCStream, Call.ZSTD_initCStream 5 err] } with ⟨f, s⟩
    cases f
    · dsimp only
      split_ifs <;> simp [zstd_compress_error2]
    · simp [zstd_compress_error2]
    · simp
    · simp

theorem zstd_decompress_ways (zstd : Zstd τ) (fuel : Nat) (input output : grpc_slice_buffer) :
    (zstd_decompress zstd fuel input output).exit = Exit.returned 1 ∨
      (zstd_decompress zstd fuel input output).exit = Exit.returned 0 ∨
      (zstd_decompress zstd fuel input output).exit = Exit.aborted ∨
      (zstd_decompress zstd fuel input output).exit = Exit.unfinished := by
  unfold zstd_decompress
  rcases zstd.ZSTD_initDStream zstd.ZSTD_createDStream with ⟨err, p⟩
  dsimp only
  by_cases he : zstd.ZSTD_isError err > 0
  · rw [if_pos he]
    simp [zstd_decompress_error2]
  · rw [if_neg he]
    rcases zstd_decompress_loop zstd fuel input.slices
      { pStream := p, src := [], outbuf := [], output := output,
        log := [Call.ZSTD_createDStream, Call.ZSTD_initDStream err] } with ⟨f, s⟩
    cases f
    · dsimp only
      split_ifs <;> simp [zstd_decompress_error2]
    · simp [zstd_decompress_error2]
    · simp
    · simp

theorem zlib_body_presented (flate : FlateFn σ) (fn : Flate) (fuel : Nat) (zs : σ)
    (input output : grpc_slice_buffer) :
    Presented false input.slices (zlib_body flate fn fuel zs input output []).2.log ∧
      ((zlib_body flate fn fuel zs input output []).1 = Exit.returned 1 →
        Presented true input.slices (zlib_body flate fn fuel zs input output []).2.log) ∧
      ((zlib_body flate fn fuel zs input output []).1 = Exit.returned 0 →
        ∃ l c, (zlib_body flate fn fuel zs input output []).2.log = l ++ [c] ∧
          (c.fatal (fun _ => 0) = true ∨ c.starved = true)) ∧
      ((zlib_body flate fn fuel zs input output []).1 = Exit.aborted →
        ∃ sl ∈ input.slices, uint_max < sl.length) ∧
      ((zlib_body flate fn fuel zs input output []).1 = Exit.unfinished →
        ∃ l t, (zlib_body flate fn fuel zs input output []).2.log = l ++ t ∧
          t.length = fuel ∧ ∀ c ∈ t, ¬c.leftRoom) := by
  obtain ⟨calls, hl, hp, hpt⟩ := zlib_loop_presented flate fn fuel input.slices Z_NO_FLUSH
    { zs := zs, next_in := [], outbuf := [], output := output, log := [] }
  have he := zlib_loop_end (fun _ => 0) flate fn fuel input.slices Z_NO_FLUSH
    { zs := zs, next_in := [], outbuf := [], output := output, log := [] }
  have ha := zlib_loop_abort flate fn fuel input.slices Z_NO_FLUSH
    { zs := zs, next_in := [], outbuf := [], output := output, log := [] }
  have hc := zlib_loop_cut flate fn fuel input.slices Z_NO_FLUSH
    { zs := zs, next_in := [], outbuf := [], output := output, log := [] }
  unfold zlib_body
  rcases hlr : zlib_loop flate fn fuel input.slices Z_NO_FLUSH
    { zs := zs, next_in := [], outbuf := [], output := output, log := [] } with ⟨f, s1⟩
  rw [hlr] at hl hpt he ha hc
  simp only [List.nil_append] at hl he hc
  cases f
  · exact ⟨by rw [show s1.log = calls from hl]; exact hp,
      fun _ => by rw [show s1.log = calls from hl]; exact hpt rfl,
      fun h => by simp at h, fun h => by simp at h, fun h => by simp at h⟩
  · exact ⟨by rw [show s1.log = calls from hl]; exact hp, fun h => by simp at h,
      fun _ => he rfl, fun h => by simp at h, fun h => by simp at h⟩
  · exact ⟨by rw [show s1.log = calls from hl]; exact hp, fun h => by simp at h,
      fun h => by simp at h, fun _ => ha rfl, fun h => by simp at h⟩
  · exact ⟨by rw [show s1.log = calls from hl]; exact hp, fun h => by simp at h,
      fun h => by simp at h, fun h => by simp at h, fun _ => hc rfl⟩

theorem presented_filter (complete : Bool) (slices : List grpc_slice)
    (log head calls tail : List Call) (hlog : log = head ++ calls ++ tail)
    (hh : ∀ c ∈ head, c.isStep = false) (ht : ∀ c ∈ tail, c.isStep = false)
    (hp : Presented complete slices calls) :
    Presented complete slices (log.filter Call.isStep) := by
  rw [hlog, filter_steps head calls tail hh (presented_steps complete slices calls hp) ht]
  exact hp

theorem zstd_compress_presented (zstd : Zstd τ) (fuel : Nat)
    (input output : grpc_slice_buffer) :
    Presented false input.slices ((zstd_compress zstd fuel input output).log.filter Call.isStep) ∧
      ((zstd_compress zstd fuel input output).exit = Exit.returned 1 →
        Presented true input.slices
          ((zstd_compress zstd fuel input output).log.filter Call.isStep)) ∧
      ((zstd_compress zstd fuel input output).exit = Exit.returned 0 →
        Presented true input.slices
            ((zstd_compress zstd fuel input output).log.filter Call.isStep) ∨
          (∃ l c, (zstd_compress zstd fuel input output).log.filter Call.isStep = l ++ [c] ∧
            (c.fatal zstd.ZSTD_isError = true ∨ c.starved = true)) ∨
          (zstd.ZSTD_isError (zstd.ZSTD_initCStream zstd.ZSTD_createCStream 5).1 > 0 ∧
            (zstd_compress zstd fuel input output).log.filter Call.isStep = [])) ∧
      ((zstd_compress zstd fuel input output).exit = Exit.aborted →
        ∃ sl ∈ input.slices, uint_max < sl.length) ∧
      ((zstd_compress zstd fuel input output).exit = Exit.unfinished →
        ∃ l t, (zstd_compress zstd fuel input output).log.filter Call.isStep = l ++ t ∧
          t.length = fuel ∧ ∀ c ∈ t, ¬c.leftRoom) := by
  have hshape : ∃ head calls tail, (zstd_compress zstd fuel input output).log =
      head ++ calls ++ tail ∧ (∀ c ∈ head, c.isStep = false) ∧
      (∀ c ∈ tail, c.isStep = false) ∧ Presented false input.slices calls ∧
      ((zstd_compress zstd fuel input output).exit = Exit.returned 1 →
        Presented true input.slices calls) ∧
      ((zstd_compress zstd fuel input output).exit = Exit.returned 0 →
        Presented true input.slices calls ∨
          (∃ l c, calls = l ++ [c] ∧ (c.fatal zstd.ZSTD_isError = true ∨ c.starved = true)) ∨
          (zstd.ZSTD_isError (zstd.ZSTD_initCStream zstd.ZSTD_createCStream 5).1 > 0 ∧
            calls = [])) ∧
      ((zstd_compress zstd fuel input output).exit = Exit.aborted →
        ∃ sl ∈ input.slices, uint_max < sl.length) ∧
      ((zstd_compress zstd fuel input output).exit = Exit.unfinished →
        ∃ l t, calls = l ++ t ∧ t.length = fuel ∧ ∀ c ∈ t, ¬c.leftRoom) := by
    unfold zstd_compress
    rcases hinit : zstd.ZSTD_initCStream zstd.ZSTD_createCStream 5 with ⟨err, p⟩
    simp only [hinit]
    have hhead : ∀ c ∈ [Call.ZSTD_createCStream, Call.ZSTD_initCStream 5 err],
        c.isStep = false := by
      intro c hmem
      simp only [List.mem_cons, List.mem_singleton, List.not_mem_nil, or_false] at hmem
      rcases hmem with rfl | rfl <;> rfl
    have hone : ∀ (e : Nat) (c : Call), c ∈ [Call.ZSTD_freeCStream e] → c.isStep = false := by
      intro e c hmem
      rw [List.mem_singleton.1 hmem]
      rfl
    have htwo : ∀ (e1 e2 : Nat) (c : Call),
        c ∈ [Call.ZSTD_freeCStream e1, Call.ZSTD_freeCStream e2] → c.isStep = false := by
      intro e1 e2 c hmem
      simp only [List.mem_cons, List.mem_singleton, List.not_mem_nil, or_false] at hmem
      rcases hmem with rfl | rfl <;> rfl
    by_cases he : zstd.ZSTD_isError err > 0
    · rw [if_pos he]
      exact ⟨_, [], [Call.ZSTD_freeCStream (zstd.ZSTD_freeCStream p).1],
        by simp [zstd_compress_error2], hhead, hone _, presented_nil _,
        fun h => by simp [zstd_compress_error2] at h,
        fun _ => Or.inr (Or.inr ⟨he, rfl⟩),
        fun h => by simp [zstd_compress_error2] at h,
        fun h => by simp [zstd_compress_error2] at h⟩
    · rw [if_neg he]
      obtain ⟨calls, hl, hp, hpt⟩ := zstd_compress_loop_presented zstd fuel input.slices
        { pStream := p, src := [], outbuf := [], output := output,
          log := [Call.ZSTD_createCStream, Call.ZSTD_initCStream 5 err] }
      have hend := zstd_compress_loop_end zstd fuel input.slices
        { pStream := p, src := [], outbuf := [], output := output,
          log := [Call.ZSTD_createCStream, Call.ZSTD_initCStream 5 err] }
      have hab := zstd_compress_loop_abort zstd fuel input.slices
        { pStream := p, src := [], outbuf := [], output := output,
          log := [Call.ZSTD_createCStream, Call.ZSTD_initCStream 5 err] }
      have hcut := zstd_compress_loop_cut zstd fuel input.slices
        { pStream := p, src := [], outbuf := [], output := output,
          log := [Call.ZSTD_createCStream, Call.ZSTD_initCStream 5 err] }
      rcases hlr : zstd_compress_loop zstd fuel input.slices
        { pStream := p, src := [], outbuf := [], output := output,
          log := [Call.ZSTD_createCStream, Call.ZSTD_initCStream 5 err] } with ⟨f, s⟩
      rw [hlr] at hl hpt hend hab hcut
      dsimp only at hl hpt hend hab hcut
      cases f with
      | done =>
        dsimp only
        split_ifs
        · exact ⟨_, calls, [Call.ZSTD_freeCStream (zstd.ZSTD_freeCStream s.pStream).1,
            Call.ZSTD_freeCStream (zstd.ZSTD_freeCStream (zstd.ZSTD_freeCStream s.pStream).2).1],
            by simp [zstd_compress_error2, hl], hhead, htwo _ _, hp,
            fun h => by simp [zstd_compress_error2] at h,
            fun _ => Or.inl (hpt rfl),
            fun h => by simp [zstd_compress_error2] at h,
            fun h => by simp [zstd_compress_error2] at h⟩
        · exact ⟨_, calls, [Call.ZSTD_freeCStream (zstd.ZSTD_freeCStream s.pStream).1,
            Call.ZSTD_freeCStream (zstd.ZSTD_freeCStream (zstd.ZSTD_freeCStream s.pStream).2).1],
            by simp [zstd_compress_error2, hl], hhead, htwo _ _, hp,
            fun h => by simp [zstd_compress_error2] at h,
            fun _ => Or.inl (hpt rfl),
            fun h => by simp [zstd_compress_error2] at h,
            fun h => by simp [zstd_compress_error2] at h⟩
        · exact ⟨_, calls, [Call.ZSTD_freeCStream (zstd.ZSTD_freeCStream s.pStream).1],
            by simp [hl], hhead, hone _, hp, fun _ => hpt rfl, fun _ => Or.inl (hpt rfl),
            fun h => by simp at h, fun h => by simp at h⟩
      | error =>
        refine ⟨_, calls, [Call.ZSTD_freeCStream (zstd.ZSTD_freeCStream s.pStream).1],
          by simp [zstd_compress_error2, hl], hhead, hone _, hp,
          fun h => by simp [zstd_compress_error2] at h,
          fun _ => Or.inr (Or.inl ?_),
          fun h => by simp [zstd_compress_error2] at h,
          fun h => by simp [zstd_compress_error2] at h⟩
        obtain ⟨l, c, hlc, hc⟩ := hend rfl
        refine ⟨l, c, ?_, hc⟩
        rw [hl, List.append_assoc] at hlc
        exact List.append_cancel_left hlc
      | aborted =>
        exact ⟨_, calls, [], by simp [hl], hhead,
          fun c hmem => absurd hmem (List.not_mem_nil c), hp, fun h => by simp at h,
          fun h => by simp at h, fun _ => hab rfl, fun h => by simp at h⟩
      | unfinished =>
        refine ⟨_, calls, [], by simp [hl], hhead,
          fun c hmem => absurd hmem (List.not_mem_nil c), hp, fun h => by simp at h,
          fun h => by simp at h, fun h => by simp at h, fun _ => ?_⟩
        obtain ⟨l, t, hlt, ht⟩ := hcut rfl
        refine ⟨l, t, ?_, ht⟩
        rw [hl, List.append_assoc] at hlt
        exact List.append_cancel_left hlt
  obtain ⟨head, calls, tail, hlog, hh, ht, hp, hpt, hz, ha, hu⟩ := hshape
  have hf : (zstd_compress zstd fuel input output).log.filter Call.isStep = calls := by
    rw [hlog, filter_steps head calls tail hh (presented_steps false _ calls hp) ht]
  rw [hf]
  exact ⟨hp, hpt, hz, ha, hu⟩

theorem zstd_decompress_presented (zstd : Zstd τ) (fuel : Nat)
    (input output : grpc_slice_buffer) :
    Presented false input.slices
        ((zstd_decompress zstd fuel input output).log.filter Call.isStep) ∧
      ((zstd_decompress zstd fuel input output).exit = Exit.returned 1 →
        Presented true input.slices
          ((zstd_decompress zstd fuel input output).log.filter Call.isStep)) ∧
      ((zstd_decompress zstd fuel input output).exit = Exit.returned 0 →
        Presented true input.slices
            ((zstd_decompress zstd fuel input output).log.filter Call.isStep) ∨
          (∃ l c, (zstd_decompress zstd fuel input output).log.filter Call.isStep = l ++ [c] ∧
            (c.fatal zstd.ZSTD_isError = true ∨ c.starved = true)) ∨
          (zstd.ZSTD_isError (zstd.ZSTD_initDStream zstd.ZSTD_createDStream).1 > 0 ∧
            (zstd_decompress zstd fuel input output).log.filter Call.isStep = [])) ∧
      ((zstd_decompress zstd fuel input output).exit = Exit.aborted →
        ∃ sl ∈ input.slices, uint_max < sl.length) ∧
      ((zstd_decompress zstd fuel input output).exit = Exit.unfinished →
        ∃ l t, (zstd_decompress zstd fuel input output).log.filter Call.isStep = l ++ t ∧
          t.length = fuel ∧ ∀ c ∈ t, ¬c.leftRoom) := by
  have hshape : ∃ head calls tail, (zstd_decompress zstd fuel input output).log =
      head ++ calls ++ tail ∧ (∀ c ∈ head, c.isStep = false) ∧
      (∀ c ∈ tail, c.isStep = false) ∧ Presented false input.slices calls ∧
      ((zstd_decompress zstd fuel input output).exit = Exit.returned 1 →
        Presented true input.slices calls) ∧
      ((zstd_decompress zstd fuel input output).exit = Exit.returned 0 →
        Presented true input.slices calls ∨
          (∃ l c, calls = l ++ [c] ∧ (c.fatal zstd.ZSTD_isError = true ∨ c.starved = true)) ∨
          (zstd.ZSTD_isError (zstd.ZSTD_initDStream zstd.ZSTD_createDStream).1 > 0 ∧
            calls = [])) ∧
      ((zstd_decompress zstd fuel input output).exit = Exit.aborted →
        ∃ sl ∈ input.slices, uint_max < sl.length) ∧
      ((zstd_decompress zstd fuel input output).exit = Exit.unfinished →
        ∃ l t, calls = l ++ t ∧ t.length = fuel ∧ ∀ c ∈ t, ¬c.leftRoom) := by
    unfold zstd_decompress
    rcases hinit : zstd.ZSTD_initDStream zstd.ZSTD_createDStream with ⟨err, p⟩
    simp only [hinit]
    have hhead : ∀ c ∈ [Call.ZSTD_createDStream, Call.ZSTD_initDStream err],
        c.isStep = false := by
      intro c hmem
      simp only [List.mem_cons, List.mem_singleton, List.not_mem_nil, or_false] at hmem
      rcases hmem with rfl | rfl <;> rfl
    have hone : ∀ (e : Nat) (c : Call), c ∈ [Call.ZSTD_freeDStream e] → c.isStep = false := by
      intro e c hmem
      rw [List.mem_singleton.1 hmem]
      rfl
    have htwo : ∀ (e1 e2 : Nat) (c : Call),
        c ∈ [Call.ZSTD_freeDStream e1, Call.ZSTD_freeDStream e2] → c.isStep = false := by
      intro e1 e2 c hmem
      simp only [List.mem_cons, List.mem_singleton, List.not_mem_nil, or_false] at hmem
      rcases hmem with rfl | rfl <;> rfl
    by_cases he : zstd.ZSTD_isError err > 0
    · rw [if_pos he]
      exact ⟨_, [], [Call.ZSTD_freeDStream (zstd.ZSTD_freeDStream p).1],
        by simp [zstd_decompress_error2], hhead, hone _, presented_nil _,
        fun h => by simp [zstd_decompress_error2] at h,
        fun _ => Or.inr (Or.inr ⟨he, rfl⟩),
        fun h => by simp [zstd_decompress_error2] at h,
        fun h => by simp [zstd_decompress_error2] at h⟩
    · rw [if_neg he]
      obtain ⟨calls, hl, hp, hpt⟩ := zstd_decompress_loop_presented zstd fuel input.slices
        { pStream := p, src := [], outbuf := [], output := output,
          log := [Call.ZSTD_createDStream, Call.ZSTD_initDStream err] }
      have hend := zstd_decompress_loop_end zstd fuel input.slices
        { pStream := p, src := [], outbuf := [], output := output,
          log := [Call.ZSTD_createDStream, Call.ZSTD_initDStream err] }
      have hab := zstd_decompress_loop_abort zstd fuel input.slices
        { pStream := p, src := [], outbuf := [], output := output,
          log := [Call.ZSTD_createDStream, Call.ZSTD_initDStream err] }
      have hcut := zstd_decompress_loop_cut zstd fuel input.slices
        { pStream := p, src := [], outbuf := [], output := output,
          log := [Call.ZSTD_createDStream, Call.ZSTD_initDStream err] }
      rcases hlr : zstd_decompress_loop zstd fuel input.slices
        { pStream := p, src := [], outbuf := [], output := output,
          log := [Call.ZSTD_createDStream, Call.ZSTD_initDStream err] } with ⟨f, s⟩
      rw [hlr] at hl hpt hend hab hcut
      dsimp only at hl hpt hend hab hcut
      cases f with
      | done =>
        dsimp only
        split_ifs
        · exact ⟨_, calls, [Call.ZSTD_freeDStream (zstd.ZSTD_freeDStream s.pStream).1,
            Call.ZSTD_freeDStream (zstd.ZSTD_freeDStream (zstd.ZSTD_freeDStream s.pStream).2).1],
            by simp [zstd_decompress_error2, hl], hhead, htwo _ _, hp,
            fun h => by simp [zstd_decompress_error2] at h,
            fun _ => Or.inl (hpt rfl),
            fun h => by simp [zstd_decompress_error2] at h,
            fun h => by simp [zstd_decompress_error2] at h⟩
        · exact ⟨_, calls, [Call.ZSTD_freeDStream (zstd.ZSTD_freeDStream s.pStream).1],
            by simp [hl], hhead, hone _, hp, fun _ => hpt rfl, fun _ => Or.inl (hpt rfl),
            fun h => by simp at h, fun h => by simp at h⟩
      | error =>
        refine ⟨_, calls, [Call.ZSTD_freeDStream (zstd.ZSTD_freeDStream s.pStream).1],
          by simp [zstd_decompress_error2, hl], hhead, hone _, hp,
          fun h => by simp [zstd_decompress_error2] at h,
          fun _ => Or.inr (Or.inl ?_),
          fun h => by simp [zstd_decompress_error2] at h,
          fun h => by simp [zstd_decompress_error2] at h⟩
        obtain ⟨l, c, hlc, hc⟩ := hend rfl
        refine ⟨l, c, ?_, hc⟩
        rw [hl, List.append_assoc] at hlc
        exact List.append_cancel_left hlc
      | aborted =>
        exact ⟨_, calls, [], by simp [hl], hhead,
          fun c hmem => absurd hmem (List.not_mem_nil c), hp, fun h => by simp at h,
          fun h => by simp at h, fun _ => hab rfl, fun h => by simp at h⟩
      | unfinished =>
        refine ⟨_, calls, [], by simp [hl], hhead,
          fun c hmem => absurd hmem (List.not_mem_nil c), hp, fun h => by simp at h,
          fun h => by simp at h, fun h => by simp at h, fun _ => ?_⟩
        obtain ⟨l, t, hlt, ht⟩ := hcut rfl
        refine ⟨l, t, ?_, ht⟩
        rw [hl, List.append_assoc] at hlt
        exact List.append_cancel_left hlt
  obtain ⟨head, calls, tail, hlog, hh, ht, hp, hpt, hz, ha, hu⟩ := hshape
  have hf : (zstd_decompress zstd fuel input output).log.filter Call.isStep = calls := by
    rw [hlog, filter_steps head calls tail hh (presented_steps false _ calls hp) ht]
  rw [hf]
  exact ⟨hp, hpt, hz, ha, hu⟩

end Order

/-! ## Full blocks -/

section Blocks

variable {σ τ : Type}

theorem fullBlocks_add (before : List grpc_slice) (output : grpc_slice_buffer)
    (outbuf : List Byte) (hfull : outbuf.length = OUTPUT_BLOCK_SIZE)
    (h : FullBlocks before output outbuf) :
    FullBlocks before (grpc_slice_buffer_add_indexed output outbuf) [] := by
  obtain ⟨_, blocks, hs, hb⟩ := h
  refine ⟨Nat.zero_le _, blocks ++ [outbuf], ?_, ?_⟩
  · simp [grpc_slice_buffer_add_indexed, hs]
  · intro b hmem
    rcases List.mem_append.1 hmem with hmem | hmem
    · exact hb b hmem
    · rw [List.mem_singleton.1 hmem]; exact hfull

theorem fullBlocks_write (before : List grpc_slice) (output : grpc_slice_buffer)
    (outbuf produced : List Byte) (h : FullBlocks before output outbuf) :
    FullBlocks before output (outbuf ++ produced.take (OUTPUT_BLOCK_SIZE - outbuf.length)) := by
  refine ⟨?_, h.2⟩
  have h1 := h.1
  have h2 : (produced.take (OUTPUT_BLOCK_SIZE - outbuf.length)).length ≤
      OUTPUT_BLOCK_SIZE - outbuf.length := by
    rw [List.length_take]
    exact Nat.min_le_left _ _
  rw [List.length_append]
  omega

theorem zlib_grow_full (before : List grpc_slice) (s : ZBody σ)
    (h : FullBlocks before s.output s.outbuf) :
    FullBlocks before (zlib_grow s).output (zlib_grow s).outbuf := by
  unfold zlib_grow
  split_ifs with h0
  · refine fullBlocks_add before _ _ ?_ h
    have h1 := h.1
    unfold ZBody.avail_out at h0
    omega
  · exact h

theorem zstd_grow_full (before : List grpc_slice) (s : ZstdVars τ)
    (h : FullBlocks before s.output s.outbuf) :
    FullBlocks before (zstd_grow s).output (zstd_grow s).outbuf := by
  unfold zstd_grow
  split_ifs with h0
  · exact fullBlocks_add before _ _ h0 h
  · exact h

theorem zlib_loop_full (before : List grpc_slice) (flate : FlateFn σ) (fn : Flate) (fuel : Nat)
    (slices : List grpc_slice) (flush : Int) (s : ZBody σ)
    (h : FullBlocks before s.output s.outbuf) :
    FullBlocks before (zlib_loop flate fn fuel slices flush s).2.output
      (zlib_loop flate fn fuel slices flush s).2.outbuf :=
  zlib_loop_inv flate fn fuel (fun t => FullBlocks before t.output t.outbuf)
    (fun t ht => zlib_grow_full before t ht)
    (fun _ t ht => fullBlocks_write before t.output t.outbuf _ ht)
    (fun _ _ ht => ht) slices flush s h

theorem zstd_compress_loop_full (before : List grpc_slice) (zstd : Zstd τ) (fuel : Nat)
    (slices : List grpc_slice) (s : ZstdVars τ) (h : FullBlocks before s.output s.outbuf) :
    FullBlocks before (zstd_compress_loop zstd fuel slices s).2.output
      (zstd_compress_loop zstd fuel slices s).2.outbuf :=
  zstd_compress_loop_inv zstd fuel (fun t => FullBlocks before t.output t.outbuf)
    (fun t ht => zstd_grow_full before t ht)
    (fun _ t ht => fullBlocks_write before t.output t.outbuf _ ht)
    (fun _ _ ht => ht) slices s h

theorem zstd_decompress_loop_full (before : List grpc_slice) (zstd : Zstd τ) (fuel : Nat)
    (slices : List grpc_slice) (s : ZstdVars τ) (h : FullBlocks before s.output s.outbuf) :
    FullBlocks before (zstd_decompress_loop zstd fuel slices s).2.output
      (zstd_decompress_loop zstd fuel slices s).2.outbuf :=
  zstd_decompress_loop_inv zstd fuel (fun t => FullBlocks before t.output t.outbuf)
    (fun t ht => zstd_grow_full before t ht)
    (fun t ht => fullBlocks_write before t.output t.outbuf _ ht)
    (fun _ _ ht => ht) slices s h

/-- Appending the last block to full blocks that hold, with it, the bytes written. -/
theorem blockStructure_close (before : grpc_slice_buffer) (output : grpc_slice_buffer)
    (outbuf : List Byte) (log : List Call) (hf : FullBlocks before.slices output outbuf)
    (hw : WroteInv before.bytes output outbuf log) :
    ∃ added, (grpc_slice_buffer_add_indexed output outbuf).slices = before.slices ++ added ∧
      BlockStructure added (wroteOf log) := by
  obtain ⟨hlen, blocks, hs, hb⟩ := hf
  refine ⟨blocks ++ [outbuf], ?_, blocks, outbuf, rfl, hb, hlen, ?_⟩
  · simp [grpc_slice_buffer_add_indexed, hs]
  · unfold WroteInv grpc_slice_buffer.bytes at hw
    rw [hs, List.flatten_append, List.append_assoc] at hw
    have := List.append_cancel_left hw
    simpa using this

theorem zlib_body_blocks (flate : FlateFn σ) (fn : Flate) (fuel : Nat) (zs : σ)
    (input output : grpc_slice_buffer) (log : List Call) (hlog : wroteOf log = [])
    (h : (zlib_body flate fn fuel zs input output log).1 = Exit.returned 1) :
    ∃ added, (zlib_body flate fn fuel zs input output log).2.output.slices =
        output.slices ++ added ∧
      BlockStructure added (wroteOf (zlib_body flate fn fuel zs input output log).2.log) := by
  have hf := zlib_loop_full output.slices flate fn fuel input.slices Z_NO_FLUSH
    { zs := zs, next_in := [], outbuf := [], output := output, log := log }
    ⟨Nat.zero_le _, [], by simp, by simp⟩
  have hw := zlib_loop_wrote output.bytes flate fn fuel input.slices Z_NO_FLUSH
    { zs := zs, next_in := [], outbuf := [], output := output, log := log }
    (by simp [WroteInv, hlog])
  unfold zlib_body at h ⊢
  rcases hlr : zlib_loop flate fn fuel input.slices Z_NO_FLUSH
    { zs := zs, next_in := [], outbuf := [], output := output, log := log } with ⟨f, s1⟩
  rw [hlr] at hf hw
  simp only [hlr] at h ⊢
  cases f with
  | done => exact blockStructure_close output s1.output s1.outbuf s1.log hf hw
  | error => simp at h
  | aborted => simp at h
  | unfinished => simp at h

theorem zstd_compress_blocks (zstd : Zstd τ) (fuel : Nat) (input output : grpc_slice_buffer)
    (h : (zstd_compress zstd fuel input output).exit = Exit.returned 1) :
    ∃ added, (zstd_compress zstd fuel input output).output.slices = output.slices ++ added ∧
      BlockStructure added (wroteOf (zstd_compress zstd fuel input output).log) := by
  unfold zstd_compress at h ⊢
  rcases hinit : zstd.ZSTD_initCStream zstd.ZSTD_createCStream 5 with ⟨err, p⟩
  simp only [hinit] at h ⊢
  by_cases he : zstd.ZSTD_isError err > 0
  · simp [he, zstd_compress_error2_exit] at h
  · simp only [he, if_false] at h ⊢
    have hf := zstd_compress_loop_full output.slices zstd fuel input.slices
      { pStream := p, src := [], outbuf := [], output := output,
        log := [Call.ZSTD_createCStream, Call.ZSTD_initCStream 5 err] }
      ⟨Nat.zero_le _, [], by simp, by simp⟩
    have hw := zstd_compress_loop_wrote output.bytes zstd fuel input.slices
      { pStream := p, src := [], outbuf := [], output := output,
        log := [Call.ZSTD_createCStream, Call.ZSTD_initCStream 5 err] }
      (by simp [WroteInv, wroteOf, Call.wrote])
    rcases hlr : zstd_compress_loop zstd fuel input.slices
      { pStream := p, src := [], outbuf := [], output := output,
        log := [Call.ZSTD_createCStream, Call.ZSTD_initCStream 5 err] } with ⟨f, s⟩
    rw [hlr] at hf hw
    simp only [hlr] at h ⊢
    cases f with
    | done =>
      simp only at h ⊢
      split_ifs at h ⊢
      · simp [zstd_compress_error2_exit] at h
      · simp [zstd_compress_error2_exit] at h
      · have hc := blockStructure_close output s.output s.outbuf s.log hf hw
        simpa [wroteOf_append, wroteOf, Call.wrote] using hc
    | error => simp [zstd_compress_error2_exit] at h
    | aborted => simp at h
    | unfinished => simp at h

theorem zstd_decompress_blocks (zstd : Zstd τ) (fuel : Nat) (input output : grpc_slice_buffer)
    (h : (zstd_decompress zstd fuel input output).exit = Exit.returned 1) :
    ∃ added, (zstd_decompress zstd fuel input output).output.slices = output.slices ++ added ∧
      BlockStructure added (wroteOf (zstd_decompress zstd fuel input output).log) := by
  unfold zstd_decompress at h ⊢
  rcases hinit : zstd.ZSTD_initDStream zstd.ZSTD_createDStream with ⟨err, p⟩
  simp only [hinit] at h ⊢
  by_cases he : zstd.ZSTD_isError err > 0
  · simp [he, zstd_decompress_error2_exit] at h
  · simp only [he, if_false] at h ⊢
    have hf := zstd_decompress_loop_full output.slices zstd fuel input.slices
      { pStream := p, src := [], outbuf := [], output := output,
        log := [Call.ZSTD_createDStream, Call.ZSTD_initDStream err] }
      ⟨Nat.zero_le _, [], by simp, by simp⟩
    have hw := zstd_decompress_loop_wrote output.bytes zstd fuel input.slices
      { pStream := p, src := [], outbuf := [], output := output,
        log := [Call.ZSTD_createDStream, Call.ZSTD_initDStream err] }
      (by simp [WroteInv, wroteOf, Call.wrote])
    rcases hlr : zstd_decompress_loop zstd fuel input.slices
      { pStream := p, src := [], outbuf := [], output := output,
        log := [Call.ZSTD_createDStream, Call.ZSTD_initDStream err] } with ⟨f, s⟩
    rw [hlr] at hf hw
    simp only [hlr] at h ⊢
    cases f with
    | done =>
      simp only at h ⊢
      split_ifs at h ⊢
      · simp [zstd_decompress_error2_exit] at h
      · have hc := blockStructure_close output s.output s.outbuf s.log hf hw
        simpa [wroteOf_append, wroteOf, Call.wrote] using hc
    | error => simp [zstd_decompress_error2_exit] at h
    | aborted => simp at h
    | unfinished => simp at h

theorem blockStructure_bytes (before after : grpc_slice_buffer) (produced : List Byte)
    (h : ∃ added, after.slices = before.slices ++ added ∧ BlockStructure added produced) :
    after.bytes = before.bytes ++ produced := by
  obtain ⟨added, hs, _, _, _, _, _, hflat⟩ := h
  unfold grpc_slice_buffer.bytes
  rw [hs, List.flatten_append, hflat]

theorem zlib_decompress_flag (zlib : Zlib σ) (fuel : Nat) (input output : grpc_slice_buffer)
    (gzip : Int) (r : Int) (h : (zlib_decompress zlib fuel input output gzip).exit = Exit.returned r) :
    r = 0 ∨ r = 1 := by
  unfold zlib_decompress at h
  rcases hinit : zlib.inflateInit2 (windowBits gzip) with ⟨r0, zs⟩
  simp only [hinit] at h
  by_cases hr : r0 ≠ Z_OK
  · simp [hr] at h
  · simp only [hr, if_false] at h
    have hb := zlib_body_flag zlib.inflate Flate.inflate fuel zs input output
      [Call.inflateInit2 (windowBits gzip) r0]
    rcases hbr : zlib_body zlib.inflate Flate.inflate fuel zs input output
      [Call.inflateInit2 (windowBits gzip) r0] with ⟨e, s⟩
    rw [hbr] at hb
    simp only [hbr] at h
    cases e with
    | returned b =>
      by_cases hc : b ≠ 0
      · dsimp only at h
        rw [if_pos hc] at h
        simp only [Exit.returned.injEq] at h
        subst h
        exact hb b rfl
      · dsimp only at h
        rw [if_neg hc] at h
        simp only [Exit.returned.injEq] at h
        exact Or.inl h.symm
    | aborted => simp at h
    | unfinished => simp at h

theorem zstd_decompress_flag (zstd : Zstd τ) (fuel : Nat) (input output : grpc_slice_buffer)
    (r : Int) (h : (zstd_decompress zstd fuel input output).exit = Exit.returned r) :
    r = 0 ∨ r = 1 := by
  unfold zstd_decompress at h
  rcases hinit : zstd.ZSTD_initDStream zstd.ZSTD_createDStream with ⟨err, p⟩
  simp only [hinit] at h
  split_ifs at h
  · simp only [zstd_decompress_error2_exit, Exit.returned.injEq] at h; exact Or.inl h.symm
  · rcases hl : zstd_decompress_loop zstd fuel input.slices
      { pStream := p, src := [], outbuf := [], output := output,
        log := [Call.ZSTD_createDStream, Call.ZSTD_initDStream err] } with ⟨f, s⟩
    simp only [hl] at h
    cases f with
    | done =>
      simp only at h
      split_ifs at h
      · simp only [zstd_decompress_error2_exit, Exit.returned.injEq] at h; exact Or.inl h.symm
      · simp only [Exit.returned.injEq] at h; exact Or.inr h.symm
    | error =>
      simp only [zstd_decompress_error2_exit, Exit.returned.injEq] at h; exact Or.inl h.symm
    | aborted => simp at h
    | unfinished => simp at h

theorem zlib_decompress_bytes (zlib : Zlib σ) (fuel : Nat) (input output : grpc_slice_buffer)
    (gzip : Int) (h : (zlib_decompress zlib fuel input output gzip).exit = Exit.returned 1) :
    (zlib_decompress zlib fuel input output gzip).output.bytes =
      output.bytes ++ wroteOf (zlib_decompress zlib fuel input output gzip).log := by
  unfold zlib_decompress at h ⊢
  rcases hinit : zlib.inflateInit2 (windowBits gzip) with ⟨r0, zs⟩
  simp only [hinit] at h ⊢
  by_cases hr : r0 ≠ Z_OK
  · simp [hr] at h
  · simp only [hr, if_false] at h ⊢
    have hb := zlib_body_blocks zlib.inflate Flate.inflate fuel zs input output
      [Call.inflateInit2 (windowBits gzip) r0] rfl
    rcases hbr : zlib_body zlib.inflate Flate.inflate fuel zs input output
      [Call.inflateInit2 (windowBits gzip) r0] with ⟨e, s⟩
    rw [hbr] at hb
    simp only [hbr] at h ⊢
    cases e with
    | returned b =>
      by_cases hc : b ≠ 0
      · dsimp only at h ⊢
        rw [if_pos hc] at h ⊢
        simp only [Exit.returned.injEq] at h
        subst h
        have := blockStructure_bytes output s.output _ (hb rfl)
        simpa [wroteOf_append, wroteOf, Call.wrote] using this
      · dsimp only at h
        rw [if_neg hc] at h
        simp at h
    | aborted => simp at h
    | unfinished => simp at h

end Blocks

/-! ## The cached length follows the chunks -/

section Cached

variable {σ τ : Type}

theorem add_indexed_wf (sb : grpc_slice_buffer) (sl : grpc_slice) (h : sb.wf) :
    (grpc_slice_buffer_add_indexed sb sl).wf := by
  unfold grpc_slice_buffer.wf grpc_slice_buffer.byteLength at h ⊢
  simp [grpc_slice_buffer_add_indexed, h]

theorem zlib_grow_wf (s : ZBody σ) (h : s.output.wf) : (zlib_grow s).output.wf := by
  unfold zlib_grow
  split_ifs
  · exact add_indexed_wf _ _ h
  · exact h

theorem zstd_grow_wf (s : ZstdVars τ) (h : s.output.wf) : (zstd_grow s).output.wf := by
  unfold zstd_grow
  split_ifs
  · exact add_indexed_wf _ _ h
  · exact h

theorem zlib_loop_wf (flate : FlateFn σ) (fn : Flate) (fuel : Nat) (slices : List grpc_slice)
    (flush : Int) (s : ZBody σ) (h : s.output.wf) :
    (zlib_loop flate fn fuel slices flush s).2.output.wf :=
  zlib_loop_inv flate fn fuel (fun t => t.output.wf) (fun t ht => zlib_grow_wf t ht)
    (fun _ _ ht => ht) (fun _ _ ht => ht) slices flush s h

theorem zstd_compress_loop_wf (zstd : Zstd τ) (fuel : Nat) (slices : List grpc_slice)
    (s : ZstdVars τ) (h : s.output.wf) : (zstd_compress_loop zstd fuel slices s).2.output.wf :=
  zstd_compress_loop_inv zstd fuel (fun t => t.output.wf) (fun t ht => zstd_grow_wf t ht)
    (fun _ _ ht => ht) (fun _ _ ht => ht) slices s h

theorem zstd_decompress_loop_wf (zstd : Zstd τ) (fuel : Nat) (slices : List grpc_slice)
    (s : ZstdVars τ) (h : s.output.wf) : (zstd_decompress_loop zstd fuel slices s).2.output.wf :=
  zstd_decompress_loop_inv zstd fuel (fun t => t.output.wf) (fun t ht => zstd_grow_wf t ht)
    (fun _ ht => ht) (fun _ _ ht => ht) slices s h

theorem zlib_body_wf (flate : FlateFn σ) (fn : Flate) (fuel : Nat) (zs : σ)
    (input output : grpc_slice_buffer) (log : List Call) (h : output.wf) :
    (zlib_body flate fn fuel zs input output log).2.output.wf := by
  have hl := zlib_loop_wf flate fn fuel input.slices Z_NO_FLUSH
    { zs := zs, next_in := [], outbuf := [], output := output, log := log } h
  unfold zlib_body
  rcases hlr : zlib_loop flate fn fuel input.slices Z_NO_FLUSH
    { zs := zs, next_in := [], outbuf := [], output := output, log := log } with ⟨f, s1⟩
  rw [hlr] at hl
  cases f
  · exact add_indexed_wf _ _ hl
  all_goals exact hl

theorem zlib_compress_wf (zlib : Zlib σ) (fuel : Nat) (input output : grpc_slice_buffer)
    (gzip : Int) (h : output.wf) : (zlib_compress zlib fuel input output gzip).output.wf := by
  have hz := zlib_compress_zero zlib fuel input output gzip
  unfold zlib_compress at hz ⊢
  rcases hinit : zlib.deflateInit2 Z_DEFAULT_COMPRESSION Z_DEFLATED (windowBits gzip) 8
    Z_DEFAULT_STRATEGY with ⟨r, zs⟩
  simp only [hinit] at hz ⊢
  by_cases hr : r ≠ Z_OK
  · simpa [hr] using h
  · simp only [hr, if_false] at hz ⊢
    have hb := zlib_body_wf zlib.deflate Flate.deflate fuel zs input output
      [Call.deflateInit2 (windowBits gzip) r] h
    rcases hbr : zlib_body zlib.deflate Flate.deflate fuel zs input output
      [Call.deflateInit2 (windowBits gzip) r] with ⟨e, s⟩
    rw [hbr] at hb
    simp only [hbr] at hz ⊢
    cases e with
    | returned b =>
      by_cases hc : b ≠ 0 ∧ s.output.length < input.length
      · dsimp only
        rw [if_pos hc]
        exact hb
      · dsimp only at hz ⊢
        rw [if_neg hc] at hz ⊢
        rw [hz rfl]
        exact h
    | aborted => exact hb
    | unfinished => exact hb

theorem zlib_decompress_wf (zlib : Zlib σ) (fuel : Nat) (input output : grpc_slice_buffer)
    (gzip : Int) (h : output.wf) : (zlib_decompress zlib fuel input output gzip).output.wf := by
  have hz := zlib_decompress_zero zlib fuel input output gzip
  unfold zlib_decompress at hz ⊢
  rcases hinit : zlib.inflateInit2 (windowBits gzip) with ⟨r, zs⟩
  simp only [hinit] at hz ⊢
  by_cases hr : r ≠ Z_OK
  · simpa [hr] using h
  · simp only [hr, if_false] at hz ⊢
    have hb := zlib_body_wf zlib.inflate Flate.inflate fuel zs input output
      [Call.inflateInit2 (windowBits gzip) r] h
    rcases hbr : zlib_body zlib.inflate Flate.inflate fuel zs input output
      [Call.inflateInit2 (windowBits gzip) r] with ⟨e, s⟩
    rw [hbr] at hb
    simp only [hbr] at hz ⊢
    cases e with
    | returned b =>
      by_cases hc : b ≠ 0
      · dsimp only
        rw [if_pos hc]
        exact hb
      · dsimp only at hz ⊢
        rw [if_neg hc] at hz ⊢
        rw [hz rfl]
        exact h
    | aborted => exact hb
    | unfinished => exact hb

theorem zstd_compress_wf (zstd : Zstd τ) (fuel : Nat) (input output : grpc_slice_buffer)
    (h : output.wf) : (zstd_compress zstd fuel input output).output.wf := by
  by_cases h0 : (zstd_compress zstd fuel input output).exit = Exit.returned 0
  · rw [zstd_compress_zero zstd fuel input output h0]; exact h
  · unfold zstd_compress at h0 ⊢
    rcases hinit : zstd.ZSTD_initCStream zstd.ZSTD_createCStream 5 with ⟨err, p⟩
    simp only [hinit] at h0 ⊢
    by_cases he : zstd.ZSTD_isError err > 0
    · simp [he, zstd_compress_error2_exit] at h0
    · simp only [he, if_false] at h0 ⊢
      have hl := zstd_compress_loop_wf zstd fuel input.slices
        { pStream := p, src := [], outbuf := [], output := output,
          log := [Call.ZSTD_createCStream, Call.ZSTD_initCStream 5 err] } h
      rcases hlr : zstd_compress_loop zstd fuel input.slices
        { pStream := p, src := [], outbuf := [], output := output,
          log := [Call.ZSTD_createCStream, Call.ZSTD_initCStream 5 err] } with ⟨f, s⟩
      rw [hlr] at hl
      simp only [hlr] at h0 ⊢
      cases f with
      | done =>
        simp only at h0 ⊢
        split_ifs at h0 ⊢
        · simp [zstd_compress_error2_exit] at h0
        · simp [zstd_compress_error2_exit] at h0
        · exact add_indexed_wf _ _ hl
      | error => simp [zstd_compress_error2_exit] at h0
      | aborted => exact hl
      | unfinished => exact hl

theorem zstd_decompress_wf (zstd : Zstd τ) (fuel : Nat) (input output : grpc_slice_buffer)
    (h : output.wf) : (zstd_decompress zstd fuel input output).output.wf := by
  by_cases h0 : (zstd_decompress zstd fuel input output).exit = Exit.returned 0
  · rw [zstd_decompress_zero zstd fuel input output h0]; exact h
  · unfold zstd_decompress at h0 ⊢
    rcases hinit : zstd.ZSTD_initDStream zstd.ZSTD_createDStream with ⟨err, p⟩
    simp only [hinit] at h0 ⊢
    by_cases he : zstd.ZSTD_isError err > 0
    · simp [he, zstd_decompress_error2_exit] at h0
    · simp only [he, if_false] at h0 ⊢
      have hl := zstd_decompress_loop_wf zstd fuel input.slices
        { pStream := p, src := [], outbuf := [], output := output,
          log := [Call.ZSTD_createDStream, Call.ZSTD_initDStream err] } h
      rcases hlr : zstd_decompress_loop zstd fuel input.slices
        { pStream := p, src := [], outbuf := [], output := output,
          log := [Call.ZSTD_createDStream, Call.ZSTD_initDStream err] } with ⟨f, s⟩
      rw [hlr] at hl
      simp only [hlr] at h0 ⊢
      cases f with
      | done =>
        simp only at h0 ⊢
        split_ifs at h0 ⊢
        · simp [zstd_decompress_error2_exit] at h0
        · exact add_indexed_wf _ _ hl
      | error => simp [zstd_decompress_error2_exit] at h0
      | aborted => exact hl
      | unfinished => exact hl

theorem copy_wf (input output : grpc_slice_buffer) (h : output.wf) :
    (copy input output).2.wf := by
  rw [copy_output]
  unfold grpc_slice_buffer.wf grpc_slice_buffer.byteLength at h ⊢
  simp [h]

end Cached

/-! ## What a successful compression hands to the decoder -/

section Encoding

variable {σ τ : Type}

theorem noFatal_of_append {isError : Nat → Nat} {l k : List Call}
    (h : NoFatal isError (l ++ k)) : NoFatal isError k :=
  fun c hc => h c (List.mem_append_right l hc)

theorem wf_slices_ne_nil (input : grpc_slice_buffer) (hwf : input.wf) (n : Nat)
    (h : n < input.length) : input.slices ≠ [] := by
  intro hnil
  unfold grpc_slice_buffer.wf grpc_slice_buffer.byteLength at hwf
  rw [hnil] at hwf
  simp at hwf
  omega

theorem zlib_body_done (flate : FlateFn σ) (fn : Flate) (fuel : Nat) (zs : σ)
    (input output : grpc_slice_buffer) (log : List Call) (b : Int) (s : ZBody σ)
    (h : zlib_body flate fn fuel zs input output log = (Exit.returned b, s)) (hb : b ≠ 0) :
    ∃ s1, zlib_loop flate fn fuel input.slices Z_NO_FLUSH
        { zs := zs, next_in := [], outbuf := [], output := output, log := log } =
        (Flow.done, s1) ∧
      b = 1 ∧ s = { s1 with output := grpc_slice_buffer_add_indexed s1.output s1.outbuf } := by
  unfold zlib_body at h
  rcases hl : zlib_loop flate fn fuel input.slices Z_NO_FLUSH
    { zs := zs, next_in := [], outbuf := [], output := output, log := log } with ⟨f, s1⟩
  rw [hl] at h
  cases f
  · simp only [Prod.mk.injEq, Exit.returned.injEq] at h
    exact ⟨s1, rfl, h.1.symm, h.2.symm⟩
  · simp only [Prod.mk.injEq, Exit.returned.injEq] at h
    exact absurd h.1.symm hb
  · simp at h
  · simp at h

theorem zlibDirected_of_calls (slices : List grpc_slice) (calls : List Call)
    (h : LoopCalls 1 zlibDirective slices calls) : ∀ c ∈ calls, c.zlibDirected := by
  intro c hc
  obtain ⟨last, first, hP⟩ := loopCalls_mem _ _ _ _ h c hc
  unfold zlibDirective at hP
  cases last
  · exact Or.inl hP
  · exact Or.inr hP

theorem zstdDirected_of_calls (slices : List grpc_slice) (calls : List Call)
    (h : LoopCalls 2 zstdDirective slices calls) : ∀ c ∈ calls, c.zstdDirected := by
  intro c hc
  obtain ⟨last, first, hP⟩ := loopCalls_mem _ _ _ _ h c hc
  unfold zstdDirective at hP
  cases first
  · exact Or.inr hP
  · exact Or.inl hP

theorem fullBlocks_nonempty (output : grpc_slice_buffer) (outbuf : List Byte)
    (h : FullBlocks [] output outbuf) :
    ∀ sl ∈ (grpc_slice_buffer_add_indexed output outbuf).slices.dropLast, sl ≠ [] := by
  obtain ⟨-, blocks, hs, hb⟩ := h
  intro sl hsl hnil
  simp only [grpc_slice_buffer_add_indexed, List.dropLast_concat, hs, List.nil_append] at hsl
  have := hb sl hsl
  rw [hnil] at this
  simp [OUTPUT_BLOCK_SIZE] at this

theorem zlib_compress_encoding (zlib : Zlib σ) (fuel : Nat) (input : grpc_slice_buffer)
    (gzip : Int) (valid : List Byte → List Byte → Prop)
    (henc : EncoderSound (flate_step zlib.deflate Flate.deflate)
      (zlib.deflateInit2 Z_DEFAULT_COMPRESSION Z_DEFLATED (windowBits gzip) 8
        Z_DEFAULT_STRATEGY).2 (fun _ => 0) Call.zlibDirected valid)
    (hwf : input.wf)
    (h : (zlib_compress zlib fuel input emptyBuffer gzip).exit = Exit.returned 1) :
    valid input.bytes (zlib_compress zlib fuel input emptyBuffer gzip).output.bytes ∧
      (zlib_compress zlib fuel input emptyBuffer gzip).output.slices ≠ [] ∧
      (∀ sl ∈ (zlib_compress zlib fuel input emptyBuffer gzip).output.slices,
        sl.length ≤ OUTPUT_BLOCK_SIZE) ∧
      ∀ sl ∈ (zlib_compress zlib fuel input emptyBuffer gzip).output.slices.dropLast,
        sl ≠ [] := by
  unfold zlib_compress at h ⊢
  rcases hinit : zlib.deflateInit2 Z_DEFAULT_COMPRESSION Z_DEFLATED (windowBits gzip) 8
    Z_DEFAULT_STRATEGY with ⟨r, zs⟩
  rw [hinit] at henc
  simp only [hinit] at h ⊢
  by_cases hr : r ≠ Z_OK
  · simp [hr] at h
  · simp only [hr, if_false] at h ⊢
    rcases hb : zlib_body zlib.deflate Flate.deflate fuel zs input emptyBuffer
      [Call.deflateInit2 (windowBits gzip) r] with ⟨e, s⟩
    simp only [hb] at h ⊢
    cases e with
    | aborted => simp at h
    | unfinished => simp at h
    | returned b =>
      by_cases hc : b ≠ 0 ∧ s.output.length < input.length
      · dsimp only
        rw [if_pos hc]
        dsimp only
        obtain ⟨s1, hl, -, hs⟩ := zlib_body_done _ _ _ _ _ _ _ _ _ hb hc.1
        have hne : input.slices ≠ [] := wf_slices_ne_nil input hwf _ hc.2
        have htr := zlib_loop_trace zlib.deflate Flate.deflate fuel zs
          [Call.deflateInit2 (windowBits gzip) r] input.slices Z_NO_FLUSH
          { zs := zs, next_in := [], outbuf := [], output := emptyBuffer,
            log := [Call.deflateInit2 (windowBits gzip) r] } ⟨[], by simp [runSteps], rfl⟩
        have hnf := zlib_loop_noFatal (fun _ => 0) zlib.deflate Flate.deflate fuel input.slices
          Z_NO_FLUSH
          { zs := zs, next_in := [], outbuf := [], output := emptyBuffer,
            log := [Call.deflateInit2 (windowBits gzip) r] }
          (by intro c hc; rw [List.mem_singleton.1 hc]; rfl)
        have hrd := zlib_loop_read zlib.deflate Flate.deflate fuel input.slices Z_NO_FLUSH
          { zs := zs, next_in := [], outbuf := [], output := emptyBuffer,
            log := [Call.deflateInit2 (windowBits gzip) r] } rfl
        have hwr := zlib_loop_wrote [] zlib.deflate Flate.deflate fuel input.slices Z_NO_FLUSH
          { zs := zs, next_in := [], outbuf := [], output := emptyBuffer,
            log := [Call.deflateInit2 (windowBits gzip) r] } (by
              simp [WroteInv, emptyBuffer, grpc_slice_buffer.bytes, wroteOf, Call.wrote])
        have hbl := zlib_loop_block zlib.deflate Flate.deflate fuel input.slices Z_NO_FLUSH
          { zs := zs, next_in := [], outbuf := [], output := emptyBuffer,
            log := [Call.deflateInit2 (windowBits gzip) r] } (by
              simp [BlockInv, emptyBuffer])
        have hlast := zlib_loop_last zlib.deflate Flate.deflate fuel input.slices Z_NO_FLUSH
          { zs := zs, next_in := [], outbuf := [], output := emptyBuffer,
            log := [Call.deflateInit2 (windowBits gzip) r] } hne
        obtain ⟨calls, hcl, hcalls⟩ := zlib_loop_calls zlib.deflate Flate.deflate fuel
          input.slices
          { zs := zs, next_in := [], outbuf := [], output := emptyBuffer,
            log := [Call.deflateInit2 (windowBits gzip) r] }
        have hfull := zlib_loop_full [] zlib.deflate Flate.deflate fuel input.slices Z_NO_FLUSH
          { zs := zs, next_in := [], outbuf := [], output := emptyBuffer,
            log := [Call.deflateInit2 (windowBits gzip) r] }
          ⟨Nat.zero_le _, [], by simp [emptyBuffer], by simp⟩
        rw [hl] at htr hnf hrd hwr hbl hlast hcl hfull
        obtain ⟨l, c, hlog, ⟨ni, ao, rr, k, pr, hcfl⟩, htook, hroom⟩ := hlast rfl
        obtain ⟨reqs, hsteps, -⟩ := htr
        dsimp only at hlog hsteps hrd hwr hbl hcl
        have hdir : ∀ d ∈ l ++ [c], d.zlibDirected := by
          have heq : calls = l ++ [c] := by
            rw [hlog, List.append_assoc] at hcl
            exact (List.append_cancel_left hcl).symm
          rw [← heq]
          exact zlibDirected_of_calls _ _ hcalls
        have hst : (runSteps (flate_step zlib.deflate Flate.deflate) zs reqs).1 = l ++ [c] := by
          rw [hlog, List.append_assoc] at hsteps
          exact (List.append_cancel_left hsteps).symm
        have hnf2 : NoFatal (fun _ => 0) (l ++ [c]) := by
          have := hnf (by simp)
          dsimp only at this
          rw [hlog, List.append_assoc] at this
          exact noFatal_of_append this
        have hvalid := henc reqs l c hst hdir hnf2 (by rw [hcfl]; rfl) htook hroom
        have hrd2 : readOf (l ++ [c]) = input.bytes := by
          rw [hlog, List.append_assoc, readOf_append_list] at hrd
          simpa [readOf, Call.read, grpc_slice_buffer.bytes] using hrd
        have hwr2 : s.output.bytes = wroteOf (l ++ [c]) := by
          rw [hs, add_indexed_bytes]
          unfold WroteInv at hwr
          rw [hwr, hlog, List.append_assoc, wroteOf_append_list]
          simp [wroteOf, Call.wrote]
        refine ⟨?_, ?_, ?_, ?_⟩
        · rw [hwr2, ← hrd2]; exact hvalid
        · rw [hs]; simp [grpc_slice_buffer_add_indexed]
        · rw [hs]; exact (blockInv_add _ _ hbl).2
        · rw [hs]; exact fullBlocks_nonempty _ _ hfull
      · simp [hc] at h

theorem zstd_compress_encoding (zstd : Zstd τ) (fuel : Nat) (input : grpc_slice_buffer)
    (valid : List Byte → List Byte → Prop) (hnil : valid [] [])
    (henc : EncoderSound (zstd_compress_step zstd)
      (zstd.ZSTD_initCStream zstd.ZSTD_createCStream 5).2 zstd.ZSTD_isError Call.zstdDirected
      valid)
    (h : (zstd_compress zstd fuel input emptyBuffer).exit = Exit.returned 1) :
    valid input.bytes (zstd_compress zstd fuel input emptyBuffer).output.bytes ∧
      (zstd_compress zstd fuel input emptyBuffer).output.slices ≠ [] ∧
      (∀ sl ∈ (zstd_compress zstd fuel input emptyBuffer).output.slices,
        sl.length ≤ OUTPUT_BLOCK_SIZE) ∧
      ∀ sl ∈ (zstd_compress zstd fuel input emptyBuffer).output.slices.dropLast,
        sl ≠ [] := by
  unfold zstd_compress at h ⊢
  rcases hinit : zstd.ZSTD_initCStream zstd.ZSTD_createCStream 5 with ⟨err, p⟩
  rw [hinit] at henc
  simp only [hinit] at h ⊢
  by_cases he : zstd.ZSTD_isError err > 0
  · simp [he, zstd_compress_error2_exit] at h
  · simp only [he, if_false] at h ⊢
    have htr := zstd_compress_loop_trace zstd fuel p
      [Call.ZSTD_createCStream, Call.ZSTD_initCStream 5 err] input.slices
      { pStream := p, src := [], outbuf := [], output := emptyBuffer,
        log := [Call.ZSTD_createCStream, Call.ZSTD_initCStream 5 err] }
      ⟨[], by simp [runSteps], rfl⟩
    have hnf := zstd_compress_loop_noFatal zstd fuel input.slices
      { pStream := p, src := [], outbuf := [], output := emptyBuffer,
        log := [Call.ZSTD_createCStream, Call.ZSTD_initCStream 5 err] }
      (by
        intro c hc
        simp only [List.mem_cons, List.mem_singleton, List.not_mem_nil, or_false] at hc
        rcases hc with rfl | rfl <;> rfl)
    have hrd := zstd_compress_loop_read zstd fuel input.slices
      { pStream := p, src := [], outbuf := [], output := emptyBuffer,
        log := [Call.ZSTD_createCStream, Call.ZSTD_initCStream 5 err] }
    have hwr := zstd_compress_loop_wrote [] zstd fuel input.slices
      { pStream := p, src := [], outbuf := [], output := emptyBuffer,
        log := [Call.ZSTD_createCStream, Call.ZSTD_initCStream 5 err] } (by
          simp [WroteInv, emptyBuffer, grpc_slice_buffer.bytes, wroteOf, Call.wrote])
    have hbl := zstd_compress_loop_block zstd fuel input.slices
      { pStream := p, src := [], outbuf := [], output := emptyBuffer,
        log := [Call.ZSTD_createCStream, Call.ZSTD_initCStream 5 err] } (by
          simp [BlockInv, emptyBuffer])
    have hlast := zstd_compress_loop_last zstd fuel input.slices
      { pStream := p, src := [], outbuf := [], output := emptyBuffer,
        log := [Call.ZSTD_createCStream, Call.ZSTD_initCStream 5 err] }
    obtain ⟨calls, hcl, hcalls⟩ := zstd_compress_loop_calls zstd fuel input.slices
      { pStream := p, src := [], outbuf := [], output := emptyBuffer,
        log := [Call.ZSTD_createCStream, Call.ZSTD_initCStream 5 err] }
    have hfull := zstd_compress_loop_full [] zstd fuel input.slices
      { pStream := p, src := [], outbuf := [], output := emptyBuffer,
        log := [Call.ZSTD_createCStream, Call.ZSTD_initCStream 5 err] }
      ⟨Nat.zero_le _, [], by simp [emptyBuffer], by simp⟩
    rcases hl : zstd_compress_loop zstd fuel input.slices
      { pStream := p, src := [], outbuf := [], output := emptyBuffer,
        log := [Call.ZSTD_createCStream, Call.ZSTD_initCStream 5 err] } with ⟨f, s⟩
    rw [hl] at htr hnf hrd hwr hbl hlast hcl hfull
    simp only [hl] at h ⊢
    cases f with
    | error => simp [zstd_compress_error2_exit] at h
    | aborted => simp at h
    | unfinished => simp at h
    | done =>
      simp only at h ⊢
      split_ifs at h ⊢
      · simp [zstd_compress_error2_exit] at h
      · simp [zstd_compress_error2_exit] at h
      · dsimp only at hrd hwr hbl hlast htr hnf hcl ⊢
        have hwr2 : (grpc_slice_buffer_add_indexed s.output s.outbuf).bytes =
            wroteOf s.log := by
          rw [add_indexed_bytes]
          unfold WroteInv at hwr
          rw [hwr, List.nil_append]
        refine ⟨?_, ?_, ?_, ?_⟩
        · rw [hwr2]
          by_cases hne : input.slices = []
          · have hs : s.log = [Call.ZSTD_createCStream, Call.ZSTD_initCStream 5 err] := by
              have := hl
              rw [hne] at this
              simp only [zstd_compress_loop, Prod.mk.injEq] at this
              rw [← this.2]
            have hb : input.bytes = [] := by simp [grpc_slice_buffer.bytes, hne]
            rw [hs, hb]
            simpa [wroteOf, Call.wrote] using hnil
          · obtain ⟨l, c, hlog, ⟨ni, ao, rr, k, pr, hcfl⟩, htook, hroom⟩ := hlast hne rfl
            obtain ⟨reqs, hsteps, -⟩ := htr
            have hst : (runSteps (zstd_compress_step zstd) p reqs).1 = l ++ [c] := by
              rw [hlog, List.append_assoc] at hsteps
              exact (List.append_cancel_left hsteps).symm
            have hnf2 : NoFatal zstd.ZSTD_isError (l ++ [c]) := by
              have := hnf (by simp)
              rw [hlog, List.append_assoc] at this
              exact noFatal_of_append this
            have hdir : ∀ d ∈ l ++ [c], d.zstdDirected := by
              have heq : calls = l ++ [c] := by
                rw [hlog, List.append_assoc] at hcl
                exact (List.append_cancel_left hcl).symm
              rw [← heq]
              exact zstdDirected_of_calls _ _ hcalls
            have hvalid := henc reqs l c hst hdir hnf2 (by rw [hcfl]; rfl) htook hroom
            have hrd2 : readOf (l ++ [c]) = input.bytes := by
              have := hrd rfl
              rw [hlog, List.append_assoc, readOf_append_list] at this
              simpa [readOf, Call.read, grpc_slice_buffer.bytes] using this
            have hwr3 : wroteOf s.log = wroteOf (l ++ [c]) := by
              rw [hlog, List.append_assoc, wroteOf_append_list]
              simp [wroteOf, Call.wrote]
            rw [hwr3, ← hrd2]
            exact hvalid
        · simp [grpc_slice_buffer_add_indexed]
        · exact (blockInv_add _ _ hbl).2
        · exact fullBlocks_nonempty _ _ hfull

end Encoding

/-! ## Decoding a valid stream with a conforming decoder -/

section Decoding

variable {σ τ D : Type}

theorem steady_nil (directed : Call → Prop) : Steady directed [] :=
  ⟨fun c hc => absurd hc (List.not_mem_nil c), List.chain'_nil⟩

theorem steady_paced {directed : Call → Prop} {calls : List Call}
    (h : Steady directed calls) : Paced directed calls :=
  ⟨h.1, by rw [List.dropLast_eq_take]; exact h.2.take _⟩

theorem steady_concat {directed : Call → Prop} {calls : List Call} (c : Call)
    (h : Steady directed calls) (hd : directed c) (hr : c.room ≠ 0)
    (hp : ∀ d ∈ calls.getLast?, d.paces c) : Steady directed (calls ++ [c]) := by
  refine ⟨?_, h.2.append (List.chain'_singleton c) ?_⟩
  · intro d hmem
    rcases List.mem_append.1 hmem with hmem | hmem
    · exact h.1 d hmem
    · rw [List.mem_singleton.1 hmem]; exact ⟨hd, hr⟩
  · intro x hx y hy
    simp only [List.head?_cons, Option.mem_def, Option.some.injEq] at hy
    subst hy
    exact hp x hx

theorem paced_concat {directed : Call → Prop} {calls : List Call} (c : Call)
    (h : Steady directed calls) (hd : directed c) (hr : c.room ≠ 0) :
    Paced directed (calls ++ [c]) := by
  refine ⟨?_, by rw [List.dropLast_concat]; exact h.2⟩
  intro d hmem
  rcases List.mem_append.1 hmem with hmem | hmem
  · exact h.1 d hmem
  · rw [List.mem_singleton.1 hmem]; exact ⟨hd, hr⟩

theorem mem_getLast_concat {l : List Call} {c d : Call} (h : d ∈ (l ++ [c]).getLast?) :
    d = c := by
  rw [List.getLast?_concat] at h
  exact (Option.some.inj h).symm

theorem decoding_nil (step : σ → Req D → Call × σ) (z0 : σ) (stream : List Byte) :
    Decoding step z0 stream [] z0 :=
  ⟨[], rfl, trivial⟩

theorem decoding_concat (step : σ → Req D → Call × σ) (z0 : σ) (stream : List Byte)
    (steps : List Call) (z : σ) (req : Req D) (h : Decoding step z0 stream steps z)
    (hfed : readOf steps ++ (step z req).1.offered <+: stream) :
    Decoding step z0 stream (steps ++ [(step z req).1]) (step z req).2 := by
  obtain ⟨reqs, hrun, hf⟩ := h
  refine ⟨reqs ++ [req], ?_, ?_⟩
  · rw [runSteps_concat, hrun]
  · rw [fedFrom_concat]
    exact ⟨hf, by simpa using hfed⟩

theorem decoding_facts {step : σ → Req D → Call × σ} {z0 : σ} {isError : Nat → Nat}
    {directed : Call → Prop} {valid : List Byte → List Byte → Prop}
    (hdec : DecoderSound step z0 isError directed valid)
    {message stream : List Byte} (hv : valid message stream) {steps : List Call} {z : σ}
    (h : Decoding step z0 stream steps z) (hp : Paced directed steps) :
    NoFatal isError steps ∧ wroteOf steps <+: message ∧
      ∀ (l : List Call) (c : Call), steps = l ++ [c] → c.leftRoom →
        c.tookAll ∧ (readOf steps = stream → wroteOf steps = message) := by
  obtain ⟨reqs, hrun, hf⟩ := h
  have key := hdec message stream hv reqs
  rw [hrun] at key
  obtain ⟨h1, h2, h3⟩ := key hp hf
  refine ⟨h1, h2, ?_⟩
  intro l c hl hroom
  have := h3 l c hl hroom
  rw [← hl] at this
  exact this

/-- Once the whole stream has been read and the last call left room, one more call writes
nothing. -/
theorem decoding_idle {step : σ → Req D → Call × σ} {z0 : σ} {isError : Nat → Nat}
    {directed : Call → Prop} {valid : List Byte → List Byte → Prop}
    (hdec : DecoderSound step z0 isError directed valid)
    {message stream : List Byte} (hv : valid message stream) {steps l : List Call} {d : Call}
    {z : σ} (h : Decoding step z0 stream steps z) (hst : Steady directed steps)
    (hl : steps = l ++ [d]) (hroom : d.leftRoom) (hread : readOf steps = stream)
    (req : Req D) (hfed : readOf steps ++ (step z req).1.offered <+: stream)
    (hd : directed (step z req).1) (hr : (step z req).1.room ≠ 0) :
    (step z req).1.wrote = [] ∧ (step z req).1.fatal isError = false := by
  have hall := ((decoding_facts hdec hv h (steady_paced hst)).2.2 l d hl hroom).2 hread
  have h1 := decoding_concat step z0 stream steps z req h hfed
  obtain ⟨hnf, hpre, -⟩ := decoding_facts hdec hv h1 (paced_concat _ hst hd hr)
  refine ⟨?_, hnf _ (List.mem_append_right _ (List.mem_singleton.2 rfl))⟩
  have hlen := hpre.length_le
  rw [wroteOf_append, hall, List.length_append] at hlen
  exact List.length_eq_zero.1 (by omega)

theorem zlib_grow_avail_out (s : ZBody σ) : (zlib_grow s).avail_out ≠ 0 := by
  unfold zlib_grow
  split_ifs with h
  · simp [ZBody.avail_out, OUTPUT_BLOCK_SIZE]
  · exact h

theorem zlib_call_step (isError : Nat → Nat) (flate : FlateFn σ) (fn : Flate) (flush : Int)
    (s : ZBody σ) :
    (flate_step flate fn s.zs ⟨flush, s.next_in, s.avail_out⟩).1.offered = s.next_in ∧
      (flate_step flate fn s.zs ⟨flush, s.next_in, s.avail_out⟩).1.offered =
        (flate_step flate fn s.zs ⟨flush, s.next_in, s.avail_out⟩).1.read ++
          (zlib_call flate fn flush s).2.next_in ∧
      ((zlib_call flate fn flush s).2.avail_out ≠ 0 →
        (flate_step flate fn s.zs ⟨flush, s.next_in, s.avail_out⟩).1.leftRoom) ∧
      ((flate_step flate fn s.zs ⟨flush, s.next_in, s.avail_out⟩).1.fatal isError = false →
        ¬((zlib_call flate fn flush s).1 < 0 ∧ (zlib_call flate fn flush s).1 ≠ Z_BUF_ERROR)) ∧
      ((zlib_call flate fn flush s).2.avail_out = 0 → s.avail_out ≠ 0 →
        1 ≤ (flate_step flate fn s.zs ⟨flush, s.next_in, s.avail_out⟩).1.wrote.length) := by
  refine ⟨rfl, ?_, ?_, ?_, ?_⟩
  · simp [Call.offered, Call.read, zlib_call, flate_step]
  · intro h
    simp only [zlib_call, ZBody.avail_out, List.length_append, List.length_take] at h
    simp only [Call.leftRoom, Call.wrote, Call.room, ZBody.avail_out, List.length_take,
      flate_step]
    omega
  · intro h
    simpa [Call.fatal, flate_step, zlib_call] using h
  · intro h h0
    simp only [zlib_call, ZBody.avail_out, List.length_append, List.length_take] at h h0
    simp only [Call.wrote, flate_step, ZBody.avail_out, List.length_take]
    omega

/-- The directive and the room of the call `zlib_call` makes, and what the room left after it
tells about the call. -/
theorem zlib_call_pace (flate : FlateFn σ) (fn : Flate) (flush : Int) (s : ZBody σ) :
    (flate_step flate fn s.zs ⟨flush, s.next_in, s.avail_out⟩).1.room = s.avail_out ∧
      (flate_step flate fn s.zs ⟨flush, s.next_in, s.avail_out⟩).1.flushArg = some flush ∧
      ((zlib_call flate fn flush s).2.avail_out = 0 →
        ¬(flate_step flate fn s.zs ⟨flush, s.next_in, s.avail_out⟩).1.leftRoom) ∧
      ((flate_step flate fn s.zs ⟨flush, s.next_in, s.avail_out⟩).1.wrote = [] →
        (zlib_call flate fn flush s).2.avail_out = s.avail_out) := by
  refine ⟨rfl, rfl, ?_, ?_⟩
  · intro h
    simp only [zlib_call, ZBody.avail_out, List.length_append, List.length_take] at h
    simp only [Call.leftRoom, Call.wrote, Call.room, ZBody.avail_out, List.length_take,
      flate_step]
    omega
  · intro h
    simp only [Call.wrote, flate_step, ZBody.avail_out] at h
    simp only [zlib_call, ZBody.avail_out, h, List.append_nil]

theorem zlibDirected_of_flush (c : Call) (flush : Int) (h : c.flushArg = some flush)
    (hfl : flush = Z_NO_FLUSH ∨ flush = Z_FINISH) : c.zlibDirected := by
  unfold Call.zlibDirected
  rw [h]
  rcases hfl with rfl | rfl
  · exact Or.inl rfl
  · exact Or.inr rfl

theorem zlib_drain_decodes (flate : FlateFn σ) (fn : Flate) (flush : Int) (z0 : σ)
    (isError : Nat → Nat) (valid : List Byte → List Byte → Prop)
    (hdec : DecoderSound (flate_step flate fn) z0 isError Call.zlibDirected valid)
    (hfl : flush = Z_NO_FLUSH ∨ flush = Z_FINISH) (message stream : List Byte)
    (hv : valid message stream) (log0 : List Call) :
    ∀ (fuel : Nat) (t : ZBody σ) (steps : List Call),
      ZlibDecoding flate fn z0 stream log0 steps t →
      Steady Call.zlibDirected steps →
      (∀ d ∈ steps.getLast?, t.next_in ≠ [] ∨ ¬d.leftRoom) →
      message.length < fuel + (wroteOf steps).length →
      ∃ steps', (zlib_drain flate fn flush fuel t).1 = Flow.done ∧
        ZlibDecoding flate fn z0 stream log0 steps' (zlib_drain flate fn flush fuel t).2 ∧
        (zlib_drain flate fn flush fuel t).2.next_in = [] ∧
        readOf steps' = readOf steps ++ t.next_in ∧
        Steady Call.zlibDirected steps' ∧
        ∃ l c, steps' = l ++ [c] ∧ c.leftRoom := by
  intro fuel
  induction fuel with
  | zero =>
    intro t steps hinv hst _ hlt
    have := (decoding_facts hdec hv hinv.2.1 (steady_paced hst)).2.1.length_le
    omega
  | succ n ih =>
    intro t steps hinv hst hpace hlt
    have hg : ZlibDecoding flate fn z0 stream log0 steps (zlib_grow t) := by
      refine ⟨?_, ?_, ?_⟩
      · rw [zlib_grow_log]; exact hinv.1
      · rw [zlib_grow_zs]; exact hinv.2.1
      · rw [zlib_grow_next_in]; exact hinv.2.2
    obtain ⟨hoff0, hoff, hroom, hfat, hwrote⟩ :=
      zlib_call_step isError flate fn flush (zlib_grow t)
    obtain ⟨hrm, hfa, hfull, -⟩ := zlib_call_pace flate fn flush (zlib_grow t)
    have hdec1 := decoding_concat (flate_step flate fn) z0 stream steps (zlib_grow t).zs
      ⟨flush, (zlib_grow t).next_in, (zlib_grow t).avail_out⟩ hg.2.1
      (by rw [hoff0]; exact hg.2.2)
    have hst1 : Steady Call.zlibDirected (steps ++ [(flate_step flate fn (zlib_grow t).zs
        ⟨flush, (zlib_grow t).next_in, (zlib_grow t).avail_out⟩).1]) := by
      refine steady_concat _ hst (zlibDirected_of_flush _ flush hfa hfl) ?_ ?_
      · rw [hrm]; exact zlib_grow_avail_out t
      · intro d hd
        unfold Call.paces
        rw [hoff0, zlib_grow_next_in]
        exact hpace d hd
    have hread1 : readOf (steps ++ [(flate_step flate fn (zlib_grow t).zs
        ⟨flush, (zlib_grow t).next_in, (zlib_grow t).avail_out⟩).1]) ++
        (zlib_call flate fn flush (zlib_grow t)).2.next_in = readOf steps ++ t.next_in := by
      rw [readOf_append, List.append_assoc, ← hoff, hoff0, zlib_grow_next_in]
    have hinv1 : ZlibDecoding flate fn z0 stream log0
        (steps ++ [(flate_step flate fn (zlib_grow t).zs
          ⟨flush, (zlib_grow t).next_in, (zlib_grow t).avail_out⟩).1])
        (zlib_call flate fn flush (zlib_grow t)).2 := by
      refine ⟨?_, ?_, ?_⟩
      · rw [(zlib_call_trace flate fn flush (zlib_grow t)).1, hg.1, List.append_assoc]
      · rw [(zlib_call_trace flate fn flush (zlib_grow t)).2]; exact hdec1
      · rw [hread1]; exact hinv.2.2
    obtain ⟨hnf, -, hlast⟩ := decoding_facts hdec hv hdec1 (steady_paced hst1)
    have hr := hfat (hnf _ (List.mem_append_right _ (List.mem_singleton.2 rfl)))
    simp only [zlib_drain]
    simp only [hr, if_false]
    by_cases ha : (zlib_call flate fn flush (zlib_grow t)).2.avail_out = 0
    · simp only [ha, if_true]
      have hw := hwrote ha (zlib_grow_avail_out t)
      obtain ⟨steps', h1, h2, h3, h4, h5, h6⟩ := ih _ _ hinv1 hst1
        (fun d hd => Or.inr (by rw [mem_getLast_concat hd]; exact hfull ha)) (by
          rw [wroteOf_append, List.length_append]; omega)
      exact ⟨steps', h1, h2, h3, by rw [h4, hread1], h5, h6⟩
    · simp only [ha, if_false]
      have htook := (hlast _ _ rfl (hroom ha)).1
      have hnil : (zlib_call flate fn flush (zlib_grow t)).2.next_in = [] := by
        unfold Call.tookAll at htook
        rw [htook] at hoff
        exact List.self_eq_append_right.1 hoff
      refine ⟨_, trivial, hinv1, hnil, ?_, hst1, ⟨steps, _, rfl, hroom ha⟩⟩
      rw [← hread1, hnil, List.append_nil]

/-- The call `zlib_body` makes for an empty final chunk, after the whole stream has been read:
it writes nothing, and the drain loop ends with it. -/
theorem zlib_drain_idle (flate : FlateFn σ) (fn : Flate) (flush : Int) (z0 : σ)
    (isError : Nat → Nat) (valid : List Byte → List Byte → Prop)
    (hdec : DecoderSound (flate_step flate fn) z0 isError Call.zlibDirected valid)
    (hfl : flush = Z_NO_FLUSH ∨ flush = Z_FINISH) (message stream : List Byte)
    (hv : valid message stream) (log0 : List Call) (fuel : Nat) (t : ZBody σ)
    (steps l : List Call) (d : Call)
    (hinv : ZlibDecoding flate fn z0 stream log0 steps t)
    (hst : Steady Call.zlibDirected steps) (hl : steps = l ++ [d]) (hdroom : d.leftRoom)
    (hread : readOf steps = stream) (hnil : t.next_in = []) :
    ∃ steps', (zlib_drain flate fn flush (fuel + 1) t).1 = Flow.done ∧
      ZlibDecoding flate fn z0 stream log0 steps' (zlib_drain flate fn flush (fuel + 1) t).2 ∧
      (zlib_drain flate fn flush (fuel + 1) t).2.next_in = [] ∧
      readOf steps' = stream ∧ Paced Call.zlibDirected steps' ∧
      ∃ l' c, steps' = l' ++ [c] ∧ c.leftRoom := by
  have hg : ZlibDecoding flate fn z0 stream log0 steps (zlib_grow t) := by
    refine ⟨?_, ?_, ?_⟩
    · rw [zlib_grow_log]; exact hinv.1
    · rw [zlib_grow_zs]; exact hinv.2.1
    · rw [zlib_grow_next_in]; exact hinv.2.2
  obtain ⟨hoff0, hoff, hroom, hfat, -⟩ := zlib_call_step isError flate fn flush (zlib_grow t)
  obtain ⟨hrm, hfa, -, hsame⟩ := zlib_call_pace flate fn flush (zlib_grow t)
  have hfed : readOf steps ++ (flate_step flate fn (zlib_grow t).zs
      ⟨flush, (zlib_grow t).next_in, (zlib_grow t).avail_out⟩).1.offered <+: stream := by
    rw [hoff0]; exact hg.2.2
  have hdir := zlibDirected_of_flush _ flush hfa hfl
  have hrm0 : (flate_step flate fn (zlib_grow t).zs
      ⟨flush, (zlib_grow t).next_in, (zlib_grow t).avail_out⟩).1.room ≠ 0 := by
    rw [hrm]; exact zlib_grow_avail_out t
  obtain ⟨hw, hnf⟩ := decoding_idle hdec hv hg.2.1 hst hl hdroom hread
    ⟨flush, (zlib_grow t).next_in, (zlib_grow t).avail_out⟩ hfed hdir hrm0
  have hdec1 := decoding_concat (flate_step flate fn) z0 stream steps (zlib_grow t).zs
    ⟨flush, (zlib_grow t).next_in, (zlib_grow t).avail_out⟩ hg.2.1 hfed
  have hr := hfat hnf
  have ha : ¬(zlib_call flate fn flush (zlib_grow t)).2.avail_out = 0 := by
    rw [hsame hw]; exact zlib_grow_avail_out t
  have hempty : (flate_step flate fn (zlib_grow t).zs
        ⟨flush, (zlib_grow t).next_in, (zlib_grow t).avail_out⟩).1.read = [] ∧
      (zlib_call flate fn flush (zlib_grow t)).2.next_in = [] := by
    have h0 : (zlib_grow t).next_in = [] := by rw [zlib_grow_next_in, hnil]
    exact List.append_eq_nil.1 (h0.symm.trans (hoff0.symm.trans hoff)).symm
  simp only [zlib_drain]
  simp only [hr, if_false, ha]
  refine ⟨_, trivial, ⟨?_, ?_, ?_⟩, hempty.2, ?_, paced_concat _ hst hdir hrm0,
    ⟨steps, _, rfl, hroom ha⟩⟩
  · rw [(zlib_call_trace flate fn flush (zlib_grow t)).1, hg.1, List.append_assoc]
  · rw [(zlib_call_trace flate fn flush (zlib_grow t)).2]; exact hdec1
  · rw [readOf_append, hempty.1, hempty.2, List.append_nil, List.append_nil, hread]
  · rw [readOf_append, hempty.1, List.append_nil, hread]

theorem dropLast_tail_nonempty (slice : grpc_slice) (rest : List grpc_slice)
    (h : ∀ sl ∈ (slice :: rest).dropLast, sl ≠ []) : ∀ sl ∈ rest.dropLast, sl ≠ [] := by
  intro sl hsl
  have hne : rest ≠ [] := by
    rintro rfl
    simp at hsl
  refine h sl ?_
  rw [List.dropLast_cons_of_ne_nil hne]
  exact List.mem_cons_of_mem _ hsl

theorem zlib_loop_decodes (flate : FlateFn σ) (fn : Flate) (z0 : σ)
    (isError : Nat → Nat) (valid : List Byte → List Byte → Prop)
    (hdec : DecoderSound (flate_step flate fn) z0 isError Call.zlibDirected valid)
    (message stream : List Byte) (hv : valid message stream) (log0 : List Call) (fuel : Nat)
    (hfuel : message.length < fuel) :
    ∀ (slices : List grpc_slice) (flush : Int) (t : ZBody σ) (steps : List Call),
      ZlibDecoding flate fn z0 stream log0 steps t →
      Steady Call.zlibDirected steps →
      (flush = Z_NO_FLUSH ∨ flush = Z_FINISH) →
      (steps ≠ [] → ∃ l d, steps = l ++ [d] ∧ d.leftRoom) →
      readOf steps ++ slices.flatten = stream → (∀ sl ∈ slices, sl.length ≤ uint_max) →
      (∀ sl ∈ slices.dropLast, sl ≠ []) →
      ∃ steps', (zlib_loop flate fn fuel slices flush t).1 = Flow.done ∧
        ZlibDecoding flate fn z0 stream log0 steps' (zlib_loop flate fn fuel slices flush t).2 ∧
        readOf steps' = stream ∧ Paced Call.zlibDirected steps' ∧
        (slices ≠ [] → ∃ l c, steps' = l ++ [c] ∧ c.leftRoom) ∧
        (slices = [] → steps' = steps) := by
  intro slices
  induction slices with
  | nil =>
    intro flush t steps hinv hst _ _ hrd _ _
    refine ⟨steps, by simp [zlib_loop], by simpa [zlib_loop] using hinv, ?_, steady_paced hst,
      fun h => absurd rfl h, fun _ => rfl⟩
    simpa using hrd
  | cons slice rest ih =>
    intro flush t steps hinv hst hflush hprev hrd hlen hmid
    simp only [zlib_loop]
    have hfl : (if rest = [] then Z_FINISH else flush) = Z_NO_FLUSH ∨
        (if rest = [] then Z_FINISH else flush) = Z_FINISH := by
      split_ifs
      · exact Or.inr rfl
      · exact hflush
    generalize (if rest = [] then Z_FINISH else flush) = fl at hfl ⊢
    have hsl : ¬uint_max < slice.length := Nat.not_lt.2 (hlen slice (List.mem_cons_self _ _))
    simp only [hsl, if_false]
    have hinv0 : ZlibDecoding flate fn z0 stream log0 steps { t with next_in := slice } := by
      refine ⟨hinv.1, hinv.2.1, ?_⟩
      rw [← hrd, List.flatten_cons, ← List.append_assoc]
      exact List.prefix_append _ _
    by_cases hidle : slice = [] ∧ steps ≠ []
    · obtain ⟨hs, hne⟩ := hidle
      have hrest : rest = [] := by
        by_contra hr
        exact hmid slice (by rw [List.dropLast_cons_of_ne_nil hr]; exact List.mem_cons_self _ _)
          hs
      subst hrest
      subst hs
      obtain ⟨l, d, hl, hdroom⟩ := hprev hne
      obtain ⟨n, hn⟩ : ∃ n, fuel = n + 1 := ⟨fuel - 1, by omega⟩
      rw [hn]
      obtain ⟨steps1, h1, h2, h3, h4, h5, h6⟩ := zlib_drain_idle flate fn fl z0 isError valid
        hdec hfl message stream hv log0 n { t with next_in := [] } steps l d hinv0 hst hl hdroom
        (by simpa using hrd) rfl
      rcases hdr : zlib_drain flate fn fl (n + 1) { t with next_in := [] } with ⟨f, s1⟩
      rw [hdr] at h1 h2 h3
      dsimp only at h1 h2 h3
      subst h1
      have hin : ¬(s1.next_in.length ≠ 0) := by simp [h3]
      simp only [hin, if_false, zlib_loop]
      exact ⟨steps1, trivial, h2, h4, h5, fun _ => h6, fun h => absurd h (List.cons_ne_nil _ _)⟩
    · have hpace : ∀ d ∈ steps.getLast?, slice ≠ [] ∨ ¬d.leftRoom := by
        intro d hd
        by_cases hs : slice = []
        · have hnil : steps = [] := by
            by_contra h
            exact hidle ⟨hs, h⟩
          rw [hnil] at hd
          simp at hd
        · exact Or.inl hs
      obtain ⟨steps1, h1, h2, h3, h4, h5, h6⟩ := zlib_drain_decodes flate fn fl z0 isError valid
        hdec hfl message stream hv log0 fuel { t with next_in := slice } steps hinv0 hst hpace
        (by omega)
      rcases hdr : zlib_drain flate fn fl fuel { t with next_in := slice } with ⟨f, s1⟩
      rw [hdr] at h1 h2 h3
      dsimp only at h1 h2 h3 h4
      subst h1
      have hin : ¬(s1.next_in.length ≠ 0) := by simp [h3]
      simp only [hin, if_false]
      obtain ⟨steps2, k1, k2, k3, k4, k5, k6⟩ := ih fl s1 steps1 h2 h5 hfl (fun _ => h6) (by
        rw [h4, List.append_assoc, ← List.flatten_cons]; exact hrd)
        (fun sl hsl => hlen sl (List.mem_cons_of_mem _ hsl))
        (dropLast_tail_nonempty slice rest hmid)
      refine ⟨steps2, k1, k2, k3, k4, fun _ => ?_, fun h => absurd h (List.cons_ne_nil _ _)⟩
      by_cases hrest : rest = []
      · rw [k6 hrest]; exact h6
      · exact k5 hrest

theorem zlib_decompress_decodes (zlib : Zlib σ) (gzip : Int)
    (valid : List Byte → List Byte → Prop)
    (hinit : (zlib.inflateInit2 (windowBits gzip)).1 = Z_OK)
    (hdec : DecoderSound (flate_step zlib.inflate Flate.inflate)
      (zlib.inflateInit2 (windowBits gzip)).2 (fun _ => 0) Call.zlibDirected valid)
    (message : List Byte) (input output : grpc_slice_buffer)
    (hv : valid message input.bytes) (hne : input.slices ≠ [])
    (hlen : ∀ sl ∈ input.slices, sl.length ≤ uint_max)
    (hmid : ∀ sl ∈ input.slices.dropLast, sl ≠ []) (fuel : Nat)
    (hfuel : message.length < fuel) :
    (zlib_decompress zlib fuel input output gzip).exit = Exit.returned 1 ∧
      (zlib_decompress zlib fuel input output gzip).output.bytes = output.bytes ++ message := by
  unfold zlib_decompress
  rcases hi : zlib.inflateInit2 (windowBits gzip) with ⟨r, zs⟩
  rw [hi] at hinit hdec
  dsimp only at hinit hdec ⊢
  subst hinit
  simp only [ne_eq, not_true_eq_false, if_false]
  obtain ⟨steps, h1, h2, h3, hp, h4, -⟩ := zlib_loop_decodes zlib.inflate Flate.inflate zs
    (fun _ => 0) valid hdec message input.bytes hv [Call.inflateInit2 (windowBits gzip) Z_OK]
    fuel hfuel input.slices Z_NO_FLUSH
    { zs := zs, next_in := [], outbuf := [], output := output,
      log := [Call.inflateInit2 (windowBits gzip) Z_OK] } []
    ⟨by simp, decoding_nil _ _ _, by simp [readOf]⟩ (steady_nil _) (Or.inl rfl)
    (fun h => absurd rfl h) (by simp [readOf, grpc_slice_buffer.bytes]) hlen hmid
  have hwr := zlib_loop_wrote output.bytes zlib.inflate Flate.inflate fuel input.slices
    Z_NO_FLUSH
    { zs := zs, next_in := [], outbuf := [], output := output,
      log := [Call.inflateInit2 (windowBits gzip) Z_OK] } (by
        simp [WroteInv, wroteOf, Call.wrote])
  unfold zlib_body
  rcases hl : zlib_loop zlib.inflate Flate.inflate fuel input.slices Z_NO_FLUSH
    { zs := zs, next_in := [], outbuf := [], output := output,
      log := [Call.inflateInit2 (windowBits gzip) Z_OK] } with ⟨f, s1⟩
  rw [hl] at h1 h2 hwr
  dsimp only at h1 h2 hwr
  subst h1
  obtain ⟨l, c, hsteps, hroom⟩ := h4 hne
  have hall := ((decoding_facts hdec hv h2.2.1 hp).2.2 l c hsteps hroom).2 h3
  refine ⟨by simp, ?_⟩
  simp only [ne_eq, one_ne_zero, not_false_eq_true, if_true, add_indexed_bytes]
  unfold WroteInv at hwr
  rw [hwr, h2.1, wroteOf_append_list, hall]
  simp [wroteOf, Call.wrote]

theorem zstd_grow_outbuf (s : ZstdVars τ) (h : s.outbuf.length ≤ OUTPUT_BLOCK_SIZE) :
    (zstd_grow s).outbuf.length < OUTPUT_BLOCK_SIZE := by
  unfold zstd_grow
  split_ifs with h1
  · simp [OUTPUT_BLOCK_SIZE]
  · exact lt_of_le_of_ne h h1

theorem zstd_decompress_call_step (zstd : Zstd τ) (s : ZstdVars τ) :
    (zstd_decompress_step zstd s.pStream ⟨(), s.src, s.room⟩).1.offered = s.src ∧
      (zstd_decompress_step zstd s.pStream ⟨(), s.src, s.room⟩).1.offered =
        (zstd_decompress_step zstd s.pStream ⟨(), s.src, s.room⟩).1.read ++
          (zstd_decompress_call zstd s).2.src ∧
      ((zstd_decompress_call zstd s).2.outbuf.length < OUTPUT_BLOCK_SIZE →
        (zstd_decompress_step zstd s.pStream ⟨(), s.src, s.room⟩).1.leftRoom) ∧
      ((zstd_decompress_step zstd s.pStream ⟨(), s.src, s.room⟩).1.fatal zstd.ZSTD_isError =
          false → ¬(zstd.ZSTD_isError (zstd_decompress_call zstd s).1 > 0)) ∧
      (¬(zstd_decompress_call zstd s).2.outbuf.length < OUTPUT_BLOCK_SIZE →
        s.outbuf.length < OUTPUT_BLOCK_SIZE →
        1 ≤ (zstd_decompress_step zstd s.pStream ⟨(), s.src, s.room⟩).1.wrote.length) ∧
      (s.outbuf.length ≤ OUTPUT_BLOCK_SIZE →
        (zstd_decompress_call zstd s).2.outbuf.length ≤ OUTPUT_BLOCK_SIZE) := by
  refine ⟨rfl, ?_, ?_, ?_, ?_, ?_⟩
  · simp [Call.offered, Call.read, zstd_decompress_call, zstd_decompress_step]
  · intro h
    simp only [zstd_decompress_call, ZstdVars.room, List.length_append, List.length_take] at h
    simp only [Call.leftRoom, Call.wrote, Call.room, ZstdVars.room, List.length_take,
      zstd_decompress_step]
    omega
  · intro h
    simpa [Call.fatal, zstd_decompress_step, zstd_decompress_call] using h
  · intro h h0
    simp only [zstd_decompress_call, ZstdVars.room, List.length_append, List.length_take] at h
    simp only [Call.wrote, zstd_decompress_step, ZstdVars.room, List.length_take]
    omega
  · intro h
    simp only [zstd_decompress_call, ZstdVars.room, List.length_append, List.length_take]
    omega

/-- The room of the call `zstd_decompress_call` makes, and what the block after it tells about
the call. -/
theorem zstd_decompress_call_pace (zstd : Zstd τ) (s : ZstdVars τ) :
    (s.outbuf.length < OUTPUT_BLOCK_SIZE →
        (zstd_decompress_step zstd s.pStream ⟨(), s.src, s.room⟩).1.room ≠ 0) ∧
      (s.outbuf.length ≤ OUTPUT_BLOCK_SIZE →
        ¬(zstd_decompress_call zstd s).2.outbuf.length < OUTPUT_BLOCK_SIZE →
        ¬(zstd_decompress_step zstd s.pStream ⟨(), s.src, s.room⟩).1.leftRoom) ∧
      ((zstd_decompress_step zstd s.pStream ⟨(), s.src, s.room⟩).1.wrote = [] →
        (zstd_decompress_call zstd s).2.outbuf = s.outbuf) := by
  refine ⟨?_, ?_, ?_⟩
  · intro h
    simp only [Call.room, zstd_decompress_step, ZstdVars.room]
    omega
  · intro h0 h
    simp only [zstd_decompress_call, ZstdVars.room, List.length_append, List.length_take] at h
    simp only [Call.leftRoom, Call.wrote, Call.room, ZstdVars.room, List.length_take,
      zstd_decompress_step]
    omega
  · intro h
    simp only [Call.wrote, zstd_decompress_step, ZstdVars.room] at h
    simp only [zstd_decompress_call, ZstdVars.room, h, List.append_nil]

theorem zstd_drain_decodes (zstd : Zstd τ) (z0 : τ) (valid : List Byte → List Byte → Prop)
    (hdec : DecoderSound (zstd_decompress_step zstd) z0 zstd.ZSTD_isError (fun _ => True) valid)
    (message stream : List Byte) (hv : valid message stream) (log0 : List Call) :
    ∀ (fuel : Nat) (t : ZstdVars τ) (steps : List Call),
      ZstdDecoding zstd z0 stream log0 steps t →
      Steady (fun _ => True) steps →
      (∀ d ∈ steps.getLast?, t.src ≠ [] ∨ ¬d.leftRoom) →
      message.length < fuel + (wroteOf steps).length →
      ∃ steps', (zstd_drain zstd fuel t).1 = Flow.done ∧
        ZstdDecoding zstd z0 stream log0 steps' (zstd_drain zstd fuel t).2 ∧
        (zstd_drain zstd fuel t).2.src = [] ∧
        readOf steps' = readOf steps ++ t.src ∧
        Steady (fun _ => True) steps' ∧
        ∃ l c, steps' = l ++ [c] ∧ c.leftRoom := by
  intro fuel
  induction fuel with
  | zero =>
    intro t steps hinv hst _ hlt
    have := (decoding_facts hdec hv hinv.2.1 (steady_paced hst)).2.1.length_le
    omega
  | succ n ih =>
    intro t steps hinv hst hpace hlt
    have hgo := zstd_grow_outbuf t hinv.2.2.2
    have hg : ZstdDecoding zstd z0 stream log0 steps (zstd_grow t) := by
      refine ⟨?_, ?_, ?_, le_of_lt hgo⟩
      · rw [zstd_grow_log]; exact hinv.1
      · rw [zstd_grow_pStream]; exact hinv.2.1
      · rw [zstd_grow_src]; exact hinv.2.2.1
    obtain ⟨hoff0, hoff, hroom, hfat, hwrote, hbound⟩ :=
      zstd_decompress_call_step zstd (zstd_grow t)
    obtain ⟨hrm, hfull, -⟩ := zstd_decompress_call_pace zstd (zstd_grow t)
    have hdec1 := decoding_concat (zstd_decompress_step zstd) z0 stream steps
      (zstd_grow t).pStream ⟨(), (zstd_grow t).src, (zstd_grow t).room⟩ hg.2.1
      (by rw [hoff0]; exact hg.2.2.1)
    have hst1 : Steady (fun _ => True) (steps ++ [(zstd_decompress_step zstd
        (zstd_grow t).pStream ⟨(), (zstd_grow t).src, (zstd_grow t).room⟩).1]) := by
      refine steady_concat _ hst trivial (hrm hgo) ?_
      intro d hd
      unfold Call.paces
      rw [hoff0, zstd_grow_src]
      exact hpace d hd
    have hread1 : readOf (steps ++ [(zstd_decompress_step zstd (zstd_grow t).pStream
        ⟨(), (zstd_grow t).src, (zstd_grow t).room⟩).1]) ++
        (zstd_decompress_call zstd (zstd_grow t)).2.src = readOf steps ++ t.src := by
      rw [readOf_append, List.append_assoc, ← hoff, hoff0, zstd_grow_src]
    have hinv1 : ZstdDecoding zstd z0 stream log0
        (steps ++ [(zstd_decompress_step zstd (zstd_grow t).pStream
          ⟨(), (zstd_grow t).src, (zstd_grow t).room⟩).1])
        (zstd_decompress_call zstd (zstd_grow t)).2 := by
      refine ⟨?_, ?_, ?_, hbound hg.2.2.2⟩
      · rw [(zstd_decompress_call_trace zstd (zstd_grow t)).1, hg.1, List.append_assoc]
      · rw [(zstd_decompress_call_trace zstd (zstd_grow t)).2]; exact hdec1
      · rw [hread1]; exact hinv.2.2.1
    obtain ⟨hnf, -, hlast⟩ := decoding_facts hdec hv hdec1 (steady_paced hst1)
    have hr := hfat (hnf _ (List.mem_append_right _ (List.mem_singleton.2 rfl)))
    simp only [zstd_drain]
    simp only [hr, if_false]
    by_cases ha : (zstd_decompress_call zstd (zstd_grow t)).2.outbuf.length < OUTPUT_BLOCK_SIZE
    · simp only [ha, if_true]
      have htook := (hlast _ _ rfl (hroom ha)).1
      have hnil : (zstd_decompress_call zstd (zstd_grow t)).2.src = [] := by
        unfold Call.tookAll at htook
        rw [htook] at hoff
        exact List.self_eq_append_right.1 hoff
      refine ⟨_, trivial, hinv1, hnil, ?_, hst1, ⟨steps, _, rfl, hroom ha⟩⟩
      rw [← hread1, hnil, List.append_nil]
    · simp only [ha, if_false]
      have hw := hwrote ha hgo
      obtain ⟨steps', h1, h2, h3, h4, h5, h6⟩ := ih _ _ hinv1 hst1
        (fun d hd => Or.inr (by rw [mem_getLast_concat hd]; exact hfull hg.2.2.2 ha)) (by
          rw [wroteOf_append, List.length_append]; omega)
      exact ⟨steps', h1, h2, h3, by rw [h4, hread1], h5, h6⟩

/-- The call `zstd_decompress` makes for an empty final chunk, after the whole stream has been
read: it writes nothing, and the loop ends with it. -/
theorem zstd_drain_idle (zstd : Zstd τ) (z0 : τ) (valid : List Byte → List Byte → Prop)
    (hdec : DecoderSound (zstd_decompress_step zstd) z0 zstd.ZSTD_isError (fun _ => True) valid)
    (message stream : List Byte) (hv : valid message stream) (log0 : List Call) (fuel : Nat)
    (t : ZstdVars τ) (steps l : List Call) (d : Call)
    (hinv : ZstdDecoding zstd z0 stream log0 steps t)
    (hst : Steady (fun _ => True) steps) (hl : steps = l ++ [d]) (hdroom : d.leftRoom)
    (hread : readOf steps = stream) (hnil : t.src = []) :
    ∃ steps', (zstd_drain zstd (fuel + 1) t).1 = Flow.done ∧
      ZstdDecoding zstd z0 stream log0 steps' (zstd_drain zstd (fuel + 1) t).2 ∧
      (zstd_drain zstd (fuel + 1) t).2.src = [] ∧
      readOf steps' = stream ∧ Paced (fun _ => True) steps' ∧
      ∃ l' c, steps' = l' ++ [c] ∧ c.leftRoom := by
  have hgo := zstd_grow_outbuf t hinv.2.2.2
  have hg : ZstdDecoding zstd z0 stream log0 steps (zstd_grow t) := by
    refine ⟨?_, ?_, ?_, le_of_lt hgo⟩
    · rw [zstd_grow_log]; exact hinv.1
    · rw [zstd_grow_pStream]; exact hinv.2.1
    · rw [zstd_grow_src]; exact hinv.2.2.1
  obtain ⟨hoff0, hoff, hroom, hfat, -, hbound⟩ := zstd_decompress_call_step zstd (zstd_grow t)
  obtain ⟨hrm, -, hsame⟩ := zstd_decompress_call_pace zstd (zstd_grow t)
  have hfed : readOf steps ++ (zstd_decompress_step zstd (zstd_grow t).pStream
      ⟨(), (zstd_grow t).src, (zstd_grow t).room⟩).1.offered <+: stream := by
    rw [hoff0]; exact hg.2.2.1
  obtain ⟨hw, hnf⟩ := decoding_idle hdec hv hg.2.1 hst hl hdroom hread
    ⟨(), (zstd_grow t).src, (zstd_grow t).room⟩ hfed trivial (hrm hgo)
  have hdec1 := decoding_concat (zstd_decompress_step zstd) z0 stream steps
    (zstd_grow t).pStream ⟨(), (zstd_grow t).src, (zstd_grow t).room⟩ hg.2.1 hfed
  have hr := hfat hnf
  have ha : (zstd_decompress_call zstd (zstd_grow t)).2.outbuf.length < OUTPUT_BLOCK_SIZE := by
    rw [hsame hw]; exact hgo
  have hempty : (zstd_decompress_step zstd (zstd_grow t).pStream
        ⟨(), (zstd_grow t).src, (zstd_grow t).room⟩).1.read = [] ∧
      (zstd_decompress_call zstd (zstd_grow t)).2.src = [] := by
    have h0 : (zstd_grow t).src = [] := by rw [zstd_grow_src, hnil]
    exact List.append_eq_nil.1 (h0.symm.trans (hoff0.symm.trans hoff)).symm
  simp only [zstd_drain]
  simp only [hr, if_false, ha, if_true]
  refine ⟨_, trivial, ⟨?_, ?_, ?_, hbound hg.2.2.2⟩, hempty.2, ?_,
    paced_concat _ hst trivial (hrm hgo), ⟨steps, _, rfl, hroom ha⟩⟩
  · rw [(zstd_decompress_call_trace zstd (zstd_grow t)).1, hg.1, List.append_assoc]
  · rw [(zstd_decompress_call_trace zstd (zstd_grow t)).2]; exact hdec1
  · rw [readOf_append, hempty.1, hempty.2, List.append_nil, List.append_nil, hread]
  · rw [readOf_append, hempty.1, List.append_nil, hread]

theorem zstd_decompress_loop_decodes (zstd : Zstd τ) (z0 : τ)
    (valid : List Byte → List Byte → Prop)
    (hdec : DecoderSound (zstd_decompress_step zstd) z0 zstd.ZSTD_isError (fun _ => True) valid)
    (message stream : List Byte) (hv : valid message stream) (log0 : List Call) (fuel : Nat)
    (hfuel : message.length < fuel) :
    ∀ (slices : List grpc_slice) (t : ZstdVars τ) (steps : List Call),
      ZstdDecoding zstd z0 stream log0 steps t →
      Steady (fun _ => True) steps →
      (steps ≠ [] → ∃ l d, steps = l ++ [d] ∧ d.leftRoom) →
      readOf steps ++ slices.flatten = stream → (∀ sl ∈ slices, sl.length ≤ uint_max) →
      (∀ sl ∈ slices.dropLast, sl ≠ []) →
      ∃ steps', (zstd_decompress_loop zstd fuel slices t).1 = Flow.done ∧
        ZstdDecoding zstd z0 stream log0 steps' (zstd_decompress_loop zstd fuel slices t).2 ∧
        readOf steps' = stream ∧ Paced (fun _ => True) steps' ∧
        (slices ≠ [] → ∃ l c, steps' = l ++ [c] ∧ c.leftRoom) ∧
        (slices = [] → steps' = steps) := by
  intro slices
  induction slices with
  | nil =>
    intro t steps hinv hst _ hrd _ _
    refine ⟨steps, by simp [zstd_decompress_loop], by simpa [zstd_decompress_loop] using hinv,
      ?_, steady_paced hst, fun h => absurd rfl h, fun _ => rfl⟩
    simpa using hrd
  | cons slice rest ih =>
    intro t steps hinv hst hprev hrd hlen hmid
    simp only [zstd_decompress_loop]
    have hsl : ¬uint_max < slice.length := Nat.not_lt.2 (hlen slice (List.mem_cons_self _ _))
    simp only [hsl, if_false]
    have hinv0 : ZstdDecoding zstd z0 stream log0 steps { t with src := slice } := by
      refine ⟨hinv.1, hinv.2.1, ?_, hinv.2.2.2⟩
      rw [← hrd, List.flatten_cons, ← List.append_assoc]
      exact List.prefix_append _ _
    by_cases hidle : slice = [] ∧ steps ≠ []
    · obtain ⟨hs, hne⟩ := hidle
      have hrest : rest = [] := by
        by_contra hr
        exact hmid slice (by rw [List.dropLast_cons_of_ne_nil hr]; exact List.mem_cons_self _ _)
          hs
      subst hrest
      subst hs
      obtain ⟨l, d, hl, hdroom⟩ := hprev hne
      obtain ⟨n, hn⟩ : ∃ n, fuel = n + 1 := ⟨fuel - 1, by omega⟩
      rw [hn]
      obtain ⟨steps1, h1, h2, h3, h4, h5, h6⟩ := zstd_drain_idle zstd z0 valid hdec message
        stream hv log0 n { t with src := [] } steps l d hinv0 hst hl hdroom
        (by simpa using hrd) rfl
      rcases hdr : zstd_drain zstd (n + 1) { t with src := [] } with ⟨f, s1⟩
      rw [hdr] at h1 h2 h3
      dsimp only at h1 h2 h3
      subst h1
      have hin : ¬(s1.src.length ≠ 0) := by simp [h3]
      simp only [hin, if_false, zstd_decompress_loop]
      exact ⟨steps1, trivial, h2, h4, h5, fun _ => h6, fun h => absurd h (List.cons_ne_nil _ _)⟩
    · have hpace : ∀ d ∈ steps.getLast?, slice ≠ [] ∨ ¬d.leftRoom := by
        intro d hd
        by_cases hs : slice = []
        · have hnil : steps = [] := by
            by_contra h
            exact hidle ⟨hs, h⟩
          rw [hnil] at hd
          simp at hd
        · exact Or.inl hs
      obtain ⟨steps1, h1, h2, h3, h4, h5, h6⟩ := zstd_drain_decodes zstd z0 valid hdec
        message stream hv log0 fuel { t with src := slice } steps hinv0 hst hpace (by omega)
      rcases hdr : zstd_drain zstd fuel { t with src := slice } with ⟨f, s1⟩
      rw [hdr] at h1 h2 h3
      dsimp only at h1 h2 h3 h4
      subst h1
      have hin : ¬(s1.src.length ≠ 0) := by simp [h3]
      simp only [hin, if_false]
      obtain ⟨steps2, k1, k2, k3, k4, k5, k6⟩ := ih s1 steps1 h2 h5 (fun _ => h6) (by
        rw [h4, List.append_assoc, ← List.flatten_cons]; exact hrd)
        (fun sl hsl => hlen sl (List.mem_cons_of_mem _ hsl))
        (dropLast_tail_nonempty slice rest hmid)
      refine ⟨steps2, k1, k2, k3, k4, fun _ => ?_, fun h => absurd h (List.cons_ne_nil _ _)⟩
      by_cases hrest : rest = []
      · rw [k6 hrest]; exact h6
      · exact k5 hrest

theorem zstd_decompress_decodes (zstd : Zstd τ) (valid : List Byte → List Byte → Prop)
    (hinit : zstd.ZSTD_isError (zstd.ZSTD_initDStream zstd.ZSTD_createDStream).1 = 0)
    (hfree : ∀ z, zstd.ZSTD_isError (zstd.ZSTD_freeDStream z).1 = 0)
    (hdec : DecoderSound (zstd_decompress_step zstd)
      (zstd.ZSTD_initDStream zstd.ZSTD_createDStream).2 zstd.ZSTD_isError (fun _ => True) valid)
    (message : List Byte) (input output : grpc_slice_buffer)
    (hv : valid message input.bytes) (hne : input.slices ≠ [])
    (hlen : ∀ sl ∈ input.slices, sl.length ≤ uint_max)
    (hmid : ∀ sl ∈ input.slices.dropLast, sl ≠ []) (fuel : Nat)
    (hfuel : message.length < fuel) :
    (zstd_decompress zstd fuel input output).exit = Exit.returned 1 ∧
      (zstd_decompress zstd fuel input output).output.bytes = output.bytes ++ message := by
  unfold zstd_decompress
  rcases hi : zstd.ZSTD_initDStream zstd.ZSTD_createDStream with ⟨err, p⟩
  rw [hi] at hinit hdec
  dsimp only at hinit hdec ⊢
  have he : ¬(zstd.ZSTD_isError err > 0) := by omega
  simp only [he, if_false]
  obtain ⟨steps, h1, h2, h3, hp, h4, -⟩ := zstd_decompress_loop_decodes zstd p valid hdec
    message input.bytes hv [Call.ZSTD_createDStream, Call.ZSTD_initDStream err] fuel hfuel
    input.slices
    { pStream := p, src := [], outbuf := [], output := output,
      log := [Call.ZSTD_createDStream, Call.ZSTD_initDStream err] } []
    ⟨by simp, decoding_nil _ _ _, by simp [readOf], by simp⟩ (steady_nil _)
    (fun h => absurd rfl h) (by simp [readOf, grpc_slice_buffer.bytes]) hlen hmid
  have hwr := zstd_decompress_loop_wrote output.bytes zstd fuel input.slices
    { pStream := p, src := [], outbuf := [], output := output,
      log := [Call.ZSTD_createDStream, Call.ZSTD_initDStream err] } (by
        simp [WroteInv, wroteOf, Call.wrote])
  rcases hl : zstd_decompress_loop zstd fuel input.slices
    { pStream := p, src := [], outbuf := [], output := output,
      log := [Call.ZSTD_createDStream, Call.ZSTD_initDStream err] } with ⟨f, s1⟩
  rw [hl] at h1 h2 hwr
  dsimp only at h1 h2 hwr
  subst h1
  obtain ⟨l, c, hsteps, hroom⟩ := h4 hne
  have hall := ((decoding_facts hdec hv h2.2.1 hp).2.2 l c hsteps hroom).2 h3
  have hf : ¬(zstd.ZSTD_isError (zstd.ZSTD_freeDStream s1.pStream).1 > 0) := by
    rw [hfree]; omega
  simp only [hf, if_false, add_indexed_bytes, true_and]
  unfold WroteInv at hwr
  rw [hwr, h2.1, wroteOf_append_list, hall]
  simp [wroteOf, Call.wrote]

end Decoding

/-! ## The pair codec is a conforming codec -/

section PairCodec

variable {D : Type}

theorem dbl_append (a b : List Byte) : dbl (a ++ b) = dbl a ++ dbl b := by
  induction a with
  | nil => rfl
  | cons x rest ih => simp [dbl, ih]

theorem dbl_extends {a b : List Byte} (h : a <+: b) : dbl a <+: dbl b := by
  obtain ⟨t, rfl⟩ := h
  rw [dbl_append]
  exact List.prefix_append _ _

theorem read_extends_offered (c : Call) : c.read <+: c.offered := by
  cases c <;> simp [Call.read, Call.offered, List.take_prefix]

theorem fedFrom_read (stream : List Byte) (log : List Call) :
    ∀ read : List Byte, read <+: stream → fedFrom stream read log →
      read ++ readOf log <+: stream := by
  induction log with
  | nil => intro read h _; simpa [readOf] using h
  | cons c rest ih =>
    intro read _ hf
    have h1 : read ++ c.read <+: stream :=
      ((List.prefix_append_right_inj read).2 (read_extends_offered c)).trans hf.1
    have := ih (read ++ c.read) h1 hf.2
    simpa [readOf, List.append_assoc] using this

theorem runSteps_mem {S : Type} (step : S → Req D → Call × S) :
    ∀ (reqs : List (Req D)) (z : S), ∀ c ∈ (runSteps step z reqs).1,
      ∃ z1 req, c = (step z1 req).1 := by
  intro reqs
  induction reqs with
  | nil => intro z c hc; simp [runSteps] at hc
  | cons req rest ih =>
    intro z c hc
    simp only [runSteps, List.mem_cons] at hc
    rcases hc with rfl | hc
    · exact ⟨z, req, rfl⟩
    · exact ih _ c hc

theorem runSteps_last {S : Type} (step : S → Req D → Call × S) (z0 : S)
    (reqs : List (Req D)) (l : List Call) (c : Call)
    (h : (runSteps step z0 reqs).1 = l ++ [c]) :
    ∃ reqs1 req, reqs = reqs1 ++ [req] ∧ l = (runSteps step z0 reqs1).1 ∧
      c = (step (runSteps step z0 reqs1).2 req).1 ∧
      (runSteps step z0 reqs).2 = (step (runSteps step z0 reqs1).2 req).2 := by
  rcases List.eq_nil_or_concat reqs with rfl | ⟨reqs1, req, rfl⟩
  · simp [runSteps] at h
  · refine ⟨reqs1, req, by simp, ?_, ?_, ?_⟩
    · rw [List.concat_eq_append, runSteps_concat] at h
      exact ((List.append_inj' h rfl).1).symm
    · rw [List.concat_eq_append, runSteps_concat] at h
      have := (List.append_inj' h rfl).2
      simpa using this.symm
    · rw [List.concat_eq_append, runSteps_concat]

theorem pair_encoder_run (step : Option Byte → Req D → Call × Option Byte)
    (hstep : ∀ z req R W, R = dbl W ++ z.toList →
      R ++ (step z req).1.read = dbl (W ++ (step z req).1.wrote) ++ (step z req).2.toList) :
    ∀ (reqs : List (Req D)) (z : Option Byte) (R W : List Byte), R = dbl W ++ z.toList →
      R ++ readOf (runSteps step z reqs).1 =
        dbl (W ++ wroteOf (runSteps step z reqs).1) ++ (runSteps step z reqs).2.toList := by
  intro reqs
  induction reqs with
  | nil => intro z R W h; simpa [runSteps, readOf, wroteOf] using h
  | cons req rest ih =>
    intro z R W h
    have h1 := hstep z req R W h
    have h2 := ih (step z req).2 _ _ h1
    simpa [runSteps, readOf, wroteOf, List.append_assoc] using h2

theorem pair_encoder_sound (step : Option Byte → Req D → Call × Option Byte)
    (isError : Nat → Nat) (directed : Call → Prop)
    (hstep : ∀ z req R W, R = dbl W ++ z.toList →
      R ++ (step z req).1.read = dbl (W ++ (step z req).1.wrote) ++ (step z req).2.toList)
    (hclose : ∀ z req, (step z req).1.fatal isError = false → (step z req).1.closing →
      (step z req).1.tookAll → (step z req).2 = none) :
    EncoderSound step none isError directed (fun message stream => message = dbl stream) := by
  intro reqs l c hrun _ hnf hclosing htook _
  obtain ⟨reqs1, req, -, -, hc, hz⟩ := runSteps_last step none reqs l c hrun
  have hinv := pair_encoder_run step hstep reqs none [] [] rfl
  rw [hrun] at hinv
  have hfat : c.fatal isError = false := hnf c (List.mem_append_right _ (List.mem_singleton.2 rfl))
  rw [hc] at hfat hclosing htook
  rw [hz, hclose _ _ hfat hclosing htook] at hinv
  simpa using hinv

theorem pair_decoder_run (step : Option Byte → Req D → Call × Option Byte)
    (hstep : ∀ z req R W, W ++ z.toList = dbl R →
      W ++ (step z req).1.wrote ++ (step z req).2.toList = dbl (R ++ (step z req).1.read)) :
    ∀ (reqs : List (Req D)) (z : Option Byte) (R W : List Byte), W ++ z.toList = dbl R →
      W ++ wroteOf (runSteps step z reqs).1 ++ (runSteps step z reqs).2.toList =
        dbl (R ++ readOf (runSteps step z reqs).1) := by
  intro reqs
  induction reqs with
  | nil => intro z R W h; simpa [runSteps, readOf, wroteOf] using h
  | cons req rest ih =>
    intro z R W h
    have h1 := hstep z req R W h
    have h2 := ih (step z req).2 _ _ h1
    simpa [runSteps, readOf, wroteOf, List.append_assoc] using h2

theorem pair_decoder_sound (step : Option Byte → Req D → Call × Option Byte)
    (isError : Nat → Nat) (directed : Call → Prop)
    (hstep : ∀ z req R W, W ++ z.toList = dbl R →
      W ++ (step z req).1.wrote ++ (step z req).2.toList = dbl (R ++ (step z req).1.read))
    (hfatal : ∀ z req, (step z req).1.fatal isError = false)
    (hroom : ∀ z req, (step z req).1.leftRoom →
      (step z req).1.tookAll ∧ (step z req).2 = none) :
    DecoderSound step none isError directed (fun message stream => message = dbl stream) := by
  intro message stream hv reqs _ hfed
  have hinv := pair_decoder_run step hstep reqs none [] [] rfl
  simp only [List.nil_append] at hinv
  have hread : readOf (runSteps step none reqs).1 <+: stream := by
    simpa using fedFrom_read stream _ [] List.nil_prefix hfed
  refine ⟨?_, ?_, ?_⟩
  · intro c hc
    obtain ⟨z1, req, rfl⟩ := runSteps_mem step reqs none c hc
    exact hfatal z1 req
  · rw [hv]
    exact (hinv ▸ List.prefix_append _ _ : wroteOf (runSteps step none reqs).1 <+:
      dbl (readOf (runSteps step none reqs).1)).trans (dbl_extends hread)
  · intro l c hrun hleft
    obtain ⟨reqs1, req, -, -, hc, hz⟩ := runSteps_last step none reqs l c hrun
    obtain ⟨htook, hnone⟩ := hroom _ _ (hc ▸ hleft)
    refine ⟨hc ▸ htook, ?_⟩
    intro hall
    rw [← hrun] at hall ⊢
    rw [hz, hnone] at hinv
    rw [hv, ← hall]
    simpa using hinv

theorem pairEnc_inv (closing : Bool) (p : Option Byte) (next_in : List Byte) (room : Nat)
    (R W : List Byte) (h : R = dbl W ++ p.toList) :
    R ++ next_in.take (min (pairEnc closing p next_in room).consumed next_in.length) =
      dbl (W ++ (pairEnc closing p next_in room).produced.take room) ++
        (pairEnc closing p next_in room).state.toList := by
  subst h
  rcases next_in with _ | ⟨b, rest⟩ <;> rcases p with _ | a
  · simp [pairEnc]
  · simp [pairEnc]
  · simp only [pairEnc]
    split_ifs <;> simp
  · simp only [pairEnc]
    split_ifs with h1 h2
    · simp
    · simp
    · obtain ⟨k, rfl⟩ := Nat.exists_eq_succ_of_ne_zero h2
      have hab : a = b := not_not.1 h1
      subst hab
      simp [dbl_append, dbl]

theorem pairEnc_close (p : Option Byte) (next_in : List Byte) (room : Nat)
    (hbad : (pairEnc true p next_in room).bad = false)
    (htook : next_in.take (min (pairEnc true p next_in room).consumed next_in.length) =
      next_in) :
    (pairEnc true p next_in room).state = none := by
  rcases next_in with _ | ⟨b, rest⟩ <;> rcases p with _ | a
  · simp [pairEnc]
  · simp [pairEnc] at hbad
  · simp only [pairEnc] at hbad htook ⊢
    rcases rest with _ | ⟨b2, rest2⟩
    · simp at hbad
    · simp at htook
  · simp only [pairEnc] at hbad htook ⊢
    split_ifs at hbad htook ⊢ with h1 h2
    · simp at htook
    · rfl

theorem dblOut_spec : ∀ (input : List Byte) (room : Nat),
    (dblOut room input).produced ++ (dblOut room input).state.toList =
        dbl (input.take (dblOut room input).consumed) ∧
      (dblOut room input).produced.length ≤ room ∧
      (dblOut room input).consumed ≤ input.length ∧
      ((dblOut room input).produced.length < room →
        (dblOut room input).consumed = input.length ∧ (dblOut room input).state = none) := by
  intro input
  induction input with
  | nil => intro room; simp [dblOut, dbl]
  | cons b rest ih =>
    intro room
    rcases room with _ | _ | room
    · simp [dblOut, dbl]
    · simp [dblOut, dbl]
    · obtain ⟨h1, h2, h3, h4⟩ := ih room
      refine ⟨?_, ?_, ?_, ?_⟩
      · simp only [dblOut, List.take_succ_cons, dbl, List.cons_append, h1]
      · simp only [dblOut, List.length_cons]; omega
      · simp only [dblOut, List.length_cons]; omega
      · intro h
        simp only [dblOut, List.length_cons] at h ⊢
        obtain ⟨h5, h6⟩ := h4 (by omega)
        exact ⟨by omega, h6⟩

theorem pairDec_inv (p : Option Byte) (next_in : List Byte) (room : Nat) (R W : List Byte)
    (h : W ++ p.toList = dbl R) :
    W ++ (pairDec p next_in room).produced.take room ++ (pairDec p next_in room).state.toList =
      dbl (R ++ next_in.take (min (pairDec p next_in room).consumed next_in.length)) := by
  rcases p with _ | a
  · obtain ⟨h1, h2, h3, -⟩ := dblOut_spec next_in room
    simp only [pairDec, Option.toList_none, List.append_nil] at h ⊢
    rw [List.take_of_length_le h2, Nat.min_eq_left h3, dbl_append, ← h, ← h1,
      List.append_assoc]
  · rcases room with _ | room
    · simpa [pairDec] using h
    · obtain ⟨h1, h2, h3, -⟩ := dblOut_spec next_in room
      simp only [pairDec]
      rw [List.take_of_length_le (by simp only [List.length_cons]; omega), Nat.min_eq_left h3,
        dbl_append, ← h, ← h1]
      simp

theorem pairDec_room (p : Option Byte) (next_in : List Byte) (room : Nat)
    (h : ((pairDec p next_in room).produced.take room).length < room) :
    next_in.take (min (pairDec p next_in room).consumed next_in.length) = next_in ∧
      (pairDec p next_in room).state = none := by
  rcases p with _ | a
  · obtain ⟨-, h2, h3, h4⟩ := dblOut_spec next_in room
    simp only [pairDec] at h ⊢
    rw [List.take_of_length_le h2] at h
    obtain ⟨h5, h6⟩ := h4 h
    exact ⟨by rw [h5]; simp, h6⟩
  · rcases room with _ | room
    · simp at h
    · obtain ⟨-, h2, h3, h4⟩ := dblOut_spec next_in room
      simp only [pairDec] at h ⊢
      rw [List.take_of_length_le (by simp only [List.length_cons]; omega)] at h
      simp only [List.length_cons] at h
      obtain ⟨h5, h6⟩ := h4 (by omega)
      exact ⟨by rw [h5]; simp, h6⟩

/-- The `inflate` of the pair codec decodes what its `deflate` writes. -/
theorem pairZlib_decoder (wbits : Int) :
    DecoderSound (flate_step pairZlib.inflate Flate.inflate) (pairZlib.inflateInit2 wbits).2
      (fun _ => 0) Call.zlibDirected (fun message stream => message = dbl stream) := by
  refine pair_decoder_sound _ _ _ ?_ ?_ ?_
  · intro z req R W h
    exact pairDec_inv z req.next_in req.avail_out R W h
  · intro z req
    simp [flate_step, pairZlib, Call.fatal, Z_OK]
  · intro z req hroom
    exact pairDec_room z req.next_in req.avail_out hroom

/-- The `ZSTD_decompressStream` of the pair codec decodes what its `ZSTD_compressStream2`
writes. -/
theorem pairZstd_decoder :
    DecoderSound (zstd_decompress_step pairZstd)
      (pairZstd.ZSTD_initDStream pairZstd.ZSTD_createDStream).2 pairZstd.ZSTD_isError
      (fun _ => True) (fun message stream => message = dbl stream) := by
  refine pair_decoder_sound _ _ _ ?_ ?_ ?_
  · intro z req R W h
    exact pairDec_inv z req.next_in req.avail_out R W h
  · intro z req
    simp [zstd_decompress_step, pairZstd, Call.fatal, sampleIsError]
  · intro z req hroom
    exact pairDec_room z req.next_in req.avail_out hroom

/-- The `deflate` of the pair codec writes encodings: one byte for every pair read. -/
theorem pairZlib_encoder (wbits : Int) :
    EncoderSound (flate_step pairZlib.deflate Flate.deflate)
      (pairZlib.deflateInit2 Z_DEFAULT_COMPRESSION Z_DEFLATED wbits 8 Z_DEFAULT_STRATEGY).2
      (fun _ => 0) Call.zlibDirected (fun message stream => message = dbl stream) := by
  refine pair_encoder_sound _ _ _ ?_ ?_
  · intro z req R W h
    exact pairEnc_inv (decide (req.directive = Z_FINISH)) z req.next_in req.avail_out R W h
  · intro z req hfat hclosing htook
    simp only [flate_step, pairZlib, Call.closing] at hclosing
    simp only [flate_step, pairZlib, Call.fatal, hclosing, decide_True] at hfat
    simp only [flate_step, pairZlib, Call.tookAll, Call.read, Call.offered, hclosing,
      decide_True] at htook
    simp only [flate_step, pairZlib, hclosing, decide_True]
    refine pairEnc_close z req.next_in req.avail_out ?_ htook
    by_contra hb
    simp only [Bool.not_eq_false] at hb
    rw [hb] at hfat
    simp [Z_DATA_ERROR, Z_BUF_ERROR] at hfat

theorem pairZlib_conforming (wbits : Int) : ZlibConforming pairZlib wbits :=
  ⟨rfl, fun message stream => message = dbl stream, pairZlib_encoder wbits,
    pairZlib_decoder wbits⟩

/-- A run of `inflate` calls of `blockZlib` that all carry `Z_NO_FLUSH` or `Z_FINISH` is a run
of the `inflate` of the pair codec. -/
theorem blockZlib_runSteps : ∀ (reqs : List (Req Int)) (z : Option Byte),
    (∀ c ∈ (runSteps (flate_step blockZlib.inflate Flate.inflate) z reqs).1, c.zlibDirected) →
    runSteps (flate_step blockZlib.inflate Flate.inflate) z reqs =
      runSteps (flate_step pairZlib.inflate Flate.inflate) z reqs := by
  intro reqs
  induction reqs with
  | nil => intro z _; rfl
  | cons req rest ih =>
    intro z hdir
    have hne : req.directive ≠ Z_BLOCK := by
      have h := hdir _ (List.mem_cons_self _ _)
      unfold Call.zlibDirected at h
      simp only [flate_step, Call.flushArg, Option.some.injEq] at h
      rcases h with h | h <;> rw [h] <;> decide
    have hstep : flate_step blockZlib.inflate Flate.inflate z req =
        flate_step pairZlib.inflate Flate.inflate z req := by
      simp only [flate_step, blockZlib, hne, if_false]
    have htail := ih (flate_step blockZlib.inflate Flate.inflate z req).2
      (fun c hc => hdir c (List.mem_cons_of_mem _ hc))
    simp only [runSteps]
    rw [htail, hstep]

/-- The zlib `blockZlib`, whose `inflate` stops at once on `Z_BLOCK`, is a conforming codec: the
contract asks nothing of calls with that flush value. -/
theorem blockZlib_conforming (wbits : Int) : ZlibConforming blockZlib wbits := by
  refine ⟨rfl, fun message stream => message = dbl stream, pairZlib_encoder wbits, ?_⟩
  intro message stream hv reqs hp hfed
  have heq := blockZlib_runSteps reqs none (fun c hc => (hp.1 c hc).1)
  have hrun : runSteps (flate_step blockZlib.inflate Flate.inflate)
      (blockZlib.inflateInit2 wbits).2 reqs =
      runSteps (flate_step pairZlib.inflate Flate.inflate) (pairZlib.inflateInit2 wbits).2
        reqs := heq
  rw [hrun] at hp hfed ⊢
  exact pairZlib_decoder wbits message stream hv reqs hp hfed

theorem pairZstd_conforming : ZstdConforming pairZstd := by
  refine ⟨rfl, fun _ => rfl, fun message stream => message = dbl stream, rfl,
    pair_encoder_sound _ _ _ ?_ ?_, pairZstd_decoder⟩
  · intro z req R W h
    exact pairEnc_inv (decide (req.directive = ZSTD_e_flush)) z req.next_in req.avail_out R W h
  · intro z req hfat hclosing htook
    simp only [zstd_compress_step, pairZstd, Call.closing] at hclosing
    simp only [zstd_compress_step, pairZstd, Call.fatal, hclosing, decide_True] at hfat
    simp only [zstd_compress_step, pairZstd, Call.tookAll, Call.read, Call.offered, hclosing,
      decide_True] at htook
    simp only [zstd_compress_step, pairZstd, hclosing, decide_True]
    refine pairEnc_close z req.next_in req.avail_out ?_ htook
    by_contra hb
    simp only [Bool.not_eq_false] at hb
    rw [hb] at hfat
    simp [sampleIsError] at hfat

end PairCodec

/-! ## A decoder that gives up on calls without progress still conforms -/

section StallCodec

theorem runSteps_ne_nil {S D : Type} (step : S → Req D → Call × S) (z : S)
    (reqs : List (Req D)) (h : reqs ≠ []) : (runSteps step z reqs).1 ≠ [] := by
  cases reqs with
  | nil => exact absurd rfl h
  | cons req rest => simp [runSteps]

/-- One decoding call of `stallZstd`: it writes what it reads, takes all its input when it
leaves room, fails only after two calls without progress, and counts the calls without
progress. -/
theorem stall_call (z : Nat) (req : Req Unit) :
    (zstd_decompress_step stallZstd z req).1.wrote =
        (zstd_decompress_step stallZstd z req).1.read ∧
      (zstd_decompress_step stallZstd z req).1.offered = req.next_in ∧
      (zstd_decompress_step stallZstd z req).1.room = req.avail_out ∧
      ((zstd_decompress_step stallZstd z req).1.leftRoom →
        (zstd_decompress_step stallZstd z req).1.tookAll) ∧
      (z ≤ 1 →
        (zstd_decompress_step stallZstd z req).1.fatal stallZstd.ZSTD_isError = false) ∧
      (req.next_in ≠ [] → req.avail_out ≠ 0 → (zstd_decompress_step stallZstd z req).2 = 0) ∧
      (zstd_decompress_step stallZstd z req).2 ≤ z + 1 ∧
      ((zstd_decompress_step stallZstd z req).2 ≠ 0 → req.avail_out ≠ 0 →
        (zstd_decompress_step stallZstd z req).1.leftRoom) := by
  have hlen : req.next_in ≠ [] → 0 < req.next_in.length := List.length_pos.2
  by_cases hidle : min req.next_in.length req.avail_out = 0
  · by_cases hz : 2 ≤ z
    · simp only [zstd_decompress_step, stallZstd, hidle, hz, if_true, Call.wrote, Call.read,
        Call.offered, Call.room, Call.leftRoom, Call.tookAll, Call.fatal]
      refine ⟨by simp, trivial, trivial, ?_, fun h => by omega, ?_, le_refl _, ?_⟩
      · intro h
        simp only [List.take_nil, List.length_nil] at h
        have : req.next_in.length = 0 := by omega
        simp [List.length_eq_zero.1 this]
      · intro h1 h2
        have := hlen h1
        omega
      · intro _ h2
        simp only [List.take_nil, List.length_nil]
        omega
    · simp only [zstd_decompress_step, stallZstd, hidle, hz, if_true, if_false, Call.wrote,
        Call.read, Call.offered, Call.room, Call.leftRoom, Call.tookAll, Call.fatal]
      refine ⟨by simp, trivial, trivial, ?_, fun _ => by simp [sampleIsError], ?_, le_refl _,
        ?_⟩
      · intro h
        simp only [List.take_nil, List.length_nil] at h
        have : req.next_in.length = 0 := by omega
        simp [List.length_eq_zero.1 this]
      · intro h1 h2
        have := hlen h1
        omega
      · intro _ h2
        simp only [List.take_nil, List.length_nil]
        omega
  · simp only [zstd_decompress_step, stallZstd, hidle, if_false, Call.wrote, Call.read,
      Call.offered, Call.room, Call.leftRoom, Call.tookAll, Call.fatal]
    refine ⟨?_, trivial, trivial, ?_, fun _ => by simp [sampleIsError], fun _ _ => trivial,
      Nat.zero_le _, fun h => absurd rfl h⟩
    · rw [List.take_take, Nat.min_self, Nat.min_eq_left (Nat.min_le_left _ _)]
      by_cases h : req.next_in.length ≤ req.avail_out
      · rw [Nat.min_eq_left h, List.take_of_length_le h, List.take_of_length_le (le_refl _)]
      · rw [Nat.min_eq_right (by omega)]
    · intro h
      rw [List.take_take, Nat.min_self, List.length_take] at h
      have hle : req.next_in.length ≤ req.avail_out := by omega
      rw [Nat.min_eq_left (Nat.min_le_left _ _), Nat.min_eq_left hle]
      exact List.take_of_length_le (le_refl _)

theorem stall_wrote : ∀ (reqs : List (Req Unit)) (z : Nat),
    wroteOf (runSteps (zstd_decompress_step stallZstd) z reqs).1 =
      readOf (runSteps (zstd_decompress_step stallZstd) z reqs).1 := by
  intro reqs
  induction reqs with
  | nil => intro z; rfl
  | cons req rest ih =>
    intro z
    have h1 := (stall_call z req).1
    have h2 := ih (zstd_decompress_step stallZstd z req).2
    simp only [runSteps, wroteOf, readOf, List.map_cons, List.flatten_cons] at h2 ⊢
    rw [h1, h2]

/-- On calls made the way the engine makes them, the decoder of `stallZstd` never meets three
calls in a row without progress. -/
theorem stall_noFatal : ∀ (reqs : List (Req Unit)) (z : Nat), z ≤ 1 →
    (∀ c ∈ (runSteps (zstd_decompress_step stallZstd) z reqs).1, c.room ≠ 0) →
    List.Chain' Call.paces (runSteps (zstd_decompress_step stallZstd) z reqs).1.dropLast →
    (z = 1 → ∀ req rest, reqs = req :: rest → rest ≠ [] → req.next_in ≠ []) →
    NoFatal stallZstd.ZSTD_isError (runSteps (zstd_decompress_step stallZstd) z reqs).1 := by
  intro reqs
  induction reqs with
  | nil =>
    intro z _ _ _ _ c hc
    simp [runSteps] at hc
  | cons req rest ih =>
    intro z hz hroom hchain hfirst
    obtain ⟨-, -, hrm, -, hfat, hprog, hle, hidle⟩ := stall_call z req
    simp only [runSteps] at hroom hchain ⊢
    intro c hc
    rcases List.mem_cons.1 hc with rfl | hc
    · exact hfat hz
    · by_cases hrest : rest = []
      · subst hrest
        simp [runSteps] at hc
      · have hr0 : req.avail_out ≠ 0 := by
          rw [← hrm]
          exact hroom _ (List.mem_cons_self _ _)
        have hz1 : (zstd_decompress_step stallZstd z req).2 ≤ 1 := by
          by_cases h1 : z = 1
          · rw [hprog (hfirst h1 req rest rfl hrest) hr0]
            omega
          · omega
        have hne := runSteps_ne_nil (zstd_decompress_step stallZstd)
          (zstd_decompress_step stallZstd z req).2 rest hrest
        rw [List.dropLast_cons_of_ne_nil hne] at hchain
        refine ih _ hz1 (fun d hd => hroom d (List.mem_cons_of_mem _ hd)) hchain.tail ?_ c hc
        intro h1 req2 rest2 hrest2 hne2
        subst hrest2
        have hne3 := runSteps_ne_nil (zstd_decompress_step stallZstd)
          (zstd_decompress_step stallZstd (zstd_decompress_step stallZstd z req).2 req2).2
          rest2 hne2
        simp only [runSteps] at hchain
        rw [List.dropLast_cons_of_ne_nil hne3] at hchain
        have hpace := (List.chain'_cons.1 hchain).1
        have hleft := hidle (by omega) hr0
        rcases hpace with h | h
        · rw [(stall_call _ req2).2.1] at h
          exact h
        · exact absurd hleft h

/-- The decoder of `stallZstd` meets the decoder contract: it decodes what its encoder (a plain
copy) writes. -/
theorem stallZstd_decoder :
    DecoderSound (zstd_decompress_step stallZstd)
      (stallZstd.ZSTD_initDStream stallZstd.ZSTD_createDStream).2 stallZstd.ZSTD_isError
      (fun _ => True) (fun message stream => message = stream) := by
  intro message stream hv reqs hp hfed
  subst hv
  have hread : readOf (runSteps (zstd_decompress_step stallZstd) 0 reqs).1 <+: message := by
    simpa using fedFrom_read message _ [] List.nil_prefix hfed
  refine ⟨stall_noFatal reqs 0 (by omega) (fun c hc => (hp.1 c hc).2) hp.2
    (fun h => absurd h (by decide)), ?_, ?_⟩
  · show wroteOf (runSteps (zstd_decompress_step stallZstd) 0 reqs).1 <+: message
    rw [stall_wrote]
    exact hread
  · intro l c hrun hleft
    obtain ⟨reqs1, req, -, -, hc, -⟩ :=
      runSteps_last (zstd_decompress_step stallZstd) _ reqs l c hrun
    refine ⟨?_, fun hall => ?_⟩
    · rw [hc] at hleft ⊢
      exact (stall_call _ req).2.2.2.1 hleft
    · rw [← hall, ← hrun]
      exact stall_wrote reqs 0

theorem stall_compress_wrote : ∀ (reqs : List (Req Nat)) (z : Nat),
    wroteOf (runSteps (zstd_compress_step stallZstd) z reqs).1 =
      readOf (runSteps (zstd_compress_step stallZstd) z reqs).1 := by
  intro reqs
  induction reqs with
  | nil => intro z; rfl
  | cons req rest ih =>
    intro z
    have h1 : (zstd_compress_step stallZstd z req).1.wrote =
        (zstd_compress_step stallZstd z req).1.read := by
      simp only [zstd_compress_step, stallZstd, Call.wrote, Call.read]
      rw [List.take_take, Nat.min_self, Nat.min_eq_left (Nat.min_le_left _ _)]
      by_cases h : req.next_in.length ≤ req.avail_out
      · rw [Nat.min_eq_left h, List.take_of_length_le h, List.take_of_length_le (le_refl _)]
      · rw [Nat.min_eq_right (by omega)]
    have h2 := ih (zstd_compress_step stallZstd z req).2
    simp only [runSteps, wroteOf, readOf, List.map_cons, List.flatten_cons] at h2 ⊢
    rw [h1, h2]

/-- The Zstandard `stallZstd`, whose decoder gives up on repeated calls without progress, is a
conforming codec. -/
theorem stallZstd_conforming : ZstdConforming stallZstd := by
  refine ⟨rfl, fun _ => rfl, fun message stream => message = stream, rfl, ?_,
    stallZstd_decoder⟩
  intro reqs l c hrun _ _ _ _ _
  rw [← hrun]
  exact (stall_compress_wrote reqs _).symm

/-- One `inflate` call of `stallZlib`: it writes what it reads, takes all its input when it leaves
room, fails only after two calls without progress, and counts the calls without progress. -/
theorem stallz_call (z : Nat) (req : Req Int) :
    (flate_step stallZlib.inflate Flate.inflate z req).1.wrote =
        (flate_step stallZlib.inflate Flate.inflate z req).1.read ∧
      (flate_step stallZlib.inflate Flate.inflate z req).1.offered = req.next_in ∧
      (flate_step stallZlib.inflate Flate.inflate z req).1.room = req.avail_out ∧
      ((flate_step stallZlib.inflate Flate.inflate z req).1.leftRoom →
        (flate_step stallZlib.inflate Flate.inflate z req).1.tookAll) ∧
      (z ≤ 1 →
        (flate_step stallZlib.inflate Flate.inflate z req).1.fatal (fun _ => 0) = false) ∧
      (req.next_in ≠ [] → req.avail_out ≠ 0 →
        (flate_step stallZlib.inflate Flate.inflate z req).2 = 0) ∧
      (flate_step stallZlib.inflate Flate.inflate z req).2 ≤ z + 1 ∧
      ((flate_step stallZlib.inflate Flate.inflate z req).2 ≠ 0 → req.avail_out ≠ 0 →
        (flate_step stallZlib.inflate Flate.inflate z req).1.leftRoom) := by
  have hlen : req.next_in ≠ [] → 0 < req.next_in.length := List.length_pos.2
  by_cases hidle : min req.next_in.length req.avail_out = 0
  · by_cases hz : 2 ≤ z
    · simp only [flate_step, stallZlib, hidle, hz, if_true, Call.wrote, Call.read,
        Call.offered, Call.room, Call.leftRoom, Call.tookAll, Call.fatal]
      refine ⟨by simp, trivial, trivial, ?_, fun h => by omega, ?_, le_refl _, ?_⟩
      · intro h
        simp only [List.take_nil, List.length_nil] at h
        have : req.next_in.length = 0 := by omega
        simp [List.length_eq_zero.1 this]
      · intro h1 h2
        have := hlen h1
        omega
      · intro _ h2
        simp only [List.take_nil, List.length_nil]
        omega
    · simp only [flate_step, stallZlib, hidle, hz, if_true, if_false, Call.wrote,
        Call.read, Call.offered, Call.room, Call.leftRoom, Call.tookAll, Call.fatal]
      refine ⟨by simp, trivial, trivial, ?_, fun _ => by simp, ?_, le_refl _, ?_⟩
      · intro h
        simp only [List.take_nil, List.length_nil] at h
        have : req.next_in.length = 0 := by omega
        simp [List.length_eq_zero.1 this]
      · intro h1 h2
        have := hlen h1
        omega
      · intro _ h2
        simp only [List.take_nil, List.length_nil]
        omega
  · simp only [flate_step, stallZlib, hidle, if_false, Call.wrote, Call.read,
      Call.offered, Call.room, Call.leftRoom, Call.tookAll, Call.fatal]
    refine ⟨?_, trivial, trivial, ?_, fun _ => by simp [Z_OK], fun _ _ => trivial,
      Nat.zero_le _, fun h => absurd rfl h⟩
    · rw [List.take_take, Nat.min_self, Nat.min_eq_left (Nat.min_le_left _ _)]
      by_cases h : req.next_in.length ≤ req.avail_out
      · rw [Nat.min_eq_left h, List.take_of_length_le h, List.take_of_length_le (le_refl _)]
      · rw [Nat.min_eq_right (by omega)]
    · intro h
      rw [List.take_take, Nat.min_self, List.length_take] at h
      have hle : req.next_in.length ≤ req.avail_out := by omega
      rw [Nat.min_eq_left (Nat.min_le_left _ _), Nat.min_eq_left hle]
      exact List.take_of_length_le (le_refl _)

theorem stallz_wrote : ∀ (reqs : List (Req Int)) (z : Nat),
    wroteOf (runSteps (flate_step stallZlib.inflate Flate.inflate) z reqs).1 =
      readOf (runSteps (flate_step stallZlib.inflate Flate.inflate) z reqs).1 := by
  intro reqs
  induction reqs with
  | nil => intro z; rfl
  | cons req rest ih =>
    intro z
    have h1 := (stallz_call z req).1
    have h2 := ih (flate_step stallZlib.inflate Flate.inflate z req).2
    simp only [runSteps, wroteOf, readOf, List.map_cons, List.flatten_cons] at h2 ⊢
    rw [h1, h2]

/-- On calls made the way the engine makes them, `inflate` of `stallZlib` never meets three calls
in a row without progress. -/
theorem stallz_noFatal : ∀ (reqs : List (Req Int)) (z : Nat), z ≤ 1 →
    (∀ c ∈ (runSteps (flate_step stallZlib.inflate Flate.inflate) z reqs).1, c.room ≠ 0) →
    List.Chain' Call.paces
      (runSteps (flate_step stallZlib.inflate Flate.inflate) z reqs).1.dropLast →
    (z = 1 → ∀ req rest, reqs = req :: rest → rest ≠ [] → req.next_in ≠ []) →
    NoFatal (fun _ => 0) (runSteps (flate_step stallZlib.inflate Flate.inflate) z reqs).1 := by
  intro reqs
  induction reqs with
  | nil =>
    intro z _ _ _ _ c hc
    simp [runSteps] at hc
  | cons req rest ih =>
    intro z hz hroom hchain hfirst
    obtain ⟨-, -, hrm, -, hfat, hprog, hle, hidle⟩ := stallz_call z req
    simp only [runSteps] at hroom hchain ⊢
    intro c hc
    rcases List.mem_cons.1 hc with rfl | hc
    · exact hfat hz
    · by_cases hrest : rest = []
      · subst hrest
        simp [runSteps] at hc
      · have hr0 : req.avail_out ≠ 0 := by
          rw [← hrm]
          exact hroom _ (List.mem_cons_self _ _)
        have hz1 : (flate_step stallZlib.inflate Flate.inflate z req).2 ≤ 1 := by
          by_cases h1 : z = 1
          · rw [hprog (hfirst h1 req rest rfl hrest) hr0]
            omega
          · omega
        have hne := runSteps_ne_nil (flate_step stallZlib.inflate Flate.inflate)
          (flate_step stallZlib.inflate Flate.inflate z req).2 rest hrest
        rw [List.dropLast_cons_of_ne_nil hne] at hchain
        refine ih _ hz1 (fun d hd => hroom d (List.mem_cons_of_mem _ hd)) hchain.tail ?_ c hc
        intro h1 req2 rest2 hrest2 hne2
        subst hrest2
        have hne3 := runSteps_ne_nil (flate_step stallZlib.inflate Flate.inflate)
          (flate_step stallZlib.inflate Flate.inflate
            (flate_step stallZlib.inflate Flate.inflate z req).2 req2).2
          rest2 hne2
        simp only [runSteps] at hchain
        rw [List.dropLast_cons_of_ne_nil hne3] at hchain
        have hpace := (List.chain'_cons.1 hchain).1
        have hleft := hidle (by omega) hr0
        rcases hpace with h | h
        · rw [(stallz_call _ req2).2.1] at h
          exact h
        · exact absurd hleft h

/-- The `inflate` of `stallZlib` meets the decoder contract for every window-bits value: it
decodes what its `deflate` (a plain copy) writes. -/
theorem stallZlib_decoder (wbits : Int) :
    DecoderSound (flate_step stallZlib.inflate Flate.inflate) (stallZlib.inflateInit2 wbits).2
      (fun _ => 0) Call.zlibDirected (fun message stream => message = stream) := by
  intro message stream hv reqs hp hfed
  subst hv
  have hread : readOf (runSteps (flate_step stallZlib.inflate Flate.inflate) 0 reqs).1 <+:
      message := by
    simpa using fedFrom_read message _ [] List.nil_prefix hfed
  refine ⟨stallz_noFatal reqs 0 (by omega) (fun c hc => (hp.1 c hc).2) hp.2
    (fun h => absurd h (by decide)), ?_, ?_⟩
  · show wroteOf (runSteps (flate_step stallZlib.inflate Flate.inflate) 0 reqs).1 <+: message
    rw [stallz_wrote]
    exact hread
  · intro l c hrun hleft
    obtain ⟨reqs1, req, -, -, hc, -⟩ :=
      runSteps_last (flate_step stallZlib.inflate Flate.inflate) _ reqs l c hrun
    refine ⟨?_, fun hall => ?_⟩
    · rw [hc] at hleft ⊢
      exact (stallz_call _ req).2.2.2.1 hleft
    · rw [← hall, ← hrun]
      exact stallz_wrote reqs 0

theorem stallz_deflate_wrote : ∀ (reqs : List (Req Int)) (z : Nat),
    wroteOf (runSteps (flate_step stallZlib.deflate Flate.deflate) z reqs).1 =
      readOf (runSteps (flate_step stallZlib.deflate Flate.deflate) z reqs).1 := by
  intro reqs
  induction reqs with
  | nil => intro z; rfl
  | cons req rest ih =>
    intro z
    have h1 : (flate_step stallZlib.deflate Flate.deflate z req).1.wrote =
        (flate_step stallZlib.deflate Flate.deflate z req).1.read := by
      simp only [flate_step, stallZlib, Call.wrote, Call.read]
      rw [List.take_take, Nat.min_self, Nat.min_eq_left (Nat.min_le_left _ _)]
      by_cases h : req.next_in.length ≤ req.avail_out
      · rw [Nat.min_eq_left h, List.take_of_length_le h, List.take_of_length_le (le_refl _)]
      · rw [Nat.min_eq_right (by omega)]
    have h2 := ih (flate_step stallZlib.deflate Flate.deflate z req).2
    simp only [runSteps, wroteOf, readOf, List.map_cons, List.flatten_cons] at h2 ⊢
    rw [h1, h2]

/-- The zlib `stallZlib`, whose `inflate` gives up on repeated calls without progress, is a
conforming codec for every window-bits value. -/
theorem stallZlib_conforming (wbits : Int) : ZlibConforming stallZlib wbits := by
  refine ⟨rfl, fun message stream => message = stream, ?_, stallZlib_decoder wbits⟩
  intro reqs l c hrun _ _ _ _ _
  rw [← hrun]
  exact (stallz_deflate_wrote reqs _).symm

end StallCodec

/-! ## Dispatch and identity copy -/

section Dispatch

variable {σ τ : Type}

theorem compress_zero_iff (zlib : Zlib σ) (zstd : Zstd τ) (fuel : Nat) (algorithm : Int)
    (input output : grpc_slice_buffer) :
    (grpc_msg_compress zlib zstd fuel algorithm input output).exit = Exit.returned 0 ↔
      (compress_inner zlib zstd fuel algorithm input output).exit = Exit.returned 0 := by
  unfold grpc_msg_compress
  generalize compress_inner zlib zstd fuel algorithm input output = run
  rcases run with ⟨e, o, l⟩
  cases e with
  | returned r =>
    by_cases hr : r = 0
    · simp [hr]
    · simp [hr]
  | aborted => simp
  | unfinished => simp

theorem compress_inner_zero (zlib : Zlib σ) (zstd : Zstd τ) (fuel : Nat) (algorithm : Int)
    (input output : grpc_slice_buffer)
    (h : (compress_inner zlib zstd fuel algorithm input output).exit = Exit.returned 0) :
    (compress_inner zlib zstd fuel algorithm input output).output = output := by
  unfold compress_inner at h ⊢
  split_ifs at h ⊢
  · rfl
  · exact zlib_compress_zero zlib fuel input output 0 h
  · exact zlib_compress_zero zlib fuel input output 1 h
  · exact zstd_compress_zero zstd fuel input output h
  · rfl

theorem compress_zero_output (zlib : Zlib σ) (zstd : Zstd τ) (fuel : Nat) (algorithm : Int)
    (input output : grpc_slice_buffer)
    (h : (grpc_msg_compress zlib zstd fuel algorithm input output).exit = Exit.returned 0) :
    (grpc_msg_compress zlib zstd fuel algorithm input output).output =
      (copy input output).2 := by
  have hi := (compress_zero_iff zlib zstd fuel algorithm input output).1 h
  have ho := compress_inner_zero zlib zstd fuel algorithm input output hi
  unfold grpc_msg_compress
  generalize compress_inner zlib zstd fuel algorithm input output = run at hi ho
  rcases run with ⟨e, o, l⟩
  simp only at hi ho
  subst hi ho
  simp

theorem zlib_compress_exit (zlib : Zlib σ) (fuel : Nat) (input output : grpc_slice_buffer)
    (gzip : Int) (r : Int) (h : (zlib_compress zlib fuel input output gzip).exit = Exit.returned r) :
    r = 0 ∨ r = 1 := by
  unfold zlib_compress at h
  rcases hinit : zlib.deflateInit2 Z_DEFAULT_COMPRESSION Z_DEFLATED (windowBits gzip) 8
    Z_DEFAULT_STRATEGY with ⟨r0, zs⟩
  simp only [hinit] at h
  by_cases hr : r0 ≠ Z_OK
  · simp [hr] at h
  · simp only [hr, if_false] at h
    rcases hb : zlib_body zlib.deflate Flate.deflate fuel zs input output
      [Call.deflateInit2 (windowBits gzip) r0] with ⟨e, s⟩
    simp only [hb] at h
    cases e with
    | returned b =>
      dsimp only at h
      split_ifs at h
      · simp only [Exit.returned.injEq] at h; exact Or.inr h.symm
      · simp only [Exit.returned.injEq] at h; exact Or.inl h.symm
    | aborted => simp at h
    | unfinished => simp at h

theorem zstd_compress_exit (zstd : Zstd τ) (fuel : Nat) (input output : grpc_slice_buffer)
    (r : Int) (h : (zstd_compress zstd fuel input output).exit = Exit.returned r) :
    r = 0 ∨ r = 1 := by
  unfold zstd_compress at h
  rcases hinit : zstd.ZSTD_initCStream zstd.ZSTD_createCStream 5 with ⟨err, p⟩
  simp only [hinit] at h
  split_ifs at h
  · simp only [zstd_compress_error2_exit, Exit.returned.injEq] at h; exact Or.inl h.symm
  · rcases hl : zstd_compress_loop zstd fuel input.slices
      { pStream := p, src := [], outbuf := [], output := output,
        log := [Call.ZSTD_createCStream, Call.ZSTD_initCStream 5 err] } with ⟨f, s⟩
    simp only [hl] at h
    cases f with
    | done =>
      simp only at h
      split_ifs at h
      · simp only [zstd_compress_error2_exit, Exit.returned.injEq] at h; exact Or.inl h.symm
      · simp only [zstd_compress_error2_exit, Exit.returned.injEq] at h; exact Or.inl h.symm
      · simp only [Exit.returned.injEq] at h; exact Or.inr h.symm
    | error => simp only [zstd_compress_error2_exit, Exit.returned.injEq] at h; exact Or.inl h.symm
    | aborted => simp at h
    | unfinished => simp at h

theorem compress_one (zlib : Zlib σ) (zstd : Zstd τ) (fuel : Nat) (algorithm : Int)
    (input output : grpc_slice_buffer)
    (h : (grpc_msg_compress zlib zstd fuel algorithm input output).exit = Exit.returned 1) :
    ∃ r, r ≠ 0 ∧ (compress_inner zlib zstd fuel algorithm input output).exit = Exit.returned r ∧
      (grpc_msg_compress zlib zstd fuel algorithm input output).output =
        (compress_inner zlib zstd fuel algorithm input output).output := by
  unfold grpc_msg_compress at h ⊢
  generalize compress_inner zlib zstd fuel algorithm input output = run at h ⊢
  rcases run with ⟨e, o, l⟩
  cases e with
  | returned r =>
    by_cases hr : r = 0
    · simp [hr] at h
    · exact ⟨r, hr, rfl, by simp [hr]⟩
  | aborted => simp at h
  | unfinished => simp at h

theorem compress_inner_no_codec (zlib : Zlib σ) (zstd : Zstd τ) (fuel : Nat) (algorithm : Int)
    (input output : grpc_slice_buffer) (hd : algorithm ≠ GRPC_MESSAGE_COMPRESS_DEFLATE)
    (hg : algorithm ≠ GRPC_MESSAGE_COMPRESS_GZIP) (hz : algorithm ≠ GRPC_MESSAGE_COMPRESS_ZSTD) :
    grpc_msg_compress zlib zstd fuel algorithm input output =
      { exit := Exit.returned 0, output := (copy input output).2, log := [] } := by
  have hi : compress_inner zlib zstd fuel algorithm input output =
      { exit := Exit.returned 0, output := output, log := [] } := by
    unfold compress_inner
    simp [hd, hg, hz]
  simp [grpc_msg_compress, hi]

theorem decompress_no_codec (zlib : Zlib σ) (zstd : Zstd τ) (fuel : Nat) (algorithm : Int)
    (input output : grpc_slice_buffer) (hd : algorithm ≠ GRPC_MESSAGE_COMPRESS_DEFLATE)
    (hg : algorithm ≠ GRPC_MESSAGE_COMPRESS_GZIP) (hz : algorithm ≠ GRPC_MESSAGE_COMPRESS_ZSTD) :
    grpc_msg_decompress zlib zstd fuel algorithm input output =
      if algorithm = GRPC_MESSAGE_COMPRESS_NONE then
        { exit := Exit.returned 1, output := (copy input output).2, log := [] }
      else { exit := Exit.returned 0, output := output, log := [] } := by
  unfold grpc_msg_decompress
  simp [hd, hg, hz, copy]

/-- Decompressing an encoding of `message` with the decoder of a conforming codec returns 1 and
appends `message`, however the encoding is split into chunks that are not empty (the last one
may be). -/
theorem decompress_decodes (zlib : Zlib σ) (zstd : Zstd τ) (algorithm : Int)
    (valid : List Byte → List Byte → Prop) (hdec : DecoderFor zlib zstd algorithm valid)
    (message : List Byte) (input output : grpc_slice_buffer)
    (hv : valid message input.bytes) (hne : input.slices ≠ [])
    (hlen : ∀ sl ∈ input.slices, sl.length ≤ uint_max)
    (hmid : ∀ sl ∈ input.slices.dropLast, sl ≠ []) (fuel : Nat)
    (hfuel : message.length < fuel) :
    (grpc_msg_decompress zlib zstd fuel algorithm input output).exit = Exit.returned 1 ∧
      (grpc_msg_decompress zlib zstd fuel algorithm input output).output.bytes =
        output.bytes ++ message := by
  rcases hdec with ⟨h, hinit, hd⟩ | ⟨h, hinit, hd⟩ | ⟨h, hinit, hfree, hd⟩
  · subst h
    have he : grpc_msg_decompress zlib zstd fuel GRPC_MESSAGE_COMPRESS_DEFLATE input output =
        zlib_decompress zlib fuel input output 0 := by
      simp [grpc_msg_decompress, GRPC_MESSAGE_COMPRESS_DEFLATE, GRPC_MESSAGE_COMPRESS_NONE]
    rw [he]
    exact zlib_decompress_decodes zlib 0 valid hinit hd message input output hv hne hlen hmid
      fuel hfuel
  · subst h
    have he : grpc_msg_decompress zlib zstd fuel GRPC_MESSAGE_COMPRESS_GZIP input output =
        zlib_decompress zlib fuel input output 1 := by
      simp [grpc_msg_decompress, GRPC_MESSAGE_COMPRESS_GZIP, GRPC_MESSAGE_COMPRESS_DEFLATE,
        GRPC_MESSAGE_COMPRESS_NONE]
    rw [he]
    exact zlib_decompress_decodes zlib 1 valid hinit hd message input output hv hne hlen hmid
      fuel hfuel
  · subst h
    have he : grpc_msg_decompress zlib zstd fuel GRPC_MESSAGE_COMPRESS_ZSTD input output =
        zstd_decompress zstd fuel input output := by
      simp [grpc_msg_decompress, GRPC_MESSAGE_COMPRESS_ZSTD, GRPC_MESSAGE_COMPRESS_GZIP,
        GRPC_MESSAGE_COMPRESS_DEFLATE, GRPC_MESSAGE_COMPRESS_NONE]
    rw [he]
    exact zstd_decompress_decodes zstd valid hinit hfree hd message input output hv hne hlen
      hmid fuel hfuel

end Dispatch

/-! ## The claims -/

section Claims

variable {σ τ : Type}

/-- C1: compression never fails outward.  For every algorithm identifier, every input, every
output message and every codec, when `grpc_msg_compress` returns 0 the bytes of the output are
its bytes before the call followed by exactly the bytes of the input; the chunks present
before the call are still there, followed by the chunks of the input and nothing else. -/
theorem compress_zero_is_identity_copy (zlib : Zlib σ) (zstd : Zstd τ) (fuel : Nat)
    (algorithm : Int) (input output : grpc_slice_buffer)
    (h : (grpc_msg_compress zlib zstd fuel algorithm input output).exit = Exit.returned 0) :
    (grpc_msg_compress zlib zstd fuel algorithm input output).output.bytes =
        output.bytes ++ input.bytes ∧
      (grpc_msg_compress zlib zstd fuel algorithm input output).output.slices =
        output.slices ++ input.slices := by
  rw [compress_zero_output zlib zstd fuel algorithm input output h]
  exact ⟨copy_bytes input output, by simp [copy_output]⟩

/-- Witness of C1: gzip with a codec that stores its input gains nothing on a two-byte message,
so the call returns 0 and the output holds its old byte followed by the message. -/
theorem compress_zero_is_identity_copy_witness :
    (grpc_msg_compress storeZlib (constZstd 0 0 0) 4 GRPC_MESSAGE_COMPRESS_GZIP
        (bufferOf [[97, 98]]) (bufferOf [[9]])).exit = Exit.returned 0 ∧
      (grpc_msg_compress storeZlib (constZstd 0 0 0) 4 GRPC_MESSAGE_COMPRESS_GZIP
        (bufferOf [[97, 98]]) (bufferOf [[9]])).output.bytes = [9, 97, 98] :=
  ⟨by decide,
    (compress_zero_is_identity_copy storeZlib (constZstd 0 0 0) 4 GRPC_MESSAGE_COMPRESS_GZIP
      (bufferOf [[97, 98]]) (bufferOf [[9]]) (by decide)).1⟩

/-- C2, the code at the failing inputs: with Zstandard a result that is exactly as long as the
input is reported as compressed.  For the empty message no step call is made, one empty block
is appended and 1 is returned; for a one-byte message and a codec that emits one byte, one byte
is appended and 1 is returned. -/
theorem zstd_compress_equal_length_returns_one :
    (grpc_msg_compress storeZlib storeZstd 4 GRPC_MESSAGE_COMPRESS_ZSTD emptyBuffer
        emptyBuffer).exit = Exit.returned 1 ∧
      (grpc_msg_compress storeZlib storeZstd 4 GRPC_MESSAGE_COMPRESS_ZSTD emptyBuffer
        emptyBuffer).output = bufferOf [[]] ∧
      emptyBuffer.bytes.length = 0 ∧
      (grpc_msg_compress storeZlib storeZstd 4 GRPC_MESSAGE_COMPRESS_ZSTD (bufferOf [[7]])
        emptyBuffer).exit = Exit.returned 1 ∧
      (grpc_msg_compress storeZlib storeZstd 4 GRPC_MESSAGE_COMPRESS_ZSTD (bufferOf [[7]])
        emptyBuffer).output = bufferOf [[7]] ∧
      (grpc_msg_compress storeZlib storeZstd 4 GRPC_MESSAGE_COMPRESS_GZIP (bufferOf [[7]])
        emptyBuffer).exit = Exit.returned 0 := by
  decide

/-- C3: rollback atomicity of decompression.  For every algorithm identifier other than None,
every input, every output message and every codec, when `grpc_msg_decompress` returns 0 the
output message is the one from before the call: same chunks, hence same chunk count, and same
cached byte length. -/
theorem decompress_zero_restores_output (zlib : Zlib σ) (zstd : Zstd τ) (fuel : Nat)
    (algorithm : Int) (input output : grpc_slice_buffer)
    (halg : algorithm ≠ GRPC_MESSAGE_COMPRESS_NONE)
    (h : (grpc_msg_decompress zlib zstd fuel algorithm input output).exit = Exit.returned 0) :
    (grpc_msg_decompress zlib zstd fuel algorithm input output).output.slices = output.slices ∧
      (grpc_msg_decompress zlib zstd fuel algorithm input output).output.count = output.count ∧
      (grpc_msg_decompress zlib zstd fuel algorithm input output).output.length =
        output.length := by
  have key : (grpc_msg_decompress zlib zstd fuel algorithm input output).output = output := by
    unfold grpc_msg_decompress at h ⊢
    rw [if_neg halg] at h ⊢
    split_ifs at h ⊢
    · exact zlib_decompress_zero zlib fuel input output 0 h
    · exact zlib_decompress_zero zlib fuel input output 1 h
    · exact zstd_decompress_zero zstd fuel input output h
    · rfl
  rw [key]
  exact ⟨rfl, rfl, rfl⟩

set_option maxRecDepth 100000 in
/-- Witness of C3: a gzip run over five chunks whose `inflate` fills a whole block on the first
chunk and answers `Z_DATA_ERROR` on the second: 1024 bytes were written and a block was appended
during the run, the call returns 0 and the output holds its one old chunk again. -/
theorem decompress_zero_restores_output_witness :
    ((grpc_msg_decompress lateFailZlib (constZstd 0 0 0) 4 GRPC_MESSAGE_COMPRESS_GZIP
        (bufferOf [[1], [2], [3], [4], [5]]) (bufferOf [[9]])).exit = Exit.returned 0 ∧
      (wroteOf (grpc_msg_decompress lateFailZlib (constZstd 0 0 0) 4 GRPC_MESSAGE_COMPRESS_GZIP
        (bufferOf [[1], [2], [3], [4], [5]]) (bufferOf [[9]])).log).length = 1024) ∧
      (grpc_msg_decompress lateFailZlib (constZstd 0 0 0) 4 GRPC_MESSAGE_COMPRESS_GZIP
        (bufferOf [[1], [2], [3], [4], [5]]) (bufferOf [[9]])).output.slices = [[9]] :=
  ⟨by decide,
    (decompress_zero_restores_output lateFailZlib (constZstd 0 0 0) 4
      GRPC_MESSAGE_COMPRESS_GZIP (bufferOf [[1], [2], [3], [4], [5]]) (bufferOf [[9]])
      (by decide) (by decide)).1⟩

/-- C4: decompression fails hard on a codec error.  For Deflate, Gzip and Zstandard and every
input, if some step call of the run reported a non-recoverable status (zlib: a negative status
other than `Z_BUF_ERROR`; Zstandard: a value for which `ZSTD_isError` holds), then
`grpc_msg_decompress` returns 0: the run neither goes on, nor aborts, nor returns 1. -/
theorem decompress_fatal_status_returns_zero (zlib : Zlib σ) (zstd : Zstd τ) (fuel : Nat)
    (algorithm : Int) (input output : grpc_slice_buffer)
    (halg : algorithm = GRPC_MESSAGE_COMPRESS_DEFLATE ∨ algorithm = GRPC_MESSAGE_COMPRESS_GZIP ∨
      algorithm = GRPC_MESSAGE_COMPRESS_ZSTD)
    (hfatal : ∃ c ∈ (grpc_msg_decompress zlib zstd fuel algorithm input output).log,
      c.isStep = true ∧ c.fatal zstd.ZSTD_isError = true) :
    (grpc_msg_decompress zlib zstd fuel algorithm input output).exit = Exit.returned 0 := by
  by_contra hne
  obtain ⟨c, hc, _, hf⟩ := hfatal
  have hno : NoFatal zstd.ZSTD_isError
      (grpc_msg_decompress zlib zstd fuel algorithm input output).log := by
    rcases halg with rfl | rfl | rfl
    · exact zlib_decompress_noFatal zstd.ZSTD_isError zlib fuel input output 0 hne
    · exact zlib_decompress_noFatal zstd.ZSTD_isError zlib fuel input output 1 hne
    · exact zstd_decompress_noFatal zstd fuel input output hne
  rw [hno c hc] at hf
  exact Bool.false_ne_true hf

/-- Witness of C4: a Zstandard run whose first step call answers an error code returns 0. -/
theorem decompress_fatal_status_returns_zero_witness :
    (∃ c ∈ (grpc_msg_decompress storeZlib (constZstd 0 (2 ^ 64 - 1) 0) 4
        GRPC_MESSAGE_COMPRESS_ZSTD (bufferOf [[1, 2], [3]]) emptyBuffer).log,
      c.isStep = true ∧ c.fatal (constZstd 0 (2 ^ 64 - 1) 0).ZSTD_isError = true) ∧
    (grpc_msg_decompress storeZlib (constZstd 0 (2 ^ 64 - 1) 0) 4
        GRPC_MESSAGE_COMPRESS_ZSTD (bufferOf [[1, 2], [3]]) emptyBuffer).exit =
      Exit.returned 0 :=
  ⟨by decide,
    decompress_fatal_status_returns_zero storeZlib (constZstd 0 (2 ^ 64 - 1) 0) 4
      GRPC_MESSAGE_COMPRESS_ZSTD (bufferOf [[1, 2], [3]]) emptyBuffer (by decide) (by decide)⟩

/-- C5 as stated fails: a gzip stream cut after its two magic bytes, read by an `inflate` that
takes the bytes and answers `Z_BUF_ERROR` to the `Z_FINISH` call, and a Zstandard frame cut
after its four magic bytes, read by a `ZSTD_decompressStream` that answers a non-zero hint, are
both accepted: the call returns 1 although the last step call did not report the end of the
stream, and the output has grown by a chunk. -/
theorem decompress_accepts_unfinished_stream :
    (grpc_msg_decompress (constZlib Z_OK Z_BUF_ERROR) (constZstd 0 1 0) 4
        GRPC_MESSAGE_COMPRESS_GZIP (bufferOf [[31, 139]]) emptyBuffer).exit = Exit.returned 1 ∧
      (lastStep (grpc_msg_decompress (constZlib Z_OK Z_BUF_ERROR) (constZstd 0 1 0) 4
        GRPC_MESSAGE_COMPRESS_GZIP (bufferOf [[31, 139]]) emptyBuffer).log).map Call.streamEnd =
        some false ∧
      (grpc_msg_decompress (constZlib Z_OK Z_BUF_ERROR) (constZstd 0 1 0) 4
        GRPC_MESSAGE_COMPRESS_GZIP (bufferOf [[31, 139]]) emptyBuffer).output.count = 1 ∧
      (grpc_msg_decompress (constZlib Z_OK Z_BUF_ERROR) (constZstd 0 1 0) 4
        GRPC_MESSAGE_COMPRESS_ZSTD (bufferOf [[40, 181, 47, 253]]) emptyBuffer).exit =
        Exit.returned 1 ∧
      (lastStep (grpc_msg_decompress (constZlib Z_OK Z_BUF_ERROR) (constZstd 0 1 0) 4
        GRPC_MESSAGE_COMPRESS_ZSTD (bufferOf [[40, 181, 47, 253]]) emptyBuffer).log).map
        Call.streamEnd = some false := by
  decide

/-- C5, amended: for Deflate, Gzip and Zstandard, `grpc_msg_decompress` returns 1 only if no step
call reported a non-recoverable status and the step calls together took every byte of the
input, in order; whether the codec reported the end of the stream is not looked at.  When it
returns 0 the output is unchanged. -/
theorem decompress_one_only_if_consumed (zlib : Zlib σ) (zstd : Zstd τ) (fuel : Nat)
    (algorithm : Int) (input output : grpc_slice_buffer)
    (halg : algorithm = GRPC_MESSAGE_COMPRESS_DEFLATE ∨ algorithm = GRPC_MESSAGE_COMPRESS_GZIP ∨
      algorithm = GRPC_MESSAGE_COMPRESS_ZSTD) :
    ((grpc_msg_decompress zlib zstd fuel algorithm input output).exit = Exit.returned 1 →
      NoFatal zstd.ZSTD_isError (grpc_msg_decompress zlib zstd fuel algorithm input output).log ∧
      readOf (grpc_msg_decompress zlib zstd fuel algorithm input output).log = input.bytes) ∧
    ((grpc_msg_decompress zlib zstd fuel algorithm input output).exit = Exit.returned 0 →
      (grpc_msg_decompress zlib zstd fuel algorithm input output).output = output) := by
  have h10 : Exit.returned 1 ≠ Exit.returned 0 := by decide
  rcases halg with rfl | rfl | rfl
  · refine ⟨fun h => ⟨?_, zlib_decompress_read zlib fuel input output 0 h⟩,
      fun h => zlib_decompress_zero zlib fuel input output 0 h⟩
    exact zlib_decompress_noFatal zstd.ZSTD_isError zlib fuel input output 0 (h ▸ h10)
  · refine ⟨fun h => ⟨?_, zlib_decompress_read zlib fuel input output 1 h⟩,
      fun h => zlib_decompress_zero zlib fuel input output 1 h⟩
    exact zlib_decompress_noFatal zstd.ZSTD_isError zlib fuel input output 1 (h ▸ h10)
  · refine ⟨fun h => ⟨?_, zstd_decompress_read zstd fuel input output h⟩,
      fun h => zstd_decompress_zero zstd fuel input output h⟩
    exact zstd_decompress_noFatal zstd fuel input output (h ▸ h10)

/-- Witness of amended C5: a gzip run over two chunks with a storing codec returns 1 and its
step calls took the three input bytes; a run whose `inflate` answers `Z_DATA_ERROR` returns 0
and leaves the output as it was. -/
theorem decompress_one_only_if_consumed_witness :
    ((grpc_msg_decompress storeZlib storeZstd 4 GRPC_MESSAGE_COMPRESS_GZIP
        (bufferOf [[1, 2], [3]]) (bufferOf [[9]])).exit = Exit.returned 1 ∧
      readOf (grpc_msg_decompress storeZlib storeZstd 4 GRPC_MESSAGE_COMPRESS_GZIP
        (bufferOf [[1, 2], [3]]) (bufferOf [[9]])).log = [1, 2, 3]) ∧
    ((grpc_msg_decompress (constZlib Z_OK Z_DATA_ERROR) storeZstd 4 GRPC_MESSAGE_COMPRESS_GZIP
        (bufferOf [[1, 2], [3]]) (bufferOf [[9]])).exit = Exit.returned 0 ∧
      (grpc_msg_decompress (constZlib Z_OK Z_DATA_ERROR) storeZstd 4 GRPC_MESSAGE_COMPRESS_GZIP
        (bufferOf [[1, 2], [3]]) (bufferOf [[9]])).output = bufferOf [[9]]) :=
  ⟨⟨by decide,
      ((decompress_one_only_if_consumed storeZlib storeZstd 4 GRPC_MESSAGE_COMPRESS_GZIP
        (bufferOf [[1, 2], [3]]) (bufferOf [[9]]) (by decide)).1 (by decide)).2⟩,
    ⟨by decide,
      (decompress_one_only_if_consumed (constZlib Z_OK Z_DATA_ERROR) storeZstd 4
        GRPC_MESSAGE_COMPRESS_GZIP (bufferOf [[1, 2], [3]]) (bufferOf [[9]]) (by decide)).2
        (by decide)⟩⟩

/-- C6: round trip.  For Deflate, Gzip and Zstandard, with conforming codec libraries and a
message whose cached length is that of its chunks: if `grpc_msg_compress` into an empty output
returns 1 and produces the compressed message, then `grpc_msg_decompress` of that message, given
more fuel than the message has bytes, returns 1 and appends exactly the bytes of the message to
its output. -/
theorem round_trip (zlib : Zlib σ) (zstd : Zstd τ) (hdeflate : ZlibConforming zlib 15)
    (hgzip : ZlibConforming zlib 31) (hzstd : ZstdConforming zstd) (algorithm : Int)
    (halg : algorithm = GRPC_MESSAGE_COMPRESS_DEFLATE ∨ algorithm = GRPC_MESSAGE_COMPRESS_GZIP ∨
      algorithm = GRPC_MESSAGE_COMPRESS_ZSTD)
    (input : grpc_slice_buffer) (hwf : input.wf) (fuel : Nat)
    (hc : (grpc_msg_compress zlib zstd fuel algorithm input emptyBuffer).exit =
      Exit.returned 1)
    (output : grpc_slice_buffer) (fuel2 : Nat) (hfuel : input.bytes.length < fuel2) :
    (grpc_msg_decompress zlib zstd fuel2 algorithm
        (grpc_msg_compress zlib zstd fuel algorithm input emptyBuffer).output output).exit =
        Exit.returned 1 ∧
      (grpc_msg_decompress zlib zstd fuel2 algorithm
        (grpc_msg_compress zlib zstd fuel algorithm input emptyBuffer).output output).output.bytes =
        output.bytes ++ input.bytes := by
  have hblock : OUTPUT_BLOCK_SIZE ≤ uint_max := by decide
  obtain ⟨r, hr, hinner, hout⟩ := compress_one zlib zstd fuel algorithm input emptyBuffer hc
  rw [hout]
  rcases halg with rfl | rfl | rfl
  · have hci : compress_inner zlib zstd fuel GRPC_MESSAGE_COMPRESS_DEFLATE input emptyBuffer =
        zlib_compress zlib fuel input emptyBuffer 0 := by
      simp [compress_inner, GRPC_MESSAGE_COMPRESS_DEFLATE, GRPC_MESSAGE_COMPRESS_NONE]
    have hdi : ∀ inp, grpc_msg_decompress zlib zstd fuel2 GRPC_MESSAGE_COMPRESS_DEFLATE inp
        output = zlib_decompress zlib fuel2 inp output 0 := by
      intro inp
      simp [grpc_msg_decompress, GRPC_MESSAGE_COMPRESS_DEFLATE, GRPC_MESSAGE_COMPRESS_NONE]
    rw [hci] at hinner ⊢
    rw [hdi]
    rcases zlib_compress_exit zlib fuel input emptyBuffer 0 r hinner with h0 | h1
    · exact absurd h0 hr
    · subst h1
      obtain ⟨hinit, valid, henc, hdec⟩ := hdeflate
      obtain ⟨hv, hne, hlen, hmid⟩ :=
        zlib_compress_encoding zlib fuel input 0 valid henc hwf hinner
      exact zlib_decompress_decodes zlib 0 valid hinit hdec input.bytes _ output hv hne
        (fun sl hsl => le_trans (hlen sl hsl) hblock) hmid fuel2 hfuel
  · have hci : compress_inner zlib zstd fuel GRPC_MESSAGE_COMPRESS_GZIP input emptyBuffer =
        zlib_compress zlib fuel input emptyBuffer 1 := by
      simp [compress_inner, GRPC_MESSAGE_COMPRESS_DEFLATE, GRPC_MESSAGE_COMPRESS_NONE,
        GRPC_MESSAGE_COMPRESS_GZIP]
    have hdi : ∀ inp, grpc_msg_decompress zlib zstd fuel2 GRPC_MESSAGE_COMPRESS_GZIP inp
        output = zlib_decompress zlib fuel2 inp output 1 := by
      intro inp
      simp [grpc_msg_decompress, GRPC_MESSAGE_COMPRESS_DEFLATE, GRPC_MESSAGE_COMPRESS_NONE,
        GRPC_MESSAGE_COMPRESS_GZIP]
    rw [hci] at hinner ⊢
    rw [hdi]
    rcases zlib_compress_exit zlib fuel input emptyBuffer 1 r hinner with h0 | h1
    · exact absurd h0 hr
    · subst h1
      obtain ⟨hinit, valid, henc, hdec⟩ := hgzip
      obtain ⟨hv, hne, hlen, hmid⟩ :=
        zlib_compress_encoding zlib fuel input 1 valid henc hwf hinner
      exact zlib_decompress_decodes zlib 1 valid hinit hdec input.bytes _ output hv hne
        (fun sl hsl => le_trans (hlen sl hsl) hblock) hmid fuel2 hfuel
  · have hci : compress_inner zlib zstd fuel GRPC_MESSAGE_COMPRESS_ZSTD input emptyBuffer =
        zstd_compress zstd fuel input emptyBuffer := by
      simp [compress_inner, GRPC_MESSAGE_COMPRESS_DEFLATE, GRPC_MESSAGE_COMPRESS_NONE,
        GRPC_MESSAGE_COMPRESS_GZIP, GRPC_MESSAGE_COMPRESS_ZSTD]
    have hdi : ∀ inp, grpc_msg_decompress zlib zstd fuel2 GRPC_MESSAGE_COMPRESS_ZSTD inp
        output = zstd_decompress zstd fuel2 inp output := by
      intro inp
      simp [grpc_msg_decompress, GRPC_MESSAGE_COMPRESS_DEFLATE, GRPC_MESSAGE_COMPRESS_NONE,
        GRPC_MESSAGE_COMPRESS_GZIP, GRPC_MESSAGE_COMPRESS_ZSTD]
    rw [hci] at hinner ⊢
    rw [hdi]
    rcases zstd_compress_exit zstd fuel input emptyBuffer r hinner with h0 | h1
    · exact absurd h0 hr
    · subst h1
      obtain ⟨hinit, hfree, valid, hnil, henc, hdec⟩ := hzstd
      obtain ⟨hv, hne, hlen, hmid⟩ :=
        zstd_compress_encoding zstd fuel input valid hnil henc hinner
      exact zstd_decompress_decodes zstd valid hinit hfree hdec input.bytes _ output hv hne
        (fun sl hsl => le_trans (hlen sl hsl) hblock) hmid fuel2 hfuel

/-- Witness of C6: with the pair codec, gzip compresses the four one-byte chunks 5, 5, 7, 7
to the two bytes 5, 7 and Zstandard does the same for the two chunks 5 5 and 7 7; decompressing
gives the four bytes back behind the byte the output already held.  With `stallZstd`, whose
decoder gives up on repeated calls without progress, the chunks 1 2 and 3 are stored as one
block and come back as they were.  With `blockZlib`, whose `inflate` honours `Z_BLOCK`, Deflate
gives the four bytes back as well. -/
theorem round_trip_witness :
    ((grpc_msg_compress pairZlib pairZstd 4 GRPC_MESSAGE_COMPRESS_GZIP
        (bufferOf [[5], [5], [7], [7]]) emptyBuffer).output = bufferOf [[5, 7]] ∧
      (grpc_msg_decompress pairZlib pairZstd 5 GRPC_MESSAGE_COMPRESS_GZIP
        (grpc_msg_compress pairZlib pairZstd 4 GRPC_MESSAGE_COMPRESS_GZIP
          (bufferOf [[5], [5], [7], [7]]) emptyBuffer).output (bufferOf [[9]])).output.bytes =
        [9] ++ [5, 5, 7, 7]) ∧
    ((grpc_msg_compress pairZlib pairZstd 4 GRPC_MESSAGE_COMPRESS_ZSTD
        (bufferOf [[5, 5], [7, 7]]) emptyBuffer).output = bufferOf [[5, 7]] ∧
      (grpc_msg_decompress pairZlib pairZstd 5 GRPC_MESSAGE_COMPRESS_ZSTD
        (grpc_msg_compress pairZlib pairZstd 4 GRPC_MESSAGE_COMPRESS_ZSTD
          (bufferOf [[5, 5], [7, 7]]) emptyBuffer).output (bufferOf [[9]])).exit =
        Exit.returned 1) ∧
    ((grpc_msg_compress pairZlib stallZstd 4 GRPC_MESSAGE_COMPRESS_ZSTD
        (bufferOf [[1, 2], [3]]) emptyBuffer).output = bufferOf [[1, 2, 3]] ∧
      (grpc_msg_decompress pairZlib stallZstd 5 GRPC_MESSAGE_COMPRESS_ZSTD
        (grpc_msg_compress pairZlib stallZstd 4 GRPC_MESSAGE_COMPRESS_ZSTD
          (bufferOf [[1, 2], [3]]) emptyBuffer).output (bufferOf [[9]])).output.bytes =
        [9] ++ [1, 2, 3]) ∧
    ((grpc_msg_compress blockZlib pairZstd 4 GRPC_MESSAGE_COMPRESS_DEFLATE
        (bufferOf [[5], [5], [7], [7]]) emptyBuffer).output = bufferOf [[5, 7]] ∧
      (grpc_msg_decompress blockZlib pairZstd 5 GRPC_MESSAGE_COMPRESS_DEFLATE
        (grpc_msg_compress blockZlib pairZstd 4 GRPC_MESSAGE_COMPRESS_DEFLATE
          (bufferOf [[5], [5], [7], [7]]) emptyBuffer).output (bufferOf [[9]])).output.bytes =
        [9] ++ [5, 5, 7, 7]) :=
  ⟨⟨by decide,
      (round_trip pairZlib pairZstd (pairZlib_conforming 15) (pairZlib_conforming 31)
        pairZstd_conforming GRPC_MESSAGE_COMPRESS_GZIP (by decide)
        (bufferOf [[5], [5], [7], [7]]) rfl 4 (by decide) (bufferOf [[9]]) 5
        (by decide)).2⟩,
    ⟨by decide,
      (round_trip pairZlib pairZstd (pairZlib_conforming 15) (pairZlib_conforming 31)
        pairZstd_conforming GRPC_MESSAGE_COMPRESS_ZSTD (by decide)
        (bufferOf [[5, 5], [7, 7]]) rfl 4 (by decide) (bufferOf [[9]]) 5
        (by decide)).1⟩,
    ⟨by decide,
      (round_trip pairZlib stallZstd (pairZlib_conforming 15) (pairZlib_conforming 31)
        stallZstd_conforming GRPC_MESSAGE_COMPRESS_ZSTD (by decide)
        (bufferOf [[1, 2], [3]]) rfl 4 (by decide) (bufferOf [[9]]) 5
        (by decide)).2⟩,
    ⟨by decide,
      (round_trip blockZlib pairZstd (blockZlib_conforming 15) (blockZlib_conforming 31)
        pairZstd_conforming GRPC_MESSAGE_COMPRESS_DEFLATE (by decide)
        (bufferOf [[5], [5], [7], [7]]) rfl 4 (by decide) (bufferOf [[9]]) 5
        (by decide)).2⟩⟩

/-- C7: compression with no codec.  For None and for every identifier that is not Deflate, Gzip
or Zstandard, `grpc_msg_compress` makes no library call, returns 0 and leaves in the output its
previous bytes followed by the bytes of the input in chunk order. -/
theorem compress_without_codec (zlib : Zlib σ) (zstd : Zstd τ) (fuel : Nat)
    (algorithm : Int) (input output : grpc_slice_buffer)
    (hd : algorithm ≠ GRPC_MESSAGE_COMPRESS_DEFLATE)
    (hg : algorithm ≠ GRPC_MESSAGE_COMPRESS_GZIP)
    (hz : algorithm ≠ GRPC_MESSAGE_COMPRESS_ZSTD) :
    (grpc_msg_compress zlib zstd fuel algorithm input output).log = [] ∧
      (grpc_msg_compress zlib zstd fuel algorithm input output).exit = Exit.returned 0 ∧
      (grpc_msg_compress zlib zstd fuel algorithm input output).output.bytes =
        output.bytes ++ input.bytes := by
  have hi : compress_inner zlib zstd fuel algorithm input output =
      { exit := Exit.returned 0, output := output, log := [] } := by
    unfold compress_inner
    simp [hd, hg, hz]
  refine ⟨?_, ?_, ?_⟩
  · simp [grpc_msg_compress, hi]
  · simp [grpc_msg_compress, hi]
  · simp [grpc_msg_compress, hi, copy_bytes]

/-- Witness of C7: the chunks "Hello, " and "World!" under None give "Hello, World!". -/
theorem compress_without_codec_witness :
    (grpc_msg_compress storeZlib (constZstd 0 0 0) 0 GRPC_MESSAGE_COMPRESS_NONE
        (bufferOf [ascii "Hello, ", ascii "World!"]) emptyBuffer).exit = Exit.returned 0 ∧
      (grpc_msg_compress storeZlib (constZstd 0 0 0) 0 GRPC_MESSAGE_COMPRESS_NONE
        (bufferOf [ascii "Hello, ", ascii "World!"]) emptyBuffer).output.bytes =
        ascii "Hello, World!" :=
  ⟨(compress_without_codec storeZlib (constZstd 0 0 0) 0 GRPC_MESSAGE_COMPRESS_NONE
      (bufferOf [ascii "Hello, ", ascii "World!"]) emptyBuffer (by decide) (by decide)
      (by decide)).2.1, by decide⟩

/-- C8: identity decompression.  For every input and output message, `grpc_msg_decompress` with
algorithm None returns 1, makes no library call and leaves in the output its previous bytes
followed by exactly the bytes of the input, in chunk order. -/
theorem decompress_none_is_copy (zlib : Zlib σ) (zstd : Zstd τ) (fuel : Nat)
    (input output : grpc_slice_buffer) :
    (grpc_msg_decompress zlib zstd fuel GRPC_MESSAGE_COMPRESS_NONE input output).exit =
        Exit.returned 1 ∧
      (grpc_msg_decompress zlib zstd fuel GRPC_MESSAGE_COMPRESS_NONE input output).log = [] ∧
      (grpc_msg_decompress zlib zstd fuel GRPC_MESSAGE_COMPRESS_NONE input output).output.bytes =
        output.bytes ++ input.bytes ∧
      (grpc_msg_decompress zlib zstd fuel GRPC_MESSAGE_COMPRESS_NONE input output).output.slices =
        output.slices ++ input.slices := by
  have hrun : grpc_msg_decompress zlib zstd fuel GRPC_MESSAGE_COMPRESS_NONE input output =
      { exit := Exit.returned 1, output := (copy input output).2, log := [] } := by
    simp [grpc_msg_decompress, copy]
  rw [hrun]
  exact ⟨rfl, rfl, copy_bytes input output, by simp [copy_output]⟩

/-- C9: unsupported algorithm on decompression.  For every identifier that is not None,
Deflate, Gzip or Zstandard, `grpc_msg_decompress` returns 0, makes no library call and leaves
the output message unchanged. -/
theorem decompress_unsupported (zlib : Zlib σ) (zstd : Zstd τ) (fuel : Nat)
    (algorithm : Int) (input output : grpc_slice_buffer)
    (hn : algorithm ≠ GRPC_MESSAGE_COMPRESS_NONE)
    (hd : algorithm ≠ GRPC_MESSAGE_COMPRESS_DEFLATE)
    (hg : algorithm ≠ GRPC_MESSAGE_COMPRESS_GZIP)
    (hz : algorithm ≠ GRPC_MESSAGE_COMPRESS_ZSTD) :
    grpc_msg_decompress zlib zstd fuel algorithm input output =
      { exit := Exit.returned 0, output := output, log := [] } := by
  unfold grpc_msg_decompress
  simp [hn, hd, hg, hz]

/-- Witness of C9: the sentinel `GRPC_MESSAGE_COMPRESS_ALGORITHMS_COUNT` is refused and the
output keeps its one chunk. -/
theorem decompress_unsupported_witness :
    grpc_msg_decompress storeZlib (constZstd 0 0 0) 0 GRPC_MESSAGE_COMPRESS_ALGORITHMS_COUNT
        (bufferOf [[1, 2, 3]]) (bufferOf [[9]]) =
      { exit := Exit.returned 0, output := bufferOf [[9]], log := [] } :=
  decompress_unsupported storeZlib (constZstd 0 0 0) 0 GRPC_MESSAGE_COMPRESS_ALGORITHMS_COUNT
    (bufferOf [[1, 2, 3]]) (bufferOf [[9]]) (by decide) (by decide) (by decide) (by decide)

/-- C10 as stated fails for Deflate and Gzip: when `deflateInit2` or `inflateInit2` answers
`Z_MEM_ERROR`, the assertion `GPR_ASSERT(r == Z_OK)` fails and the call aborts; it does not
return 0. -/
theorem zlib_init_failure_aborts :
    (grpc_msg_compress (constZlib Z_MEM_ERROR Z_OK) storeZstd 4 GRPC_MESSAGE_COMPRESS_DEFLATE
        (bufferOf [[1, 2, 3]]) emptyBuffer).exit = Exit.aborted ∧
      (grpc_msg_compress (constZlib Z_MEM_ERROR Z_OK) storeZstd 4 GRPC_MESSAGE_COMPRESS_GZIP
        (bufferOf [[1, 2, 3]]) emptyBuffer).exit = Exit.aborted ∧
      (grpc_msg_decompress (constZlib Z_MEM_ERROR Z_OK) storeZstd 4
        GRPC_MESSAGE_COMPRESS_DEFLATE (bufferOf [[1, 2, 3]]) emptyBuffer).exit = Exit.aborted ∧
      (grpc_msg_decompress (constZlib Z_MEM_ERROR Z_OK) storeZstd 4 GRPC_MESSAGE_COMPRESS_GZIP
        (bufferOf [[1, 2, 3]]) emptyBuffer).exit = Exit.aborted := by
  decide

/-- C10, amended: for Zstandard a failing init call is reported, not fatal: when
`ZSTD_initCStream` answers an error code `grpc_msg_compress` returns 0 with the output holding
its old chunks followed by the chunks of the input, and when `ZSTD_initDStream` answers an
error code `grpc_msg_decompress` returns 0 with the output unchanged; no step call is made.
For Deflate and Gzip an init status other than `Z_OK` fails `GPR_ASSERT(r == Z_OK)` and the
call aborts, in both directions. -/
theorem init_failure_outcome (zlib : Zlib σ) (zstd : Zstd τ) (fuel : Nat)
    (input output : grpc_slice_buffer) :
    (zstd.ZSTD_isError (zstd.ZSTD_initCStream zstd.ZSTD_createCStream 5).1 > 0 →
      (grpc_msg_compress zlib zstd fuel GRPC_MESSAGE_COMPRESS_ZSTD input output).exit =
          Exit.returned 0 ∧
        (grpc_msg_compress zlib zstd fuel GRPC_MESSAGE_COMPRESS_ZSTD input output).output.slices =
          output.slices ++ input.slices ∧
        ∀ c ∈ (grpc_msg_compress zlib zstd fuel GRPC_MESSAGE_COMPRESS_ZSTD input output).log,
          c.isStep = false) ∧
    (zstd.ZSTD_isError (zstd.ZSTD_initDStream zstd.ZSTD_createDStream).1 > 0 →
      (grpc_msg_decompress zlib zstd fuel GRPC_MESSAGE_COMPRESS_ZSTD input output).exit =
          Exit.returned 0 ∧
        (grpc_msg_decompress zlib zstd fuel GRPC_MESSAGE_COMPRESS_ZSTD input output).output =
          output ∧
        ∀ c ∈ (grpc_msg_decompress zlib zstd fuel GRPC_MESSAGE_COMPRESS_ZSTD input output).log,
          c.isStep = false) ∧
    ((zlib.deflateInit2 Z_DEFAULT_COMPRESSION Z_DEFLATED 15 8 Z_DEFAULT_STRATEGY).1 ≠ Z_OK →
      (grpc_msg_compress zlib zstd fuel GRPC_MESSAGE_COMPRESS_DEFLATE input output).exit =
        Exit.aborted) ∧
    ((zlib.deflateInit2 Z_DEFAULT_COMPRESSION Z_DEFLATED 31 8 Z_DEFAULT_STRATEGY).1 ≠ Z_OK →
      (grpc_msg_compress zlib zstd fuel GRPC_MESSAGE_COMPRESS_GZIP input output).exit =
        Exit.aborted) ∧
    ((zlib.inflateInit2 15).1 ≠ Z_OK →
      (grpc_msg_decompress zlib zstd fuel GRPC_MESSAGE_COMPRESS_DEFLATE input output).exit =
        Exit.aborted) ∧
    ((zlib.inflateInit2 31).1 ≠ Z_OK →
      (grpc_msg_decompress zlib zstd fuel GRPC_MESSAGE_COMPRESS_GZIP input output).exit =
        Exit.aborted) := by
  refine ⟨?_, ?_, ?_, ?_, ?_, ?_⟩
  · intro h
    have hi : compress_inner zlib zstd fuel GRPC_MESSAGE_COMPRESS_ZSTD input output =
        zstd_compress_error2 zstd
          { pStream := (zstd.ZSTD_initCStream zstd.ZSTD_createCStream 5).2, src := [],
            outbuf := [], output := output,
            log := [Call.ZSTD_createCStream,
              Call.ZSTD_initCStream 5 (zstd.ZSTD_initCStream zstd.ZSTD_createCStream 5).1] }
          output.count output.length := by
      simp [compress_inner, GRPC_MESSAGE_COMPRESS_ZSTD, GRPC_MESSAGE_COMPRESS_NONE,
        GRPC_MESSAGE_COMPRESS_DEFLATE, GRPC_MESSAGE_COMPRESS_GZIP, zstd_compress, h]
    have ho := zstd_compress_error2_output zstd
      { pStream := (zstd.ZSTD_initCStream zstd.ZSTD_createCStream 5).2, src := [],
        outbuf := [], output := output,
        log := [Call.ZSTD_createCStream,
          Call.ZSTD_initCStream 5 (zstd.ZSTD_initCStream zstd.ZSTD_createCStream 5).1] }
      output (List.prefix_refl _)
    refine ⟨?_, ?_, ?_⟩
    · simp [grpc_msg_compress, hi, zstd_compress_error2_exit]
    · simp [grpc_msg_compress, hi, zstd_compress_error2_exit, ho, copy_output]
    · intro c hc
      simp [grpc_msg_compress, hi, zstd_compress_error2_exit] at hc
      simp only [zstd_compress_error2, List.mem_append, List.mem_cons, List.mem_singleton,
        List.not_mem_nil, or_false] at hc
      rcases hc with (rfl | rfl) | rfl <;> rfl
  · intro h
    have hi : grpc_msg_decompress zlib zstd fuel GRPC_MESSAGE_COMPRESS_ZSTD input output =
        zstd_decompress_error2 zstd
          { pStream := (zstd.ZSTD_initDStream zstd.ZSTD_createDStream).2, src := [],
            outbuf := [], output := output,
            log := [Call.ZSTD_createDStream,
              Call.ZSTD_initDStream (zstd.ZSTD_initDStream zstd.ZSTD_createDStream).1] }
          output.count output.length := by
      simp [grpc_msg_decompress, GRPC_MESSAGE_COMPRESS_ZSTD, GRPC_MESSAGE_COMPRESS_NONE,
        GRPC_MESSAGE_COMPRESS_DEFLATE, GRPC_MESSAGE_COMPRESS_GZIP, zstd_decompress, h]
    rw [hi]
    refine ⟨rfl, zstd_decompress_error2_output zstd _ output (List.prefix_refl _), ?_⟩
    intro c hc
    simp only [zstd_decompress_error2, List.mem_append, List.mem_cons, List.mem_singleton,
      List.not_mem_nil, or_false] at hc
    rcases hc with (rfl | rfl) | rfl <;> rfl
  · intro h
    have h15 : windowBits 0 = 15 := by decide
    simp [grpc_msg_compress, compress_inner, GRPC_MESSAGE_COMPRESS_NONE,
      GRPC_MESSAGE_COMPRESS_DEFLATE, zlib_compress, h15, h]
  · intro h
    have h31 : windowBits 1 = 31 := by decide
    simp [grpc_msg_compress, compress_inner, GRPC_MESSAGE_COMPRESS_NONE,
      GRPC_MESSAGE_COMPRESS_DEFLATE, GRPC_MESSAGE_COMPRESS_GZIP, zlib_compress, h31, h]
  · intro h
    have h15 : windowBits 0 = 15 := by decide
    simp [grpc_msg_decompress, GRPC_MESSAGE_COMPRESS_NONE,
      GRPC_MESSAGE_COMPRESS_DEFLATE, zlib_decompress, h15, h]
  · intro h
    have h31 : windowBits 1 = 31 := by decide
    simp [grpc_msg_decompress, GRPC_MESSAGE_COMPRESS_NONE,
      GRPC_MESSAGE_COMPRESS_DEFLATE, GRPC_MESSAGE_COMPRESS_GZIP, zlib_decompress, h31, h]

/-- Witness of amended C10: a Zstandard whose init calls answer the error code `2 ^ 64 - 64`
(memory allocation) gives 0 and the identity copy on compression and 0 and the untouched output
on decompression; a zlib whose init calls answer `Z_MEM_ERROR` aborts. -/
theorem init_failure_outcome_witness :
    (grpc_msg_compress (constZlib Z_MEM_ERROR Z_OK) (constZstd (2 ^ 64 - 64) 0 0) 4
        GRPC_MESSAGE_COMPRESS_ZSTD (bufferOf [[1, 2, 3]]) (bufferOf [[9]])).output.slices =
        [[9], [1, 2, 3]] ∧
      (grpc_msg_decompress (constZlib Z_MEM_ERROR Z_OK) (constZstd (2 ^ 64 - 64) 0 0) 4
        GRPC_MESSAGE_COMPRESS_ZSTD (bufferOf [[1, 2, 3]]) (bufferOf [[9]])).output =
        bufferOf [[9]] ∧
      (grpc_msg_compress (constZlib Z_MEM_ERROR Z_OK) (constZstd (2 ^ 64 - 64) 0 0) 4
        GRPC_MESSAGE_COMPRESS_GZIP (bufferOf [[1, 2, 3]]) (bufferOf [[9]])).exit =
        Exit.aborted :=
  ⟨((init_failure_outcome (constZlib Z_MEM_ERROR Z_OK) (constZstd (2 ^ 64 - 64) 0 0) 4
      (bufferOf [[1, 2, 3]]) (bufferOf [[9]])).1 (by decide)).2.1,
    ((init_failure_outcome (constZlib Z_MEM_ERROR Z_OK) (constZstd (2 ^ 64 - 64) 0 0) 4
      (bufferOf [[1, 2, 3]]) (bufferOf [[9]])).2.1 (by decide)).2.1,
    (init_failure_outcome (constZlib Z_MEM_ERROR Z_OK) (constZstd (2 ^ 64 - 64) 0 0) 4
      (bufferOf [[1, 2, 3]]) (bufferOf [[9]])).2.2.2.1 (by decide)⟩

/-- C11: release of the codec stream.  `zstd_compress` on the one-byte message `[7]` with a codec
that writes two bytes for it completes its loop, frees the stream, appends the last block, finds
no gain and jumps to `error2`, which frees the stream a second time: the log of the run ends with
two `ZSTD_freeCStream` calls.  The same happens in both Zstandard drivers when the free call
itself reports an error.  `zlib_compress` on its no-gain path releases once. -/
theorem zstd_no_gain_releases_twice :
    (zstd_compress expandZstd 2 (bufferOf [[7]]) emptyBuffer).exit = Exit.returned 0 ∧
      (zstd_compress expandZstd 2 (bufferOf [[7]]) emptyBuffer).log =
        [Call.ZSTD_createCStream, Call.ZSTD_initCStream 5 0,
          Call.ZSTD_compressStream2 ZSTD_e_continue [7] 1024 0 1 [7, 7],
          Call.ZSTD_compressStream2 ZSTD_e_flush [] 1022 0 0 [],
          Call.ZSTD_freeCStream 0, Call.ZSTD_freeCStream 0] ∧
      releases (zstd_compress expandZstd 2 (bufferOf [[7]]) emptyBuffer).log = 2 ∧
      releases (zstd_compress (constZstd 0 0 (2 ^ 64 - 1)) 2 (bufferOf [[7]]) emptyBuffer).log
        = 2 ∧
      releases (zstd_decompress (constZstd 0 0 (2 ^ 64 - 1)) 2 (bufferOf [[7]]) emptyBuffer).log
        = 2 ∧
      (zlib_compress storeZlib 2 (bufferOf [[7]]) emptyBuffer 0).exit = Exit.returned 0 ∧
      releases (zlib_compress storeZlib 2 (bufferOf [[7]]) emptyBuffer 0).log = 1 := by
  decide

/-- C12: the no-gain test reads the whole cached length of the output.  The four bytes
`5 5 7 7` compress with the pair codec to the two bytes `5 7`.  Into an empty output
`grpc_msg_compress` returns 1 and appends those two bytes, for Gzip and for Zstandard; into an
output that already holds two (Gzip) or three (Zstandard) bytes the same call with the same codec
returns 0 and appends the four input bytes unchanged. -/
theorem compress_verdict_depends_on_output :
    (grpc_msg_compress pairZlib pairZstd 2 GRPC_MESSAGE_COMPRESS_GZIP
        (bufferOf [[5], [5], [7], [7]]) emptyBuffer).exit = Exit.returned 1 ∧
      (grpc_msg_compress pairZlib pairZstd 2 GRPC_MESSAGE_COMPRESS_GZIP
        (bufferOf [[5], [5], [7], [7]]) emptyBuffer).output.bytes = [5, 7] ∧
      (grpc_msg_compress pairZlib pairZstd 2 GRPC_MESSAGE_COMPRESS_GZIP
        (bufferOf [[5], [5], [7], [7]]) (bufferOf [[9, 9]])).exit = Exit.returned 0 ∧
      (grpc_msg_compress pairZlib pairZstd 2 GRPC_MESSAGE_COMPRESS_GZIP
        (bufferOf [[5], [5], [7], [7]]) (bufferOf [[9, 9]])).output.bytes =
        [9, 9] ++ [5, 5, 7, 7] ∧
      (grpc_msg_compress pairZlib pairZstd 2 GRPC_MESSAGE_COMPRESS_ZSTD
        (bufferOf [[5, 5], [7, 7]]) emptyBuffer).exit = Exit.returned 1 ∧
      (grpc_msg_compress pairZlib pairZstd 2 GRPC_MESSAGE_COMPRESS_ZSTD
        (bufferOf [[5, 5], [7, 7]]) emptyBuffer).output.bytes = [5, 7] ∧
      (grpc_msg_compress pairZlib pairZstd 2 GRPC_MESSAGE_COMPRESS_ZSTD
        (bufferOf [[5, 5], [7, 7]]) (bufferOf [[9, 9, 9]])).exit = Exit.returned 0 ∧
      (grpc_msg_compress pairZlib pairZstd 2 GRPC_MESSAGE_COMPRESS_ZSTD
        (bufferOf [[5, 5], [7, 7]]) (bufferOf [[9, 9, 9]])).output.bytes =
        [9, 9, 9] ++ [5, 5, 7, 7] := by
  decide

/-- C13: decompression has no size check.  For Deflate, Gzip and Zstandard, whenever
`grpc_msg_decompress` returns, no library call of the run reported an error on the stream (no
step call with a non-recoverable status, no Zstandard init or free call flagged by
`ZSTD_isError`) and no step call left a chunk unconsumed, the value returned is 1 and the output
holds its previous bytes followed by all the bytes the step calls wrote; the length of what was
written plays no part. -/
theorem decompress_has_no_size_check (zlib : Zlib σ) (zstd : Zstd τ) (fuel : Nat)
    (algorithm : Int) (input output : grpc_slice_buffer) (r : Int)
    (halg : algorithm = GRPC_MESSAGE_COMPRESS_DEFLATE ∨ algorithm = GRPC_MESSAGE_COMPRESS_GZIP ∨
      algorithm = GRPC_MESSAGE_COMPRESS_ZSTD)
    (hret : (grpc_msg_decompress zlib zstd fuel algorithm input output).exit = Exit.returned r)
    (hok : ∀ c ∈ (grpc_msg_decompress zlib zstd fuel algorithm input output).log,
      c.failed zstd.ZSTD_isError = false ∧ c.starved = false) :
    r = 1 ∧ (grpc_msg_decompress zlib zstd fuel algorithm input output).output.bytes =
      output.bytes ++ wroteOf (grpc_msg_decompress zlib zstd fuel algorithm input output).log := by
  have hzlib : ∀ gzip : Int,
      (zlib_decompress zlib fuel input output gzip).exit = Exit.returned r →
      (∀ c ∈ (zlib_decompress zlib fuel input output gzip).log,
        c.failed zstd.ZSTD_isError = false ∧ c.starved = false) →
      r = 1 ∧ (zlib_decompress zlib fuel input output gzip).output.bytes =
        output.bytes ++ wroteOf (zlib_decompress zlib fuel input output gzip).log := by
    intro gzip hr hc
    have hclean : Clean zstd.ZSTD_isError (zlib_decompress zlib fuel input output gzip).log :=
      fun c hmem => ⟨fatal_of_not_failed _ c (hc c hmem).1, (hc c hmem).2⟩
    have hr1 : r = 1 := by
      rcases zlib_decompress_flag zlib fuel input output gzip r hr with h | h
      · subst h
        exact absurd ((zlib_decompress_verdict zstd.ZSTD_isError zlib fuel input output gzip).1 hr)
          (clean_not_dirty hclean)
      · exact h
    subst hr1
    exact ⟨rfl, zlib_decompress_bytes zlib fuel input output gzip hr⟩
  rcases halg with h | h | h
  · subst h
    have he : grpc_msg_decompress zlib zstd fuel GRPC_MESSAGE_COMPRESS_DEFLATE input output =
        zlib_decompress zlib fuel input output 0 := by
      simp [grpc_msg_decompress, GRPC_MESSAGE_COMPRESS_DEFLATE, GRPC_MESSAGE_COMPRESS_NONE]
    rw [he] at hret hok ⊢
    exact hzlib 0 hret hok
  · subst h
    have he : grpc_msg_decompress zlib zstd fuel GRPC_MESSAGE_COMPRESS_GZIP input output =
        zlib_decompress zlib fuel input output 1 := by
      simp [grpc_msg_decompress, GRPC_MESSAGE_COMPRESS_GZIP, GRPC_MESSAGE_COMPRESS_DEFLATE,
        GRPC_MESSAGE_COMPRESS_NONE]
    rw [he] at hret hok ⊢
    exact hzlib 1 hret hok
  · subst h
    have he : grpc_msg_decompress zlib zstd fuel GRPC_MESSAGE_COMPRESS_ZSTD input output =
        zstd_decompress zstd fuel input output := by
      simp [grpc_msg_decompress, GRPC_MESSAGE_COMPRESS_ZSTD, GRPC_MESSAGE_COMPRESS_GZIP,
        GRPC_MESSAGE_COMPRESS_DEFLATE, GRPC_MESSAGE_COMPRESS_NONE]
    rw [he] at hret hok ⊢
    have hr1 : r = 1 := by
      rcases zstd_decompress_flag zstd fuel input output r hret with h | h
      · subst h
        obtain ⟨c, hc, hb⟩ := zstd_decompress_zero_cause zstd fuel input output hret
        have := hok c hc
        rcases hb with hb | hb
        · rw [this.1] at hb; exact Bool.noConfusion hb
        · rw [this.2] at hb; exact Bool.noConfusion hb
      · exact h
    subst hr1
    exact ⟨rfl, blockStructure_bytes output _ _ (zstd_decompress_blocks zstd fuel input output hret)⟩

/-- Witness of C13: the two-byte message `[5, 7]` decompresses with flag 1 to four bytes under
the pair codec (Gzip), to two bytes under the storing codec (Zstandard) and to no byte under a
codec that reads everything and writes nothing (Deflate). -/
theorem decompress_has_no_size_check_witness :
    ((grpc_msg_decompress pairZlib pairZstd 3 GRPC_MESSAGE_COMPRESS_GZIP (bufferOf [[5, 7]])
        (bufferOf [[9]])).output.bytes = [9, 5, 5, 7, 7] ∧
      (grpc_msg_decompress storeZlib storeZstd 3 GRPC_MESSAGE_COMPRESS_ZSTD (bufferOf [[5, 7]])
        (bufferOf [[9]])).output.bytes = [9, 5, 7] ∧
      (grpc_msg_decompress (constZlib Z_OK Z_OK) storeZstd 3 GRPC_MESSAGE_COMPRESS_DEFLATE
        (bufferOf [[5, 7]]) (bufferOf [[9]])).output.bytes = [9]) ∧
      ((1 : Int) = 1 ∧
        (grpc_msg_decompress pairZlib pairZstd 3 GRPC_MESSAGE_COMPRESS_GZIP (bufferOf [[5, 7]])
          (bufferOf [[9]])).output.bytes = (bufferOf [[9]]).bytes ++
          wroteOf (grpc_msg_decompress pairZlib pairZstd 3 GRPC_MESSAGE_COMPRESS_GZIP
            (bufferOf [[5, 7]]) (bufferOf [[9]])).log) ∧
      ((1 : Int) = 1 ∧
        (grpc_msg_decompress storeZlib storeZstd 3 GRPC_MESSAGE_COMPRESS_ZSTD (bufferOf [[5, 7]])
          (bufferOf [[9]])).output.bytes = (bufferOf [[9]]).bytes ++
          wroteOf (grpc_msg_decompress storeZlib storeZstd 3 GRPC_MESSAGE_COMPRESS_ZSTD
            (bufferOf [[5, 7]]) (bufferOf [[9]])).log) ∧
      ((1 : Int) = 1 ∧
        (grpc_msg_decompress (constZlib Z_OK Z_OK) storeZstd 3 GRPC_MESSAGE_COMPRESS_DEFLATE
          (bufferOf [[5, 7]]) (bufferOf [[9]])).output.bytes = (bufferOf [[9]]).bytes ++
          wroteOf (grpc_msg_decompress (constZlib Z_OK Z_OK) storeZstd 3
            GRPC_MESSAGE_COMPRESS_DEFLATE (bufferOf [[5, 7]]) (bufferOf [[9]])).log) :=
  ⟨by decide,
    decompress_has_no_size_check pairZlib pairZstd 3 GRPC_MESSAGE_COMPRESS_GZIP
      (bufferOf [[5, 7]]) (bufferOf [[9]]) 1 (by decide) (by decide) (by decide),
    decompress_has_no_size_check storeZlib storeZstd 3 GRPC_MESSAGE_COMPRESS_ZSTD
      (bufferOf [[5, 7]]) (bufferOf [[9]]) 1 (by decide) (by decide) (by decide),
    decompress_has_no_size_check (constZlib Z_OK Z_OK) storeZstd 3 GRPC_MESSAGE_COMPRESS_DEFLATE
      (bufferOf [[5, 7]]) (bufferOf [[9]]) 1 (by decide) (by decide) (by decide)⟩

/-- C14: cached-length invariant.  If the cached byte length of the output message equals the
sum of the lengths of its chunks before the call, it does so after `grpc_msg_compress` and after
`grpc_msg_decompress`, for every algorithm identifier, every codec and however the call ends
(success, no-gain fallback, failure with rollback). -/
theorem cached_length_preserved (zlib : Zlib σ) (zstd : Zstd τ) (fuel : Nat) (algorithm : Int)
    (input output : grpc_slice_buffer) (h : output.wf) :
    (grpc_msg_compress zlib zstd fuel algorithm input output).output.wf ∧
      (grpc_msg_decompress zlib zstd fuel algorithm input output).output.wf := by
  constructor
  · have hi : (compress_inner zlib zstd fuel algorithm input output).output.wf := by
      unfold compress_inner
      split_ifs
      · exact h
      · exact zlib_compress_wf zlib fuel input output 0 h
      · exact zlib_compress_wf zlib fuel input output 1 h
      · exact zstd_compress_wf zstd fuel input output h
      · exact h
    unfold grpc_msg_compress
    generalize compress_inner zlib zstd fuel algorithm input output = run at hi ⊢
    rcases run with ⟨e, o, l⟩
    cases e with
    | returned r =>
      by_cases hr : r = 0
      · simpa [hr] using copy_wf input o hi
      · simpa [hr] using hi
    | aborted => exact hi
    | unfinished => exact hi
  · unfold grpc_msg_decompress
    split_ifs
    · exact copy_wf input output h
    · exact zlib_decompress_wf zlib fuel input output 0 h
    · exact zlib_decompress_wf zlib fuel input output 1 h
    · exact zstd_decompress_wf zstd fuel input output h
    · exact h

/-- Witness of C14: an output of one chunk of one byte with cached length 1 has cached length
3 and chunks of 1 and 2 bytes after a gzip compression that gains nothing, and cached length 5
after a decompression with the pair codec. -/
theorem cached_length_preserved_witness :
    (grpc_msg_compress storeZlib storeZstd 4 GRPC_MESSAGE_COMPRESS_GZIP (bufferOf [[97, 98]])
        (bufferOf [[9]])).output = { slices := [[9], [97, 98]], length := 3 } ∧
      (grpc_msg_decompress pairZlib pairZstd 5 GRPC_MESSAGE_COMPRESS_GZIP (bufferOf [[5, 7]])
        (bufferOf [[9]])).output.wf :=
  ⟨by decide,
    (cached_length_preserved pairZlib pairZstd 5 GRPC_MESSAGE_COMPRESS_GZIP (bufferOf [[5, 7]])
      (bufferOf [[9]]) rfl).2⟩

set_option maxRecDepth 100000 in
/-- C15, counterexample: chunk boundaries reach the codec, in compression and in decompression,
for zlib and for Zstandard.  (a) With a Zstandard that codes each flushed block by run lengths,
the eight bytes `5 5 5 5 7 7 7 7` compress to `4 5 4 7` when split after the fourth byte and to
`2 5 2 5 4 7` when split after the second, both calls returning 1.  (b) With the Zstandard of the
pair codec the bytes `5 5 7 7` split as two chunks of two compress to `5 7` with flag 1, but split
as four chunks of one the flush after the first chunk is refused and the call returns 0 with the
input copied.  (c) With the zlib of the pair codec, which takes one byte per call, it is the
other way round under Gzip: four chunks of one compress to `5 7` with flag 1, two chunks of two
leave a byte of the first chunk unread and the call returns 0 with the input copied.  (d) With a
zlib whose third `inflate` call fails, Deflate decompression of the bytes `1 2` returns 1 when
they come as one chunk (two calls) and 0 when they come as two chunks (three calls).  (e) Even
with a decoder that meets the codec contract and an input that is an encoding, empty chunks
matter: `stallZstd` decodes the byte `1` given as one chunk, and returns 0 when three empty chunks
follow it, each of which costs one call without progress.  (f) The same holds for zlib: with
`stallZlib`, which also meets the decoder contract, Deflate decompression of these two inputs
returns 1 and 0. -/
theorem chunking_reaches_codec :
    ((bufferOf [[5, 5, 5, 5], [7, 7, 7, 7]]).bytes =
        (bufferOf [[5, 5], [5, 5, 7, 7, 7, 7]]).bytes ∧
      (grpc_msg_compress storeZlib rleZstd 2 GRPC_MESSAGE_COMPRESS_ZSTD
        (bufferOf [[5, 5, 5, 5], [7, 7, 7, 7]]) emptyBuffer).exit = Exit.returned 1 ∧
      (grpc_msg_compress storeZlib rleZstd 2 GRPC_MESSAGE_COMPRESS_ZSTD
        (bufferOf [[5, 5, 5, 5], [7, 7, 7, 7]]) emptyBuffer).output.bytes = [4, 5, 4, 7] ∧
      (grpc_msg_compress storeZlib rleZstd 2 GRPC_MESSAGE_COMPRESS_ZSTD
        (bufferOf [[5, 5], [5, 5, 7, 7, 7, 7]]) emptyBuffer).exit = Exit.returned 1 ∧
      (grpc_msg_compress storeZlib rleZstd 2 GRPC_MESSAGE_COMPRESS_ZSTD
        (bufferOf [[5, 5], [5, 5, 7, 7, 7, 7]]) emptyBuffer).output.bytes =
        [2, 5, 2, 5, 4, 7]) ∧
    ((bufferOf [[5, 5], [7, 7]]).bytes = (bufferOf [[5], [5], [7], [7]]).bytes ∧
      (grpc_msg_compress pairZlib pairZstd 2 GRPC_MESSAGE_COMPRESS_ZSTD
        (bufferOf [[5, 5], [7, 7]]) emptyBuffer).exit = Exit.returned 1 ∧
      (grpc_msg_compress pairZlib pairZstd 2 GRPC_MESSAGE_COMPRESS_ZSTD
        (bufferOf [[5, 5], [7, 7]]) emptyBuffer).output.bytes = [5, 7] ∧
      (grpc_msg_compress pairZlib pairZstd 2 GRPC_MESSAGE_COMPRESS_ZSTD
        (bufferOf [[5], [5], [7], [7]]) emptyBuffer).exit = Exit.returned 0 ∧
      (grpc_msg_compress pairZlib pairZstd 2 GRPC_MESSAGE_COMPRESS_ZSTD
        (bufferOf [[5], [5], [7], [7]]) emptyBuffer).output.bytes = [5, 5, 7, 7]) ∧
    ((grpc_msg_compress pairZlib pairZstd 2 GRPC_MESSAGE_COMPRESS_GZIP
        (bufferOf [[5], [5], [7], [7]]) emptyBuffer).exit = Exit.returned 1 ∧
      (grpc_msg_compress pairZlib pairZstd 2 GRPC_MESSAGE_COMPRESS_GZIP
        (bufferOf [[5], [5], [7], [7]]) emptyBuffer).output.bytes = [5, 7] ∧
      (grpc_msg_compress pairZlib pairZstd 2 GRPC_MESSAGE_COMPRESS_GZIP
        (bufferOf [[5, 5], [7, 7]]) emptyBuffer).exit = Exit.returned 0 ∧
      (grpc_msg_compress pairZlib pairZstd 2 GRPC_MESSAGE_COMPRESS_GZIP
        (bufferOf [[5, 5], [7, 7]]) emptyBuffer).output.bytes = [5, 5, 7, 7]) ∧
    ((bufferOf [[1, 2]]).bytes = (bufferOf [[1], [2]]).bytes ∧
      (grpc_msg_decompress lateFailZlib storeZstd 2 GRPC_MESSAGE_COMPRESS_DEFLATE
        (bufferOf [[1, 2]]) emptyBuffer).exit = Exit.returned 1 ∧
      (grpc_msg_decompress lateFailZlib storeZstd 2 GRPC_MESSAGE_COMPRESS_DEFLATE
        (bufferOf [[1], [2]]) emptyBuffer).exit = Exit.returned 0 ∧
      (grpc_msg_decompress lateFailZlib storeZstd 2 GRPC_MESSAGE_COMPRESS_DEFLATE
        (bufferOf [[1], [2]]) emptyBuffer).output = emptyBuffer) ∧
    (DecoderFor storeZlib stallZstd GRPC_MESSAGE_COMPRESS_ZSTD
        (fun message stream => message = stream) ∧
      (bufferOf [[1]]).bytes = (bufferOf [[1], [], [], []]).bytes ∧
      (grpc_msg_decompress storeZlib stallZstd 2 GRPC_MESSAGE_COMPRESS_ZSTD
        (bufferOf [[1]]) emptyBuffer).exit = Exit.returned 1 ∧
      (grpc_msg_decompress storeZlib stallZstd 2 GRPC_MESSAGE_COMPRESS_ZSTD
        (bufferOf [[1], [], [], []]) emptyBuffer).exit = Exit.returned 0) ∧
    (DecoderFor stallZlib storeZstd GRPC_MESSAGE_COMPRESS_DEFLATE
        (fun message stream => message = stream) ∧
      (grpc_msg_decompress stallZlib storeZstd 2 GRPC_MESSAGE_COMPRESS_DEFLATE
        (bufferOf [[1]]) emptyBuffer).exit = Exit.returned 1 ∧
      (grpc_msg_decompress stallZlib storeZstd 2 GRPC_MESSAGE_COMPRESS_DEFLATE
        (bufferOf [[1], [], [], []]) emptyBuffer).exit = Exit.returned 0) := by
  refine ⟨by decide, by decide, by decide, by decide,
    ⟨Or.inr (Or.inr ⟨rfl, rfl, fun _ => rfl, stallZstd_decoder⟩), by decide, by decide,
      by decide⟩,
    Or.inl ⟨rfl, rfl, stallZlib_decoder (windowBits 0)⟩, by decide, by decide⟩

/-- C15, amended: chunking invariance where the engine can give it.  For two input messages with
the same concatenated bytes: (1) under None and under every identifier that is not Deflate, Gzip
or Zstandard, `grpc_msg_compress` and `grpc_msg_decompress` return the same flag and leave the
same bytes in the output for both; (2) under any algorithm, whenever `grpc_msg_compress` returns
0 for both, the outputs hold the same bytes; (3) when the bytes are an encoding of a message for
a conforming decoder, both inputs have at least one chunk and no empty chunk before their last
one, no chunk is longer than `uint_max` and the fuel exceeds the length of the message,
`grpc_msg_decompress` returns 1 for both and leaves the same bytes. -/
theorem chunking_invariance (zlib : Zlib σ) (zstd : Zstd τ) (fuel : Nat)
    (algorithm : Int) (a b output : grpc_slice_buffer) (hab : a.bytes = b.bytes) :
    (algorithm ≠ GRPC_MESSAGE_COMPRESS_DEFLATE → algorithm ≠ GRPC_MESSAGE_COMPRESS_GZIP →
      algorithm ≠ GRPC_MESSAGE_COMPRESS_ZSTD →
      (grpc_msg_compress zlib zstd fuel algorithm a output).exit =
          (grpc_msg_compress zlib zstd fuel algorithm b output).exit ∧
        (grpc_msg_compress zlib zstd fuel algorithm a output).output.bytes =
          (grpc_msg_compress zlib zstd fuel algorithm b output).output.bytes ∧
        (grpc_msg_decompress zlib zstd fuel algorithm a output).exit =
          (grpc_msg_decompress zlib zstd fuel algorithm b output).exit ∧
        (grpc_msg_decompress zlib zstd fuel algorithm a output).output.bytes =
          (grpc_msg_decompress zlib zstd fuel algorithm b output).output.bytes) ∧
      ((grpc_msg_compress zlib zstd fuel algorithm a output).exit = Exit.returned 0 →
        (grpc_msg_compress zlib zstd fuel algorithm b output).exit = Exit.returned 0 →
        (grpc_msg_compress zlib zstd fuel algorithm a output).output.bytes =
          (grpc_msg_compress zlib zstd fuel algorithm b output).output.bytes) ∧
      (∀ (valid : List Byte → List Byte → Prop) (message : List Byte),
        DecoderFor zlib zstd algorithm valid → valid message a.bytes →
        a.slices ≠ [] → b.slices ≠ [] →
        (∀ sl ∈ a.slices, sl.length ≤ uint_max) → (∀ sl ∈ b.slices, sl.length ≤ uint_max) →
        (∀ sl ∈ a.slices.dropLast, sl ≠ []) → (∀ sl ∈ b.slices.dropLast, sl ≠ []) →
        message.length < fuel →
        (grpc_msg_decompress zlib zstd fuel algorithm a output).exit = Exit.returned 1 ∧
          (grpc_msg_decompress zlib zstd fuel algorithm b output).exit = Exit.returned 1 ∧
          (grpc_msg_decompress zlib zstd fuel algorithm a output).output.bytes =
            (grpc_msg_decompress zlib zstd fuel algorithm b output).output.bytes ∧
          (grpc_msg_decompress zlib zstd fuel algorithm a output).output.bytes =
            output.bytes ++ message) := by
  refine ⟨?_, ?_, ?_⟩
  · intro hd hg hz
    rw [compress_inner_no_codec zlib zstd fuel algorithm a output hd hg hz,
      compress_inner_no_codec zlib zstd fuel algorithm b output hd hg hz,
      decompress_no_codec zlib zstd fuel algorithm a output hd hg hz,
      decompress_no_codec zlib zstd fuel algorithm b output hd hg hz]
    refine ⟨rfl, ?_, ?_, ?_⟩
    · simp only [copy_bytes, hab]
    · split_ifs <;> rfl
    · split_ifs
      · simp only [copy_bytes, hab]
      · rfl
  · intro ha hb
    rw [compress_zero_output zlib zstd fuel algorithm a output ha,
      compress_zero_output zlib zstd fuel algorithm b output hb, copy_bytes, copy_bytes, hab]
  · intro valid message hdec hv hna hnb hla hlb hma hmb hfuel
    have h1 := decompress_decodes zlib zstd algorithm valid hdec message a output hv hna hla hma
      fuel hfuel
    have h2 := decompress_decodes zlib zstd algorithm valid hdec message b output
      (by rw [← hab]; exact hv) hnb hlb hmb fuel hfuel
    exact ⟨h1.1, h2.1, by rw [h1.2, h2.2], h1.2⟩

/-- Witness of C15: the pair decoder under Gzip.  The bytes `5 7` encode the message `5 5 7 7`;
given as one chunk or as two, `grpc_msg_decompress` returns 1 and leaves the same bytes, the
message behind the byte the output already held. -/
theorem chunking_invariance_witness :
    (bufferOf [[5, 7]]).bytes = (bufferOf [[5], [7]]).bytes ∧
      (grpc_msg_decompress pairZlib pairZstd 5 GRPC_MESSAGE_COMPRESS_GZIP
          (bufferOf [[5, 7]]) (bufferOf [[9]])).exit = Exit.returned 1 ∧
        (grpc_msg_decompress pairZlib pairZstd 5 GRPC_MESSAGE_COMPRESS_GZIP
          (bufferOf [[5], [7]]) (bufferOf [[9]])).exit = Exit.returned 1 ∧
        (grpc_msg_decompress pairZlib pairZstd 5 GRPC_MESSAGE_COMPRESS_GZIP
          (bufferOf [[5, 7]]) (bufferOf [[9]])).output.bytes =
        (grpc_msg_decompress pairZlib pairZstd 5 GRPC_MESSAGE_COMPRESS_GZIP
          (bufferOf [[5], [7]]) (bufferOf [[9]])).output.bytes ∧
        (grpc_msg_decompress pairZlib pairZstd 5 GRPC_MESSAGE_COMPRESS_GZIP
          (bufferOf [[5, 7]]) (bufferOf [[9]])).output.bytes = [9] ++ [5, 5, 7, 7] :=
  ⟨by decide,
    (chunking_invariance pairZlib pairZstd 5 GRPC_MESSAGE_COMPRESS_GZIP
      (bufferOf [[5, 7]]) (bufferOf [[5], [7]]) (bufferOf [[9]]) (by decide)).2.2
      (fun message stream => message = dbl stream) [5, 5, 7, 7]
      (Or.inr (Or.inl ⟨rfl, rfl, pairZlib_decoder (windowBits 1)⟩)) (by decide) (by decide)
      (by decide) (by decide) (by decide) (by decide) (by decide) (by decide)⟩

/-- C16: output block structure.  On every run of `zlib_body`, of `zstd_compress` and of
`zstd_decompress` that returns 1, the chunks the run has appended to the output are blocks of
exactly 1024 bytes followed by one last block of at most 1024 bytes, and concatenated they are
the bytes the step calls of the run wrote, in call order. -/
theorem output_block_structure (flate : FlateFn σ) (fn : Flate) (zs : σ) (zstd : Zstd τ)
    (fuel : Nat) (input output : grpc_slice_buffer) :
    ((zlib_body flate fn fuel zs input output []).1 = Exit.returned 1 →
      ∃ added, (zlib_body flate fn fuel zs input output []).2.output.slices =
          output.slices ++ added ∧
        BlockStructure added (wroteOf (zlib_body flate fn fuel zs input output []).2.log)) ∧
    ((zstd_compress zstd fuel input output).exit = Exit.returned 1 →
      ∃ added, (zstd_compress zstd fuel input output).output.slices = output.slices ++ added ∧
        BlockStructure added (wroteOf (zstd_compress zstd fuel input output).log)) ∧
    ((zstd_decompress zstd fuel input output).exit = Exit.returned 1 →
      ∃ added, (zstd_decompress zstd fuel input output).output.slices =
          output.slices ++ added ∧
        BlockStructure added (wroteOf (zstd_decompress zstd fuel input output).log)) :=
  ⟨zlib_body_blocks flate fn fuel zs input output [] rfl,
    zstd_compress_blocks zstd fuel input output,
    zstd_decompress_blocks zstd fuel input output⟩

set_option maxRecDepth 100000 in
/-- Witness of C16: storing 1030 bytes with `zlib_body` after a chunk already in the output
appends a block of 1024 bytes and a last block of 6 bytes. -/
theorem output_block_structure_witness :
    (zlib_body storeZlib.deflate Flate.deflate 3 () (bufferOf [List.replicate 1030 7])
        (bufferOf [[9]]) []).2.output.slices =
        [[9], List.replicate 1024 7, List.replicate 6 7] ∧
      ∃ added, (zlib_body storeZlib.deflate Flate.deflate 3 () (bufferOf [List.replicate 1030 7])
          (bufferOf [[9]]) []).2.output.slices = (bufferOf [[9]]).slices ++ added ∧
        BlockStructure added (wroteOf (zlib_body storeZlib.deflate Flate.deflate 3 ()
          (bufferOf [List.replicate 1030 7]) (bufferOf [[9]]) []).2.log) :=
  ⟨by decide,
    (output_block_structure storeZlib.deflate Flate.deflate () storeZstd 3
      (bufferOf [List.replicate 1030 7]) (bufferOf [[9]])).1 (by decide)⟩

/-- C17: incomplete consumption is fatal.  In each of `zlib_compress`, `zlib_decompress`,
`zstd_compress` and `zstd_decompress`, if some call of a drain loop stopped with room left in the
output block and without taking all the bytes of its chunk, the function returns 0 and the output
message is what it was before the call. -/
theorem incomplete_consumption_is_fatal (zlib : Zlib σ) (zstd : Zstd τ) (fuel : Nat)
    (gzip : Int) (input output : grpc_slice_buffer) :
    ((∃ c ∈ (zlib_compress zlib fuel input output gzip).log, c.starved = true) →
      (zlib_compress zlib fuel input output gzip).exit = Exit.returned 0 ∧
        (zlib_compress zlib fuel input output gzip).output = output) ∧
    ((∃ c ∈ (zlib_decompress zlib fuel input output gzip).log, c.starved = true) →
      (zlib_decompress zlib fuel input output gzip).exit = Exit.returned 0 ∧
        (zlib_decompress zlib fuel input output gzip).output = output) ∧
    ((∃ c ∈ (zstd_compress zstd fuel input output).log, c.starved = true) →
      (zstd_compress zstd fuel input output).exit = Exit.returned 0 ∧
        (zstd_compress zstd fuel input output).output = output) ∧
    ((∃ c ∈ (zstd_decompress zstd fuel input output).log, c.starved = true) →
      (zstd_decompress zstd fuel input output).exit = Exit.returned 0 ∧
        (zstd_decompress zstd fuel input output).output = output) := by
  have key : ∀ (run : Run), (run.exit ≠ Exit.returned 0 → Clean zstd.ZSTD_isError run.log) →
      (∃ c ∈ run.log, c.starved = true) → run.exit = Exit.returned 0 := by
    intro run hclean hst
    by_contra hne
    obtain ⟨c, hc, hs⟩ := hst
    exact clean_not_dirty (hclean hne) ⟨c, hc, Or.inr hs⟩
  refine ⟨fun h => ?_, fun h => ?_, fun h => ?_, fun h => ?_⟩
  · have h0 := key _ (zlib_compress_clean zstd.ZSTD_isError zlib fuel input output gzip) h
    exact ⟨h0, zlib_compress_zero zlib fuel input output gzip h0⟩
  · have h0 := key _ (zlib_decompress_verdict zstd.ZSTD_isError zlib fuel input output gzip).2 h
    exact ⟨h0, zlib_decompress_zero zlib fuel input output gzip h0⟩
  · have h0 := key _ (zstd_compress_clean zstd fuel input output) h
    exact ⟨h0, zstd_compress_zero zstd fuel input output h0⟩
  · have h0 := key _ (zstd_decompress_clean zstd fuel input output) h
    exact ⟨h0, zstd_decompress_zero zstd fuel input output h0⟩

/-- Witness of C17: the pair codec takes one byte of the chunk `[5, 5]` and stops with the
output block empty; `zlib_compress` returns 0 and the output keeps its one chunk. -/
theorem incomplete_consumption_is_fatal_witness :
    (∃ c ∈ (zlib_compress pairZlib 2 (bufferOf [[5, 5]]) (bufferOf [[9]]) 1).log,
        c.starved = true) ∧
      (zlib_compress pairZlib 2 (bufferOf [[5, 5]]) (bufferOf [[9]]) 1).exit = Exit.returned 0 ∧
      (zlib_compress pairZlib 2 (bufferOf [[5, 5]]) (bufferOf [[9]]) 1).output =
        bufferOf [[9]] :=
  ⟨by decide,
    (incomplete_consumption_is_fatal pairZlib pairZstd 2 1 (bufferOf [[5, 5]])
      (bufferOf [[9]])).1 (by decide)⟩

/-- C18, counterexample: Zstandard never gets the end directive.  Compressing the two chunks
`[5, 5]` and `[7, 7]` with `zstd_compress` returns 1, and the four step calls of the run, the
last two of them made for the final chunk, carry `ZSTD_e_continue`, `ZSTD_e_flush`,
`ZSTD_e_continue`, `ZSTD_e_flush`. -/
theorem zstd_final_chunk_not_ended :
    (zstd_compress pairZstd 2 (bufferOf [[5, 5], [7, 7]]) emptyBuffer).exit = Exit.returned 1 ∧
      ((zstd_compress pairZstd 2 (bufferOf [[5, 5], [7, 7]]) emptyBuffer).log.filter
        Call.isStep).map Call.directive =
        [some ZSTD_e_continue, some ZSTD_e_flush, some ZSTD_e_continue, some ZSTD_e_flush] ∧
      ∀ c ∈ (zstd_compress pairZstd 2 (bufferOf [[5, 5], [7, 7]]) emptyBuffer).log,
        c.directive ≠ some ZSTD_e_end := by
  decide

/-- C18, amended: the finish directive.  In `zlib_compress` the step calls are, chunk after
chunk, calls on the chunks of the input, those on the final chunk carrying `Z_FINISH` and those
on every earlier chunk `Z_NO_FLUSH`.  In `zstd_compress` no call carries `ZSTD_e_end`, on any
chunk. -/
theorem finish_directive (zlib : Zlib σ) (zstd : Zstd τ) (fuel : Nat) (gzip : Int)
    (input output : grpc_slice_buffer) :
    LoopCalls 1 zlibDirective input.slices
        ((zlib_compress zlib fuel input output gzip).log.filter Call.isStep) ∧
      ∀ c ∈ (zstd_compress zstd fuel input output).log, c.directive ≠ some ZSTD_e_end := by
  refine ⟨zlib_compress_calls zlib fuel input output gzip, ?_⟩
  intro c hc hd
  have hstep : c ∈ (zstd_compress zstd fuel input output).log.filter Call.isStep :=
    List.mem_filter.2 ⟨hc, isStep_of_directive c _ hd⟩
  obtain ⟨_, first, hP⟩ :=
    loopCalls_mem _ _ _ _ (zstd_compress_calls zstd fuel input output) c hstep
  unfold zstdDirective at hP
  rw [hd] at hP
  cases first <;> exact absurd (Option.some.inj hP) (by decide)

/-- C19, counterexample: calls without a flush directive.  Compressing the four one-byte chunks
`[5] [5] [7] [7]` with `zlib_compress` returns 1 after four `deflate` calls that carry
`Z_NO_FLUSH`, `Z_NO_FLUSH`, `Z_NO_FLUSH`, `Z_FINISH`; compressing the chunk `[1, 2, 3]` with
`zstd_compress` makes a first step call that carries `ZSTD_e_continue`. -/
theorem compress_calls_without_flush :
    (zlib_compress pairZlib 2 (bufferOf [[5], [5], [7], [7]]) emptyBuffer 0).exit =
        Exit.returned 1 ∧
      ((zlib_compress pairZlib 2 (bufferOf [[5], [5], [7], [7]]) emptyBuffer 0).log.filter
        Call.isStep).map Call.flushArg =
        [some Z_NO_FLUSH, some Z_NO_FLUSH, some Z_NO_FLUSH, some Z_FINISH] ∧
      ((zstd_compress storeZstd 2 (bufferOf [[1, 2, 3]]) emptyBuffer).log.filter
        Call.isStep).map Call.directive = [some ZSTD_e_continue, some ZSTD_e_flush] := by
  decide

/-- C19, amended: the directives of the compression calls.  In `zstd_compress` the step calls
are, chunk after chunk, calls on the chunks of the input: the first call on a chunk carries
`ZSTD_e_continue`, every other call on it `ZSTD_e_flush`, and calls on a later chunk come only
after at least two calls on the chunk, so after a flush call.  In `zlib_compress` every step call
carries `Z_NO_FLUSH` or `Z_FINISH`. -/
theorem flush_directive (zlib : Zlib σ) (zstd : Zstd τ) (fuel : Nat) (gzip : Int)
    (input output : grpc_slice_buffer) :
    LoopCalls 2 zstdDirective input.slices
        ((zstd_compress zstd fuel input output).log.filter Call.isStep) ∧
      ∀ c ∈ (zlib_compress zlib fuel input output gzip).log, ∀ d, c.flushArg = some d →
        d = Z_NO_FLUSH ∨ d = Z_FINISH := by
  refine ⟨zstd_compress_calls zstd fuel input output, ?_⟩
  intro c hc d hd
  have hstep : c ∈ (zlib_compress zlib fuel input output gzip).log.filter Call.isStep :=
    List.mem_filter.2 ⟨hc, isStep_of_flushArg c _ hd⟩
  obtain ⟨last, _, hP⟩ :=
    loopCalls_mem _ _ _ _ (zlib_compress_calls zlib fuel input output gzip) c hstep
  unfold zlibDirective at hP
  rw [hd] at hP
  cases last
  · exact Or.inl (Option.some.inj hP)
  · exact Or.inr (Option.some.inj hP)

/-- C20: failure condition of the zlib loop.  Whenever `zlib_body` returns, the value is 0 or 1,
and it is 0 exactly when some `deflate`/`inflate` call of the run returned a negative status
other than `Z_BUF_ERROR`, or some call ended the drain loop of its chunk with bytes of the chunk
unconsumed; so a run in which no chunk is left unconsumed and every negative status is
`Z_BUF_ERROR` returns 1. -/
theorem zlib_body_failure_condition (flate : FlateFn σ) (fn : Flate) (fuel : Nat) (zs : σ)
    (input output : grpc_slice_buffer) (r : Int)
    (h : (zlib_body flate fn fuel zs input output []).1 = Exit.returned r) :
    (r = 0 ∨ r = 1) ∧
      (r = 0 ↔
        ((∃ c ∈ (zlib_body flate fn fuel zs input output []).2.log,
            ∃ st, c.flateStatus = some st ∧ st < 0 ∧ st ≠ Z_BUF_ERROR) ∨
          (∃ c ∈ (zlib_body flate fn fuel zs input output []).2.log, c.starved = true))) := by
  have hv := zlib_body_verdict (fun _ => 0) flate fn fuel zs input output []
    (fun c hc => absurd hc (List.not_mem_nil c))
  refine ⟨zlib_body_flag flate fn fuel zs input output [] r h, ?_, ?_⟩
  · intro hr
    subst hr
    obtain ⟨c, hc, hb⟩ := hv.1 h
    rcases hb with hb | hb
    · exact Or.inl ⟨c, hc, (fatal_iff_status (fun _ => 0) c (fun _ => rfl)).1 hb⟩
    · exact Or.inr ⟨c, hc, hb⟩
  · intro hbad
    by_contra hne
    have hclean := hv.2 (by rw [h]; simpa using hne)
    rcases hbad with ⟨c, hc, hst⟩ | ⟨c, hc, hs⟩
    · exact clean_not_dirty hclean
        ⟨c, hc, Or.inl ((fatal_iff_status (fun _ => 0) c (fun _ => rfl)).2 hst)⟩
    · exact clean_not_dirty hclean ⟨c, hc, Or.inr hs⟩

/-- Witness of C20: with a flate function that answers `Z_BUF_ERROR` to every call and takes
all the input, `zlib_body` returns 1; with the pair codec, which leaves the second byte of the
chunk `[5, 5]`, it returns 0. -/
theorem zlib_body_failure_condition_witness :
    ((zlib_body (constZlib Z_OK Z_BUF_ERROR).inflate Flate.inflate 2 () (bufferOf [[1, 2]])
        emptyBuffer []).1 = Exit.returned 1 ∧
      (zlib_body pairZlib.deflate Flate.deflate 2 none (bufferOf [[5, 5]]) emptyBuffer []).1 =
        Exit.returned 0) ∧
      ((1 : Int) = 0 ↔
        ((∃ c ∈ (zlib_body (constZlib Z_OK Z_BUF_ERROR).inflate Flate.inflate 2 ()
              (bufferOf [[1, 2]]) emptyBuffer []).2.log,
            ∃ st, c.flateStatus = some st ∧ st < 0 ∧ st ≠ Z_BUF_ERROR) ∨
          (∃ c ∈ (zlib_body (constZlib Z_OK Z_BUF_ERROR).inflate Flate.inflate 2 ()
              (bufferOf [[1, 2]]) emptyBuffer []).2.log, c.starved = true))) :=
  ⟨by decide,
    (zlib_body_failure_condition (constZlib Z_OK Z_BUF_ERROR).inflate Flate.inflate 2 ()
      (bufferOf [[1, 2]]) emptyBuffer 1 (by decide)).2⟩

/-- C21, counterexample: a run that fails does not present every chunk.  With the pair codec,
which refuses a byte that does not repeat the one before it, `zlib_body` on the chunks `[5]`,
`[7]`, `[9]` returns 0 after offering `[5]` and `[7]`: the chunk `[9]` is never presented.
`zstd_compress` on the same chunks returns 0 after the first flush call: only `[5]` and what was
left of it were offered.  `zstd_decompress` with a codec whose step calls report an error returns
0 after offering `[5]`.  When `ZSTD_initCStream` reports an error, `zstd_compress` returns 0
without any step call. -/
theorem failing_run_stops_presenting :
    ((zlib_body pairZlib.deflate Flate.deflate 2 none (bufferOf [[5], [7], [9]]) emptyBuffer
        []).1 = Exit.returned 0 ∧
      (zlib_body pairZlib.deflate Flate.deflate 2 none (bufferOf [[5], [7], [9]]) emptyBuffer
        []).2.log.map Call.offered = [[5], [7]]) ∧
    ((zstd_compress pairZstd 2 (bufferOf [[5], [7], [9]]) emptyBuffer).exit =
        Exit.returned 0 ∧
      ((zstd_compress pairZstd 2 (bufferOf [[5], [7], [9]]) emptyBuffer).log.filter
        Call.isStep).map Call.offered = [[5], []]) ∧
    ((zstd_decompress (constZstd 0 (2 ^ 64 - 1) 0) 2 (bufferOf [[5], [7], [9]])
        emptyBuffer).exit = Exit.returned 0 ∧
      ((zstd_decompress (constZstd 0 (2 ^ 64 - 1) 0) 2 (bufferOf [[5], [7], [9]])
        emptyBuffer).log.filter Call.isStep).map Call.offered = [[5]]) ∧
    ((zstd_compress (constZstd (2 ^ 64 - 1) 0 0) 2 (bufferOf [[5], [7], [9]])
        emptyBuffer).exit = Exit.returned 0 ∧
      (zstd_compress (constZstd (2 ^ 64 - 1) 0 0) 2 (bufferOf [[5], [7], [9]])
        emptyBuffer).log.filter Call.isStep = []) := by
  decide

/-- C21, amended: input order, as far as a run gets.  In `zlib_body`, `zstd_compress` and
`zstd_decompress` the step calls of a run are, chunk after chunk in index order, calls on the
chunks of the input: the first call made for a chunk is offered the whole chunk from its first
byte, the later ones what is left of it, and a chunk is presented only after every chunk before it
was presented and read to its end.  A run that returns 1 has presented every chunk, and the bytes
read by the codec are the concatenation of the chunks.  A run that returns 0 has stopped
presenting right after a step call that reported a non-recoverable status or left bytes of its
chunk unread; for the two Zstandard functions it may also have made no step call because the init
call reported an error, or have presented every chunk and returned 0 for a later reason (the free
call, the size of the output).  A run that stops at a `GPR_ASSERT` has met a chunk longer than
`uint_max`.  A run that the fuel cuts was inside a drain loop: its last step calls, one for every
round the fuel allows, each filled the room they were given.  Every run ends in one of these four
ways.  (The input is an argument the functions only read; no result of theirs contains it.) -/
theorem input_presented_until_failure (flate : FlateFn σ) (fn : Flate) (zs : σ) (zstd : Zstd τ)
    (fuel : Nat) (input output : grpc_slice_buffer) :
    (Presented false input.slices (zlib_body flate fn fuel zs input output []).2.log ∧
      ((zlib_body flate fn fuel zs input output []).1 = Exit.returned 1 →
        Presented true input.slices (zlib_body flate fn fuel zs input output []).2.log ∧
          readOf (zlib_body flate fn fuel zs input output []).2.log = input.bytes) ∧
      ((zlib_body flate fn fuel zs input output []).1 = Exit.returned 0 →
        ∃ l c, (zlib_body flate fn fuel zs input output []).2.log = l ++ [c] ∧
          (c.fatal (fun _ => 0) = true ∨ c.starved = true)) ∧
      ((zlib_body flate fn fuel zs input output []).1 = Exit.aborted →
        ∃ sl ∈ input.slices, uint_max < sl.length) ∧
      ((zlib_body flate fn fuel zs input output []).1 = Exit.unfinished →
        ∃ l t, (zlib_body flate fn fuel zs input output []).2.log = l ++ t ∧
          t.length = fuel ∧ ∀ c ∈ t, ¬c.leftRoom) ∧
      ((zlib_body flate fn fuel zs input output []).1 = Exit.returned 1 ∨
        (zlib_body flate fn fuel zs input output []).1 = Exit.returned 0 ∨
        (zlib_body flate fn fuel zs input output []).1 = Exit.aborted ∨
        (zlib_body flate fn fuel zs input output []).1 = Exit.unfinished)) ∧
    (Presented false input.slices
        ((zstd_compress zstd fuel input output).log.filter Call.isStep) ∧
      ((zstd_compress zstd fuel input output).exit = Exit.returned 1 →
        Presented true input.slices
            ((zstd_compress zstd fuel input output).log.filter Call.isStep) ∧
          readOf ((zstd_compress zstd fuel input output).log.filter Call.isStep) =
            input.bytes) ∧
      ((zstd_compress zstd fuel input output).exit = Exit.returned 0 →
        Presented true input.slices
            ((zstd_compress zstd fuel input output).log.filter Call.isStep) ∨
          (∃ l c, (zstd_compress zstd fuel input output).log.filter Call.isStep = l ++ [c] ∧
            (c.fatal zstd.ZSTD_isError = true ∨ c.starved = true)) ∨
          (zstd.ZSTD_isError (zstd.ZSTD_initCStream zstd.ZSTD_createCStream 5).1 > 0 ∧
            (zstd_compress zstd fuel input output).log.filter Call.isStep = [])) ∧
      ((zstd_compress zstd fuel input output).exit = Exit.aborted →
        ∃ sl ∈ input.slices, uint_max < sl.length) ∧
      ((zstd_compress zstd fuel input output).exit = Exit.unfinished →
        ∃ l t, (zstd_compress zstd fuel input output).log.filter Call.isStep = l ++ t ∧
          t.length = fuel ∧ ∀ c ∈ t, ¬c.leftRoom) ∧
      ((zstd_compress zstd fuel input output).exit = Exit.returned 1 ∨
        (zstd_compress zstd fuel input output).exit = Exit.returned 0 ∨
        (zstd_compress zstd fuel input output).exit = Exit.aborted ∨
        (zstd_compress zstd fuel input output).exit = Exit.unfinished)) ∧
    (Presented false input.slices
        ((zstd_decompress zstd fuel input output).log.filter Call.isStep) ∧
      ((zstd_decompress zstd fuel input output).exit = Exit.returned 1 →
        Presented true input.slices
            ((zstd_decompress zstd fuel input output).log.filter Call.isStep) ∧
          readOf ((zstd_decompress zstd fuel input output).log.filter Call.isStep) =
            input.bytes) ∧
      ((zstd_decompress zstd fuel input output).exit = Exit.returned 0 →
        Presented true input.slices
            ((zstd_decompress zstd fuel input output).log.filter Call.isStep) ∨
          (∃ l c, (zstd_decompress zstd fuel input output).log.filter Call.isStep = l ++ [c] ∧
            (c.fatal zstd.ZSTD_isError = true ∨ c.starved = true)) ∨
          (zstd.ZSTD_isError (zstd.ZSTD_initDStream zstd.ZSTD_createDStream).1 > 0 ∧
            (zstd_decompress zstd fuel input output).log.filter Call.isStep = [])) ∧
      ((zstd_decompress zstd fuel input output).exit = Exit.aborted →
        ∃ sl ∈ input.slices, uint_max < sl.length) ∧
      ((zstd_decompress zstd fuel input output).exit = Exit.unfinished →
        ∃ l t, (zstd_decompress zstd fuel input output).log.filter Call.isStep = l ++ t ∧
          t.length = fuel ∧ ∀ c ∈ t, ¬c.leftRoom) ∧
      ((zstd_decompress zstd fuel input output).exit = Exit.returned 1 ∨
        (zstd_decompress zstd fuel input output).exit = Exit.returned 0 ∨
        (zstd_decompress zstd fuel input output).exit = Exit.aborted ∨
        (zstd_decompress zstd fuel input output).exit = Exit.unfinished)) := by
  have h1 := zlib_body_presented flate fn fuel zs input output
  have h2 := zstd_compress_presented zstd fuel input output
  have h3 := zstd_decompress_presented zstd fuel input output
  exact ⟨⟨h1.1, fun h => ⟨h1.2.1 h, presented_read _ _ (h1.2.1 h)⟩, h1.2.2.1, h1.2.2.2.1,
      h1.2.2.2.2, zlib_body_ways flate fn fuel zs input output []⟩,
    ⟨h2.1, fun h => ⟨h2.2.1 h, presented_read _ _ (h2.2.1 h)⟩, h2.2.2.1, h2.2.2.2.1,
      h2.2.2.2.2, zstd_compress_ways zstd fuel input output⟩,
    ⟨h3.1, fun h => ⟨h3.2.1 h, presented_read _ _ (h3.2.1 h)⟩, h3.2.2.1, h3.2.2.2.1,
      h3.2.2.2.2, zstd_decompress_ways zstd fuel input output⟩⟩

set_option maxRecDepth 100000 in
/-- Witness of C21: storing the chunks `[1, 2]`, `[]` and `[3]` with `zlib_body` returns 1, and
the three chunks were presented in that order; compressing the chunks `[5]`, `[7]`, `[9]` with the
pair codec returns 0, and the last call of the run reported a non-recoverable status or left
bytes unread; with a codec whose first call fills the output block and one round of fuel, the run
is cut after that one call. -/
theorem input_presented_until_failure_witness :
    ((zlib_body storeZlib.deflate Flate.deflate 2 () (bufferOf [[1, 2], [], [3]]) emptyBuffer
        []).1 = Exit.returned 1 ∧
      (zlib_body storeZlib.deflate Flate.deflate 2 () (bufferOf [[1, 2], [], [3]]) emptyBuffer
        []).2.log.map Call.offered = [[1, 2], [], [3]] ∧
      Presented true (bufferOf [[1, 2], [], [3]]).slices
        (zlib_body storeZlib.deflate Flate.deflate 2 () (bufferOf [[1, 2], [], [3]]) emptyBuffer
          []).2.log) ∧
    ((zlib_body pairZlib.deflate Flate.deflate 2 none (bufferOf [[5], [7], [9]]) emptyBuffer
        []).1 = Exit.returned 0 ∧
      ∃ l c, (zlib_body pairZlib.deflate Flate.deflate 2 none (bufferOf [[5], [7], [9]])
          emptyBuffer []).2.log = l ++ [c] ∧
        (c.fatal (fun _ => 0) = true ∨ c.starved = true)) ∧
    ((zlib_body lateFailZlib.deflate Flate.deflate 1 0 (bufferOf [[1]]) emptyBuffer []).1 =
        Exit.unfinished ∧
      ∃ l t, (zlib_body lateFailZlib.deflate Flate.deflate 1 0 (bufferOf [[1]]) emptyBuffer
          []).2.log = l ++ t ∧ t.length = 1 ∧ ∀ c ∈ t, ¬c.leftRoom) :=
  ⟨⟨by decide, by decide,
      ((input_presented_until_failure storeZlib.deflate Flate.deflate () storeZstd 2
        (bufferOf [[1, 2], [], [3]]) emptyBuffer).1.2.1 (by decide)).1⟩,
    ⟨by decide,
      (input_presented_until_failure pairZlib.deflate Flate.deflate none storeZstd 2
        (bufferOf [[5], [7], [9]]) emptyBuffer).1.2.2.1 (by decide)⟩,
    ⟨by decide,
      (input_presented_until_failure lateFailZlib.deflate Flate.deflate 0 storeZstd 1
        (bufferOf [[1]]) emptyBuffer).1.2.2.2.2.1 (by decide)⟩⟩

/-- C22: symmetric framing flag.  Deflate runs `zlib_compress` and `zlib_decompress` with gzip
flag 0 and Gzip with gzip flag 1, in `grpc_msg_compress` and in `grpc_msg_decompress`; and for a
given flag the first library call of `zlib_compress` is `deflateInit2` and that of
`zlib_decompress` is `inflateInit2`, both with the window-bits value `15 | (gzip ? 16 : 0)`,
which is 31 when the flag is set and 15 when it is not. -/
theorem framing_flag_symmetric (zlib : Zlib σ) (zstd : Zstd τ) (fuel : Nat)
    (input output : grpc_slice_buffer) (gzip : Int) :
    compress_inner zlib zstd fuel GRPC_MESSAGE_COMPRESS_DEFLATE input output =
        zlib_compress zlib fuel input output 0 ∧
      compress_inner zlib zstd fuel GRPC_MESSAGE_COMPRESS_GZIP input output =
        zlib_compress zlib fuel input output 1 ∧
      (grpc_msg_compress zlib zstd fuel GRPC_MESSAGE_COMPRESS_DEFLATE input output).log =
        (zlib_compress zlib fuel input output 0).log ∧
      (grpc_msg_compress zlib zstd fuel GRPC_MESSAGE_COMPRESS_GZIP input output).log =
        (zlib_compress zlib fuel input output 1).log ∧
      grpc_msg_decompress zlib zstd fuel GRPC_MESSAGE_COMPRESS_DEFLATE input output =
        zlib_decompress zlib fuel input output 0 ∧
      grpc_msg_decompress zlib zstd fuel GRPC_MESSAGE_COMPRESS_GZIP input output =
        zlib_decompress zlib fuel input output 1 ∧
      (∃ r, (zlib_compress zlib fuel input output gzip).log.head? =
        some (Call.deflateInit2 (if gzip ≠ 0 then 31 else 15) r)) ∧
      (∃ r, (zlib_decompress zlib fuel input output gzip).log.head? =
        some (Call.inflateInit2 (if gzip ≠ 0 then 31 else 15) r)) ∧
      windowBits gzip = ((15 ||| (if gzip ≠ 0 then 16 else 0) : Nat) : Int) := by
  have hci : ∀ algorithm : Int, (grpc_msg_compress zlib zstd fuel algorithm input output).log =
      (compress_inner zlib zstd fuel algorithm input output).log := by
    intro algorithm
    unfold grpc_msg_compress
    generalize compress_inner zlib zstd fuel algorithm input output = run
    rcases run with ⟨e, o, l⟩
    cases e with
    | returned r => by_cases hr : r = 0 <;> simp [hr]
    | aborted => rfl
    | unfinished => rfl
  have hd : compress_inner zlib zstd fuel GRPC_MESSAGE_COMPRESS_DEFLATE input output =
      zlib_compress zlib fuel input output 0 := by
    simp [compress_inner, GRPC_MESSAGE_COMPRESS_DEFLATE, GRPC_MESSAGE_COMPRESS_NONE]
  have hg : compress_inner zlib zstd fuel GRPC_MESSAGE_COMPRESS_GZIP input output =
      zlib_compress zlib fuel input output 1 := by
    simp [compress_inner, GRPC_MESSAGE_COMPRESS_GZIP, GRPC_MESSAGE_COMPRESS_DEFLATE,
      GRPC_MESSAGE_COMPRESS_NONE]
  refine ⟨hd, hg, by rw [hci, hd], by rw [hci, hg], ?_, ?_, ?_, ?_, ?_⟩
  · simp [grpc_msg_decompress, GRPC_MESSAGE_COMPRESS_DEFLATE, GRPC_MESSAGE_COMPRESS_NONE]
  · simp [grpc_msg_decompress, GRPC_MESSAGE_COMPRESS_GZIP, GRPC_MESSAGE_COMPRESS_DEFLATE,
      GRPC_MESSAGE_COMPRESS_NONE]
  · unfold zlib_compress
    rcases hinit : zlib.deflateInit2 Z_DEFAULT_COMPRESSION Z_DEFLATED (windowBits gzip) 8
      Z_DEFAULT_STRATEGY with ⟨r, zs⟩
    refine ⟨r, ?_⟩
    rw [show (if gzip ≠ 0 then (31 : Int) else 15) = windowBits gzip from rfl]
    dsimp only
    by_cases hr : r ≠ Z_OK
    · rw [if_pos hr]
      rfl
    · rw [if_neg hr]
      obtain ⟨calls, hl, -⟩ := zlib_body_calls zlib.deflate Flate.deflate fuel zs input output
        [Call.deflateInit2 (windowBits gzip) r]
      rcases hbr : zlib_body zlib.deflate Flate.deflate fuel zs input output
        [Call.deflateInit2 (windowBits gzip) r] with ⟨e, s⟩
      rw [hbr] at hl
      dsimp only at hl
      cases e with
      | returned b =>
        dsimp only
        split_ifs <;> simp [hl]
      | aborted => simp [hl]
      | unfinished => simp [hl]
  · unfold zlib_decompress
    rcases hinit : zlib.inflateInit2 (windowBits gzip) with ⟨r, zs⟩
    refine ⟨r, ?_⟩
    rw [show (if gzip ≠ 0 then (31 : Int) else 15) = windowBits gzip from rfl]
    dsimp only
    by_cases hr : r ≠ Z_OK
    · rw [if_pos hr]
      rfl
    · rw [if_neg hr]
      obtain ⟨calls, hl, -⟩ := zlib_body_calls zlib.inflate Flate.inflate fuel zs input output
        [Call.inflateInit2 (windowBits gzip) r]
      rcases hbr : zlib_body zlib.inflate Flate.inflate fuel zs input output
        [Call.inflateInit2 (windowBits gzip) r] with ⟨e, s⟩
      rw [hbr] at hl
      dsimp only at hl
      cases e with
      | returned b =>
        dsimp only
        split_ifs <;> simp [hl]
      | aborted => simp [hl]
      | unfinished => simp [hl]
  · unfold windowBits
    split_ifs <;> rfl

/-- C24: empty compressed input.  For an input message with no chunk and algorithm Deflate,
Gzip or Zstandard, when the init call reports no error (and, for Zstandard, the free call
neither), `grpc_msg_decompress` makes no step call, returns 1 and appends exactly one chunk of
length zero to the output, whose cached byte length stays what it was. -/
theorem decompress_empty_input (zlib : Zlib σ) (zstd : Zstd τ) (fuel : Nat) (algorithm : Int)
    (input output : grpc_slice_buffer) (hin : input.slices = [])
    (hcodec : (algorithm = GRPC_MESSAGE_COMPRESS_DEFLATE ∧
        (zlib.inflateInit2 (windowBits 0)).1 = Z_OK) ∨
      (algorithm = GRPC_MESSAGE_COMPRESS_GZIP ∧ (zlib.inflateInit2 (windowBits 1)).1 = Z_OK) ∨
      (algorithm = GRPC_MESSAGE_COMPRESS_ZSTD ∧
        zstd.ZSTD_isError (zstd.ZSTD_initDStream zstd.ZSTD_createDStream).1 = 0 ∧
        zstd.ZSTD_isError (zstd.ZSTD_freeDStream
          (zstd.ZSTD_initDStream zstd.ZSTD_createDStream).2).1 = 0)) :
    (grpc_msg_decompress zlib zstd fuel algorithm input output).exit = Exit.returned 1 ∧
      (grpc_msg_decompress zlib zstd fuel algorithm input output).output.slices =
        output.slices ++ [[]] ∧
      (grpc_msg_decompress zlib zstd fuel algorithm input output).output.length =
        output.length ∧
      ∀ c ∈ (grpc_msg_decompress zlib zstd fuel algorithm input output).log,
        c.isStep = false := by
  have hzlib : ∀ gzip : Int, (zlib.inflateInit2 (windowBits gzip)).1 = Z_OK →
      (zlib_decompress zlib fuel input output gzip).exit = Exit.returned 1 ∧
        (zlib_decompress zlib fuel input output gzip).output.slices = output.slices ++ [[]] ∧
        (zlib_decompress zlib fuel input output gzip).output.length = output.length ∧
        ∀ c ∈ (zlib_decompress zlib fuel input output gzip).log, c.isStep = false := by
    intro gzip hok
    unfold zlib_decompress
    rcases hinit : zlib.inflateInit2 (windowBits gzip) with ⟨r, zs⟩
    rw [hinit] at hok
    dsimp only at hok ⊢
    subst hok
    simp only [ne_eq, not_true_eq_false, if_false, zlib_body, hin, zlib_loop]
    rw [if_pos (by decide : ¬((1 : Int) = 0))]
    refine ⟨rfl, by simp [grpc_slice_buffer_add_indexed],
      by simp [grpc_slice_buffer_add_indexed], ?_⟩
    intro c hc
    simp only [List.cons_append, List.nil_append, List.mem_cons, List.mem_singleton,
      List.not_mem_nil, or_false] at hc
    rcases hc with rfl | rfl <;> rfl
  rcases hcodec with ⟨h, hok⟩ | ⟨h, hok⟩ | ⟨h, hinit, hfree⟩
  · subst h
    have he : grpc_msg_decompress zlib zstd fuel GRPC_MESSAGE_COMPRESS_DEFLATE input output =
        zlib_decompress zlib fuel input output 0 := by
      simp [grpc_msg_decompress, GRPC_MESSAGE_COMPRESS_DEFLATE, GRPC_MESSAGE_COMPRESS_NONE]
    rw [he]
    exact hzlib 0 hok
  · subst h
    have he : grpc_msg_decompress zlib zstd fuel GRPC_MESSAGE_COMPRESS_GZIP input output =
        zlib_decompress zlib fuel input output 1 := by
      simp [grpc_msg_decompress, GRPC_MESSAGE_COMPRESS_GZIP, GRPC_MESSAGE_COMPRESS_DEFLATE,
        GRPC_MESSAGE_COMPRESS_NONE]
    rw [he]
    exact hzlib 1 hok
  · subst h
    have he : grpc_msg_decompress zlib zstd fuel GRPC_MESSAGE_COMPRESS_ZSTD input output =
        zstd_decompress zstd fuel input output := by
      simp [grpc_msg_decompress, GRPC_MESSAGE_COMPRESS_ZSTD, GRPC_MESSAGE_COMPRESS_GZIP,
        GRPC_MESSAGE_COMPRESS_DEFLATE, GRPC_MESSAGE_COMPRESS_NONE]
    rw [he]
    unfold zstd_decompress
    rcases hi : zstd.ZSTD_initDStream zstd.ZSTD_createDStream with ⟨err, p⟩
    rw [hi] at hinit hfree
    dsimp only at hinit hfree ⊢
    have he1 : ¬(zstd.ZSTD_isError err > 0) := by omega
    have he2 : ¬(zstd.ZSTD_isError (zstd.ZSTD_freeDStream p).1 > 0) := by omega
    simp only [he1, if_false, hin, zstd_decompress_loop, he2]
    refine ⟨trivial, by simp [grpc_slice_buffer_add_indexed],
      by simp [grpc_slice_buffer_add_indexed], ?_⟩
    intro c hc
    simp only [List.cons_append, List.nil_append, List.mem_cons, List.mem_singleton,
      List.not_mem_nil, or_false] at hc
    rcases hc with rfl | rfl | rfl <;> rfl

/-- Witness of C24: decompressing the message without chunks under Gzip into an output that
holds the chunk `[9]` returns 1 and leaves the chunks `[9]` and `[]` with cached length 1. -/
theorem decompress_empty_input_witness :
    (grpc_msg_decompress storeZlib storeZstd 0 GRPC_MESSAGE_COMPRESS_GZIP emptyBuffer
        (bufferOf [[9]])).exit = Exit.returned 1 ∧
      (grpc_msg_decompress storeZlib storeZstd 0 GRPC_MESSAGE_COMPRESS_GZIP emptyBuffer
        (bufferOf [[9]])).output = { slices := [[9], []], length := 1 } ∧
      (grpc_msg_decompress storeZlib storeZstd 0 GRPC_MESSAGE_COMPRESS_GZIP emptyBuffer
        (bufferOf [[9]])).output.slices = (bufferOf [[9]]).slices ++ [[]] :=
  ⟨by decide, by decide,
    (decompress_empty_input storeZlib storeZstd 0 GRPC_MESSAGE_COMPRESS_GZIP emptyBuffer
      (bufferOf [[9]]) rfl (Or.inr (Or.inl ⟨rfl, rfl⟩))).2.1⟩

end Claims

end MessageCompress

namespace StaticMetadataCtx

/-! ## The perfect-hash lookup -/

section Lookup

theorem table_lengths : static_mdelem_table.length = 99 ∧ elem_keys.length = 104 ∧
    elem_idxs.length = 104 := by
  decide!

theorem elems_phash_some (i : Nat) : ∃ h, elems_phash i = some h := by
  unfold elems_phash
  dsimp only
  split_ifs with h
  · rw [List.getElem?_eq_getElem h]
    exact ⟨_, rfl⟩
  · exact ⟨_, rfl⟩

/-- The entry an index of `elem_idxs` names has the key recorded beside it in `elem_keys`. -/
theorem elem_keys_match : ∀ h < 104, (elem_idxs[h]?.bind fun idx =>
    if idx = 255 then some true
    else static_mdelem_table[idx]?.bind fun e =>
      elem_keys[h]?.map fun k => decide (k = e.key.refcount * 117 + e.value.refcount)) =
      some true := by
  decide!

theorem lookup_tables_sized : elem_idxs.length = elem_keys.length ∧
    (∀ idx ∈ elem_idxs, idx = 255 ∨ idx < static_mdelem_table.length) ∧
    (∀ e ∈ static_mdelem_table, e.key.refcount < 117 ∧ e.value.refcount < 117) := by
  decide!

/-- Every entry of the static element table is found under its own key and value index. -/
theorem lookup_finds_entries : ∀ i < 99, (static_mdelem_table[i]?.bind fun e =>
    grpc_static_mdelem_for_static_strings e.key.refcount e.value.refcount) =
      some (grpc_mdelem.static i) := by
  decide!

theorem lookup_static (a b : Int) (idx : Nat)
    (h : grpc_static_mdelem_for_static_strings a b = some (grpc_mdelem.static idx)) :
    ∃ h : Nat, elem_keys[h]? = some ((a * 117 + b) % 2 ^ 32).toNat ∧ elem_idxs[h]? = some idx ∧
      idx ≠ 255 := by
  unfold grpc_static_mdelem_for_static_strings at h
  by_cases h1 : a = -1 ∨ b = -1
  · rw [if_pos h1] at h
    simp at h
  · rw [if_neg h1] at h
    dsimp only at h
    cases hph : elems_phash ((a * 117 + b) % 2 ^ 32).toNat with
    | none => rw [hph] at h; simp at h
    | some hh =>
      rw [hph] at h
      dsimp only at h
      by_cases h2 : hh < elem_keys.length
      · rw [if_pos h2] at h
        cases hkey : elem_keys[hh]? with
        | none => rw [hkey] at h; simp at h
        | some key =>
          rw [hkey] at h
          dsimp only at h
          by_cases h3 : key = ((a * 117 + b) % 2 ^ 32).toNat
          · rw [if_pos h3] at h
            cases hidx : elem_idxs[hh]? with
            | none => rw [hidx] at h; simp at h
            | some idx2 =>
              rw [hidx] at h
              dsimp only at h
              by_cases h4 : idx2 ≠ 255
              · rw [if_pos h4] at h
                by_cases h5 : idx2 < static_mdelem_table.length
                · rw [if_pos h5] at h
                  simp only [Option.some.injEq, grpc_mdelem.static.injEq] at h
                  subst h
                  exact ⟨hh, by rw [hkey, h3], hidx, h4⟩
                · rw [if_neg h5] at h
                  simp at h
              · rw [if_neg h4] at h
                simp at h
          · rw [if_neg h3] at h
            simp at h
      · rw [if_neg h2] at h
        simp at h

/-- The lookup never reads outside a table, whatever its arguments. -/
theorem lookup_in_bounds (a b : Int) :
    ∃ r, grpc_static_mdelem_for_static_strings a b = some r := by
  unfold grpc_static_mdelem_for_static_strings
  by_cases h1 : a = -1 ∨ b = -1
  · rw [if_pos h1]
    exact ⟨_, rfl⟩
  · rw [if_neg h1]
    dsimp only
    obtain ⟨hh, hph⟩ := elems_phash_some ((a * 117 + b) % 2 ^ 32).toNat
    rw [hph]
    dsimp only
    by_cases h2 : hh < elem_keys.length
    · rw [if_pos h2, List.getElem?_eq_getElem h2]
      dsimp only
      by_cases h3 : elem_keys[hh] = ((a * 117 + b) % 2 ^ 32).toNat
      · rw [if_pos h3]
        have h2i : hh < elem_idxs.length := by rw [lookup_tables_sized.1]; exact h2
        rw [List.getElem?_eq_getElem h2i]
        dsimp only
        by_cases h4 : elem_idxs[hh] ≠ 255
        · rw [if_pos h4]
          have h5 : elem_idxs[hh] < static_mdelem_table.length := by
            rcases lookup_tables_sized.2.1 _ (List.getElem_mem h2i) with h | h
            · exact absurd h h4
            · exact h
          rw [if_pos h5]
          exact ⟨_, rfl⟩
        · rw [if_neg h4]
          exact ⟨_, rfl⟩
      · rw [if_neg h3]
        exact ⟨_, rfl⟩
    · rw [if_neg h2]
      exact ⟨_, rfl⟩

/-- A static element the lookup returns for in-range indices has that key and that value. -/
theorem lookup_pair (a b : Nat) (ha : a < 117) (hb : b < 117) (idx : Nat)
    (h : grpc_static_mdelem_for_static_strings a b = some (grpc_mdelem.static idx)) :
    ∃ e ∈ static_mdelem_table, e.key.refcount = a ∧ e.value.refcount = b := by
  obtain ⟨hh, hkey, hidx, hne⟩ := lookup_static a b idx h
  have hk : (((a : Int) * 117 + b) % 2 ^ 32).toNat = a * 117 + b := by
    have h2 : (2 : Int) ^ 32 = 4294967296 := by norm_num
    rw [h2]
    omega
  rw [hk] at hkey
  have hlt : hh < 104 := by
    have := (List.getElem?_eq_some_iff.1 hkey).1
    rw [table_lengths.2.1] at this
    exact this
  have hK := elem_keys_match hh hlt
  rw [hidx, hkey] at hK
  simp only [Option.some_bind, if_neg hne, Option.map_some'] at hK
  cases he : static_mdelem_table[idx]? with
  | none => rw [he] at hK; simp at hK
  | some e =>
    rw [he] at hK
    simp only [Option.some_bind, Option.some.injEq, decide_eq_true_eq] at hK
    obtain ⟨hlt2, hget⟩ := List.getElem?_eq_some_iff.1 he
    have hmem : e ∈ static_mdelem_table := hget ▸ List.getElem_mem hlt2
    have hr := lookup_tables_sized.2.2 e hmem
    refine ⟨e, hmem, ?_, ?_⟩ <;> omega

end Lookup

/-! ## Claims on the static tables -/

section Claims

/-- C23: HPACK prefix.  The first 61 entries of the static element table are not the 61 entries
of the HPACK static table.  Entries 0 to 14 are HPACK entries 1 to 15; entry 15 is
`accept-encoding` with the value `gzip,deflate`, without the space of the HPACK value; entry 16
is an added element `accept-encoding: zstd`; entries 17 to 61 are HPACK entries 17 to 61, each
one index later than in HPACK, so that entry 60 is `via` and `www-authenticate` comes at index
61.  The manifested table names the entries in the same order. -/
theorem hpack_entries_shifted :
    (static_mdelem_table.take 61).map StaticMetadata.pair ≠ hpack_static_table.map asciiPair ∧
      static_mdelem_manifested = List.range 99 ∧
      (static_mdelem_table.take 15).map StaticMetadata.pair =
        (hpack_static_table.take 15).map asciiPair ∧
      static_mdelem_table[15]?.map StaticMetadata.pair =
        some (MessageCompress.ascii "accept-encoding", MessageCompress.ascii "gzip,deflate") ∧
      static_mdelem_table[16]?.map StaticMetadata.pair =
        some (MessageCompress.ascii "accept-encoding", MessageCompress.ascii "zstd") ∧
      ((static_mdelem_table.drop 17).take 45).map StaticMetadata.pair =
        (hpack_static_table.drop 16).map asciiPair ∧
      static_mdelem_table[60]?.map StaticMetadata.pair = some (MessageCompress.ascii "via", []) ∧
      static_mdelem_table[61]?.map StaticMetadata.pair =
        some (MessageCompress.ascii "www-authenticate", []) := by
  decide!

/-- C25: the perfect-hash lookup is exact.  The static element table has 99 entries, no two
with the same pair of key index and value index.  `grpc_static_mdelem_for_static_strings a b`
returns static element `i` when entry `i` has key index `a` and value index `b`; for indices
below 117 it returns the null element when no entry has that pair; it never reads outside a
table, for any arguments; and it returns the null element when `a` or `b` is -1. -/
theorem static_lookup_exact :
    static_mdelem_table.length = 99 ∧
      (static_mdelem_table.map fun e => (e.key.refcount, e.value.refcount)).Nodup ∧
      (∀ (a b i : Nat) (e : StaticMetadata), static_mdelem_table[i]? = some e →
        e.key.refcount = a → e.value.refcount = b →
        grpc_static_mdelem_for_static_strings a b = some (grpc_mdelem.static i)) ∧
      (∀ a b : Nat, a < 117 → b < 117 →
        (∀ e ∈ static_mdelem_table, ¬(e.key.refcount = a ∧ e.value.refcount = b)) →
        grpc_static_mdelem_for_static_strings a b = some grpc_mdelem.GRPC_MDNULL) ∧
      (∀ a b : Int, ∃ r, grpc_static_mdelem_for_static_strings a b = some r) ∧
      (∀ a b : Int, a = -1 ∨ b = -1 →
        grpc_static_mdelem_for_static_strings a b = some grpc_mdelem.GRPC_MDNULL) := by
  refine ⟨table_lengths.1, by decide!, ?_, ?_, lookup_in_bounds, ?_⟩
  · intro a b i e he hka hvb
    have hi : i < 99 := by
      have := (List.getElem?_eq_some_iff.1 he).1
      rw [table_lengths.1] at this
      exact this
    have h := lookup_finds_entries i hi
    rw [he] at h
    rw [Option.some_bind] at h
    subst hka
    subst hvb
    exact h
  · intro a b ha hb hno
    obtain ⟨r, hr⟩ := lookup_in_bounds a b
    cases r with
    | GRPC_MDNULL => exact hr
    | static idx =>
      obtain ⟨e, hmem, hk, hv⟩ := lookup_pair a b ha hb idx hr
      exact absurd ⟨hk, hv⟩ (hno e hmem)
  · intro a b hab
    unfold grpc_static_mdelem_for_static_strings
    rw [if_pos hab]

/-- Witness of C25: the pair of string 1 (`:method`) and string 43 (`GET`) is entry 1 of the
table and is found as static element 1; the pair of string 0 with itself is in no entry and
gives the null element. -/
theorem static_lookup_exact_witness :
    grpc_static_mdelem_for_static_strings ((1 : Nat) : Int) ((43 : Nat) : Int) =
        some (grpc_mdelem.static 1) ∧
      grpc_static_mdelem_for_static_strings ((0 : Nat) : Int) ((0 : Nat) : Int) =
        some grpc_mdelem.GRPC_MDNULL :=
  ⟨static_lookup_exact.2.2.1 1 43 1 ⟨⟨1, 7, 5⟩, ⟨43, 3, 711⟩, 1⟩ (by decide!) rfl rfl,
    static_lookup_exact.2.2.2.1 0 0 (by decide) (by decide) (by decide!)⟩

/-- C26: accept-encoding table.  `grpc_static_accept_encoding_metadata` has 16 entries, entry 0
is 0, and for every mask `m` from 1 to 15 entry `m` is the index of a static element whose key
is `grpc-accept-encoding` and whose value is the comma-separated list, in bit order and without
spaces, of the names among `identity`, `deflate`, `gzip`, `zstd` whose bits 0, 1, 2, 3 are set
in `m`. -/
theorem accept_encoding_table :
    grpc_static_accept_encoding_metadata.length = 16 ∧
      grpc_static_accept_encoding_metadata[0]? = some 0 ∧
      ∀ m < 16, m ≠ 0 →
        (grpc_static_accept_encoding_metadata[m]?.bind fun i =>
          static_mdelem_table[i]?.map StaticMetadata.pair) =
          some (MessageCompress.ascii "grpc-accept-encoding",
            namesOfMask ["identity", "deflate", "gzip", "zstd"] m) := by
  decide!

/-- C27: stream accept-encoding table.  `grpc_static_accept_stream_encoding_metadata` has 8
entries, entry 0 is 0, and for every mask `m` from 1 to 7 entry `m` is the index of a static
element whose key is `accept-encoding` and whose value is the comma-separated list, in bit order
and without spaces, of the names among `identity`, `gzip`, `zstd` whose bits 0, 1, 2 are set in
`m`. -/
theorem accept_stream_encoding_table :
    grpc_static_accept_stream_encoding_metadata.length = 8 ∧
      grpc_static_accept_stream_encoding_metadata[0]? = some 0 ∧
      ∀ m < 8, m ≠ 0 →
        (grpc_static_accept_stream_encoding_metadata[m]?.bind fun i =>
          static_mdelem_table[i]?.map StaticMetadata.pair) =
          some (MessageCompress.ascii "accept-encoding",
            namesOfMask ["identity", "gzip", "zstd"] m) := by
  decide!

/-- C28: encoded algorithm sets.  `grpc_static_mdelem_user_data` has 99 entries; for every mask
`m` from 1 to 15 the user data of element `grpc_static_accept_encoding_metadata[m]` is
`1 + (m | 1)`, for every mask `m` from 1 to 7 the user data of element
`grpc_static_accept_stream_encoding_metadata[m]` is `1 + (m | 1)`, and the user data of every
element that is in neither of these two ranges of the tables is 0. -/
theorem encoded_algorithm_sets :
    grpc_static_mdelem_user_data.length = 99 ∧
      (∀ m < 16, m ≠ 0 →
        (grpc_static_accept_encoding_metadata[m]?.bind fun i =>
          grpc_static_mdelem_user_data[i]?) = some (1 + (m ||| 1))) ∧
      (∀ m < 8, m ≠ 0 →
        (grpc_static_accept_stream_encoding_metadata[m]?.bind fun i =>
          grpc_static_mdelem_user_data[i]?) = some (1 + (m ||| 1))) ∧
      ∀ i < 99, i ∉ grpc_static_accept_encoding_metadata.tail →
        i ∉ grpc_static_accept_stream_encoding_metadata.tail →
        grpc_static_mdelem_user_data[i]? = some 0 := by
  decide!

/-- C29: the static strings tile the byte pool.  The slice table has 117 entries and `g_bytes`
1469 bytes; entry `i` names refcount `i`; slice 0 starts at offset 0, every slice `i + 1` starts
where slice `i` ends, and slice 116 ends at the end of `g_bytes`, so every slice lies inside the
array; and every key and value descriptor of the static element table is the entry of the slice
table at the refcount index it names. -/
theorem static_strings_tile :
    slices.length = 117 ∧ g_bytes.length = 1469 ∧
      slices.map StaticMetadataSlice.refcount = List.range 117 ∧
      slices[0]?.map StaticMetadataSlice.offset = some 0 ∧
      (∀ i < 116, slices[i + 1]?.map StaticMetadataSlice.offset =
        slices[i]?.map fun s => s.offset + s.length) ∧
      (slices[116]?.map fun s => s.offset + s.length) = some g_bytes.length ∧
      (∀ s ∈ slices, s.offset + s.length ≤ g_bytes.length) ∧
      ∀ e ∈ static_mdelem_table,
        slices[e.key.refcount]? = some e.key ∧ slices[e.value.refcount]? = some e.value := by
  decide!

/-- C30: static strings are interned uniquely.  The 117 entries of the slice table stand for
117 different byte strings, and looking the bytes of entry `i` up among the contents of the
table gives back `i`. -/
theorem static_strings_unique :
    slices.length = 117 ∧ (slices.map StaticMetadataSlice.bytes).Nodup ∧
      ∀ i < 117, (slices[i]?.map fun s =>
        (slices.map StaticMetadataSlice.bytes).indexOf s.bytes) = some i := by
  decide!

end Claims

end StaticMetadataCtx
